import Mathlib

/-!
LogCaster: log buffer, query language, IRC server, persistence and thread pools

A shallow embedding of `log-caster-cpp-reconstructed` (`LogBuffer.cpp`, `QueryParser.cpp`,
`QueryHandler.cpp`, `LogServer.cpp`, `Persistence.cpp`, `ThreadPool.cpp` and the IRC server:
`IRCCommandParser.cpp`, `IRCClient.cpp`, `IRCChannel.cpp`, `IRCClientManager.cpp`,
`IRCChannelManager.cpp`, `IRCCommandHandler.cpp`, `IRCServer.cpp`) and of the parts of
`log-caster-c-reconstructed` that the properties compare it with (`log_buffer.c`,
`query_parser.c`, `persistence.c`, `thread_pool.c`, `server.c`), together with the
properties of the specification.

Conventions of the embedding.

* A `std::string` is a `List Char`, one character standing for one byte.
* A `std::chrono::system_clock::time_point` is an `Int`, the tick count of the clock.
* `uint64_t`, `size_t` and `unsigned long` values are natural numbers reduced modulo `2^64`
  at every operation that can leave the range.
* A `std::deque` is a list whose head is the front (the oldest entry).
* What comes from the C++ standard library and depends on the platform
  (`std::regex`, `from_time_t`, `localtime`/`put_time`) is taken as a parameter, `StdLib`.
* A callback (`std::function`) is opaque to the buffer; it is represented by an identifier
  and a call of it is recorded in the list of invocations that `push` returns.
* A method that runs under a lock is one step; a thread is a position in its code and an
  event is one step of one thread.
* A loop whose number of iterations is not the length of a list takes a bound on the
  iterations as its first argument; the properties show that the bound used is enough.
-/

namespace LogCaster

/-! ## Strings -/

/-- A `std::string`. -/
abbrev Str := List Char

/-- Comparison `a < b` of `std::string` (lexicographic on the bytes), the order of `std::map` keys. -/
def str_lt : Str → Str → Bool
  | [], [] => false
  | [], _ :: _ => true
  | _ :: _, [] => false
  | a :: as, b :: bs =>
    if a.toNat < b.toNat then true
    else if b.toNat < a.toNat then false
    else str_lt as bs

/-- Search `std::string::find(const std::string&)` from position 0: the first position at which
`pat` occurs in `s`; `none` is `npos`. -/
def find : Str → Str → Option Nat
  | [], pat => if pat.isEmpty then some 0 else none
  | c :: cs, pat =>
    if pat.isPrefixOf (c :: cs) then some 0
    else (find cs pat).map (· + 1)

/-- Search `std::string::find(char)` from position 0; `none` is `npos`. -/
def find_char : Str → Char → Option Nat
  | [], _ => none
  | c :: cs, ch => if c = ch then some 0 else (find_char cs ch).map (· + 1)

/-- Member `std::string::substr(pos)`. -/
def substr_from (s : Str) (pos : Nat) : Str := s.drop pos

/-- Member `std::string::substr(pos, n)`. -/
def substr (s : Str) (pos n : Nat) : Str := (s.drop pos).take n

/-! ## Platform library -/

/-- The parts of the C++ standard library whose behaviour the program takes from the platform. -/
structure StdLib where
  /-- Constructor `std::regex(pattern, icase)`: `some what` when it throws `std::regex_error`
  with message `what`, `none` when the pattern compiles. -/
  regex_error : Str → Option Str
  /-- Call `std::regex_search(message, re)` for `re` compiled from the pattern (first argument). -/
  regex_search : Str → Str → Bool
  /-- Conversion `std::chrono::system_clock::from_time_t`. -/
  from_time_t : Int → Int
  /-- Text `std::put_time(std::localtime(&t), "%Y-%m-%d %H:%M:%S")` for `t = to_time_t(timestamp)`. -/
  put_time : Int → Str

/-! ## LogBuffer -/

/-- The record `struct LogEntry`; `timestamp` is the clock reading taken by the constructor. -/
structure LogEntry where
  message : Str
  timestamp : Int
  level : Str
  source : Str
deriving DecidableEq, Repr

/-- The type `LogCallback`: the identifier of an opaque callable. -/
abbrev LogCallback := Nat

/-- The class `LogBuffer` (the mutex is left out: a method runs under the lock as one step). -/
structure LogBuffer where
  buffer_ : List LogEntry
  capacity_ : Nat
  totalLogs_ : Nat
  droppedLogs_ : Nat
  /-- A `std::map`: the keys are distinct and in increasing `str_lt` order. -/
  callbacks_ : List (Str × List LogCallback)
deriving DecidableEq, Repr

/-- The record `LogBuffer::StatsSnapshot`. -/
structure StatsSnapshot where
  totalLogs : Nat
  droppedLogs : Nat
deriving DecidableEq, Repr

/-- Constructor `LogBuffer::LogBuffer(size_t capacity)`. -/
def LogBuffer.new (capacity : Nat) : LogBuffer :=
  { buffer_ := [], capacity_ := capacity, totalLogs_ := 0, droppedLogs_ := 0, callbacks_ := [] }

/-- Method `LogBuffer::dropOldest_`. -/
def LogBuffer.dropOldest_ (self : LogBuffer) : LogBuffer :=
  if !self.buffer_.isEmpty then
    { self with buffer_ := self.buffer_.tail, droppedLogs_ := (self.droppedLogs_ + 1) % 2 ^ 64 }
  else self

/-- The notification loop of `push`: the calls made, in order, each with the callback called
and the entry passed. -/
def LogBuffer.notify (level : Str) (entry : LogEntry) :
    List (Str × List LogCallback) → List (LogCallback × LogEntry)
  | [] => []
  | (channel, callbacks) :: rest =>
    if channel = "#logs-all".toList ∨ (channel = "#logs-error".toList ∧ level = "ERROR".toList) then
      callbacks.map (fun callback => (callback, entry)) ++ LogBuffer.notify level entry rest
    else LogBuffer.notify level entry rest

/-- Method `LogBuffer::push`; `now` is what `system_clock::now()` returns in the `LogEntry`
constructor. Returns the buffer after the call and the callback invocations made. -/
def LogBuffer.push (self : LogBuffer) (message level source : Str) (now : Int) :
    LogBuffer × List (LogCallback × LogEntry) :=
  let entry : LogEntry := { message := message, timestamp := now, level := level, source := source }
  let s1 := if self.buffer_.length ≥ self.capacity_ then self.dropOldest_ else self
  let s2 := { s1 with buffer_ := s1.buffer_ ++ [entry], totalLogs_ := (s1.totalLogs_ + 1) % 2 ^ 64 }
  (s2, LogBuffer.notify level entry s2.callbacks_)

/-- Insertion `callbacks_[channel].push_back(callback)` into the ordered map. -/
def map_push_back (channel : Str) (callback : LogCallback) :
    List (Str × List LogCallback) → List (Str × List LogCallback)
  | [] => [(channel, [callback])]
  | (k, v) :: rest =>
    if k = channel then (k, v ++ [callback]) :: rest
    else if str_lt channel k then (channel, [callback]) :: (k, v) :: rest
    else (k, v) :: map_push_back channel callback rest

/-- Method `LogBuffer::registerCallback`. -/
def LogBuffer.registerCallback (self : LogBuffer) (channel : Str) (callback : LogCallback) :
    LogBuffer :=
  { self with callbacks_ := map_push_back channel callback self.callbacks_ }

/-- Method `LogBuffer::size`. -/
def LogBuffer.size (self : LogBuffer) : Nat := self.buffer_.length

/-- Method `LogBuffer::getStats`. -/
def LogBuffer.getStats (self : LogBuffer) : StatsSnapshot :=
  { totalLogs := self.totalLogs_, droppedLogs := self.droppedLogs_ }

/-- The arguments of one call of `push`, with the clock reading of that call. -/
structure PushCall where
  message : Str
  level : Str
  source : Str
  now : Int
deriving DecidableEq, Repr

/-- The entry that a call of `push` constructs. -/
def PushCall.entry (p : PushCall) : LogEntry :=
  { message := p.message, timestamp := p.now, level := p.level, source := p.source }

/-- A sequence of `push` calls, first to last, run on a buffer. -/
def LogBuffer.pushAll (self : LogBuffer) (calls : List PushCall) : LogBuffer :=
  calls.foldl (fun b p => (b.push p.message p.level p.source p.now).1) self

/-- The text `"[" << put_time << "] " << entry.message` that both searches build per entry. -/
def format_entry (lib : StdLib) (entry : LogEntry) : Str :=
  "[".toList ++ lib.put_time entry.timestamp ++ "] ".toList ++ entry.message

/-- The loop of `LogBuffer::search` over the entries still to visit, `results` being the
vector built so far. -/
def LogBuffer.search_loop (lib : StdLib) (keyword : Str) : List LogEntry → List Str → List Str
  | [], results => results
  | entry :: rest, results =>
    if find entry.message keyword ≠ none then
      LogBuffer.search_loop lib keyword rest (results ++ [format_entry lib entry])
    else LogBuffer.search_loop lib keyword rest results

/-- Method `LogBuffer::search` (a `const` method): the result and the buffer after the call. -/
def LogBuffer.search (lib : StdLib) (self : LogBuffer) (keyword : Str) : List Str × LogBuffer :=
  (LogBuffer.search_loop lib keyword self.buffer_ [], self)

/-! ## QueryParser -/

/-- The enumeration `enum class OperatorType`. -/
inductive OperatorType where
  | AND
  | OR
deriving DecidableEq, Repr

/-- The class `ParsedQuery`, with the initial values of its default constructor. A compiled
`std::regex` is represented by the pattern it was compiled from. -/
structure ParsedQuery where
  keywords_ : List Str := []
  compiled_regex_ : Option Str := none
  time_from_ : Option Int := none
  time_to_ : Option Int := none
  op_ : OperatorType := OperatorType.AND
deriving DecidableEq, Repr

/-- Classification `isspace` of the "C" locale: space, `\t`, `\n`, `\v`, `\f`, `\r`. -/
def isspace (c : Char) : Bool :=
  c.toNat = 32 ∨ (9 ≤ c.toNat ∧ c.toNat ≤ 13)

/-- Classification `isdigit`. -/
def isdigit (c : Char) : Bool :=
  48 ≤ c.toNat ∧ c.toNat ≤ 57

/-- Conversion `::toupper` of the "C" locale. -/
def toupper (c : Char) : Char :=
  if 97 ≤ c.toNat ∧ c.toNat ≤ 122 then Char.ofNat (c.toNat - 32) else c

/-- Extraction `ss >> segment`: skips leading whitespace and reads up to the next whitespace.
`none` when no character is extracted (the stream fails); otherwise the segment and the
rest of the stream. -/
def read_word (ss : Str) : Option (Str × Str) :=
  let s1 := ss.dropWhile isspace
  let w := s1.takeWhile (fun c => !isspace c)
  if w.isEmpty then none else some (w, s1.dropWhile (fun c => !isspace c))

/-- The loop `while (ss >> segment) segments.push_back(segment)`; the first argument bounds
the number of iterations. -/
def read_words : Nat → Str → List Str
  | 0, _ => []
  | fuel + 1, ss =>
    match read_word ss with
    | none => []
    | some (segment, rest) => segment :: read_words fuel rest

/-- Extraction `std::getline(v_ss, keyword, delim)`: fails (`none`) at the end of the stream,
otherwise reads up to the delimiter and consumes it. -/
def getline (v_ss : Str) (delim : Char) : Option (Str × Str) :=
  if v_ss.isEmpty then none
  else some (v_ss.takeWhile (fun c => c != delim), (v_ss.dropWhile (fun c => c != delim)).drop 1)

/-- The loop `while (std::getline(v_ss, keyword, ',')) keywords_.push_back(keyword)`: the
keywords pushed, in order; the first argument bounds the number of iterations. -/
def getlines : Nat → Str → List Str
  | 0, _ => []
  | fuel + 1, v_ss =>
    match getline v_ss ','  with
    | none => []
    | some (keyword, rest) => keyword :: getlines fuel rest

/-- The value of a run of decimal digits, `acc` being the value read so far. -/
def digits_value : List Char → Nat → Nat
  | [], acc => acc
  | d :: ds, acc => digits_value ds (acc * 10 + (d.toNat - 48))

/-- Conversion `std::stol(value)` (base 10, 64-bit `long`): leading whitespace, an optional
sign, then digits; what follows the digits is ignored. Throws `std::invalid_argument` when
there is no digit and `std::out_of_range` when the value does not fit; both carry the
message `stol`. -/
def stol (value : Str) : Except Str Int :=
  let s1 := value.dropWhile isspace
  let neg : Bool := s1.head? = some '-'
  let s2 := if s1.head? = some '-' ∨ s1.head? = some '+' then s1.tail else s1
  let ds := s2.takeWhile isdigit
  if ds.isEmpty then Except.error "stol".toList
  else
    let v : Int := if neg then -(digits_value ds 0 : Int) else (digits_value ds 0 : Int)
    if v < -(2 ^ 63 : Int) ∨ v > (2 ^ 63 : Int) - 1 then Except.error "stol".toList
    else Except.ok v

/-- The body of the loop `for (const auto& seg : segments)` of `QueryParser::parse`, for one
segment; an exception that leaves `parse` is an `Except.error` with its `what()`. -/
def QueryParser.parse_segment (lib : StdLib) (parsed_query : ParsedQuery) (seg : Str) :
    Except Str ParsedQuery :=
  match find_char seg '=' with
  | none => Except.ok parsed_query
  | some pos =>
    let key := substr seg 0 pos
    let value := substr_from seg (pos + 1)
    if key = "keywords".toList ∨ key = "keyword".toList then
      Except.ok { parsed_query with
        keywords_ := parsed_query.keywords_ ++ getlines value.length value }
    else if key = "regex".toList then
      match lib.regex_error value with
      | some what => Except.error ("Invalid regex pattern: ".toList ++ what)
      | none => Except.ok { parsed_query with compiled_regex_ := some value }
    else if key = "time_from".toList then
      match stol value with
      | Except.error e => Except.error e
      | Except.ok t => Except.ok { parsed_query with time_from_ := some (lib.from_time_t t) }
    else if key = "time_to".toList then
      match stol value with
      | Except.error e => Except.error e
      | Except.ok t => Except.ok { parsed_query with time_to_ := some (lib.from_time_t t) }
    else if key = "operator".toList then
      if value.map toupper = "OR".toList then
        Except.ok { parsed_query with op_ := OperatorType.OR }
      else Except.ok parsed_query
    else Except.ok parsed_query

/-- The loop `for (const auto& seg : segments)` of `QueryParser::parse`. -/
def QueryParser.parse_loop (lib : StdLib) : List Str → ParsedQuery → Except Str ParsedQuery
  | [], parsed_query => Except.ok parsed_query
  | seg :: rest, parsed_query =>
    match QueryParser.parse_segment lib parsed_query seg with
    | Except.error e => Except.error e
    | Except.ok q => QueryParser.parse_loop lib rest q

/-- The vector `segments` of `QueryParser::parse`: the first word is read and skipped, the
remaining words are collected. -/
def QueryParser.segments (query_string : Str) : List Str :=
  match read_word query_string with
  | none => []
  | some (_, rest) => read_words rest.length rest

/-- Function `QueryParser::parse`: `Except.error what` when an exception leaves it. -/
def QueryParser.parse (lib : StdLib) (query_string : Str) : Except Str ParsedQuery :=
  QueryParser.parse_loop lib (QueryParser.segments query_string) {}

/-- The loop of `ParsedQuery::matches` under `AND`: `false` at the first keyword that is not
found (`return false`), `true` when the loop ends. -/
def ParsedQuery.and_loop (message : Str) : List Str → Bool
  | [] => true
  | kw :: rest => if find message kw = none then false else ParsedQuery.and_loop message rest

/-- The loop of `ParsedQuery::matches` under `OR`: the value of `found` when the loop is left. -/
def ParsedQuery.or_loop (message : Str) : List Str → Bool
  | [] => false
  | kw :: rest => if find message kw ≠ none then true else ParsedQuery.or_loop message rest

/-- Method `ParsedQuery::matches`. -/
def ParsedQuery.matches (lib : StdLib) (self : ParsedQuery) (message : Str) (timestamp : Int) :
    Bool :=
  if (match self.time_from_ with
      | some time_from => decide (timestamp < time_from)
      | none => false) then false
  else if (match self.time_to_ with
      | some time_to => decide (timestamp > time_to)
      | none => false) then false
  else if (match self.compiled_regex_ with
      | some re => !lib.regex_search re message
      | none => false) then false
  else if !self.keywords_.isEmpty then
    if self.op_ = OperatorType.AND then ParsedQuery.and_loop message self.keywords_
    else if !ParsedQuery.or_loop message self.keywords_ then false
    else true
  else true

/-- The loop of `LogBuffer::searchEnhanced` over the entries still to visit, `results` being
the vector built so far. -/
def LogBuffer.searchEnhanced_loop (lib : StdLib) (query : ParsedQuery) :
    List LogEntry → List Str → List Str
  | [], results => results
  | entry :: rest, results =>
    if query.matches lib entry.message entry.timestamp then
      LogBuffer.searchEnhanced_loop lib query rest (results ++ [format_entry lib entry])
    else LogBuffer.searchEnhanced_loop lib query rest results

/-- Method `LogBuffer::searchEnhanced` (a `const` method): the result and the buffer after
the call. -/
def LogBuffer.searchEnhanced (lib : StdLib) (self : LogBuffer) (query : ParsedQuery) :
    List Str × LogBuffer :=
  (LogBuffer.searchEnhanced_loop lib query self.buffer_ [], self)

/-- A segment that selects `OR`: its key, the text before the first `=`, is `operator`, and
its value, the text after that `=`, is `OR` once its letters are put in upper case. -/
def QueryParser.selects_or (seg : Str) : Prop :=
  ∃ pos, find_char seg '=' = some pos ∧ substr seg 0 pos = "operator".toList ∧
    (substr_from seg (pos + 1)).map toupper = "OR".toList

/-- A segment that names the operator `OR` in some letter-casing: its key, the text before
the first `=`, is `OPERATOR` once its letters are put in upper case (`operator`, `OPERATOR`,
`Operator`, ...), and its value, the text after that `=`, is `OR` once its letters are put
in upper case. -/
def QueryParser.names_or (seg : Str) : Prop :=
  ∃ pos, find_char seg '=' = some pos ∧
    (substr seg 0 pos).map toupper = "OPERATOR".toList ∧
    (substr_from seg (pos + 1)).map toupper = "OR".toList

/-! ## A platform for concrete evaluation -/

/-- A platform on which the examples are evaluated: every pattern compiles and is searched
as literal text without regard to case (what `std::regex` with `icase` does for a pattern
free of metacharacters), one clock tick is one second, and `put_time` is not computed (a
fixed text stands for it). -/
def literal_lib : StdLib :=
  { regex_error := fun _ => none
    regex_search := fun pattern message => (find (message.map toupper) (pattern.map toupper)).isSome
    from_time_t := fun t => t
    put_time := fun _ => "0000-00-00 00:00:00".toList }

/-- One `push` call with the level and source that the ingest path passes. -/
def PushCall.info (message : String) (now : Int) : PushCall :=
  { message := message.toList, level := "info".toList, source := "unknown".toList, now := now }

/-- The query with the keywords `err`, `timeout` under `OR` and nothing else. -/
def query_err_timeout : ParsedQuery :=
  { keywords_ := ["err".toList, "timeout".toList], op_ := OperatorType.OR }

/-- The query with the time window from 5 to 9 and nothing else. -/
def query_window : ParsedQuery :=
  { time_from_ := some 5, time_to_ := some 9 }

/-! ## QueryHandler -/

/-- Output `oss << n` of an unsigned or non-negative integer: its decimal digits. -/
def decimal (n : Nat) : Str := Nat.toDigits 10 n

/-- Method `QueryHandler::handleSearch`: the response and the buffer after the call. The
`catch (const std::exception& e)` clause receives what `parse` throws; `make_unique` does
not return a null pointer, so the branch `!parsed_query` is never taken. -/
def QueryHandler.handleSearch (lib : StdLib) (buffer_ : LogBuffer) (query : Str) :
    Str × LogBuffer :=
  match QueryParser.parse lib query with
  | Except.error what => ("ERROR: ".toList ++ what ++ "\n".toList, buffer_)
  | Except.ok parsed_query =>
    let results := (buffer_.searchEnhanced lib parsed_query).1
    ("FOUND: ".toList ++ decimal results.length ++ " matches\n".toList ++
      (results.map (fun res => res ++ "\n".toList)).flatten,
     (buffer_.searchEnhanced lib parsed_query).2)

/-- Method `QueryHandler::handleStats`. -/
def QueryHandler.handleStats (buffer_ : LogBuffer) : Str :=
  "STATS: Total=".toList ++ decimal buffer_.getStats.totalLogs ++
    ", Dropped=".toList ++ decimal buffer_.getStats.droppedLogs ++
    ", Current=".toList ++ decimal buffer_.size ++ "\n".toList

/-- Method `QueryHandler::handleCount`. -/
def QueryHandler.handleCount (buffer_ : LogBuffer) : Str :=
  "COUNT: ".toList ++ decimal buffer_.size ++ "\n".toList

/-- Method `QueryHandler::handleHelp`. -/
def QueryHandler.handleHelp : Str :=
  ("Available commands:\n" ++
   "  STATS - Show buffer statistics\n" ++
   "  COUNT - Show number of logs in buffer\n" ++
   "  HELP  - Show this help message\n" ++
   "  QUERY <parameters> - Search logs with parameters:\n" ++
   "\n" ++
   "Query parameters:\n" ++
   "  keywords=<w1,w2,..> - Multiple keywords (comma-separated)\n" ++
   "  operator=<AND|OR>   - Keyword matching logic (default: AND)\n" ++
   "  regex=<pattern>     - Regular expression pattern (case-insensitive)\n" ++
   "  time_from=<unix_ts> - Start time (Unix timestamp)\n" ++
   "  time_to=<unix_ts>   - End time (Unix timestamp)\n" ++
   "\n" ++
   "Example: QUERY keywords=error,timeout operator=AND regex=failed\n").toList

/-- Method `QueryHandler::processQuery`: the response and the buffer after the call. -/
def QueryHandler.processQuery (lib : StdLib) (buffer_ : LogBuffer) (query : Str) :
    Str × LogBuffer :=
  if find query "QUERY".toList = some 0 then QueryHandler.handleSearch lib buffer_ query
  else if query = "STATS".toList then (QueryHandler.handleStats buffer_, buffer_)
  else if query = "COUNT".toList then (QueryHandler.handleCount buffer_, buffer_)
  else if query = "HELP".toList then (QueryHandler.handleHelp, buffer_)
  else ("ERROR: Unknown command. Use HELP for usage.\n".toList, buffer_)

/-- A segment on which `parse` throws: a `regex=` parameter whose pattern does not compile,
or a `time_from=` or `time_to=` parameter whose value `stol` does not convert. -/
def QueryParser.throws_on (lib : StdLib) (seg : Str) : Prop :=
  ∃ pos, find_char seg '=' = some pos ∧
    ((substr seg 0 pos = "regex".toList ∧ lib.regex_error (substr_from seg (pos + 1)) ≠ none) ∨
     ((substr seg 0 pos = "time_from".toList ∨ substr seg 0 pos = "time_to".toList) ∧
      ∃ e, stol (substr_from seg (pos + 1)) = Except.error e))

/-! ## Containers -/

/-- Lookup `find(key)` in a `std::unordered_map` or `std::map`, held as a list of entries. -/
def map_find {κ α : Type} [DecidableEq κ] (key : κ) : List (κ × α) → Option α
  | [] => none
  | (k, v) :: rest => if k = key then some v else map_find key rest

/-- Assignment `m[key] = value` in a `std::unordered_map`: the entry of the key is replaced,
or a new entry is added. The iteration order of an unordered map is unspecified; the list
keeps the order of insertion. -/
def umap_set {κ α : Type} [DecidableEq κ] (key : κ) (value : α) (m : List (κ × α)) :
    List (κ × α) :=
  if (map_find key m).isSome then m.map (fun e => if e.1 = key then (key, value) else e)
  else m ++ [(key, value)]

/-- Removal `erase(key)` in a `std::unordered_map` or `std::map`. -/
def map_erase {κ α : Type} [DecidableEq κ] (key : κ) (m : List (κ × α)) : List (κ × α) :=
  m.filter (fun e => e.1 ≠ key)

/-- Assignment `m[key] = value` in a `std::map` with string keys: the entries stay in
increasing key order. -/
def omap_set {α : Type} (key : Str) (value : α) : List (Str × α) → List (Str × α)
  | [] => [(key, value)]
  | (k, v) :: rest =>
    if k = key then (key, value) :: rest
    else if str_lt key k then (key, value) :: (k, v) :: rest
    else (k, v) :: omap_set key value rest

/-- Insertion `insert(x)` in a `std::set<std::string>`: increasing order, no duplicate. -/
def set_insert (x : Str) : List Str → List Str
  | [] => [x]
  | y :: rest =>
    if y = x then y :: rest
    else if str_lt x y then x :: y :: rest
    else y :: set_insert x rest

/-- Removal `erase(x)` in a `std::set<std::string>`. -/
def set_erase (x : Str) (s : List Str) : List Str :=
  s.filter (fun y => y ≠ x)

/-- Modification of the element at an index of a list, used for the objects that shared
pointers refer to. -/
def list_modify {α : Type} (f : α → α) : Nat → List α → List α
  | _, [] => []
  | 0, x :: xs => f x :: xs
  | n + 1, x :: xs => x :: list_modify f n xs

/-! ## IRCCommandParser -/

/-- The record `IRCCommandParser::IRCCommand`; the member `prefix` is named `prefix_`. -/
structure IRCCommand where
  prefix_ : Str := []
  command : Str := []
  params : List Str := []
  trailing : Str := []
deriving DecidableEq, Repr

/-- Method `IRCCommand::getParam`. -/
def IRCCommand.getParam (cmd : IRCCommand) (index : Nat) : Str :=
  if index < cmd.params.length then cmd.params.getD index [] else []

/-- Conversion `::tolower` of the "C" locale. -/
def tolower (c : Char) : Char :=
  if 65 ≤ c.toNat ∧ c.toNat ≤ 90 then Char.ofNat (c.toNat + 32) else c

/-- Function `IRCCommandParser::toUpper`. -/
def IRCCommandParser.toUpper (str : Str) : Str := str.map toupper

/-- Function `IRCCommandParser::extractPrefix`: the prefix and the line after the call. -/
def IRCCommandParser.extractPrefix (line : Str) : Str × Str :=
  if line.isEmpty ∨ line.head? ≠ some ':' then ([], line)
  else
    match find_char line ' '  with
    | none => ([], line)
    | some spacePos => (substr line 1 (spacePos - 1), substr_from line (spacePos + 1))

/-- Function `IRCCommandParser::extractCommand`: the command and the line after the call. -/
def IRCCommandParser.extractCommand (line : Str) : Str × Str :=
  if line.isEmpty then ([], line)
  else
    match find_char line ' '  with
    | none => (IRCCommandParser.toUpper line, [])
    | some spacePos =>
      (IRCCommandParser.toUpper (substr line 0 spacePos), substr_from line (spacePos + 1))

/-- The loop of `IRCCommandParser::extractParams`: the parameters pushed, in order; the
first argument bounds the number of iterations. -/
def IRCCommandParser.extractParams_loop : Nat → Str → List Str
  | 0, _ => []
  | fuel + 1, line =>
    if line.isEmpty then []
    else if line.head? = some ':' then [line]
    else
      match find_char line ' '  with
      | none => [line]
      | some spacePos =>
        substr line 0 spacePos ::
          IRCCommandParser.extractParams_loop fuel (substr_from line (spacePos + 1))

/-- Function `IRCCommandParser::extractParams`. -/
def IRCCommandParser.extractParams (line : Str) : List Str :=
  IRCCommandParser.extractParams_loop line.length line

/-- Function `IRCCommandParser::parse`. -/
def IRCCommandParser.parse (line : Str) : IRCCommand :=
  if line.isEmpty then {}
  else
    let workingLine :=
      if line.getLast? = some '\r' ∨ line.getLast? = some '\n' then line.dropLast else line
    let p := IRCCommandParser.extractPrefix workingLine
    let c := IRCCommandParser.extractCommand p.2
    let params := IRCCommandParser.extractParams c.2
    if (!params.isEmpty ∧ params.getLast?.bind List.head? = some ':') then
      { prefix_ := p.1, command := c.1, params := params.dropLast,
        trailing := substr_from (params.getLast?.getD []) 1 }
    else { prefix_ := p.1, command := c.1, params := params, trailing := [] }

/-- Function `IRCCommandParser::formatReply`; the code is written by `oss << code`. -/
def IRCCommandParser.formatReply (serverName nick : Str) (code : Nat) (params : Str) : Str :=
  ":".toList ++ serverName ++ " ".toList ++ decimal code ++ " ".toList ++ nick ++
    " ".toList ++ params

/-- Function `IRCCommandParser::formatUserMessage`. -/
def IRCCommandParser.formatUserMessage (nick user host command target message : Str) : Str :=
  ":".toList ++ nick ++ "!".toList ++ user ++ "@".toList ++ host ++ " ".toList ++ command ++
    " ".toList ++ target ++ (if !message.isEmpty then " :".toList ++ message else [])

/-- Function `IRCCommandParser::splitChannels`. -/
def IRCCommandParser.splitChannels (channels : Str) : List Str :=
  (getlines channels.length channels).filter (fun channel => !channel.isEmpty)

/-! ## IRCClient -/

/-- The enumeration `IRCClient::State`. -/
inductive IRCClient.State where
  | CONNECTED
  | AUTHENTICATED
  | DISCONNECTED
deriving DecidableEq, Repr

/-- The class `IRCClient`. The member `lastActivity_` (a reading of the steady clock) and
the mutex are left out. -/
structure IRCClient where
  fd_ : Int
  address_ : Str
  nickname_ : Str := []
  username_ : Str := []
  realname_ : Str := []
  hostname_ : Str := []
  state_ : IRCClient.State := IRCClient.State.CONNECTED
  /-- A `std::set<std::string>`. -/
  channels_ : List Str := []
deriving DecidableEq, Repr

/-- Constructor `IRCClient::IRCClient(fd, address)`. -/
def IRCClient.new (fd : Int) (address : Str) : IRCClient :=
  { fd_ := fd, address_ := address,
    hostname_ := match find_char address ':' with
      | some colonPos => substr address 0 colonPos
      | none => address }

/-- Method `IRCClient::setNickname`. -/
def IRCClient.setNickname (self : IRCClient) (nick : Str) : IRCClient :=
  { self with nickname_ := nick }

/-- Method `IRCClient::setUsername`. -/
def IRCClient.setUsername (self : IRCClient) (user : Str) : IRCClient :=
  { self with username_ := user }

/-- Method `IRCClient::setRealname`. -/
def IRCClient.setRealname (self : IRCClient) (realname : Str) : IRCClient :=
  { self with realname_ := realname }

/-- Method `IRCClient::setHostname`. -/
def IRCClient.setHostname (self : IRCClient) (hostname : Str) : IRCClient :=
  { self with hostname_ := hostname }

/-- Method `IRCClient::joinChannel`. -/
def IRCClient.joinChannel (self : IRCClient) (channel : Str) : IRCClient :=
  { self with channels_ := set_insert channel self.channels_ }

/-- Method `IRCClient::partChannel`. -/
def IRCClient.partChannel (self : IRCClient) (channel : Str) : IRCClient :=
  { self with channels_ := set_erase channel self.channels_ }

/-- Method `IRCClient::isInChannel`. -/
def IRCClient.isInChannel (self : IRCClient) (channel : Str) : Bool :=
  decide (channel ∈ self.channels_)

/-- Method `IRCClient::setState`. -/
def IRCClient.setState (self : IRCClient) (state : IRCClient.State) : IRCClient :=
  { self with state_ := state }

/-- Method `IRCClient::isAuthenticated`. -/
def IRCClient.isAuthenticated (self : IRCClient) : Bool :=
  decide (self.state_ = IRCClient.State.AUTHENTICATED)

/-- Method `IRCClient::getFullIdentifier`. -/
def IRCClient.getFullIdentifier (self : IRCClient) : Str :=
  if self.nickname_.isEmpty then []
  else self.nickname_ ++ "!".toList ++ self.username_ ++ "@".toList ++ self.hostname_

/-! ## IRCChannel -/

/-- The enumeration `IRCChannel::Type`. -/
inductive IRCChannel.ChannelType where
  | NORMAL
  | LOG_STREAM
deriving DecidableEq, Repr

/-- The class `IRCChannel`. A `std::shared_ptr<IRCClient>` is the index of the client object
in `IRCServer.clients`; the log filter, made by `createLevelFilter(level)` only, is held as
its level. The member `topicSetTime_` (a clock reading), the constant `modes_` and the mutex
are left out. -/
structure IRCChannel where
  name_ : Str
  type_ : IRCChannel.ChannelType := IRCChannel.ChannelType.NORMAL
  topic_ : Str := []
  topicSetBy_ : Str := []
  /-- A `std::map<std::string, std::shared_ptr<IRCClient>>`, keyed by nickname. -/
  clients_ : List (Str × Nat) := []
  /-- A `std::set<std::string>`. -/
  operators_ : List Str := []
  streamingEnabled_ : Bool := false
  logFilter_ : Option Str := none
deriving DecidableEq, Repr

/-- Method `IRCChannel::removeClient`. -/
def IRCChannel.removeClient (self : IRCChannel) (nickname : Str) : IRCChannel :=
  { self with clients_ := map_erase nickname self.clients_,
              operators_ := set_erase nickname self.operators_ }

/-- Method `IRCChannel::hasClient`. -/
def IRCChannel.hasClient (self : IRCChannel) (nickname : Str) : Bool :=
  (map_find nickname self.clients_).isSome

/-- Method `IRCChannel::isOperator`. -/
def IRCChannel.isOperator (self : IRCChannel) (nickname : Str) : Bool :=
  decide (nickname ∈ self.operators_)

/-- Method `IRCChannel::getClientCount`. -/
def IRCChannel.getClientCount (self : IRCChannel) : Nat := self.clients_.length

/-- Method `IRCChannel::getClients`. -/
def IRCChannel.getClients (self : IRCChannel) : List Nat := self.clients_.map (fun e => e.2)

/-- Method `IRCChannel::setTopic`. -/
def IRCChannel.setTopic (self : IRCChannel) (topic setBy : Str) : IRCChannel :=
  { self with topic_ := topic, topicSetBy_ := setBy }

/-- Method `IRCChannel::enableLogStreaming`. -/
def IRCChannel.enableLogStreaming (self : IRCChannel) (enable : Bool) : IRCChannel :=
  { self with streamingEnabled_ := enable }

/-- Method `IRCChannel::setLogFilter`, for a filter made by `createLevelFilter(level)`. -/
def IRCChannel.setLogFilter (self : IRCChannel) (level : Str) : IRCChannel :=
  { self with logFilter_ := some level }

/-! ## IRCServer: the state shared by the managers and the handler -/

/-- The state of an `IRCServer` with its `IRCClientManager` and `IRCChannelManager`.

* `clients` holds every `IRCClient` object that was created, at the index that stands for
  the shared pointers to it; an object lives as long as one of the maps refers to it.
* `clientsByFd_`, `clientsByNick_` and `channels_` are the `std::unordered_map` members of
  the managers. A channel object is referred to by `channels_` only and is held by value.
* `sent` is the sequence of `send(fd, message)` calls made so far. -/
structure IRCServer where
  clients : List IRCClient := []
  clientsByFd_ : List (Int × Nat) := []
  clientsByNick_ : List (Str × Nat) := []
  channels_ : List (Str × IRCChannel) := []
  sent : List (Int × Str) := []
  serverCreated_ : Str := []
deriving DecidableEq, Repr

/-- Dereference of a shared pointer to a client. -/
def IRCServer.deref (s : IRCServer) (client : Nat) : IRCClient :=
  (s.clients[client]?).getD (IRCClient.new (-1) [])

/-- A call of a method that changes the client object a shared pointer refers to. -/
def IRCServer.modifyClient (s : IRCServer) (client : Nat) (f : IRCClient → IRCClient) :
    IRCServer :=
  { s with clients := list_modify f client s.clients }

/-- Method `IRCServer::getServerName`. -/
def IRCServer.getServerName : Str := "logcaster-irc".toList

/-- Method `IRCServer::getServerVersion`. -/
def IRCServer.getServerVersion : Str := "1.0".toList

/-- Constant `IRCServer::MAX_CLIENTS`. -/
def IRCServer.MAX_CLIENTS : Nat := 1000

/-- Method `IRCClient::sendMessage` followed by `sendRawMessage`: the message, ended by
CR-LF, is passed to `send` on the descriptor of the client. -/
def IRCClient.sendMessage (s : IRCServer) (client : Nat) (message : Str) : IRCServer :=
  if (s.deref client).fd_ = -1 then s
  else
    let fullMessage :=
      if message.length < 2 ∨ substr_from message (message.length - 2) ≠ "\r\n".toList then
        message ++ "\r\n".toList
      else message
    { s with sent := s.sent ++ [((s.deref client).fd_, fullMessage)] }

/-- Method `IRCClient::sendNumericReply`. -/
def IRCClient.sendNumericReply (s : IRCServer) (client : Nat) (code : Nat) (params : Str) :
    IRCServer :=
  let serverName := "logcaster-irc".toList
  let nick := if (s.deref client).nickname_.isEmpty then "*".toList
    else (s.deref client).nickname_
  IRCClient.sendMessage s client (IRCCommandParser.formatReply serverName nick code params)

/-- Method `IRCClient::sendErrorReply`. -/
def IRCClient.sendErrorReply (s : IRCServer) (client : Nat) (code : Nat) (params : Str) :
    IRCServer :=
  IRCClient.sendNumericReply s client code params

/-- Method `IRCChannel::addClient`. -/
def IRCChannel.addClient (s : IRCServer) (self : IRCChannel) (client : Nat) : IRCChannel :=
  let nickname := (s.deref client).nickname_
  let clients := omap_set nickname client self.clients_
  { self with clients_ := clients,
              operators_ := if clients.length = 1 then set_insert nickname self.operators_
                else self.operators_ }

/-- The loop of `IRCChannel::broadcast` over the members still to visit. -/
def IRCChannel.broadcast_loop (message : Str) : List (Str × Nat) → IRCServer → IRCServer
  | [], s => s
  | (_, client) :: rest, s =>
    IRCChannel.broadcast_loop message rest (IRCClient.sendMessage s client message)

/-- Method `IRCChannel::broadcast`. -/
def IRCChannel.broadcast (s : IRCServer) (self : IRCChannel) (message : Str) : IRCServer :=
  IRCChannel.broadcast_loop message self.clients_ s

/-- The loop of `IRCChannel::broadcastExcept` over the members still to visit. -/
def IRCChannel.broadcastExcept_loop (message exceptNick : Str) :
    List (Str × Nat) → IRCServer → IRCServer
  | [], s => s
  | (nick, client) :: rest, s =>
    if nick ≠ exceptNick then
      IRCChannel.broadcastExcept_loop message exceptNick rest
        (IRCClient.sendMessage s client message)
    else IRCChannel.broadcastExcept_loop message exceptNick rest s

/-- Method `IRCChannel::broadcastExcept`. -/
def IRCChannel.broadcastExcept (s : IRCServer) (self : IRCChannel) (message exceptNick : Str) :
    IRCServer :=
  IRCChannel.broadcastExcept_loop message exceptNick self.clients_ s

/-! ## IRCClientManager -/

/-- Method `IRCClientManager::normalizeNickname`. -/
def IRCClientManager.normalizeNickname (nick : Str) : Str := nick.map tolower

/-- Method `IRCClientManager::addClient`: the state after the call and the new client. -/
def IRCClientManager.addClient (s : IRCServer) (fd : Int) (address : Str) : IRCServer × Nat :=
  ({ s with clients := s.clients ++ [IRCClient.new fd address],
            clientsByFd_ := umap_set fd s.clients.length s.clientsByFd_ },
   s.clients.length)

/-- Method `IRCClientManager::removeClient`. -/
def IRCClientManager.removeClient (s : IRCServer) (fd : Int) : IRCServer :=
  match map_find fd s.clientsByFd_ with
  | none => s
  | some client =>
    let nick := (s.deref client).nickname_
    let s1 := if !nick.isEmpty then
        { s with clientsByNick_ :=
            map_erase (IRCClientManager.normalizeNickname nick) s.clientsByNick_ }
      else s
    { s1 with clientsByFd_ := map_erase fd s1.clientsByFd_ }

/-- Method `IRCClientManager::clientExists`. -/
def IRCClientManager.clientExists (s : IRCServer) (fd : Int) : Bool :=
  (map_find fd s.clientsByFd_).isSome

/-- Method `IRCClientManager::getClientByFd`; `none` is the null pointer. -/
def IRCClientManager.getClientByFd (s : IRCServer) (fd : Int) : Option Nat :=
  map_find fd s.clientsByFd_

/-- Method `IRCClientManager::getClientByNickname`; `none` is the null pointer. -/
def IRCClientManager.getClientByNickname (s : IRCServer) (nickname : Str) : Option Nat :=
  map_find (IRCClientManager.normalizeNickname nickname) s.clientsByNick_

/-- Method `IRCClientManager::isNicknameAvailable`. -/
def IRCClientManager.isNicknameAvailable (s : IRCServer) (nickname : Str) : Bool :=
  (map_find (IRCClientManager.normalizeNickname nickname) s.clientsByNick_).isNone

/-- Method `IRCClientManager::registerNickname`. -/
def IRCClientManager.registerNickname (s : IRCServer) (fd : Int) (nickname : Str) : IRCServer :=
  match map_find fd s.clientsByFd_ with
  | none => s
  | some client =>
    { s with clientsByNick_ :=
        umap_set (IRCClientManager.normalizeNickname nickname) client s.clientsByNick_ }

/-- Method `IRCClientManager::getClientCount`. -/
def IRCClientManager.getClientCount (s : IRCServer) : Nat := s.clientsByFd_.length

/-! ## IRCChannelManager -/

/-- Whether `name.find("#logs-") == 0`. -/
def is_log_name (name : Str) : Bool :=
  decide (find name "#logs-".toList = some 0)

/-- Method `IRCChannelManager::removeChannel` (`normalizeChannelName` is the identity). -/
def IRCChannelManager.removeChannel (s : IRCServer) (name : Str) : IRCServer :=
  if is_log_name name then s
  else { s with channels_ := map_erase name s.channels_ }

/-- Method `IRCChannelManager::channelExists`. -/
def IRCChannelManager.channelExists (s : IRCServer) (name : Str) : Bool :=
  (map_find name s.channels_).isSome

/-- Method `IRCChannelManager::getChannel`; `none` is the null pointer. -/
def IRCChannelManager.getChannel (s : IRCServer) (name : Str) : Option IRCChannel :=
  map_find name s.channels_

/-- The effect on `channels_` of a method that changes the channel object held under a
name. -/
def IRCServer.setChannel (s : IRCServer) (name : Str) (channel : IRCChannel) : IRCServer :=
  { s with channels_ := umap_set name channel s.channels_ }

/-- Method `IRCChannelManager::sendJoinMessages`. -/
def IRCChannelManager.sendJoinMessages (s : IRCServer) (channel : IRCChannel) (client : Nat) :
    IRCServer :=
  IRCChannel.broadcast s channel
    (":".toList ++ (s.deref client).getFullIdentifier ++ " JOIN :".toList ++ channel.name_)

/-- Method `IRCChannelManager::sendPartMessages`. -/
def IRCChannelManager.sendPartMessages (s : IRCServer) (channel : IRCChannel) (client : Nat)
    (reason : Str) : IRCServer :=
  IRCChannel.broadcast s channel
    (":".toList ++ (s.deref client).getFullIdentifier ++ " PART ".toList ++ channel.name_ ++
      (if !reason.isEmpty then " :".toList ++ reason else []))

/-- The end of `IRCChannelManager::joinChannel`, once the channel object is at hand:
`addClient`, `client->joinChannel`, `sendJoinMessages`. -/
def IRCChannelManager.joinChannel_enter (s : IRCServer) (client : Nat) (channelName : Str)
    (channel : IRCChannel) : IRCServer :=
  let channel1 := IRCChannel.addClient s channel client
  let s1 := s.setChannel channelName channel1
  let s2 := s1.modifyClient client (fun c => c.joinChannel channelName)
  IRCChannelManager.sendJoinMessages s2 channel1 client

/-- Method `IRCChannelManager::joinChannel`: the state after the call and the result. A
client index that refers to no object is the null pointer. -/
def IRCChannelManager.joinChannel (s : IRCServer) (client : Nat) (channelName : Str) :
    IRCServer × Bool :=
  if (s.clients[client]?).isNone ∨ !(s.deref client).isAuthenticated then (s, false)
  else
    match map_find channelName s.channels_ with
    | none =>
      if !is_log_name channelName then
        let channel : IRCChannel :=
          { name_ := channelName, type_ := IRCChannel.ChannelType.NORMAL }
        (IRCChannelManager.joinChannel_enter (s.setChannel channelName channel) client
          channelName channel, true)
      else (s, false)
    | some channel => (IRCChannelManager.joinChannel_enter s client channelName channel, true)

/-- Method `IRCChannelManager::partChannel`: the state after the call and the result. -/
def IRCChannelManager.partChannel (s : IRCServer) (client : Nat) (channelName reason : Str) :
    IRCServer × Bool :=
  if (s.clients[client]?).isNone then (s, false)
  else
    match IRCChannelManager.getChannel s channelName with
    | none => (s, false)
    | some channel =>
      if !channel.hasClient (s.deref client).nickname_ then (s, false)
      else
        let s1 := IRCChannelManager.sendPartMessages s channel client reason
        let channel1 := channel.removeClient (s1.deref client).nickname_
        let s2 := s1.setChannel channelName channel1
        let s3 := s2.modifyClient client (fun c => c.partChannel channelName)
        let s4 := if channel1.getClientCount = 0 ∧ !is_log_name channelName then
            IRCChannelManager.removeChannel s3 channelName
          else s3
        (s4, true)

/-- The loop of `IRCChannelManager::partAllChannels` over the copied channel names. -/
def IRCChannelManager.partAllChannels_loop (client : Nat) (reason : Str) :
    List Str → IRCServer → IRCServer
  | [], s => s
  | channelName :: rest, s =>
    IRCChannelManager.partAllChannels_loop client reason rest
      (IRCChannelManager.partChannel s client channelName reason).1

/-- Method `IRCChannelManager::partAllChannels`. -/
def IRCChannelManager.partAllChannels (s : IRCServer) (client : Nat) (reason : Str) :
    IRCServer :=
  if (s.clients[client]?).isNone then s
  else IRCChannelManager.partAllChannels_loop client reason (s.deref client).channels_ s

/-- Method `IRCChannelManager::getChannelList`. -/
def IRCChannelManager.getChannelList (s : IRCServer) : List Str :=
  s.channels_.map (fun e => e.1)

/-- The channel that `initializeLogChannels` makes for one entry of `defaultLogChannels_`. -/
def IRCChannelManager.log_channel (name level description : Str) : IRCChannel :=
  let channel : IRCChannel := { name_ := name, type_ := IRCChannel.ChannelType.LOG_STREAM }
  let channel1 := (channel.setTopic description "LogCaster".toList).enableLogStreaming true
  if level ≠ "*".toList then channel1.setLogFilter level else channel1

/-- Method `IRCChannelManager::initializeLogChannels`, over `defaultLogChannels_`. -/
def IRCChannelManager.initializeLogChannels (s : IRCServer) : IRCServer :=
  let s1 := s.setChannel "#logs-all".toList
    (IRCChannelManager.log_channel "#logs-all".toList "*".toList "All log messages".toList)
  s1.setChannel "#logs-error".toList
    (IRCChannelManager.log_channel "#logs-error".toList "ERROR".toList
      "Error level logs only".toList)

/-! ## IRCCommandHandler -/

/-- Method `IRCCommandHandler::sendWelcome`. -/
def IRCCommandHandler.sendWelcome (s : IRCServer) (client : Nat) : IRCServer :=
  let serverName := IRCServer.getServerName
  let s1 := IRCClient.sendNumericReply s client 1
    (":Welcome to the LogCaster IRC Network ".toList ++ (s.deref client).getFullIdentifier)
  let s2 := IRCClient.sendNumericReply s1 client 2
    (":Your host is ".toList ++ serverName ++ ", running version ".toList ++
      IRCServer.getServerVersion)
  let s3 := IRCClient.sendNumericReply s2 client 3
    (":This server was created ".toList ++ s2.serverCreated_)
  IRCClient.sendNumericReply s3 client 4
    (serverName ++ " ".toList ++ IRCServer.getServerVersion ++ " o o".toList)

/-- Method `IRCCommandHandler::checkAuthentication`. -/
def IRCCommandHandler.checkAuthentication (s : IRCServer) (client : Nat) : IRCServer :=
  if !(s.deref client).nickname_.isEmpty ∧ !(s.deref client).username_.isEmpty then
    IRCCommandHandler.sendWelcome
      (s.modifyClient client (fun c => c.setState IRCClient.State.AUTHENTICATED)) client
  else s

/-- Method `IRCCommandHandler::handleNICK`. -/
def IRCCommandHandler.handleNICK (s : IRCServer) (client : Nat) (cmd : IRCCommand) :
    IRCServer :=
  if cmd.params.isEmpty then
    IRCClient.sendErrorReply s client 431 ":No nickname given".toList
  else
    let newNick := cmd.getParam 0
    if !IRCClientManager.isNicknameAvailable s newNick then
      IRCClient.sendErrorReply s client 433 (newNick ++ " :Nickname is already in use".toList)
    else
      let oldNick := (s.deref client).nickname_
      let s1 := if !oldNick.isEmpty then IRCClientManager.removeClient s (s.deref client).fd_
        else s
      let s2 := s1.modifyClient client (fun c => c.setNickname newNick)
      let s3 := IRCClientManager.registerNickname s2 (s2.deref client).fd_ newNick
      IRCCommandHandler.checkAuthentication s3 client

/-- Method `IRCCommandHandler::handleUSER`. -/
def IRCCommandHandler.handleUSER (s : IRCServer) (client : Nat) (cmd : IRCCommand) :
    IRCServer :=
  if (s.deref client).isAuthenticated then
    IRCClient.sendErrorReply s client 462 ":You may not reregister".toList
  else if cmd.params.length < 3 then
    IRCClient.sendErrorReply s client 461 "USER :Not enough parameters".toList
  else
    let s1 := s.modifyClient client (fun c => c.setUsername (cmd.getParam 0))
    let s2 := s1.modifyClient client (fun c => c.setHostname (cmd.getParam 1))
    let s3 := s2.modifyClient client
      (fun c => c.setRealname (if cmd.trailing.isEmpty then cmd.getParam 3 else cmd.trailing))
    IRCCommandHandler.checkAuthentication s3 client

/-- The loop of `IRCCommandHandler::handleJOIN` over the channel names. -/
def IRCCommandHandler.handleJOIN_loop (client : Nat) : List Str → IRCServer → IRCServer
  | [], s => s
  | channelName :: rest, s =>
    if is_log_name channelName ∧ !IRCChannelManager.channelExists s channelName then
      IRCCommandHandler.handleJOIN_loop client rest
        (IRCClient.sendErrorReply s client 403
          (channelName ++ " :Log channel does not exist".toList))
    else
      IRCCommandHandler.handleJOIN_loop client rest
        (IRCChannelManager.joinChannel s client channelName).1

/-- Method `IRCCommandHandler::handleJOIN`. -/
def IRCCommandHandler.handleJOIN (s : IRCServer) (client : Nat) (cmd : IRCCommand) :
    IRCServer :=
  if cmd.params.isEmpty then
    IRCClient.sendErrorReply s client 461 "JOIN :Not enough parameters".toList
  else
    IRCCommandHandler.handleJOIN_loop client (IRCCommandParser.splitChannels (cmd.getParam 0)) s

/-- The loop of `IRCCommandHandler::handlePART` over the channel names. -/
def IRCCommandHandler.handlePART_loop (client : Nat) (reason : Str) :
    List Str → IRCServer → IRCServer
  | [], s => s
  | channelName :: rest, s =>
    if !IRCChannelManager.channelExists s channelName then
      IRCCommandHandler.handlePART_loop client reason rest
        (IRCClient.sendErrorReply s client 403 (channelName ++ " :No such channel".toList))
    else if !(s.deref client).isInChannel channelName then
      IRCCommandHandler.handlePART_loop client reason rest
        (IRCClient.sendErrorReply s client 442
          (channelName ++ " :You're not on that channel".toList))
    else
      IRCCommandHandler.handlePART_loop client reason rest
        (IRCChannelManager.partChannel s client channelName reason).1

/-- Method `IRCCommandHandler::handlePART`. -/
def IRCCommandHandler.handlePART (s : IRCServer) (client : Nat) (cmd : IRCCommand) :
    IRCServer :=
  if cmd.params.isEmpty then
    IRCClient.sendErrorReply s client 461 "PART :Not enough parameters".toList
  else
    IRCCommandHandler.handlePART_loop client
      (if cmd.trailing.isEmpty then (s.deref client).nickname_ else cmd.trailing)
      (IRCCommandParser.splitChannels (cmd.getParam 0)) s

/-- Method `IRCCommandHandler::handlePRIVMSG`. -/
def IRCCommandHandler.handlePRIVMSG (s : IRCServer) (client : Nat) (cmd : IRCCommand) :
    IRCServer :=
  if cmd.params.isEmpty then
    IRCClient.sendErrorReply s client 411 ":No recipient given (PRIVMSG)".toList
  else if cmd.trailing.isEmpty ∧ cmd.params.length < 2 then
    IRCClient.sendErrorReply s client 412 ":No text to send".toList
  else
    let target := cmd.getParam 0
    let message := if cmd.trailing.isEmpty then cmd.getParam 1 else cmd.trailing
    let privmsg := IRCCommandParser.formatUserMessage (s.deref client).nickname_
      (s.deref client).username_ (s.deref client).hostname_ "PRIVMSG".toList target message
    if target.head? = some '#' ∨ target.head? = some '&' then
      match IRCChannelManager.getChannel s target with
      | none => IRCClient.sendErrorReply s client 403 (target ++ " :No such channel".toList)
      | some channel =>
        if !channel.hasClient (s.deref client).nickname_ then
          IRCClient.sendErrorReply s client 404 (target ++ " :Cannot send to channel".toList)
        else IRCChannel.broadcastExcept s channel privmsg (s.deref client).nickname_
    else
      match IRCClientManager.getClientByNickname s target with
      | none => IRCClient.sendErrorReply s client 401 (target ++ " :No such nick/channel".toList)
      | some targetClient => IRCClient.sendMessage s targetClient privmsg

/-- The first loop of `IRCCommandHandler::handleQUIT`: the quit notice for each channel of
the client. -/
def IRCCommandHandler.handleQUIT_loop (client : Nat) (quitNotice : Str) :
    List Str → IRCServer → IRCServer
  | [], s => s
  | channelName :: rest, s =>
    match IRCChannelManager.getChannel s channelName with
    | some channel =>
      IRCCommandHandler.handleQUIT_loop client quitNotice rest
        (IRCChannel.broadcastExcept s channel quitNotice (s.deref client).nickname_)
    | none => IRCCommandHandler.handleQUIT_loop client quitNotice rest s

/-- Method `IRCCommandHandler::handleQUIT`. -/
def IRCCommandHandler.handleQUIT (s : IRCServer) (client : Nat) (cmd : IRCCommand) :
    IRCServer :=
  let quitMessage := if cmd.trailing.isEmpty then "Client Quit".toList else cmd.trailing
  let quitNotice := ":".toList ++ (s.deref client).getFullIdentifier ++ " QUIT :".toList ++
    quitMessage
  let s1 := IRCCommandHandler.handleQUIT_loop client quitNotice (s.deref client).channels_ s
  let s2 := IRCChannelManager.partAllChannels s1 client quitMessage
  s2.modifyClient client (fun c => c.setState IRCClient.State.DISCONNECTED)

/-- Method `IRCCommandHandler::handlePING`. -/
def IRCCommandHandler.handlePING (s : IRCServer) (client : Nat) (cmd : IRCCommand) :
    IRCServer :=
  let param := if cmd.params.isEmpty then IRCServer.getServerName else cmd.getParam 0
  IRCClient.sendMessage s client
    (":".toList ++ IRCServer.getServerName ++ " PONG ".toList ++ IRCServer.getServerName ++
      " :".toList ++ param)

/-- The loop of `IRCCommandHandler::handleLIST` over the channel names. -/
def IRCCommandHandler.handleLIST_loop (client : Nat) : List Str → IRCServer → IRCServer
  | [], s => s
  | channelName :: rest, s =>
    match IRCChannelManager.getChannel s channelName with
    | some channel =>
      IRCCommandHandler.handleLIST_loop client rest
        (IRCClient.sendMessage s client
          (channel.name_ ++ " ".toList ++ decimal channel.getClientCount ++ " :".toList ++
            channel.topic_))
    | none => IRCCommandHandler.handleLIST_loop client rest s

/-- Method `IRCCommandHandler::handleLIST`. -/
def IRCCommandHandler.handleLIST (s : IRCServer) (client : Nat) (_cmd : IRCCommand) :
    IRCServer :=
  IRCCommandHandler.handleLIST_loop client (IRCChannelManager.getChannelList s) s

/-- The string `names` that `handleNAMES` builds for a channel: the present nickname of
each member followed by a space. -/
def IRCCommandHandler.names (s : IRCServer) (channel : IRCChannel) : Str :=
  (channel.getClients.map (fun member => (s.deref member).nickname_ ++ " ".toList)).flatten

/-- The loop of `IRCCommandHandler::handleNAMES` over the channel names. -/
def IRCCommandHandler.handleNAMES_loop (client : Nat) : List Str → IRCServer → IRCServer
  | [], s => s
  | channelName :: rest, s =>
    match IRCChannelManager.getChannel s channelName with
    | some channel =>
      IRCCommandHandler.handleNAMES_loop client rest
        (IRCClient.sendNumericReply
          (IRCClient.sendNumericReply s client 353
            ("= ".toList ++ channelName ++ " :".toList ++ IRCCommandHandler.names s channel))
          client 366 (channelName ++ " :End of /NAMES list.".toList))
    | none => IRCCommandHandler.handleNAMES_loop client rest s

/-- Method `IRCCommandHandler::handleNAMES`. -/
def IRCCommandHandler.handleNAMES (s : IRCServer) (client : Nat) (cmd : IRCCommand) :
    IRCServer :=
  if cmd.params.isEmpty then
    IRCCommandHandler.handleNAMES_loop client (IRCChannelManager.getChannelList s) s
  else
    IRCCommandHandler.handleNAMES_loop client
      (IRCCommandParser.splitChannels (cmd.getParam 0)) s

/-- Method `IRCCommandHandler::handleCommand`, with the table `handlers_` that the
constructor fills. A client index that refers to no object is the null pointer. -/
def IRCCommandHandler.handleCommand (s : IRCServer) (client : Nat) (cmd : IRCCommand) :
    IRCServer :=
  if (s.clients[client]?).isNone ∨ cmd.command.isEmpty then s
  else if !(s.deref client).isAuthenticated ∧ cmd.command ≠ "NICK".toList ∧
      cmd.command ≠ "USER".toList ∧ cmd.command ≠ "QUIT".toList then
    IRCClient.sendErrorReply s client 451 ":You have not registered".toList
  else if cmd.command = "NICK".toList then IRCCommandHandler.handleNICK s client cmd
  else if cmd.command = "USER".toList then IRCCommandHandler.handleUSER s client cmd
  else if cmd.command = "JOIN".toList then IRCCommandHandler.handleJOIN s client cmd
  else if cmd.command = "PART".toList then IRCCommandHandler.handlePART s client cmd
  else if cmd.command = "PRIVMSG".toList then IRCCommandHandler.handlePRIVMSG s client cmd
  else if cmd.command = "QUIT".toList then IRCCommandHandler.handleQUIT s client cmd
  else if cmd.command = "PING".toList then IRCCommandHandler.handlePING s client cmd
  else if cmd.command = "LIST".toList then IRCCommandHandler.handleLIST s client cmd
  else if cmd.command = "NAMES".toList then IRCCommandHandler.handleNAMES s client cmd
  else IRCClient.sendErrorReply s client 421 (cmd.command ++ " :Unknown command".toList)

/-! ## IRCServer: what happens on a connection -/

/-- Method `IRCServer::processClientData`. -/
def IRCServer.processClientData (s : IRCServer) (clientFd : Int) (data : Str) : IRCServer :=
  match IRCClientManager.getClientByFd s clientFd with
  | none => s
  | some client =>
    if !(IRCCommandParser.parse data).command.isEmpty then
      IRCCommandHandler.handleCommand s client (IRCCommandParser.parse data)
    else s

/-- The body of the loop of `IRCServer::acceptClients` for an accepted descriptor. -/
def IRCServer.acceptClient (s : IRCServer) (clientFd : Int) (clientAddress : Str) : IRCServer :=
  if IRCClientManager.getClientCount s ≥ IRCServer.MAX_CLIENTS then
    { s with sent := s.sent ++ [(clientFd, "ERROR :Server is full\r\n".toList)] }
  else (IRCClientManager.addClient s clientFd clientAddress).1

/-- The end of `IRCServer::handleClient`, after the read loop is left: a `QUIT` is handled
for the client still registered under the descriptor, and the client is removed. -/
def IRCServer.closeClient (s : IRCServer) (clientFd : Int) : IRCServer :=
  match IRCClientManager.getClientByFd s clientFd with
  | none => s
  | some client =>
    IRCClientManager.removeClient
      (IRCCommandHandler.handleCommand s client
        { command := "QUIT".toList, trailing := "Connection closed".toList })
      clientFd

/-- What the server reacts to: a connection is accepted, a line of a connection is
processed, a connection ends. -/
inductive IRCEvent where
  | connect (fd : Int) (address : Str)
  | line (fd : Int) (data : Str)
  | disconnect (fd : Int)
deriving DecidableEq, Repr

/-- The reaction of the server to one event. -/
def IRCServer.step (s : IRCServer) : IRCEvent → IRCServer
  | IRCEvent.connect fd address => s.acceptClient fd address
  | IRCEvent.line fd data => s.processClientData fd data
  | IRCEvent.disconnect fd => s.closeClient fd

/-- The reaction of the server to a sequence of events, first to last. -/
def IRCServer.run (s : IRCServer) (events : List IRCEvent) : IRCServer :=
  events.foldl IRCServer.step s

/-- The state in which `IRCServer::start` leaves a new server: no client, and the log
channels that `initializeLogChannels` makes; `created` is the text of `serverCreated_`. -/
def IRCServer.started (created : Str) : IRCServer :=
  IRCChannelManager.initializeLogChannels { serverCreated_ := created }

/-! ## Further platforms and events for concrete evaluation -/

/-- A platform whose regex library rejects every pattern that has a `[` in it, with the
message `bracket`, and is `literal_lib` otherwise. -/
def brackets_lib : StdLib :=
  { literal_lib with
    regex_error := fun pattern => if '[' ∈ pattern then some "bracket".toList else none }

/-- The event that a line arrives on a connection. -/
def IRCEvent.recv (fd : Int) (data : String) : IRCEvent := IRCEvent.line fd data.toList

/-- A started server, for the examples. -/
def irc_start : IRCServer := IRCServer.started "Sun Nov  1 06:00:00 2026".toList

/-- A connection registers as `alice`. -/
def trace_register : List IRCEvent :=
  [IRCEvent.connect 5 "10.0.0.1:4000".toList, IRCEvent.recv 5 "NICK alice",
   IRCEvent.recv 5 "USER a b c :A"]

/-- A connection takes the nickname `alice` and then the nickname `bob`. -/
def trace_rename : List IRCEvent :=
  [IRCEvent.connect 5 "10.0.0.1:4000".toList, IRCEvent.recv 5 "NICK alice",
   IRCEvent.recv 5 "NICK bob"]

/-- A member of `#x` changes its nickname from `alice` to `bob`; a second connection then
registers as `bob` and joins `#x`. -/
def trace_two_bobs : List IRCEvent :=
  [IRCEvent.connect 5 "10.0.0.1:4000".toList, IRCEvent.recv 5 "NICK alice",
   IRCEvent.recv 5 "USER a b c :A", IRCEvent.recv 5 "JOIN #x", IRCEvent.recv 5 "NICK bob",
   IRCEvent.connect 6 "10.0.0.2:4000".toList, IRCEvent.recv 6 "NICK bob",
   IRCEvent.recv 6 "USER b b b :B", IRCEvent.recv 6 "JOIN #x"]

/-- A member of `#x` and `#y` changes its nickname from `alice` to `bob`; a second connection
then registers as `alice` and joins `#x`. -/
def trace_member_lost : List IRCEvent :=
  [IRCEvent.connect 5 "10.0.0.1:4000".toList, IRCEvent.recv 5 "NICK alice",
   IRCEvent.recv 5 "USER a b c :A", IRCEvent.recv 5 "JOIN #x,#y", IRCEvent.recv 5 "NICK bob",
   IRCEvent.connect 6 "10.0.0.2:4000".toList, IRCEvent.recv 6 "NICK alice",
   IRCEvent.recv 6 "USER c c c :C", IRCEvent.recv 6 "JOIN #x"]

/-- A connection registers as `alice` and sends `QUIT`. -/
def trace_quit : List IRCEvent :=
  [IRCEvent.connect 5 "10.0.0.1:4000".toList, IRCEvent.recv 5 "NICK alice",
   IRCEvent.recv 5 "USER a b c :A", IRCEvent.recv 5 "QUIT :bye"]

/-! ## Relations between states and invariants -/

/-- The second state differs from the first in `sent` at most. -/
def IRCServer.same_but_sent (s t : IRCServer) : Prop :=
  t.clients = s.clients ∧ t.clientsByFd_ = s.clientsByFd_ ∧
    t.clientsByNick_ = s.clientsByNick_ ∧ t.channels_ = s.channels_ ∧
    t.serverCreated_ = s.serverCreated_

/-- The members of a client that registration is about: descriptor, nickname, username and
state. -/
def IRCClient.core (c : IRCClient) : Int × Str × Str × IRCClient.State :=
  (c.fd_, c.nickname_, c.username_, c.state_)

/-- The second state has the clients of the first, with the same descriptor, nickname,
username and state each, and the same `clientsByFd_`. -/
def IRCServer.same_core (s t : IRCServer) : Prop :=
  t.clients.map IRCClient.core = s.clients.map IRCClient.core ∧
    t.clientsByFd_ = s.clientsByFd_

/-- What holds of the state of every client object, and of the clients registered under a
descriptor. -/
def IRCServer.auth_inv (s : IRCServer) : Prop :=
  (∀ (id : Nat) (fd : Int) (nick user : Str) (st : IRCClient.State),
    (s.clients.map IRCClient.core)[id]? = some (fd, nick, user, st) →
    (st = IRCClient.State.CONNECTED → nick = [] ∨ user = []) ∧
    (st = IRCClient.State.AUTHENTICATED → user ≠ [])) ∧
  (∀ (key : Int) (id : Nat), map_find key s.clientsByFd_ = some id →
    ∃ (nick user : Str) (st : IRCClient.State), (s.clients.map IRCClient.core)[id]? = some (key, nick, user, st) ∧
      (st = IRCClient.State.AUTHENTICATED → nick ≠ []))

/-- What holds of the channel table: the two log channels are there with type LOG_STREAM,
and a NORMAL channel has a member and a name that does not start with `#logs-`. -/
def channel_inv (channels : List (Str × IRCChannel)) : Prop :=
  (∃ channel, map_find "#logs-all".toList channels = some channel ∧
    channel.type_ = IRCChannel.ChannelType.LOG_STREAM) ∧
  (∃ channel, map_find "#logs-error".toList channels = some channel ∧
    channel.type_ = IRCChannel.ChannelType.LOG_STREAM) ∧
  (∀ e ∈ channels, e.2.type_ = IRCChannel.ChannelType.NORMAL →
    e.2.clients_ ≠ [] ∧ is_log_name e.1 = false)

/-! ## LogBuffer: sequences of calls -/

/-- A call of a public method of `LogBuffer` that changes the buffer. -/
inductive LogBufferCall where
  | push (p : PushCall)
  | registerCallback (channel : Str) (callback : LogCallback)
deriving DecidableEq, Repr

/-- One call run on a buffer. -/
def LogBuffer.call (self : LogBuffer) : LogBufferCall → LogBuffer
  | LogBufferCall.push p => (self.push p.message p.level p.source p.now).1
  | LogBufferCall.registerCallback channel callback => self.registerCallback channel callback

/-- A sequence of calls, first to last, run on a buffer. -/
def LogBuffer.calls (self : LogBuffer) (cs : List LogBufferCall) : LogBuffer :=
  cs.foldl LogBuffer.call self

/-- How many of the calls register the callback under the key. -/
def LogBufferCall.registrations (channel : Str) (callback : LogCallback)
    (cs : List LogBufferCall) : Nat :=
  cs.count (LogBufferCall.registerCallback channel callback)

/-- How many times the callback stands in the lists that the map has under the key. -/
def LogBuffer.registered (key : Str) (callback : LogCallback)
    (m : List (Str × List LogCallback)) : Nat :=
  ((m.filter (fun e => e.1 = key)).map (fun e => e.2.count callback)).sum

/-! ## LogServer: the ingest reader -/

/-- The string `log_message` that one pass of the loop of `LogServer::handleClientTask`
builds from the `nbytes` bytes that `recv` returned (the chunk). -/
def LogServer.log_message (chunk : Str) : Str :=
  let nbytes := chunk.length
  let SAFE_LOG_LENGTH := 1024
  let log_message := chunk.take (if nbytes > SAFE_LOG_LENGTH then SAFE_LOG_LENGTH else nbytes)
  if nbytes > SAFE_LOG_LENGTH then log_message ++ "...".toList else log_message

/-- One pass of the loop of `LogServer::handleClientTask` for a chunk that `recv` returned
(`nbytes > 0`): the push into the buffer, with the callback invocations it makes. -/
def LogServer.handleClientTask_pass (logBuffer_ : LogBuffer) (chunk : Str) (now : Int) :
    LogBuffer × List (LogCallback × LogEntry) :=
  logBuffer_.push (LogServer.log_message chunk) "info".toList "unknown".toList now

/-- The C string that starts a buffer: the bytes before the first NUL. -/
def c_str (buffer : Str) : Str :=
  buffer.takeWhile (fun c => c ≠ Char.ofNat 0)

/-- The C string that one pass of the loop of `handle_client_job` (C variant, `server.c`)
passes to `log_buffer_push`, for the `bytes_read` bytes that `recv` returned. Of `buffer`
only the bytes up to index `bytes_read` are kept; the code reads no other. -/
def handle_client_job_message (chunk : Str) : Str :=
  let bytes_read := chunk.length
  let SAFE_LOG_LENGTH := 1024
  let buffer := chunk ++ [Char.ofNat 0]
  let buffer1 :=
    if bytes_read > 0 ∧ buffer[bytes_read - 1]? = some '\n' then
      buffer.set (bytes_read - 1) (Char.ofNat 0)
    else buffer
  let buffer2 :=
    if bytes_read > SAFE_LOG_LENGTH then
      (((buffer1.set (SAFE_LOG_LENGTH - 4) '.').set (SAFE_LOG_LENGTH - 3) '.').set
        (SAFE_LOG_LENGTH - 2) '.').set (SAFE_LOG_LENGTH - 1) (Char.ofNat 0)
    else buffer1
  let buffer3 :=
    if bytes_read > 0 ∧ buffer2[bytes_read - 1]? = some '\n' then
      buffer2.set (bytes_read - 1) (Char.ofNat 0)
    else buffer2
  c_str buffer3

/-! ## PersistenceManager -/

/-- The record `PersistenceConfig`. The directory is the component `files` of the manager
below; `flush_interval` bounds how long the writer waits and has no part in what is
written. -/
structure PersistenceConfig where
  enabled : Bool := false
  max_file_size : Nat := 10 * 1024 * 1024
deriving DecidableEq, Repr

/-- The files of a directory, each with its name and content, in the order in which the
names were given. -/
abbrev Directory := List (Str × Str)

/-- What the platform does at one rotation: `stamp` is the text of
`put_time(localtime(now), "%Y%m%d-%H%M%S")`, and the two flags say whether
`std::filesystem::rename` and the reopening of `current.log` succeed. -/
structure RotationEnv where
  stamp : Str
  rename_ok : Bool := true
  open_ok : Bool := true
deriving DecidableEq, Repr

/-- Where the writer thread stands: at the test of its `while` loop, inside the body (the
wait, the swap, the writing and the rotation), or returned. When no thread was started
the value is `done`. -/
inductive WriterPc where
  | check
  | body
  | done
deriving DecidableEq, Repr

/-- The class `PersistenceManager`, with the directory `config_.log_directory` (`files`)
and the position of the writer thread (`pc`). -/
structure PersistenceManager where
  config_ : PersistenceConfig
  /-- Whether `log_file_.is_open()`. -/
  log_file_open : Bool
  current_file_size_ : Nat
  write_queue_ : List Str
  running_ : Bool
  files : Directory
  pc : WriterPc
deriving DecidableEq, Repr

/-- The name `current.log`. -/
def current_log : Str := "current.log".toList

/-- Opening a file in append mode: the file is created when it is not there. -/
def fs_open_app (name : Str) (files : Directory) : Directory :=
  if (map_find name files).isSome then files else files ++ [(name, [])]

/-- Writing to a file opened in append mode. -/
def fs_append (name text : Str) (files : Directory) : Directory :=
  files.map (fun f => if f.1 = name then (f.1, f.2 ++ text) else f)

/-- Function `std::filesystem::rename(old, new)` (POSIX `rename`) on regular files: a file
that has the new name is replaced. -/
def fs_rename (old new : Str) (files : Directory) : Directory :=
  match map_find old files with
  | none => files
  | some content => map_erase new (map_erase old files) ++ [(new, content)]

/-- Constructor `PersistenceManager::PersistenceManager(config)` on a directory with the
given files; `open_ok` says whether `current.log` can be opened, and the error is the
exception thrown. -/
def PersistenceManager.new (config : PersistenceConfig) (files : Directory) (open_ok : Bool) :
    Except Str PersistenceManager :=
  if !config.enabled then
    Except.ok { config_ := config, log_file_open := false, current_file_size_ := 0,
                write_queue_ := [], running_ := true, files := files, pc := WriterPc.done }
  else if !open_ok then
    Except.error ("Failed to open log file: ".toList ++ current_log)
  else
    let files1 := fs_open_app current_log files
    Except.ok { config_ := config, log_file_open := true,
                current_file_size_ := ((map_find current_log files1).getD []).length,
                write_queue_ := [], running_ := true, files := files1, pc := WriterPc.check }

/-- Method `PersistenceManager::write`. -/
def PersistenceManager.write (self : PersistenceManager) (message : Str) : PersistenceManager :=
  if !self.config_.enabled then self
  else { self with write_queue_ := self.write_queue_ ++ [message] }

/-- Method `PersistenceManager::rotateFile`. -/
def PersistenceManager.rotateFile (self : PersistenceManager) (e : RotationEnv) :
    PersistenceManager :=
  let new_filename := "log-".toList ++ e.stamp ++ ".log".toList
  let files1 := if e.rename_ok then fs_rename current_log new_filename self.files
    else self.files
  if e.open_ok then
    { self with files := fs_open_app current_log files1, log_file_open := true,
                current_file_size_ := 0 }
  else { self with files := files1, log_file_open := false, current_file_size_ := 0 }

/-- The inner loop of `writerThread` over `local_queue`. -/
def PersistenceManager.write_loop : List Str → PersistenceManager → PersistenceManager
  | [], self => self
  | message :: rest, self =>
    PersistenceManager.write_loop rest
      (if self.log_file_open then
        { self with files := fs_append current_log (message ++ "\n".toList) self.files,
                    current_file_size_ :=
                      (self.current_file_size_ + (message.length + 1)) % 2 ^ 64 }
      else self)

/-- The body of the loop of `writerThread`, from the swap on: the queue is taken whole, its
messages are written, and the file is rotated when it has reached `max_file_size`. -/
def PersistenceManager.writerThread_body (self : PersistenceManager) (e : RotationEnv) :
    PersistenceManager :=
  let local_queue := self.write_queue_
  let s1 := PersistenceManager.write_loop local_queue { self with write_queue_ := [] }
  if s1.log_file_open ∧ s1.current_file_size_ ≥ s1.config_.max_file_size then s1.rotateFile e
  else s1

/-- One step of the writer thread: the test `running_ || !write_queue_.empty()` of the loop,
or the body of the loop. -/
def PersistenceManager.writerThread_step (self : PersistenceManager) (e : RotationEnv) :
    PersistenceManager :=
  match self.pc with
  | WriterPc.check =>
    if self.running_ ∨ !self.write_queue_.isEmpty then { self with pc := WriterPc.body }
    else { self with pc := WriterPc.done }
  | WriterPc.body => { self.writerThread_body e with pc := WriterPc.check }
  | WriterPc.done => self

/-- Destructor `PersistenceManager::~PersistenceManager`, up to the `join`: the flag
`running_` is cleared. The `join` returns when the writer has returned. -/
def PersistenceManager.shutdown (self : PersistenceManager) : PersistenceManager :=
  if !self.config_.enabled ∨ !self.running_ then self
  else { self with running_ := false }

/-- What happens to a manager: a thread calls `write`, the writer thread makes a step, the
destructor clears `running_`. -/
inductive PersistenceEvent where
  | write (message : Str)
  | writer (e : RotationEnv)
  | shutdown
deriving DecidableEq, Repr

/-- The manager after one event. -/
def PersistenceManager.step (self : PersistenceManager) : PersistenceEvent → PersistenceManager
  | PersistenceEvent.write message => self.write message
  | PersistenceEvent.writer e => self.writerThread_step e
  | PersistenceEvent.shutdown => self.shutdown

/-- The manager after a sequence of events, first to last. -/
def PersistenceManager.run (self : PersistenceManager) (events : List PersistenceEvent) :
    PersistenceManager :=
  events.foldl PersistenceManager.step self

/-- The messages of the `write` events, in order. -/
def PersistenceEvent.messages : List PersistenceEvent → List Str
  | [] => []
  | PersistenceEvent.write message :: rest => message :: PersistenceEvent.messages rest
  | PersistenceEvent.writer _ :: rest => PersistenceEvent.messages rest
  | PersistenceEvent.shutdown :: rest => PersistenceEvent.messages rest

/-- Whether the step of the writer on this state rotates the file. -/
def PersistenceManager.rotates (self : PersistenceManager) : Bool :=
  decide (self.pc = WriterPc.body) &&
    ((PersistenceManager.write_loop self.write_queue_
        { self with write_queue_ := [] }).log_file_open &&
      decide ((PersistenceManager.write_loop self.write_queue_
        { self with write_queue_ := [] }).current_file_size_ ≥ self.config_.max_file_size))

/-- The stamps of the rotations that a sequence of events makes, in order. -/
def PersistenceManager.rotation_stamps (self : PersistenceManager) :
    List PersistenceEvent → List Str
  | [] => []
  | PersistenceEvent.writer e :: rest =>
    (if self.rotates then [e.stamp] else []) ++
      PersistenceManager.rotation_stamps (self.writerThread_step e) rest
  | PersistenceEvent.write message :: rest =>
    PersistenceManager.rotation_stamps (self.write message) rest
  | PersistenceEvent.shutdown :: rest => PersistenceManager.rotation_stamps self.shutdown rest

/-- Whether `rename` and the reopening succeed at every step of the writer. -/
def PersistenceEvent.all_ok : List PersistenceEvent → Bool
  | [] => true
  | PersistenceEvent.writer e :: rest => e.rename_ok && e.open_ok && PersistenceEvent.all_ok rest
  | PersistenceEvent.write _ :: rest => PersistenceEvent.all_ok rest
  | PersistenceEvent.shutdown :: rest => PersistenceEvent.all_ok rest

/-- The text of a sequence of messages, each followed by a newline. -/
def lines_text (messages : List Str) : Str :=
  (messages.map (fun message => message ++ "\n".toList)).flatten

/-- The contents of the rotated files, in the order of the directory, followed by the
content of `current.log`. -/
def Directory.rotated_then_current (files : Directory) : Str :=
  ((files.filter (fun f => f.1 ≠ current_log)).map (fun f => f.2)).flatten ++
    (map_find current_log files).getD []

/-- What holds of an enabled manager whose file is open, for the messages enqueued so far:
`current.log` is the last file of the directory and the only one of that name, and the
contents of the files followed by the lines still in the queue are the lines enqueued. -/
def PersistenceManager.holds (self : PersistenceManager) (enqueued : List Str) : Prop :=
  self.config_.enabled = true ∧ self.log_file_open = true ∧
  ∃ (rotated : Directory) (cur : Str), self.files = rotated ++ [(current_log, cur)] ∧
    (∀ f ∈ rotated, f.1 ≠ current_log) ∧
    (rotated.map (fun f => f.2)).flatten ++ cur ++ lines_text self.write_queue_ =
      lines_text enqueued

/-! ## The C variant of the persistence writer (`persistence.c`) -/

/-- Where `persistence_writer_thread` stands: at the test `!manager->stop_thread` of the
outer loop, at the inner loop around `pthread_cond_wait`, in the loop over the batch
`head`, or returned. -/
inductive c_writer_pc where
  | check
  | wait
  | batch
  | done
deriving DecidableEq, Repr

/-- The record `persistence_manager_t`, with the files of the directory, the local variable
`head` of the writer thread and its position. -/
structure persistence_manager_t where
  enabled : Bool
  max_file_size : Nat
  /-- Whether `current_file` is not `NULL`. -/
  current_file : Bool
  current_file_size : Nat
  write_queue : List Str
  stop_thread : Bool
  files : Directory
  head : List Str
  pc : c_writer_pc
deriving DecidableEq, Repr

/-- Function `persistence_create` on an empty directory, the file being opened. -/
def persistence_create (enabled : Bool) (max_file_size : Nat) : persistence_manager_t :=
  { enabled := enabled, max_file_size := max_file_size, current_file := true,
    current_file_size := 0, write_queue := [], stop_thread := false,
    files := [(current_log, [])], head := [], pc := c_writer_pc.check }

/-- Function `persistence_write` (the allocation succeeds). -/
def persistence_write (manager : persistence_manager_t) (message : Str) :
    persistence_manager_t :=
  if !manager.enabled then manager
  else { manager with write_queue := manager.write_queue ++ [message] }

/-- Function `rotate_log_file`. -/
def rotate_log_file (manager : persistence_manager_t) (e : RotationEnv) :
    persistence_manager_t :=
  let new_filepath := "log-".toList ++ e.stamp ++ ".log".toList
  let files1 := if e.rename_ok then fs_rename current_log new_filepath manager.files
    else manager.files
  if e.open_ok then
    { manager with files := fs_open_app current_log files1, current_file := true,
                   current_file_size := 0 }
  else { manager with files := files1, current_file := false, current_file_size := 0 }

/-- One step of `persistence_writer_thread`. -/
def persistence_writer_step (manager : persistence_manager_t) (e : RotationEnv) :
    persistence_manager_t :=
  match manager.pc with
  | c_writer_pc.check =>
    if !manager.stop_thread then { manager with pc := c_writer_pc.wait }
    else { manager with pc := c_writer_pc.done }
  | c_writer_pc.wait =>
    if manager.write_queue.isEmpty ∧ !manager.stop_thread then manager
    else { manager with head := manager.write_queue, write_queue := [],
                        pc := c_writer_pc.batch }
  | c_writer_pc.batch =>
    match manager.head with
    | [] => { manager with pc := c_writer_pc.check }
    | message :: rest =>
      if manager.current_file then
        let m1 := { manager with
          files := fs_append current_log (message ++ "\n".toList) manager.files,
          current_file_size := (manager.current_file_size + (message.length + 1)) % 2 ^ 64 }
        let m2 := if m1.current_file_size ≥ m1.max_file_size then rotate_log_file m1 e else m1
        { m2 with head := rest }
      else { manager with head := rest }
  | c_writer_pc.done => manager

/-- Function `persistence_destroy`, up to `pthread_join`. -/
def persistence_destroy (manager : persistence_manager_t) : persistence_manager_t :=
  { manager with stop_thread := true }

/-- The C manager after one event. -/
def persistence_manager_t.step (manager : persistence_manager_t) :
    PersistenceEvent → persistence_manager_t
  | PersistenceEvent.write message => persistence_write manager message
  | PersistenceEvent.writer e => persistence_writer_step manager e
  | PersistenceEvent.shutdown => persistence_destroy manager

/-- The C manager after a sequence of events, first to last. -/
def persistence_manager_t.run (manager : persistence_manager_t)
    (events : List PersistenceEvent) : persistence_manager_t :=
  events.foldl persistence_manager_t.step manager

/-! ## IRC: channel names and log distribution -/

/-- Method `IRCChannelManager::isValidChannelName`. The type `char` is signed, as on x86-64
Linux, so that a byte of 128 or more is less than 32. -/
def IRCChannelManager.isValidChannelName (name : Str) : Bool :=
  if name.isEmpty ∨ name.length > 50 then false
  else if name.head? ≠ some '#' ∧ name.head? ≠ some '&' then false
  else name.all (fun c => !(c = ' ' ∨ c = ',' ∨ c = Char.ofNat 7 ∨ c.toNat < 32 ∨ c.toNat ≥ 128))

/-- The text `fullMessage` that `IRCClient::sendMessage` passes on. -/
def IRCClient.fullMessage (message : Str) : Str :=
  if message.length < 2 ∨ substr_from message (message.length - 2) ≠ "\r\n".toList then
    message ++ "\r\n".toList
  else message

/-- Method `IRCChannel::formatLogEntry`. -/
def IRCChannel.formatLogEntry (lib : StdLib) (entry : LogEntry) : Str :=
  "[".toList ++ lib.put_time entry.timestamp ++ "] ".toList ++
    (if !entry.level.isEmpty then entry.level ++ ": ".toList else []) ++
    (if !entry.source.isEmpty then "[".toList ++ entry.source ++ "] ".toList else []) ++
    entry.message

/-- Whether the channel has a filter and the filter rejects the entry; a filter is one made
by `createLevelFilter(level)`. -/
def IRCChannel.filter_rejects (self : IRCChannel) (entry : LogEntry) : Bool :=
  match self.logFilter_ with
  | some level => decide (entry.level ≠ level)
  | none => false

/-- Method `IRCChannel::processLogEntry`. -/
def IRCChannel.processLogEntry (lib : StdLib) (s : IRCServer) (self : IRCChannel)
    (entry : LogEntry) : IRCServer :=
  if !self.streamingEnabled_ ∨ self.clients_.isEmpty then s
  else if self.filter_rejects entry then s
  else
    IRCChannel.broadcast s self
      (IRCCommandParser.formatUserMessage "LogBot".toList "log".toList "system".toList
        "PRIVMSG".toList self.name_ (IRCChannel.formatLogEntry lib entry))

/-- The loop of `IRCChannelManager::distributeLogEntry` over the channels still to visit. -/
def IRCChannelManager.distributeLogEntry_loop (lib : StdLib) (entry : LogEntry) :
    List (Str × IRCChannel) → IRCServer → IRCServer
  | [], s => s
  | (_, channel) :: rest, s =>
    IRCChannelManager.distributeLogEntry_loop lib entry rest
      (if channel.type_ = IRCChannel.ChannelType.LOG_STREAM ∧ channel.streamingEnabled_ then
        IRCChannel.processLogEntry lib s channel entry
      else s)

/-- Method `IRCChannelManager::distributeLogEntry`. -/
def IRCChannelManager.distributeLogEntry (lib : StdLib) (s : IRCServer) (entry : LogEntry) :
    IRCServer :=
  IRCChannelManager.distributeLogEntry_loop lib entry s.channels_ s

/-- The sends that a broadcast of a message to the members makes: one for each member whose
descriptor is not -1. -/
def IRCChannel.deliveries (s : IRCServer) (members : List (Str × Nat)) (message : Str) :
    List (Int × Str) :=
  (members.filter (fun e => (s.deref e.2).fd_ ≠ -1)).map
    (fun e => ((s.deref e.2).fd_, IRCClient.fullMessage message))

/-- The line that carries a log entry with a level and a source to a channel. -/
def log_line (lib : StdLib) (channel : Str) (entry : LogEntry) : Str :=
  ":LogBot!log@system PRIVMSG ".toList ++ channel ++ " :[".toList ++
    lib.put_time entry.timestamp ++ "] ".toList ++ entry.level ++ ": [".toList ++
    entry.source ++ "] ".toList ++ entry.message

/-- Whether `distributeLogEntry` passes the entry on to the members of the channel. -/
def IRCChannel.streams (self : IRCChannel) (entry : LogEntry) : Bool :=
  decide (self.type_ = IRCChannel.ChannelType.LOG_STREAM) && self.streamingEnabled_ &&
    !self.filter_rejects entry

/-! ## Further events and managers for concrete evaluation -/

/-- A registered connection that has joined `#logs-error`. -/
def trace_logs_error : List IRCEvent :=
  trace_register ++ [IRCEvent.recv 5 "JOIN #logs-error"]

/-- A registered connection that has joined `#logs-all`. -/
def trace_logs_all : List IRCEvent :=
  trace_register ++ [IRCEvent.recv 5 "JOIN #logs-all"]

/-- A registered connection joins a channel named `x`; a second one registers as `bob`. -/
def trace_join_x : List IRCEvent :=
  trace_register ++ [IRCEvent.recv 5 "JOIN x", IRCEvent.connect 6 "10.0.0.2:4000".toList,
    IRCEvent.recv 6 "NICK bob", IRCEvent.recv 6 "USER b b b :B"]

/-- An entry with the message `boom` and the given level, from the source `unknown`. -/
def entry_boom (level : String) : LogEntry :=
  { message := "boom".toList, timestamp := 0, level := level.toList,
    source := "unknown".toList }

/-- A step of the writer at the clock text `20261101-060000`. -/
def writer_at_six : PersistenceEvent :=
  PersistenceEvent.writer { stamp := "20261101-060000".toList }

/-- A step of the writer at the clock text `20261101-060001`. -/
def writer_at_six_one : PersistenceEvent :=
  PersistenceEvent.writer { stamp := "20261101-060001".toList }

/-- The manager that the constructor makes on an empty directory, enabled and with the given
`max_file_size`. -/
def manager_with (max_file_size : Nat) : PersistenceManager :=
  { config_ := { enabled := true, max_file_size := max_file_size }, log_file_open := true,
    current_file_size_ := 0, write_queue_ := [], running_ := true,
    files := [(current_log, [])], pc := WriterPc.check }

/-- Two messages are written and rotated, one after the other, within one second. -/
def trace_same_second : List PersistenceEvent :=
  [PersistenceEvent.write "a".toList, writer_at_six, writer_at_six,
   PersistenceEvent.write "b".toList, writer_at_six, writer_at_six]

/-- The same, the second rotation a second later. -/
def trace_next_second : List PersistenceEvent :=
  [PersistenceEvent.write "a".toList, writer_at_six, writer_at_six,
   PersistenceEvent.write "b".toList, writer_at_six_one, writer_at_six_one]

/-- A message is enqueued while the writer is busy with a batch, and the manager is shut
down before the writer comes back to its test. -/
def trace_shutdown_busy : List PersistenceEvent :=
  [writer_at_six, PersistenceEvent.write "a".toList, writer_at_six, writer_at_six,
   PersistenceEvent.write "b".toList, PersistenceEvent.shutdown, writer_at_six,
   writer_at_six, writer_at_six, writer_at_six]

/-! ## The C ring buffer (`log_buffer.c`) -/

/-- The record `log_entry_t`; `message` is the text of the C string the pointer refers to. -/
structure log_entry_t where
  message : Str
  timestamp : Int
deriving DecidableEq, Repr

/-- The record `log_buffer_t` (the mutex is left out). A slot of `entries` is `none` when
the pointer in it is null. The members of type `size_t` and `unsigned long` are natural
numbers reduced modulo `2^64` at every operation. -/
structure log_buffer_t where
  entries : List (Option log_entry_t)
  capacity : Nat
  size : Nat
  head : Nat
  tail : Nat
  total_logs : Nat
  dropped_logs : Nat
deriving DecidableEq, Repr

/-- Constant `DEFAULT_BUFFER_SIZE`. -/
def DEFAULT_BUFFER_SIZE : Nat := 10000

/-- Function `log_buffer_create`. `calloc(capacity, sizeof(log_entry_t*))` returns null when
the size of the array, `capacity * 8`, does not fit `size_t`; every other allocation is
taken to succeed. `none` is the null pointer returned. -/
def log_buffer_create (capacity : Nat) : Option log_buffer_t :=
  let capacity1 := if capacity = 0 then DEFAULT_BUFFER_SIZE else capacity
  if capacity1 * 8 ≥ 2 ^ 64 then none
  else
    some { entries := List.replicate capacity1 none, capacity := capacity1, size := 0, head := 0,
           tail := 0, total_logs := 0, dropped_logs := 0 }

/-- Function `log_buffer_push` on a buffer that is not null, for a message that is not
null; `now` is what `time(NULL)` returns and the allocations are taken to succeed. `none`
when the call has no defined behaviour: a null `old_entry` is dereferenced, a slot outside
the array is written, or the capacity is zero in `% buffer->capacity`. -/
def log_buffer_push (buffer : log_buffer_t) (message : Str) (now : Int) : Option log_buffer_t :=
  let entry : log_entry_t := { message := message, timestamp := now }
  if buffer.capacity = 0 then none
  else
    let b1 : Option log_buffer_t :=
      if buffer.size = buffer.capacity then
        match (buffer.entries[buffer.tail]?).join with
        | none => none
        | some _ =>
          some { buffer with
            tail := (buffer.tail + 1) % 2 ^ 64 % buffer.capacity
            size := (buffer.size + (2 ^ 64 - 1)) % 2 ^ 64
            dropped_logs := (buffer.dropped_logs + 1) % 2 ^ 64 }
      else some buffer
    match b1 with
    | none => none
    | some b =>
      if b.head < b.entries.length then
        some { b with
          entries := b.entries.set b.head (some entry)
          head := (b.head + 1) % 2 ^ 64 % b.capacity
          size := (b.size + 1) % 2 ^ 64
          total_logs := (b.total_logs + 1) % 2 ^ 64 }
      else none

/-- A sequence of `log_buffer_push` calls, first to last, each with its message and the
reading of the clock. -/
def log_buffer_pushAll (buffer : log_buffer_t) : List (Str × Int) → Option log_buffer_t
  | [] => some buffer
  | call :: rest =>
    match log_buffer_push buffer call.1 call.2 with
    | none => none
    | some b => log_buffer_pushAll b rest

/-- The slot `buffer->entries[(buffer->tail + i) % buffer->capacity]` that the loops of
`log_buffer_search` and `log_buffer_search_enhanced` read at the index `i`; `none` when
the pointer read is null or the slot is outside the array. -/
def log_buffer_t.slot (buffer : log_buffer_t) (i : Nat) : Option log_entry_t :=
  (buffer.entries[(buffer.tail + i) % 2 ^ 64 % buffer.capacity]?).join

/-- The slots that `log_buffer_search_enhanced` reads, in the order of its loop
`for (i = 0; i < buffer->size; i++)`. -/
def log_buffer_t.slots (buffer : log_buffer_t) : List (Option log_entry_t) :=
  (List.range buffer.size).map buffer.slot

/-- Function `log_buffer_size`. -/
def log_buffer_size (buffer : log_buffer_t) : Nat := buffer.size

/-- Function `log_buffer_get_stats`: the values stored to `*total` and `*dropped`. -/
def log_buffer_get_stats (buffer : log_buffer_t) : Nat × Nat :=
  (buffer.total_logs, buffer.dropped_logs)

/-- What the ring holds after the entries `pushed` have been pushed, first to last, on a
ring of capacity `c`: the last `min pushed.length c` of them lie in the slots from `tail`
on, `head` is the next slot to write, and the counters have counted the pushes. -/
def log_buffer_t.holds (buffer : log_buffer_t) (c : Nat) (pushed : List log_entry_t) : Prop :=
  buffer.capacity = c ∧ buffer.entries.length = c ∧ buffer.size = min pushed.length c ∧
    buffer.head = pushed.length % c ∧ buffer.tail = (pushed.length - buffer.size) % c ∧
    buffer.total_logs = pushed.length % 2 ^ 64 ∧
    buffer.dropped_logs = (pushed.length - c) % 2 ^ 64 ∧
    ∀ k, pushed.length - buffer.size ≤ k → k < pushed.length →
      buffer.entries[k % c]? = some (pushed[k]?)

/-- The entry that a call of `log_buffer_push` makes. -/
def c_entry (call : Str × Int) : log_entry_t := { message := call.1, timestamp := call.2 }

/-! ## The keyword loop of the C parser (`query_parser.c`) -/

/-- Call `strtok_r(s, delim, &saveptr)` for a single delimiter: the delimiters at the
start are skipped; `none` (a null pointer) when nothing is left, otherwise the token up to
the next delimiter and the text after that delimiter. -/
def strtok_r (s : Str) (delim : Char) : Option (Str × Str) :=
  let s1 := s.dropWhile (fun c => c = delim)
  if s1.isEmpty then none
  else some (s1.takeWhile (fun c => c != delim), (s1.dropWhile (fun c => c != delim)).drop 1)

/-- The loop `while (keyword_token && query->keyword_count < 10)` of `query_parser_parse`
on the text still to cut: the array `keywords` after it, `keywords` being the array before
it. The first argument bounds the number of iterations. -/
def query_parser_keywords : Nat → List Str → Str → List Str
  | 0, keywords, _ => keywords
  | fuel + 1, keywords, value =>
    match strtok_r value ','  with
    | none => keywords
    | some (keyword_token, rest) =>
      if keywords.length < 10 then query_parser_keywords fuel (keywords ++ [keyword_token]) rest
      else keywords

/-! ## ThreadPool (`ThreadPool.cpp`) -/

/-- Where a worker thread of the pool stands: at `condition_.wait` (at the top of its
loop), inside the call `task()` of the task named, or returned. -/
inductive WorkerPc where
  | waiting
  | running (task : Nat)
  | returned
deriving DecidableEq, Repr

/-- The class `ThreadPool`. A task is the identifier of an opaque callable. `called` lists
the tasks whose call `task()` has begun, in the order in which the calls began. -/
structure ThreadPool where
  workers_ : List WorkerPc
  tasks_ : List Nat
  stop_ : Bool
  called : List Nat
deriving DecidableEq, Repr

/-- Constructor `ThreadPool::ThreadPool(numThreads)`. -/
def ThreadPool.new (numThreads : Nat) : ThreadPool :=
  { workers_ := List.replicate numThreads WorkerPc.waiting, tasks_ := [], stop_ := false,
    called := [] }

/-- Method `ThreadPool::enqueue`; the error is the `std::runtime_error` thrown. -/
def ThreadPool.enqueue (self : ThreadPool) (task : Nat) : Except Str ThreadPool :=
  if self.stop_ then Except.error "enqueue on stopped ThreadPool".toList
  else Except.ok { self with tasks_ := self.tasks_ ++ [task] }

/-- One step of the worker thread `i` in `ThreadPool::workerThread`. At the wait, the thread
stays when the predicate `stop_ || !tasks_.empty()` is false, returns when
`stop_ && tasks_.empty()`, and otherwise takes the front of the queue and begins the call
`task()`. Inside `task()`, the step is the return of the task, which leads back to the wait. -/
def ThreadPool.workerThread_step (self : ThreadPool) (i : Nat) : ThreadPool :=
  match self.workers_[i]? with
  | some WorkerPc.waiting =>
    if !(self.stop_ ∨ !self.tasks_.isEmpty) then self
    else if self.stop_ ∧ self.tasks_.isEmpty then
      { self with workers_ := self.workers_.set i WorkerPc.returned }
    else
      match self.tasks_ with
      | [] => self
      | task :: rest =>
        { self with tasks_ := rest, workers_ := self.workers_.set i (WorkerPc.running task),
                    called := self.called ++ [task] }
  | some (WorkerPc.running _) => { self with workers_ := self.workers_.set i WorkerPc.waiting }
  | _ => self

/-- Destructor `ThreadPool::~ThreadPool`, up to the `join` calls: `stop_` is set and the
workers are notified. The `join` calls return when every worker has returned. -/
def ThreadPool.stop (self : ThreadPool) : ThreadPool := { self with stop_ := true }

/-- Whether the `join` calls of the destructor have returned: every worker has returned. -/
def ThreadPool.joined (self : ThreadPool) : Bool :=
  self.workers_.all (fun w => decide (w = WorkerPc.returned))

/-- What happens to a pool: a thread calls `enqueue`, the worker `i` makes a step, the
destructor sets `stop_`. -/
inductive PoolEvent where
  | enqueue (task : Nat)
  | worker (i : Nat)
  | stop
deriving DecidableEq, Repr

/-- The pool after one event; an `enqueue` that throws leaves the pool as it is. -/
def ThreadPool.step (self : ThreadPool) : PoolEvent → ThreadPool
  | PoolEvent.enqueue task =>
    match self.enqueue task with
    | Except.ok pool => pool
    | Except.error _ => self
  | PoolEvent.worker i => self.workerThread_step i
  | PoolEvent.stop => self.stop

/-- The pool after a sequence of events, first to last. -/
def ThreadPool.run (self : ThreadPool) (events : List PoolEvent) : ThreadPool :=
  events.foldl ThreadPool.step self

/-! ## The C thread pool (`thread_pool.c`) -/

/-- Where a worker thread of the C pool stands: at the wait at the top of its loop, inside
`job->function(job->arg)` for the job named, left through `pthread_exit`, or stopped by the
dereference of a null `job`. -/
inductive c_worker_pc where
  | waiting
  | running (job : Nat)
  | exited
  | fault
deriving DecidableEq, Repr

/-- The record `thread_pool_t`; the linked list from `job_queue_head` to `job_queue_tail` is
a list, and a job is the identifier of its function and argument. `called` lists the jobs
whose function has been called, in the order of the calls; `freed` says that
`thread_pool_destroy` has released the pool. -/
structure thread_pool_t where
  threads : List c_worker_pc
  job_queue : List Nat
  job_count : Int
  working_threads : Int
  shutdown : Bool
  called : List Nat
  freed : Bool
deriving DecidableEq, Repr

/-- Constant `DEFAULT_THREAD_COUNT`. -/
def DEFAULT_THREAD_COUNT : Int := 4

/-- Constant `MAX_THREAD_COUNT`. -/
def MAX_THREAD_COUNT : Int := 32

/-- Function `thread_pool_create`, every allocation and `pthread_create` succeeding. -/
def thread_pool_create (thread_count : Int) : thread_pool_t :=
  let thread_count1 :=
    if thread_count ≤ 0 ∨ thread_count > MAX_THREAD_COUNT then DEFAULT_THREAD_COUNT
    else thread_count
  { threads := List.replicate thread_count1.toNat c_worker_pc.waiting, job_queue := [],
    job_count := 0, working_threads := 0, shutdown := false, called := [], freed := false }

/-- Function `thread_pool_add_job` for a pool and a function that are not null: the return
value and the pool after the call. -/
def thread_pool_add_job (pool : thread_pool_t) (job : Nat) : Int × thread_pool_t :=
  if pool.shutdown then (-1, pool)
  else (0, { pool with job_queue := pool.job_queue ++ [job], job_count := pool.job_count + 1 })

/-- One step of the worker thread `i` in `thread_pool_worker`. At the wait, the thread stays
while `job_count == 0 && !shutdown`, leaves the loop when `shutdown` is set, and otherwise
takes the head of the queue and calls its function. Inside the function, the step is its
return, after which `working_threads` is decremented and the loop starts again. -/
def thread_pool_worker_step (pool : thread_pool_t) (i : Nat) : thread_pool_t :=
  match pool.threads[i]? with
  | some c_worker_pc.waiting =>
    if pool.job_count = 0 ∧ !pool.shutdown then pool
    else if pool.shutdown then { pool with threads := pool.threads.set i c_worker_pc.exited }
    else
      match pool.job_queue with
      | [] => { pool with threads := pool.threads.set i c_worker_pc.fault }
      | job :: rest =>
        { pool with job_queue := rest, job_count := pool.job_count - 1,
                    working_threads := pool.working_threads + 1,
                    threads := pool.threads.set i (c_worker_pc.running job),
                    called := pool.called ++ [job] }
  | some (c_worker_pc.running _) =>
    { pool with working_threads := pool.working_threads - 1,
                threads := pool.threads.set i c_worker_pc.waiting }
  | _ => pool

/-- Function `thread_pool_destroy`, up to the `pthread_join` calls: `shutdown` is set and
the workers are woken. -/
def thread_pool_destroy_signal (pool : thread_pool_t) : thread_pool_t :=
  { pool with shutdown := true }

/-- Function `thread_pool_destroy`, after the `pthread_join` calls, which return when every
worker has exited: the jobs left in the queue are freed, not called, and the pool is
released. Until every worker has exited the destroying thread stays in `pthread_join`. -/
def thread_pool_destroy_free (pool : thread_pool_t) : thread_pool_t :=
  if pool.threads.all (fun w => decide (w = c_worker_pc.exited)) then
    { pool with job_queue := [], freed := true }
  else pool

/-- What happens to a C pool: a thread calls `thread_pool_add_job`, the worker `i` makes a
step, `thread_pool_destroy` sets `shutdown`, `thread_pool_destroy` goes on after the joins. -/
inductive c_pool_event where
  | add_job (job : Nat)
  | worker (i : Nat)
  | destroy_signal
  | destroy_free
deriving DecidableEq, Repr

/-- The C pool after one event. -/
def thread_pool_t.step (pool : thread_pool_t) : c_pool_event → thread_pool_t
  | c_pool_event.add_job job => (thread_pool_add_job pool job).2
  | c_pool_event.worker i => thread_pool_worker_step pool i
  | c_pool_event.destroy_signal => thread_pool_destroy_signal pool
  | c_pool_event.destroy_free => thread_pool_destroy_free pool

/-- The C pool after a sequence of events, first to last. -/
def thread_pool_t.run (pool : thread_pool_t) (events : List c_pool_event) : thread_pool_t :=
  events.foldl thread_pool_t.step pool

/-! ## The reader of a session (`IRCServer::handleClient`) -/

/-- The loop `while ((pos = data.find("\r\n")) != npos || (pos = data.find("\n")) != npos)`
of `IRCServer::handleClient`: the lines passed to `processClientData`, in order, and `data`
when the loop is left. The first argument bounds the number of iterations. -/
def IRCServer.handleClient_lines : Nat → Str → List Str × Str
  | 0, data => ([], data)
  | fuel + 1, data =>
    match (match find data "\r\n".toList with
           | some pos => some pos
           | none => find data "\n".toList) with
    | none => ([], data)
    | some pos =>
      let line := substr data 0 pos
      let data1 := data.drop (pos + (if data[pos]? = some '\r' then 2 else 1))
      let r := IRCServer.handleClient_lines fuel data1
      (if !line.isEmpty then line :: r.1 else r.1, r.2)

/-- The branch `bytesRead > 0` of the loop of `IRCServer::handleClient` for the bytes
`chunk` that `recv` returned, `incomplete` being the text carried over: the server and
`incomplete` after it. -/
def IRCServer.handleClient_chunk (s : IRCServer) (clientFd : Int) (incomplete chunk : Str) :
    IRCServer × Str :=
  let data := incomplete ++ chunk
  let r := IRCServer.handleClient_lines (data.length + 1) data
  (r.1.foldl (fun t line => IRCServer.processClientData t clientFd line) s, r.2)

/-- The loop of `IRCServer::handleClient` over the chunks that `recv` returns one after the
other, `incomplete` being empty at first. -/
def IRCServer.handleClient_chunks (clientFd : Int) :
    List Str → IRCServer × Str → IRCServer × Str
  | [], r => r
  | chunk :: rest, r =>
    IRCServer.handleClient_chunks clientFd rest
      (IRCServer.handleClient_chunk r.1 clientFd r.2 chunk)

/-- The lines that the reader passes to `processClientData` for the chunks that `recv`
returns one after the other, `incomplete` being the text carried over. -/
def IRCServer.handleClient_dispatched : List Str → Str → List Str
  | [], _ => []
  | chunk :: rest, incomplete =>
    (IRCServer.handleClient_lines ((incomplete ++ chunk).length + 1) (incomplete ++ chunk)).1 ++
      IRCServer.handleClient_dispatched rest
        (IRCServer.handleClient_lines ((incomplete ++ chunk).length + 1) (incomplete ++ chunk)).2

/-! ## The callbacks of `IRCServer::start` -/

/-- The callable that `IRCServer::start` registers under `#logs-all`. -/
def IRCServer.callback_all : LogCallback := 0

/-- The callable that `IRCServer::start` registers under `#logs-error`. -/
def IRCServer.callback_error : LogCallback := 1

/-- The two calls of `registerCallback` in `IRCServer::start`. -/
def IRCServer.start_callbacks (logBuffer_ : LogBuffer) : LogBuffer :=
  (logBuffer_.registerCallback "#logs-all".toList IRCServer.callback_all).registerCallback
    "#logs-error".toList IRCServer.callback_error

/-- A call of a callable of the log buffer with an entry: the bodies of the two lambdas of
`IRCServer::start`; any other callable is foreign to the server. -/
def IRCServer.call (lib : StdLib) (s : IRCServer) (callback : LogCallback) (entry : LogEntry) :
    IRCServer :=
  if callback = IRCServer.callback_all then IRCChannelManager.distributeLogEntry lib s entry
  else if callback = IRCServer.callback_error then
    if entry.level = "ERROR".toList then IRCChannelManager.distributeLogEntry lib s entry else s
  else s

/-- A call of `LogBuffer::push` with what its callbacks do to the server: the buffer and the
server after the call. -/
def IRCServer.push (lib : StdLib) (s : IRCServer) (logBuffer_ : LogBuffer)
    (message level source : Str) (now : Int) : LogBuffer × IRCServer :=
  ((logBuffer_.push message level source now).1,
   (logBuffer_.push message level source now).2.foldl
     (fun t call => IRCServer.call lib t call.1 call.2) s)

/-! ## Lines of the IRC grammar -/

/-- The text `{SP param} [SP ":" trailing]` of a line. -/
def irc_params : List Str → Option Str → Str
  | [], none => []
  | [], some trailing => " :".toList ++ trailing
  | param :: rest, trailing => " ".toList ++ param ++ irc_params rest trailing

/-- The line `[":" prefix SP] command {SP param} [SP ":" trailing]`; `none` is a part that
is absent. -/
def irc_line (pre : Option Str) (command : Str) (params : List Str) (trailing : Option Str) :
    Str :=
  (match pre with
   | some p => ":".toList ++ p ++ " ".toList
   | none => []) ++ command ++ irc_params params trailing

/-- Whether a string ends with CR-LF. -/
def ends_crlf (message : Str) : Prop := "\r\n".toList <:+ message

/-- Every text passed to `send` so far ends with CR-LF. -/
def IRCServer.sent_crlf (s : IRCServer) : Prop := ∀ p ∈ s.sent, ends_crlf p.2

/-! ## Further traces for concrete evaluation -/

/-- Two tasks are queued on a pool of one worker; the worker begins the first; the
destructor sets `stop_`; the worker makes four more steps. -/
def trace_stop_busy : List PoolEvent :=
  [PoolEvent.enqueue 1, PoolEvent.enqueue 2, PoolEvent.worker 0, PoolEvent.stop,
   PoolEvent.worker 0, PoolEvent.worker 0, PoolEvent.worker 0, PoolEvent.worker 0]

/-- The events of `trace_stop_busy` on the C pool, followed by the end of
`thread_pool_destroy`. -/
def c_trace_stop_busy : List c_pool_event :=
  [c_pool_event.add_job 1, c_pool_event.add_job 2, c_pool_event.worker 0,
   c_pool_event.destroy_signal, c_pool_event.worker 0, c_pool_event.worker 0,
   c_pool_event.worker 0, c_pool_event.worker 0, c_pool_event.destroy_free]


/-! ## Properties of LogBuffer -/

theorem LogBuffer.pushAll_snoc (b : LogBuffer) (calls : List PushCall) (p : PushCall) :
    b.pushAll (calls ++ [p]) = ((b.pushAll calls).push p.message p.level p.source p.now).1 := by
  simp [LogBuffer.pushAll, List.foldl_append]

theorem LogBuffer.push_capacity (b : LogBuffer) (message level source : Str) (now : Int) :
    (b.push message level source now).1.capacity_ = b.capacity_ := by
  unfold LogBuffer.push LogBuffer.dropOldest_
  by_cases h1 : b.buffer_.length ≥ b.capacity_ <;> by_cases h2 : b.buffer_.isEmpty <;> simp [h1, h2]

theorem LogBuffer.push_callbacks (b : LogBuffer) (message level source : Str) (now : Int) :
    (b.push message level source now).1.callbacks_ = b.callbacks_ := by
  unfold LogBuffer.push LogBuffer.dropOldest_
  by_cases h1 : b.buffer_.length ≥ b.capacity_ <;> by_cases h2 : b.buffer_.isEmpty <;> simp [h1, h2]

theorem LogBuffer.push_totalLogs (b : LogBuffer) (message level source : Str) (now : Int) :
    (b.push message level source now).1.totalLogs_ = (b.totalLogs_ + 1) % 2 ^ 64 := by
  unfold LogBuffer.push LogBuffer.dropOldest_
  by_cases h1 : b.buffer_.length ≥ b.capacity_ <;> by_cases h2 : b.buffer_.isEmpty <;> simp [h1, h2]

/-- An entry is dropped by `push` exactly when the buffer holds at least `max capacity_ 1`
entries: a buffer of capacity 0 drops nothing while it is empty. -/
theorem LogBuffer.push_drops_iff (b : LogBuffer) :
    (b.buffer_.length ≥ b.capacity_ ∧ b.buffer_ ≠ []) ↔ b.buffer_.length ≥ max b.capacity_ 1 := by
  constructor
  · rintro ⟨h1, h2⟩
    have : 0 < b.buffer_.length := List.length_pos.mpr h2
    exact max_le h1 this
  · intro h
    have h1 : b.capacity_ ≤ b.buffer_.length := le_trans (le_max_left _ _) h
    have h2 : 1 ≤ b.buffer_.length := le_trans (le_max_right _ _) h
    exact ⟨h1, List.length_pos.mp h2⟩

theorem LogBuffer.push_droppedLogs (b : LogBuffer) (message level source : Str) (now : Int) :
    (b.push message level source now).1.droppedLogs_ =
      if b.buffer_.length ≥ max b.capacity_ 1 then (b.droppedLogs_ + 1) % 2 ^ 64
      else b.droppedLogs_ := by
  have hiff := LogBuffer.push_drops_iff b
  unfold LogBuffer.push LogBuffer.dropOldest_
  by_cases h1 : b.buffer_.length ≥ b.capacity_ <;> by_cases h2 : b.buffer_ = []
  · have : ¬ b.buffer_.length ≥ max b.capacity_ 1 := fun h => (hiff.mpr h).2 h2
    simp [h1, h2, this]
  · have : b.buffer_.length ≥ max b.capacity_ 1 := hiff.mp ⟨h1, h2⟩
    simp [h1, h2, this]
  · have : ¬ b.buffer_.length ≥ max b.capacity_ 1 := fun h => h1 (hiff.mpr h).1
    simp [h1, this]
  · have : ¬ b.buffer_.length ≥ max b.capacity_ 1 := fun h => h1 (hiff.mpr h).1
    simp [h1, this]

theorem LogBuffer.push_buffer (b : LogBuffer) (message level source : Str) (now : Int) :
    (b.push message level source now).1.buffer_ =
      (if b.buffer_.length ≥ max b.capacity_ 1 then b.buffer_.tail else b.buffer_) ++
        [{ message := message, timestamp := now, level := level, source := source }] := by
  have hiff := LogBuffer.push_drops_iff b
  unfold LogBuffer.push LogBuffer.dropOldest_
  by_cases h1 : b.buffer_.length ≥ b.capacity_ <;> by_cases h2 : b.buffer_ = []
  · have : ¬ b.buffer_.length ≥ max b.capacity_ 1 := fun h => (hiff.mpr h).2 h2
    simp [h1, h2, this]
  · have : b.buffer_.length ≥ max b.capacity_ 1 := hiff.mp ⟨h1, h2⟩
    simp [h1, h2, this]
  · have : ¬ b.buffer_.length ≥ max b.capacity_ 1 := fun h => h1 (hiff.mpr h).1
    simp [h1, this]
  · have : ¬ b.buffer_.length ≥ max b.capacity_ 1 := fun h => h1 (hiff.mpr h).1
    simp [h1, this]

/-- Appending to the last `k ≥ 1` elements of a list, after removing the oldest of them when
there are `k` already, gives the last `k` elements of the extended list. -/
theorem drop_window_snoc {α : Type} (hist : List α) (e : α) (k : Nat) (hk : 1 ≤ k) :
    (if (hist.drop (hist.length - k)).length ≥ k then (hist.drop (hist.length - k)).tail
      else hist.drop (hist.length - k)) ++ [e] =
      (hist ++ [e]).drop ((hist ++ [e]).length - k) := by
  have hlen : (hist.drop (hist.length - k)).length = hist.length - (hist.length - k) :=
    List.length_drop _ _
  by_cases hfull : (hist.drop (hist.length - k)).length ≥ k
  · have hge : k ≤ hist.length := by omega
    have hk1 : (hist ++ [e]).length - k = (hist.length - k) + 1 := by
      simp only [List.length_append, List.length_singleton]
      omega
    have hle : (hist.length - k) + 1 ≤ hist.length := by omega
    rw [if_pos hfull, hk1, List.drop_append_of_le_length hle, List.tail_drop]
  · have hlt : hist.length < k := by omega
    have hk1 : (hist ++ [e]).length - k = 0 := by
      simp only [List.length_append, List.length_singleton]
      omega
    have hk0 : hist.length - k = 0 := by omega
    rw [if_neg hfull, hk1, hk0, List.drop_zero, List.drop_zero]

/-- The state after any sequence of pushes on a fresh buffer of any capacity `c`: the buffer
behaves as one of capacity `max c 1`. It holds the last `max c 1` entries pushed, oldest
first, `totalLogs_` counts the pushes and `droppedLogs_` the pushes beyond `max c 1`
(both modulo `2^64`). -/
theorem LogBuffer.pushAll_new (c : Nat) (calls : List PushCall) :
    ((LogBuffer.new c).pushAll calls).buffer_ =
        (calls.map PushCall.entry).drop (calls.length - max c 1) ∧
      ((LogBuffer.new c).pushAll calls).capacity_ = c ∧
      ((LogBuffer.new c).pushAll calls).totalLogs_ = calls.length % 2 ^ 64 ∧
      ((LogBuffer.new c).pushAll calls).droppedLogs_ = (calls.length - max c 1) % 2 ^ 64 ∧
      ((LogBuffer.new c).pushAll calls).callbacks_ = [] := by
  induction calls using List.reverseRecOn with
  | nil => simp [LogBuffer.pushAll, LogBuffer.new]
  | append_singleton calls p ih =>
    obtain ⟨hbuf, hcap, htot, hdrop, hcb⟩ := ih
    rw [LogBuffer.pushAll_snoc]
    have hk : 1 ≤ max c 1 := le_max_right _ _
    have hlen : ((LogBuffer.new c).pushAll calls).buffer_.length =
        calls.length - (calls.length - max c 1) := by
      rw [hbuf, List.length_drop, List.length_map]
    refine ⟨?_, ?_, ?_, ?_, ?_⟩
    · rw [LogBuffer.push_buffer, hcap]
      have hw := drop_window_snoc (calls.map PushCall.entry) p.entry (max c 1) hk
      rw [List.length_map] at hw
      rw [hbuf]
      simp only [List.map_append, List.map_cons, List.map_nil, List.length_append,
        List.length_map, List.length_singleton] at hw ⊢
      exact hw
    · rw [LogBuffer.push_capacity, hcap]
    · rw [LogBuffer.push_totalLogs, htot]
      simp only [List.length_append, List.length_singleton]
      omega
    · rw [LogBuffer.push_droppedLogs, hdrop, hcap]
      simp only [List.length_append, List.length_singleton]
      by_cases hfull : ((LogBuffer.new c).pushAll calls).buffer_.length ≥ max c 1
      · rw [if_pos hfull]
        have : max c 1 ≤ calls.length := by omega
        omega
      · rw [if_neg hfull]
        have : calls.length < max c 1 := by omega
        have h1 : calls.length - max c 1 = 0 := by omega
        have h2 : calls.length + 1 - max c 1 = 0 := by omega
        rw [h1, h2]
    · rw [LogBuffer.push_callbacks, hcb]

/-! ## Properties of string search -/

theorem find_nil_pat (s : Str) : find s [] = some 0 := by
  cases s <;> simp [find]

/-- `find` succeeds exactly when the pattern is a substring (a contiguous infix) of the string. -/
theorem find_ne_none_iff (s pat : Str) : find s pat ≠ none ↔ pat <:+: s := by
  induction s with
  | nil =>
    cases pat with
    | nil => simp [find]
    | cons p ps => simp [find]
  | cons c cs ih =>
    rw [List.infix_cons_iff]
    by_cases hp : pat.isPrefixOf (c :: cs) = true
    · have : pat <+: c :: cs := List.isPrefixOf_iff_prefix.mp hp
      simp [find, hp, this]
    · have hnp : ¬ pat <+: c :: cs := fun h => hp (List.isPrefixOf_iff_prefix.mpr h)
      have hfind : find (c :: cs) pat = (find cs pat).map (· + 1) := by
        simp only [find]
        rw [if_neg hp]
      rw [hfind]
      constructor
      · intro h
        right
        apply ih.mp
        intro h0
        rw [h0] at h
        exact h rfl
      · intro h
        rcases h with h | h
        · exact absurd h hnp
        · have := ih.mpr h
          cases hf : find cs pat with
          | none => exact absurd hf this
          | some n => simp

theorem find_eq_none_iff (s pat : Str) : find s pat = none ↔ ¬ pat <:+: s := by
  rw [← find_ne_none_iff]
  exact not_not.symm

theorem ParsedQuery.and_loop_iff (message : Str) (kws : List Str) :
    ParsedQuery.and_loop message kws = true ↔ ∀ kw ∈ kws, kw <:+: message := by
  induction kws with
  | nil => simp [ParsedQuery.and_loop]
  | cons kw rest ih =>
    by_cases h : find message kw = none
    · have hn := (find_eq_none_iff message kw).mp h
      simp [ParsedQuery.and_loop, h, hn]
    · have hy := (find_ne_none_iff message kw).mp h
      simp [ParsedQuery.and_loop, h, hy, ih]

theorem ParsedQuery.or_loop_iff (message : Str) (kws : List Str) :
    ParsedQuery.or_loop message kws = true ↔ ∃ kw ∈ kws, kw <:+: message := by
  induction kws with
  | nil => simp [ParsedQuery.or_loop]
  | cons kw rest ih =>
    by_cases h : find message kw = none
    · have hn := (find_eq_none_iff message kw).mp h
      simp [ParsedQuery.or_loop, h, hn, ih]
    · have hy := (find_ne_none_iff message kw).mp h
      simp [ParsedQuery.or_loop, h, hy]

/-- The three filters of `matches`, as one equivalence. -/
theorem ParsedQuery.matches_iff (lib : StdLib) (q : ParsedQuery) (message : Str)
    (timestamp : Int) :
    q.matches lib message timestamp = true ↔
      ((∀ f, q.time_from_ = some f → f ≤ timestamp) ∧
        (∀ t, q.time_to_ = some t → timestamp ≤ t)) ∧
      (q.compiled_regex_ = none ∨
        ∃ re, q.compiled_regex_ = some re ∧ lib.regex_search re message = true) ∧
      (q.keywords_ = [] ∨
        (q.op_ = OperatorType.AND ∧ ∀ kw ∈ q.keywords_, kw <:+: message) ∨
        (q.op_ = OperatorType.OR ∧ ∃ kw ∈ q.keywords_, kw <:+: message)) := by
  obtain ⟨kws, re, tf, tt, op⟩ := q
  have hand := ParsedQuery.and_loop_iff message kws
  have hor := ParsedQuery.or_loop_iff message kws
  unfold ParsedQuery.matches
  cases tf <;> cases tt <;> cases re <;> cases op <;> cases kws <;>
    simp_all [not_lt, ParsedQuery.and_loop, ParsedQuery.or_loop, and_assoc]

/-! ## Ring capacity, contents and counters -/

/-- For a capacity of at least 1 the buffer never holds more entries than its capacity. -/
theorem LogBuffer.size_le_capacity (c : Nat) (hc : 1 ≤ c) (calls : List PushCall) :
    ((LogBuffer.new c).pushAll calls).size ≤ c := by
  have h := (LogBuffer.pushAll_new c calls).1
  have hmax : max c 1 = c := max_eq_left hc
  unfold LogBuffer.size
  rw [h, List.length_drop, List.length_map, hmax]
  omega

/-- For a capacity of at least 1 the buffer holds exactly the last `min n c` entries pushed,
in push order. -/
theorem LogBuffer.contents_last (c : Nat) (hc : 1 ≤ c) (calls : List PushCall) :
    ((LogBuffer.new c).pushAll calls).buffer_ =
      (calls.map PushCall.entry).drop (calls.length - min calls.length c) := by
  have h := (LogBuffer.pushAll_new c calls).1
  have hmax : max c 1 = c := max_eq_left hc
  rw [h, hmax]
  congr 1
  omega

/-- For a capacity of at least 1 and fewer than `2^64` pushes, `getStats` returns the number
of pushes and the number of pushes beyond the capacity. -/
theorem LogBuffer.getStats_pushAll (c : Nat) (hc : 1 ≤ c) (calls : List PushCall)
    (hn : calls.length < 2 ^ 64) :
    ((LogBuffer.new c).pushAll calls).getStats =
      { totalLogs := calls.length, droppedLogs := calls.length - c } := by
  obtain ⟨_, _, htot, hdrop, _⟩ := LogBuffer.pushAll_new c calls
  have hmax : max c 1 = c := max_eq_left hc
  unfold LogBuffer.getStats
  rw [htot, hdrop, hmax, Nat.mod_eq_of_lt hn, Nat.mod_eq_of_lt (by omega)]

theorem LogBuffer.search_loop_eq (lib : StdLib) (keyword : Str) (entries : List LogEntry)
    (results : List Str) :
    LogBuffer.search_loop lib keyword entries results =
      results ++ (entries.filter (fun e => decide (keyword <:+: e.message))).map
        (format_entry lib) := by
  induction entries generalizing results with
  | nil => simp [LogBuffer.search_loop]
  | cons e rest ih =>
    by_cases h : find e.message keyword = none
    · have hn := (find_eq_none_iff e.message keyword).mp h
      simp [LogBuffer.search_loop, h, hn, ih]
    · have hy := (find_ne_none_iff e.message keyword).mp h
      simp [LogBuffer.search_loop, h, hy, ih]

/-- Method `search` returns the formatted entries that contain the keyword, oldest first,
and with the empty keyword one string per stored entry; the buffer is not changed. -/
theorem LogBuffer.search_spec (lib : StdLib) (b : LogBuffer) (keyword : Str) :
    (b.search lib keyword).1 =
        (b.buffer_.filter (fun e => decide (keyword <:+: e.message))).map (format_entry lib) ∧
      (b.search lib []).1 = b.buffer_.map (format_entry lib) ∧
      (b.search lib keyword).2 = b := by
  refine ⟨?_, ?_, rfl⟩
  · simp [LogBuffer.search, LogBuffer.search_loop_eq]
  · simp [LogBuffer.search, LogBuffer.search_loop_eq]

/-- The scenario of the specification: pushes `a`, `b`, `c` with capacity 2 leave `b` then
`c`, with 3 pushes counted and 1 dropped, and `search("")` lists `b` then `c`. -/
theorem LogBuffer.scenario_abc (lib : StdLib) :
    ((LogBuffer.new 2).pushAll
        [PushCall.info "a" 1, PushCall.info "b" 2, PushCall.info "c" 3]).buffer_.map
        LogEntry.message = ["b".toList, "c".toList] ∧
      ((LogBuffer.new 2).pushAll
        [PushCall.info "a" 1, PushCall.info "b" 2, PushCall.info "c" 3]).getStats =
        { totalLogs := 3, droppedLogs := 1 } ∧
      (((LogBuffer.new 2).pushAll
        [PushCall.info "a" 1, PushCall.info "b" 2, PushCall.info "c" 3]).search lib []).1 =
        ["[".toList ++ lib.put_time 2 ++ "] ".toList ++ "b".toList,
         "[".toList ++ lib.put_time 3 ++ "] ".toList ++ "c".toList] :=
  ⟨rfl, rfl, rfl⟩

/-- C1 (defect of the code). The invariant `size() <= capacity` does not hold for capacity 0:
on a fresh `LogBuffer` of capacity 0 one `push` leaves one stored entry, because
`dropOldest_` finds nothing to drop and `push_back` is unconditional. -/
theorem LogBuffer.size_exceeds_capacity_zero :
    ((LogBuffer.new 0).push "a".toList "info".toList "unknown".toList 0).1.size = 1 ∧
      ((LogBuffer.new 0).push "a".toList "info".toList "unknown".toList 0).1.capacity_ = 0 ∧
      ¬ ((LogBuffer.new 0).push "a".toList "info".toList "unknown".toList 0).1.size ≤ 0 := by
  decide

/-- C2 (defect of the code). With capacity 0 the stored entries are not the last
`min(n, c)` pushed messages: after the pushes `a`, `b` the buffer holds `b`, one entry where
`min(2, 0) = 0` are due, and `search("")` returns one string. -/
theorem LogBuffer.contents_capacity_zero :
    ((LogBuffer.new 0).pushAll [PushCall.info "a" 1, PushCall.info "b" 2]).buffer_.map
        LogEntry.message = ["b".toList] ∧
      (["a".toList, "b".toList] : List Str).drop (2 - min 2 0) = [] ∧
      (((LogBuffer.new 0).pushAll [PushCall.info "a" 1, PushCall.info "b" 2]).search
        literal_lib []).1.length = 1 := by
  decide

/-- C3 (defect of the code). With capacity 0 the counter `dropped` is not `max(0, n - c)`:
after one push `getStats` returns total 1 and dropped 0 where `max(0, 1 - 0) = 1` is due,
and after three pushes dropped is 2, not 3. -/
theorem LogBuffer.getStats_capacity_zero :
    ((LogBuffer.new 0).pushAll [PushCall.info "a" 1]).getStats =
        { totalLogs := 1, droppedLogs := 0 } ∧
      ((LogBuffer.new 0).pushAll
        [PushCall.info "a" 1, PushCall.info "b" 2, PushCall.info "c" 3]).getStats =
        { totalLogs := 3, droppedLogs := 2 } ∧
      max 0 (1 - 0) = 1 := by
  decide

/-! ## The matcher -/

/-- C4. For a query with no regex and no time bound, `matches` accepts every entry when the
keyword list is empty; under `AND` it accepts iff every keyword is a substring of the
message; under `OR` (keywords present) it accepts iff at least one keyword is a substring
of the message. -/
theorem ParsedQuery.matches_keywords (lib : StdLib) (q : ParsedQuery) (message : Str)
    (timestamp : Int) (hre : q.compiled_regex_ = none) (hfrom : q.time_from_ = none)
    (hto : q.time_to_ = none) :
    (q.keywords_ = [] → q.matches lib message timestamp = true) ∧
      (q.op_ = OperatorType.AND →
        (q.matches lib message timestamp = true ↔ ∀ kw ∈ q.keywords_, kw <:+: message)) ∧
      (q.op_ = OperatorType.OR → q.keywords_ ≠ [] →
        (q.matches lib message timestamp = true ↔ ∃ kw ∈ q.keywords_, kw <:+: message)) := by
  have h := ParsedQuery.matches_iff lib q message timestamp
  rw [hre, hfrom, hto] at h
  refine ⟨?_, ?_, ?_⟩
  · intro hk
    rw [h]
    simp [hk]
  · intro hop
    rw [h, hop]
    constructor
    · rintro ⟨_, _, hk | hk | hk⟩
      · rw [hk]; simp
      · exact hk.2
      · exact absurd hk.1 (by decide)
    · intro hall
      exact ⟨⟨by simp, by simp⟩, Or.inl rfl, Or.inr (Or.inl ⟨rfl, hall⟩)⟩
  · intro hop hne
    rw [h, hop]
    constructor
    · rintro ⟨_, _, hk | hk | hk⟩
      · exact absurd hk hne
      · exact absurd hk.1 (by decide)
      · exact hk.2
    · intro hex
      exact ⟨⟨by simp, by simp⟩, Or.inl rfl, Or.inr (Or.inr ⟨rfl, hex⟩)⟩

/-- C4, at the keywords `err`, `timeout` under `OR` and the message `err: pipeline failed`:
the query has no regex and no time bound, and it accepts the message. -/
theorem ParsedQuery.matches_keywords_witness :
    (query_err_timeout.compiled_regex_ = none ∧ query_err_timeout.time_from_ = none ∧
      query_err_timeout.time_to_ = none) ∧
    (query_err_timeout.matches literal_lib "err: pipeline failed".toList 0 = true ↔
      ∃ kw ∈ query_err_timeout.keywords_, kw <:+: "err: pipeline failed".toList) :=
  ⟨⟨rfl, rfl, rfl⟩,
    (ParsedQuery.matches_keywords literal_lib query_err_timeout "err: pipeline failed".toList 0
      rfl rfl rfl).2.2 rfl (by decide)⟩

/-- C5. Method `matches` is the conjunction of its three filters: the time window accepts
the timestamp, and there is no regex or the regex is found in the message, and the keyword
filter accepts the message; so also under `OR`. On a platform where the pattern `fail`
compiles and is found in `err: pipeline failed`, the query parsed from
`QUERY keywords=err,timeout operator=OR regex=fail` rejects `pipeline failed quickly` and
accepts `err: pipeline failed`. -/
theorem ParsedQuery.matches_conjunction (lib : StdLib) :
    (∀ (q : ParsedQuery) (message : Str) (timestamp : Int),
      q.matches lib message timestamp = true ↔
        ((∀ f, q.time_from_ = some f → f ≤ timestamp) ∧
          (∀ t, q.time_to_ = some t → timestamp ≤ t)) ∧
        (q.compiled_regex_ = none ∨
          ∃ re, q.compiled_regex_ = some re ∧ lib.regex_search re message = true) ∧
        (q.keywords_ = [] ∨
          (q.op_ = OperatorType.AND ∧ ∀ kw ∈ q.keywords_, kw <:+: message) ∨
          (q.op_ = OperatorType.OR ∧ ∃ kw ∈ q.keywords_, kw <:+: message))) ∧
    (lib.regex_error "fail".toList = none →
      lib.regex_search "fail".toList "err: pipeline failed".toList = true →
      ∃ q, QueryParser.parse lib
          "QUERY keywords=err,timeout operator=OR regex=fail".toList = Except.ok q ∧
        ∀ timestamp : Int,
          q.matches lib "pipeline failed quickly".toList timestamp = false ∧
          q.matches lib "err: pipeline failed".toList timestamp = true) := by
  refine ⟨fun q message timestamp => ParsedQuery.matches_iff lib q message timestamp, ?_⟩
  intro hc hs
  refine ⟨{ keywords_ := ["err".toList, "timeout".toList],
            compiled_regex_ := some "fail".toList, op_ := OperatorType.OR }, ?_, ?_⟩
  · have hseg : QueryParser.parse lib "QUERY keywords=err,timeout operator=OR regex=fail".toList =
        (match QueryParser.parse_segment lib
            { keywords_ := ["err".toList, "timeout".toList], op_ := OperatorType.OR }
            "regex=fail".toList with
          | Except.error e => Except.error e
          | Except.ok q => Except.ok q) := rfl
    have hre : QueryParser.parse_segment lib
        { keywords_ := ["err".toList, "timeout".toList], op_ := OperatorType.OR }
        "regex=fail".toList =
        (match lib.regex_error "fail".toList with
          | some what => Except.error ("Invalid regex pattern: ".toList ++ what)
          | none => Except.ok { keywords_ := ["err".toList, "timeout".toList],
                                compiled_regex_ := some "fail".toList,
                                op_ := OperatorType.OR }) := rfl
    rw [hseg, hre, hc]
  · intro timestamp
    have h1 : ParsedQuery.or_loop "pipeline failed quickly".toList
        ["err".toList, "timeout".toList] = false := by decide
    have h2 : ParsedQuery.or_loop "err: pipeline failed".toList
        ["err".toList, "timeout".toList] = true := by decide
    constructor
    · rw [← Bool.not_eq_true, ParsedQuery.matches_iff]
      rintro ⟨_, _, hk | hk | hk⟩
      · exact absurd hk (by decide)
      · exact absurd hk.1 (by decide)
      · have hor := (ParsedQuery.or_loop_iff _ _).mpr hk.2
        rw [h1] at hor
        exact Bool.noConfusion hor
    · rw [ParsedQuery.matches_iff]
      refine ⟨⟨fun f hf => ?_, fun t ht => ?_⟩, Or.inr ⟨_, rfl, hs⟩,
        Or.inr (Or.inr ⟨rfl, (ParsedQuery.or_loop_iff _ _).mp h2⟩)⟩
      · exact absurd hf (by simp)
      · exact absurd ht (by simp)

/-- C5, on the platform `literal_lib`. -/
theorem ParsedQuery.matches_conjunction_witness :
    (literal_lib.regex_error "fail".toList = none ∧
      literal_lib.regex_search "fail".toList "err: pipeline failed".toList = true) ∧
    ∃ q, QueryParser.parse literal_lib
        "QUERY keywords=err,timeout operator=OR regex=fail".toList = Except.ok q ∧
      ∀ timestamp : Int,
        q.matches literal_lib "pipeline failed quickly".toList timestamp = false ∧
        q.matches literal_lib "err: pipeline failed".toList timestamp = true :=
  ⟨⟨rfl, by decide⟩, (ParsedQuery.matches_conjunction literal_lib).2 rfl (by decide)⟩

/-- C6, as stated, fails for a query that has a time bound and another filter: the query of
`QUERY time_from=5 keywords=x` rejects the message `m` at the timestamp 7, which is not
before `time_from_`, the bound `time_to_` being unset. -/
theorem ParsedQuery.matches_time_window_keyword :
    QueryParser.parse literal_lib "QUERY time_from=5 keywords=x".toList =
        Except.ok { time_from_ := some 5, keywords_ := ["x".toList] } ∧
    ParsedQuery.matches literal_lib { time_from_ := some 5, keywords_ := ["x".toList] }
        "m".toList 7 = false ∧
    (5 : Int) ≤ 7 ∧
    ({ time_from_ := some 5, keywords_ := ["x".toList] } : ParsedQuery).time_to_ = none :=
  ⟨rfl, by decide, by decide, rfl⟩

/-- C6, amended. For an entry that the regex and keyword filters of a query accept, `matches`
rejects iff the timestamp is strictly before `time_from_` or strictly after `time_to_`, an
unset bound rejecting nothing; a timestamp equal to `time_from_` or to `time_to_` is
accepted, unless the other bound rejects it. -/
theorem ParsedQuery.matches_time_window (lib : StdLib) (q : ParsedQuery) (message : Str)
    (timestamp : Int)
    (hrest : ({ q with time_from_ := none, time_to_ := none } : ParsedQuery).matches lib message
      timestamp = true) :
    (q.matches lib message timestamp = false ↔
      (∃ f, q.time_from_ = some f ∧ timestamp < f) ∨
      (∃ t, q.time_to_ = some t ∧ timestamp > t)) ∧
    (q.time_from_ = some timestamp →
      (q.matches lib message timestamp = true ↔ ∀ t, q.time_to_ = some t → timestamp ≤ t)) ∧
    (q.time_to_ = some timestamp →
      (q.matches lib message timestamp = true ↔ ∀ f, q.time_from_ = some f → f ≤ timestamp)) := by
  have h := ParsedQuery.matches_iff lib q message timestamp
  have hr := (ParsedQuery.matches_iff lib
    { q with time_from_ := none, time_to_ := none } message timestamp).mp hrest
  simp only at hr
  have hacc : q.matches lib message timestamp = true ↔
      (∀ f, q.time_from_ = some f → f ≤ timestamp) ∧
      (∀ t, q.time_to_ = some t → timestamp ≤ t) := by
    rw [h]
    constructor
    · exact fun hh => hh.1
    · exact fun hh => ⟨hh, hr.2⟩
  refine ⟨?_, ?_, ?_⟩
  · rw [← Bool.not_eq_true, hacc]
    constructor
    · intro hn
      by_contra hcon
      push_neg at hcon
      apply hn
      exact ⟨fun f hf => not_lt.mp (fun hlt => absurd hlt (not_lt.mpr (hcon.1 f hf))),
        fun t ht => not_lt.mp (fun hlt => absurd hlt (not_lt.mpr (hcon.2 t ht)))⟩
    · rintro (⟨f, hf, hlt⟩ | ⟨t, ht, hgt⟩) hh
      · exact absurd (hh.1 f hf) (not_le.mpr hlt)
      · exact absurd (hh.2 t ht) (not_le.mpr hgt)
  · intro hf
    rw [hacc]
    constructor
    · exact fun hh => hh.2
    · intro hh
      refine ⟨fun f hf2 => ?_, hh⟩
      rw [hf] at hf2
      exact le_of_eq (Option.some.inj hf2).symm
  · intro ht
    rw [hacc]
    constructor
    · exact fun hh => hh.1
    · intro hh
      refine ⟨hh, fun t ht2 => ?_⟩
      rw [ht] at ht2
      exact le_of_eq (Option.some.inj ht2)

/-- C6, amended, at the window from 5 to 9: the timestamps 5 and 9 are accepted, 4 and 10
are rejected. -/
theorem ParsedQuery.matches_time_window_witness :
    (({ query_window with time_from_ := none, time_to_ := none } : ParsedQuery).matches
        literal_lib "m".toList 5 = true) ∧
    ((query_window.matches literal_lib "m".toList 5 = false ↔
      (∃ f, query_window.time_from_ = some f ∧ (5 : Int) < f) ∨
      (∃ t, query_window.time_to_ = some t ∧ (5 : Int) > t)) ∧
    (query_window.time_from_ = some 5 →
      (query_window.matches literal_lib "m".toList 5 = true ↔
        ∀ t, query_window.time_to_ = some t → (5 : Int) ≤ t)) ∧
    (query_window.time_to_ = some 5 →
      (query_window.matches literal_lib "m".toList 5 = true ↔
        ∀ f, query_window.time_from_ = some f → f ≤ (5 : Int)))) ∧
    query_window.matches literal_lib "m".toList 5 = true ∧
    query_window.matches literal_lib "m".toList 9 = true ∧
    query_window.matches literal_lib "m".toList 4 = false ∧
    query_window.matches literal_lib "m".toList 10 = false :=
  ⟨rfl, ParsedQuery.matches_time_window literal_lib query_window "m".toList 5 rfl,
    by decide, by decide, by decide, by decide⟩

/-! ## Enhanced search -/

theorem LogBuffer.searchEnhanced_loop_eq (lib : StdLib) (query : ParsedQuery)
    (entries : List LogEntry) (results : List Str) :
    LogBuffer.searchEnhanced_loop lib query entries results =
      results ++ (entries.filter (fun e => query.matches lib e.message e.timestamp)).map
        (format_entry lib) := by
  induction entries generalizing results with
  | nil => simp [LogBuffer.searchEnhanced_loop]
  | cons e rest ih =>
    by_cases h : query.matches lib e.message e.timestamp = true
    · simp [LogBuffer.searchEnhanced_loop, h, ih]
    · simp [LogBuffer.searchEnhanced_loop, h, ih]

/-- C7. Method `searchEnhanced` returns, oldest first, the string
`"[" ++ put_time(timestamp) ++ "] " ++ message` of each stored entry that the query
matches, and nothing else; the buffer, with its counters, is as before the call. -/
theorem LogBuffer.searchEnhanced_spec (lib : StdLib) (b : LogBuffer) (query : ParsedQuery) :
    (b.searchEnhanced lib query).1 =
        (b.buffer_.filter (fun e => query.matches lib e.message e.timestamp)).map
          (fun e => "[".toList ++ lib.put_time e.timestamp ++ "] ".toList ++ e.message) ∧
      (b.searchEnhanced lib query).2 = b := by
  refine ⟨?_, rfl⟩
  simp only [LogBuffer.searchEnhanced, LogBuffer.searchEnhanced_loop_eq, List.nil_append]
  rfl

/-! ## The parser -/

theorem read_word_length (ss segment rest : Str) (h : read_word ss = some (segment, rest)) :
    rest.length < ss.length := by
  unfold read_word at h
  simp only at h
  split at h
  · exact absurd h (by simp)
  · rename_i hw
    simp only [Option.some.injEq, Prod.mk.injEq] at h
    obtain ⟨hseg, hrest⟩ := h
    have hsplit := List.takeWhile_append_dropWhile (fun c => !isspace c) (ss.dropWhile isspace)
    have hlen := congrArg List.length hsplit
    rw [List.length_append, hseg, hrest] at hlen
    have hpos : 0 < segment.length := by
      rw [← hseg]
      cases hh : List.takeWhile (fun c => !isspace c) (List.dropWhile isspace ss) with
      | nil => rw [hh] at hw; exact absurd rfl hw
      | cons x xs => simp
    have hle : (ss.dropWhile isspace).length ≤ ss.length :=
      (List.dropWhile_sublist isspace).length_le
    omega

/-- The bound on the iterations of the word loop is never reached: any bound of at least the
length of the stream gives the same words. -/
theorem read_words_fuel (n m : Nat) (ss : Str) (hn : ss.length ≤ n) (hm : ss.length ≤ m) :
    read_words n ss = read_words m ss := by
  induction n generalizing m ss with
  | zero =>
    have h0 : ss = [] := List.length_eq_zero.mp (Nat.le_zero.mp hn)
    subst h0
    cases m <;> simp [read_words, read_word]
  | succ n ih =>
    cases m with
    | zero =>
      have h0 : ss = [] := List.length_eq_zero.mp (Nat.le_zero.mp hm)
      subst h0
      simp [read_words, read_word]
    | succ m =>
      simp only [read_words]
      cases hw : read_word ss with
      | none => rfl
      | some pr =>
        obtain ⟨segment, rest⟩ := pr
        have hlt := read_word_length ss segment rest hw
        simp only
        rw [ih m rest (by omega) (by omega)]

theorem getline_length (v_ss keyword rest : Str) (delim : Char)
    (h : getline v_ss delim = some (keyword, rest)) : rest.length < v_ss.length := by
  unfold getline at h
  split at h
  · exact absurd h (by simp)
  · rename_i hne
    simp only [Option.some.injEq, Prod.mk.injEq] at h
    obtain ⟨_, hrest⟩ := h
    rw [← hrest, List.length_drop]
    have hle : (v_ss.dropWhile (fun c => c != delim)).length ≤ v_ss.length :=
      (List.dropWhile_sublist _).length_le
    have hpos : 0 < v_ss.length := by
      cases v_ss with
      | nil => exact absurd rfl hne
      | cons x xs => simp
    omega

/-- The bound on the iterations of the keyword loop is never reached. -/
theorem getlines_fuel (n m : Nat) (v_ss : Str) (hn : v_ss.length ≤ n) (hm : v_ss.length ≤ m) :
    getlines n v_ss = getlines m v_ss := by
  induction n generalizing m v_ss with
  | zero =>
    have h0 : v_ss = [] := List.length_eq_zero.mp (Nat.le_zero.mp hn)
    subst h0
    cases m <;> simp [getlines, getline]
  | succ n ih =>
    cases m with
    | zero =>
      have h0 : v_ss = [] := List.length_eq_zero.mp (Nat.le_zero.mp hm)
      subst h0
      simp [getlines, getline]
    | succ m =>
      simp only [getlines]
      cases hw : getline v_ss ','  with
      | none => rfl
      | some pr =>
        obtain ⟨keyword, rest⟩ := pr
        have hlt := getline_length v_ss keyword rest ','  hw
        simp only
        rw [ih m rest (by omega) (by omega)]

/-- A segment whose key is none of the six literals, as they are written in lower case, is
skipped by `parse`: the query is left as it was. -/
theorem QueryParser.parse_segment_other_key (lib : StdLib) (q : ParsedQuery) (seg : Str)
    (pos : Nat) (hpos : find_char seg '=' = some pos)
    (hkey : substr seg 0 pos ∉ ["keywords".toList, "keyword".toList, "regex".toList,
      "time_from".toList, "time_to".toList, "operator".toList]) :
    QueryParser.parse_segment lib q seg = Except.ok q := by
  simp only [List.mem_cons, List.mem_singleton, List.not_mem_nil, or_false, not_or] at hkey
  obtain ⟨h1, h2, h3, h4, h5, h6⟩ := hkey
  unfold QueryParser.parse_segment
  rw [hpos]
  simp only
  rw [if_neg (fun h => h.elim h1 h2), if_neg h3, if_neg h4, if_neg h5, if_neg h6]

/-- C8 (defect of the code). Function `parse` compares parameter keys exactly, not without
regard to case: `keywords=err` sets the keyword `err`, while `KEYWORDS=err` and
`Keyword=err` are ignored, as are `Regex=`, `TIME_FROM=`, `Time_To=` and `OPERATOR=`. -/
theorem QueryParser.parse_keys_case_sensitive (lib : StdLib) :
    QueryParser.parse lib "QUERY keywords=err".toList =
        Except.ok { keywords_ := ["err".toList] } ∧
      QueryParser.parse lib "QUERY KEYWORDS=err".toList = Except.ok {} ∧
      QueryParser.parse lib "QUERY Keyword=err".toList = Except.ok {} ∧
      QueryParser.parse lib "QUERY operator=OR".toList =
        Except.ok { op_ := OperatorType.OR } ∧
      QueryParser.parse lib "QUERY OPERATOR=OR".toList = Except.ok {} ∧
      QueryParser.parse lib "QUERY Regex=fail TIME_FROM=5 Time_To=9".toList = Except.ok {} ∧
      QueryParser.parse_segment lib {} "KEYWORDS=err".toList = Except.ok {} :=
  ⟨rfl, rfl, rfl, rfl, rfl, rfl,
    QueryParser.parse_segment_other_key lib {} "KEYWORDS=err".toList 8 rfl (by decide)⟩

/-- C9 (defect of the code). Function `parse` keeps every keyword of the list, with no limit
of 10: `keywords=a,b,c,d,e,f,g,h,i,j,k` gives 11 keywords, and two `keywords=` parameters
of 6 keywords each give 12. -/
theorem QueryParser.parse_keywords_unbounded (lib : StdLib) :
    QueryParser.parse lib "QUERY keywords=a,b,c,d,e,f,g,h,i,j,k".toList =
        Except.ok { keywords_ := ["a".toList, "b".toList, "c".toList, "d".toList, "e".toList,
          "f".toList, "g".toList, "h".toList, "i".toList, "j".toList, "k".toList] } ∧
      (∃ q, QueryParser.parse lib
          "QUERY keywords=a,b,c,d,e,f keywords=g,h,i,j,k,l".toList = Except.ok q ∧
        q.keywords_.length = 12) :=
  ⟨rfl, ⟨_, rfl, rfl⟩⟩

theorem QueryParser.parse_segment_op (lib : StdLib) (q0 q1 : ParsedQuery) (seg : Str)
    (h : QueryParser.parse_segment lib q0 seg = Except.ok q1) :
    q1.op_ = OperatorType.OR ↔ (q0.op_ = OperatorType.OR ∨ QueryParser.selects_or seg) := by
  unfold QueryParser.parse_segment at h
  unfold QueryParser.selects_or
  cases hfc : find_char seg '=' with
  | none =>
    rw [hfc] at h
    simp only [Except.ok.injEq] at h
    subst h
    simp
  | some pos =>
    rw [hfc] at h
    simp only at h
    by_cases hop : substr seg 0 pos = "operator".toList
    · have e1 : ¬ (substr seg 0 pos = "keywords".toList ∨ substr seg 0 pos = "keyword".toList) := by
        rw [hop]; decide
      have e2 : ¬ substr seg 0 pos = "regex".toList := by rw [hop]; decide
      have e3 : ¬ substr seg 0 pos = "time_from".toList := by rw [hop]; decide
      have e4 : ¬ substr seg 0 pos = "time_to".toList := by rw [hop]; decide
      rw [if_neg e1, if_neg e2, if_neg e3, if_neg e4, if_pos hop] at h
      by_cases hv : (substr_from seg (pos + 1)).map toupper = "OR".toList
      · rw [if_pos hv] at h
        simp only [Except.ok.injEq] at h
        subst h
        constructor
        · intro _
          exact Or.inr ⟨pos, rfl, hop, hv⟩
        · intro _
          rfl
      · rw [if_neg hv] at h
        simp only [Except.ok.injEq] at h
        subst h
        constructor
        · exact fun hh => Or.inl hh
        · rintro (hh | ⟨pos2, hp2, _, hv2⟩)
          · exact hh
          · have : pos2 = pos := (Option.some.inj hp2).symm
            subst this
            exact absurd hv2 hv
    · have hsel : ¬ ∃ pos2, some pos = some pos2 ∧ substr seg 0 pos2 = "operator".toList ∧
          (substr_from seg (pos2 + 1)).map toupper = "OR".toList := by
        rintro ⟨pos2, hp2, hk2, _⟩
        have : pos2 = pos := (Option.some.inj hp2).symm
        subst this
        exact hop hk2
      have hsame : q1.op_ = q0.op_ := by
        split at h
        · simp only [Except.ok.injEq] at h
          subst h
          rfl
        · split at h
          · split at h
            · exact absurd h (by simp)
            · simp only [Except.ok.injEq] at h
              subst h
              rfl
          · split at h
            · split at h
              · exact absurd h (by simp)
              · simp only [Except.ok.injEq] at h
                subst h
                rfl
            · split at h
              · split at h
                · exact absurd h (by simp)
                · simp only [Except.ok.injEq] at h
                  subst h
                  rfl
              · simp only [Except.ok.injEq] at h
                subst h
                rfl
      rw [hsame]
      constructor
      · exact fun hh => Or.inl hh
      · rintro (hh | hh)
        · exact hh
        · exact absurd hh hsel

theorem QueryParser.parse_loop_op (lib : StdLib) (segs : List Str) (q0 q : ParsedQuery)
    (h : QueryParser.parse_loop lib segs q0 = Except.ok q) :
    q.op_ = OperatorType.OR ↔
      (q0.op_ = OperatorType.OR ∨ ∃ seg ∈ segs, QueryParser.selects_or seg) := by
  induction segs generalizing q0 with
  | nil =>
    simp only [QueryParser.parse_loop, Except.ok.injEq] at h
    subst h
    simp
  | cons seg rest ih =>
    simp only [QueryParser.parse_loop] at h
    cases hs : QueryParser.parse_segment lib q0 seg with
    | error e =>
      rw [hs] at h
      exact absurd h (by simp)
    | ok q1 =>
      rw [hs] at h
      simp only at h
      rw [ih q1 h, QueryParser.parse_segment_op lib q0 q1 seg hs]
      simp only [List.mem_cons, exists_eq_or_imp, or_assoc]

/-- C10, as stated, fails: the value `or` is something other than `OR`, and no segment of
`QUERY operator=or` is `operator=OR`, yet `parse` sets the operator to `OR`. -/
theorem QueryParser.parse_operator_lowercase :
    QueryParser.parse literal_lib "QUERY operator=or".toList =
        Except.ok { op_ := OperatorType.OR } ∧
      QueryParser.segments "QUERY operator=or".toList = ["operator=or".toList] ∧
      "operator=OR".toList ∉ QueryParser.segments "QUERY operator=or".toList ∧
      "or".toList ≠ "OR".toList :=
  ⟨rfl, rfl, by decide, by decide⟩

theorem QueryParser.selects_or_names_or (seg : Str) (h : QueryParser.selects_or seg) :
    QueryParser.names_or seg := by
  obtain ⟨pos, hpos, hkey, hvalue⟩ := h
  refine ⟨pos, hpos, ?_, hvalue⟩
  rw [hkey]
  rfl

/-- C10 (amended). When `parse` returns a query: its operator is `OR` when one of the
segments (the whitespace-separated words after the first) has the key `operator` and a value
that is `OR` in some letter-casing (`OR`, `or`, `Or`, `oR`); its operator is `AND` when no
segment has a key that is `operator` in some letter-casing together with such a value (no
operator parameter at all, or only values that are not `OR` in any letter-casing). Nothing
is said of a segment whose key is `operator` in another letter-casing, such as
`OPERATOR=OR`. -/
theorem QueryParser.parse_operator (lib : StdLib) (query_string : Str) (q : ParsedQuery)
    (h : QueryParser.parse lib query_string = Except.ok q) :
    ((∃ seg ∈ QueryParser.segments query_string, QueryParser.selects_or seg) →
      q.op_ = OperatorType.OR) ∧
    ((¬ ∃ seg ∈ QueryParser.segments query_string, QueryParser.names_or seg) →
      q.op_ = OperatorType.AND) := by
  have hor := QueryParser.parse_loop_op lib (QueryParser.segments query_string) {} q h
  refine ⟨fun hs => hor.mpr (Or.inr hs), fun hn => ?_⟩
  cases hq : q.op_ with
  | AND => rfl
  | OR =>
    rcases hor.mp hq with h0 | ⟨seg, hmem, hsel⟩
    · exact absurd h0 (by decide)
    · exact absurd ⟨seg, hmem, QueryParser.selects_or_names_or seg hsel⟩ hn

/-- C10 (amended), at `QUERY keywords=a operator=Or`, where the parse gives `OR`, and at
`QUERY keywords=a` and `QUERY operator=XOR`, where it gives `AND`. -/
theorem QueryParser.parse_operator_witness :
    QueryParser.parse literal_lib "QUERY keywords=a operator=Or".toList =
        Except.ok { keywords_ := ["a".toList], op_ := OperatorType.OR } ∧
    (∃ seg ∈ QueryParser.segments "QUERY keywords=a operator=Or".toList,
        QueryParser.selects_or seg) ∧
    (((∃ seg ∈ QueryParser.segments "QUERY keywords=a operator=Or".toList,
        QueryParser.selects_or seg) → OperatorType.OR = OperatorType.OR) ∧
     ((¬ ∃ seg ∈ QueryParser.segments "QUERY keywords=a operator=Or".toList,
        QueryParser.names_or seg) → OperatorType.OR = OperatorType.AND)) ∧
    QueryParser.parse literal_lib "QUERY keywords=a".toList =
        Except.ok { keywords_ := ["a".toList] } ∧
    QueryParser.parse literal_lib "QUERY operator=XOR".toList = Except.ok {} :=
  ⟨rfl, ⟨"operator=Or".toList, by decide, 8, rfl, rfl, rfl⟩,
   QueryParser.parse_operator literal_lib "QUERY keywords=a operator=Or".toList
    { keywords_ := ["a".toList], op_ := OperatorType.OR } rfl, rfl, rfl⟩


/-! ## The query handler -/

theorem stol_cases (value : Str) :
    stol value = Except.error "stol".toList ∨ ∃ v, stol value = Except.ok v := by
  unfold stol
  dsimp only
  repeat' split
  all_goals first | exact Or.inl rfl | exact Or.inr ⟨_, rfl⟩

theorem stol_error (value e : Str) (h : stol value = Except.error e) : e = "stol".toList := by
  rcases stol_cases value with h1 | ⟨v, h1⟩
  · rw [h1] at h
    cases h
    rfl
  · rw [h1] at h
    cases h

/-- What `parse` throws for a segment: the text of `std::runtime_error` made from the
message of the regex library, or the text `stol`. -/
theorem QueryParser.parse_segment_error (lib : StdLib) (q : ParsedQuery) (seg e : Str)
    (h : QueryParser.parse_segment lib q seg = Except.error e) :
    (∃ p w, lib.regex_error p = some w ∧ e = "Invalid regex pattern: ".toList ++ w) ∨
      e = "stol".toList := by
  unfold QueryParser.parse_segment at h
  split at h
  · exact absurd h (by simp)
  · rename_i pos _
    simp only at h
    split at h
    · exact absurd h (by simp)
    · split at h
      · split at h
        · rename_i w hw
          simp only [Except.error.injEq] at h
          exact Or.inl ⟨_, w, hw, h.symm⟩
        · exact absurd h (by simp)
      · split at h
        · split at h
          · rename_i e2 he
            simp only [Except.error.injEq] at h
            right
            rw [← h]
            exact stol_error _ _ he
          · exact absurd h (by simp)
        · split at h
          · split at h
            · rename_i e2 he
              simp only [Except.error.injEq] at h
              right
              rw [← h]
              exact stol_error _ _ he
            · exact absurd h (by simp)
          · split at h
            · split at h <;> exact absurd h (by simp)
            · exact absurd h (by simp)

theorem QueryParser.parse_loop_error (lib : StdLib) (segs : List Str) (q : ParsedQuery) (e : Str)
    (h : QueryParser.parse_loop lib segs q = Except.error e) :
    (∃ p w, lib.regex_error p = some w ∧ e = "Invalid regex pattern: ".toList ++ w) ∨
      e = "stol".toList := by
  induction segs generalizing q with
  | nil => simp [QueryParser.parse_loop] at h
  | cons seg rest ih =>
    simp only [QueryParser.parse_loop] at h
    cases hs : QueryParser.parse_segment lib q seg with
    | error e2 =>
      rw [hs] at h
      simp only [Except.error.injEq] at h
      rw [← h]
      exact QueryParser.parse_segment_error lib q seg e2 hs
    | ok q1 =>
      rw [hs] at h
      exact ih q1 h

/-- A segment on which `parse` throws makes `parse_segment` fail whatever the query built so
far. -/
theorem QueryParser.parse_segment_throws (lib : StdLib) (q : ParsedQuery) (seg : Str)
    (h : QueryParser.throws_on lib seg) :
    ∃ e, QueryParser.parse_segment lib q seg = Except.error e := by
  obtain ⟨pos, hpos, hcase⟩ := h
  unfold QueryParser.parse_segment
  rw [hpos]
  simp only
  rcases hcase with ⟨hkey, hre⟩ | ⟨hkey, e, he⟩
  · have e1 : ¬ (substr seg 0 pos = "keywords".toList ∨ substr seg 0 pos = "keyword".toList) := by
      rw [hkey]; decide
    rw [if_neg e1, if_pos hkey]
    cases hw : lib.regex_error (substr_from seg (pos + 1)) with
    | none => exact absurd hw hre
    | some w => exact ⟨_, rfl⟩
  · rcases hkey with hkey | hkey
    · have e1 : ¬ (substr seg 0 pos = "keywords".toList ∨
          substr seg 0 pos = "keyword".toList) := by rw [hkey]; decide
      have e2 : ¬ substr seg 0 pos = "regex".toList := by rw [hkey]; decide
      rw [if_neg e1, if_neg e2, if_pos hkey, he]
      exact ⟨_, rfl⟩
    · have e1 : ¬ (substr seg 0 pos = "keywords".toList ∨
          substr seg 0 pos = "keyword".toList) := by rw [hkey]; decide
      have e2 : ¬ substr seg 0 pos = "regex".toList := by rw [hkey]; decide
      have e3 : ¬ substr seg 0 pos = "time_from".toList := by rw [hkey]; decide
      rw [if_neg e1, if_neg e2, if_neg e3, if_pos hkey, he]
      exact ⟨_, rfl⟩

theorem QueryParser.parse_loop_throws (lib : StdLib) (segs : List Str) (q : ParsedQuery)
    (h : ∃ seg ∈ segs, QueryParser.throws_on lib seg) :
    ∃ e, QueryParser.parse_loop lib segs q = Except.error e := by
  induction segs generalizing q with
  | nil =>
    obtain ⟨seg, hmem, _⟩ := h
    exact absurd hmem (List.not_mem_nil seg)
  | cons seg rest ih =>
    simp only [QueryParser.parse_loop]
    cases hs : QueryParser.parse_segment lib q seg with
    | error e2 => exact ⟨e2, rfl⟩
    | ok q1 =>
      simp only
      apply ih
      obtain ⟨seg2, hmem, hthrow⟩ := h
      rcases List.mem_cons.mp hmem with heq | hmem2
      · subst heq
        obtain ⟨e, he⟩ := QueryParser.parse_segment_throws lib q seg2 hthrow
        rw [hs] at he
        exact absurd he (by simp)
      · exact ⟨seg2, hmem2, hthrow⟩

theorem QueryHandler.processQuery_buffer (lib : StdLib) (buffer_ : LogBuffer) (query : Str) :
    (QueryHandler.processQuery lib buffer_ query).2 = buffer_ := by
  unfold QueryHandler.processQuery QueryHandler.handleSearch
  split
  · split <;> rfl
  · split
    · rfl
    · split
      · rfl
      · split <;> rfl

/-- C11. Method `processQuery` is total: for every command it returns a response and the
buffer it was given. For a `QUERY` command with a `regex=` parameter that does not compile,
or a `time_from=` or `time_to=` parameter that `stol` does not convert, the response is
`ERROR: ` followed by the message of the exception and a newline; the message has no
newline when those of the regex library have none. -/
theorem QueryHandler.processQuery_error (lib : StdLib) (buffer_ : LogBuffer) (query : Str) :
    (QueryHandler.processQuery lib buffer_ query).2 = buffer_ ∧
    (find query "QUERY".toList = some 0 →
      (∃ seg ∈ QueryParser.segments query, QueryParser.throws_on lib seg) →
      ∃ what, (QueryHandler.processQuery lib buffer_ query).1 =
          "ERROR: ".toList ++ what ++ "\n".toList ∧
        ((∀ p w, lib.regex_error p = some w → '\n' ∉ w) → '\n' ∉ what)) := by
  refine ⟨QueryHandler.processQuery_buffer lib buffer_ query, ?_⟩
  intro hq hbad
  obtain ⟨e, he⟩ := QueryParser.parse_loop_throws lib (QueryParser.segments query) {} hbad
  have hparse : QueryParser.parse lib query = Except.error e := he
  refine ⟨e, ?_, ?_⟩
  · unfold QueryHandler.processQuery QueryHandler.handleSearch
    rw [if_pos hq, hparse]
  · intro hlib
    rcases QueryParser.parse_loop_error lib _ _ e he with ⟨p, w, hw, hew⟩ | hstol
    · rw [hew]
      intro hmem
      rcases List.mem_append.mp hmem with h1 | h1
      · revert h1
        decide
      · exact hlib p w hw h1
    · rw [hstol]
      decide

/-- C11, at the commands `QUERY time_from=soon` and `QUERY regex=[` on a platform whose
regex library rejects the pattern `[`. -/
theorem QueryHandler.processQuery_error_witness :
    (find "QUERY time_from=soon".toList "QUERY".toList = some 0 ∧
      ∃ seg ∈ QueryParser.segments "QUERY time_from=soon".toList,
        QueryParser.throws_on literal_lib seg) ∧
    (∃ what, (QueryHandler.processQuery literal_lib (LogBuffer.new 4)
          "QUERY time_from=soon".toList).1 = "ERROR: ".toList ++ what ++ "\n".toList ∧
        ((∀ p w, literal_lib.regex_error p = some w → '\n' ∉ w) → '\n' ∉ what)) ∧
    (QueryHandler.processQuery literal_lib (LogBuffer.new 4) "QUERY time_from=soon".toList).1 =
      "ERROR: stol\n".toList ∧
    (QueryHandler.processQuery brackets_lib (LogBuffer.new 4) "QUERY regex=[".toList).1 =
      "ERROR: Invalid regex pattern: bracket\n".toList :=
  ⟨⟨rfl, ⟨"time_from=soon".toList, by decide, 9, rfl, Or.inr ⟨Or.inl rfl, _, rfl⟩⟩⟩,
    (QueryHandler.processQuery_error literal_lib (LogBuffer.new 4)
      "QUERY time_from=soon".toList).2 rfl
      ⟨"time_from=soon".toList, by decide, 9, rfl, Or.inr ⟨Or.inl rfl, _, rfl⟩⟩,
    rfl, rfl⟩

/-! ## Sending -/

theorem IRCServer.deref_eq (s : IRCServer) (client : Nat) (c : IRCClient)
    (hc : s.clients[client]? = some c) : s.deref client = c := by
  unfold IRCServer.deref
  rw [hc]
  rfl

/-- A message whose last two characters are not CR-LF is sent with CR-LF added. -/
theorem IRCClient.sendMessage_append (s : IRCServer) (client : Nat) (pre : Str) (a b : Char)
    (hab : [a, b] ≠ "\r\n".toList) (hfd : (s.deref client).fd_ ≠ -1) :
    IRCClient.sendMessage s client (pre ++ [a, b]) =
      { s with sent := s.sent ++ [((s.deref client).fd_, pre ++ [a, b] ++ "\r\n".toList)] } := by
  unfold IRCClient.sendMessage
  rw [if_neg hfd]
  have hsub : substr_from (pre ++ [a, b]) ((pre ++ [a, b]).length - 2) = [a, b] := by
    unfold substr_from
    have hlen : (pre ++ [a, b]).length - 2 = pre.length := by simp
    rw [hlen, List.drop_left]
  have hcond : (pre ++ [a, b]).length < 2 ∨
      substr_from (pre ++ [a, b]) ((pre ++ [a, b]).length - 2) ≠ "\r\n".toList := by
    right
    rw [hsub]
    exact hab
  simp only [if_pos hcond]

/-- A numeric reply whose text does not end in CR-LF: one message, to the descriptor of the
client, and nothing else changes. -/
theorem IRCClient.sendNumericReply_append (s : IRCServer) (client : Nat) (code : Nat)
    (pre : Str) (a b : Char) (hab : [a, b] ≠ "\r\n".toList) (hfd : (s.deref client).fd_ ≠ -1) :
    IRCClient.sendNumericReply s client code (pre ++ [a, b]) =
      { s with sent := s.sent ++ [((s.deref client).fd_,
          IRCCommandParser.formatReply "logcaster-irc".toList
            (if (s.deref client).nickname_.isEmpty then "*".toList
              else (s.deref client).nickname_) code (pre ++ [a, b]) ++ "\r\n".toList)] } := by
  unfold IRCClient.sendNumericReply
  simp only
  have hfmt : ∀ nick : Str, IRCCommandParser.formatReply "logcaster-irc".toList nick code
      (pre ++ [a, b]) =
      (":".toList ++ "logcaster-irc".toList ++ " ".toList ++ decimal code ++ " ".toList ++
        nick ++ " ".toList ++ pre) ++ [a, b] := by
    intro nick
    unfold IRCCommandParser.formatReply
    simp only [List.append_assoc]
  rw [hfmt, IRCClient.sendMessage_append s client _ a b hab hfd]

/-- C14. For a session that is not AUTHENTICATED and a command with a name other than `NICK`,
`USER` and `QUIT`, `handleCommand` sends the one line
`:logcaster-irc 451 <nick or *> :You have not registered` to the session, and leaves every
client, both registries and every channel as they were. -/
theorem IRCCommandHandler.handleCommand_not_registered (s : IRCServer) (client : Nat)
    (c : IRCClient) (cmd : IRCCommand) (hc : s.clients[client]? = some c)
    (hfd : c.fd_ ≠ -1) (hstate : c.state_ ≠ IRCClient.State.AUTHENTICATED)
    (hname : cmd.command ≠ []) (hnick : cmd.command ≠ "NICK".toList)
    (huser : cmd.command ≠ "USER".toList) (hquit : cmd.command ≠ "QUIT".toList) :
    IRCCommandHandler.handleCommand s client cmd =
      { s with sent := s.sent ++ [(c.fd_,
          ":logcaster-irc 451 ".toList ++
            (if c.nickname_.isEmpty then "*".toList else c.nickname_) ++
            " :You have not registered\r\n".toList)] } := by
  have hd := IRCServer.deref_eq s client c hc
  unfold IRCCommandHandler.handleCommand
  have h1 : ¬ ((s.clients[client]?).isNone = true ∨ cmd.command.isEmpty = true) := by
    rw [hc]
    simp [hname]
  have h2 : (!(s.deref client).isAuthenticated) = true ∧ cmd.command ≠ "NICK".toList ∧
      cmd.command ≠ "USER".toList ∧ cmd.command ≠ "QUIT".toList := by
    refine ⟨?_, hnick, huser, hquit⟩
    rw [hd]
    simp [IRCClient.isAuthenticated, hstate]
  rw [if_neg h1, if_pos h2]
  unfold IRCClient.sendErrorReply
  have hsend := IRCClient.sendNumericReply_append s client 451
    ":You have not register".toList 'e' 'd' (by decide) (by rw [hd]; exact hfd)
  have htext : ":You have not registered".toList = ":You have not register".toList ++ ['e', 'd'] :=
    rfl
  rw [htext, hsend, hd]
  have hdec : decimal 451 = "451".toList := rfl
  simp only [IRCCommandParser.formatReply, hdec]
  congr 1
  simp only [List.append_assoc]
  rfl

/-- C14, as stated, fails for the command with an empty name that `parse` makes of the line
` JOIN #x`: `handleCommand` returns at its first test and sends nothing. -/
theorem IRCCommandHandler.handleCommand_empty_name :
    (IRCCommandParser.parse " JOIN #x".toList).command = [] ∧
    (IRCCommandParser.parse " JOIN #x".toList).command ≠ "NICK".toList ∧
    (IRCCommandParser.parse " JOIN #x".toList).command ≠ "USER".toList ∧
    (IRCCommandParser.parse " JOIN #x".toList).command ≠ "QUIT".toList ∧
    (((IRCServer.started []).acceptClient 5 "10.0.0.1:4000".toList).deref 0).state_ =
      IRCClient.State.CONNECTED ∧
    IRCCommandHandler.handleCommand
        ((IRCServer.started []).acceptClient 5 "10.0.0.1:4000".toList) 0
        (IRCCommandParser.parse " JOIN #x".toList) =
      (IRCServer.started []).acceptClient 5 "10.0.0.1:4000".toList ∧
    (IRCCommandHandler.handleCommand
        ((IRCServer.started []).acceptClient 5 "10.0.0.1:4000".toList) 0
        (IRCCommandParser.parse " JOIN #x".toList)).sent = [] := by
  decide

/-- C14 (amended), at a session that has just connected and the command `JOIN #x`. -/
theorem IRCCommandHandler.handleCommand_not_registered_witness :
    IRCCommandHandler.handleCommand
        ((IRCServer.started []).acceptClient 5 "10.0.0.1:4000".toList) 0
        (IRCCommandParser.parse "JOIN #x".toList) =
      { (IRCServer.started []).acceptClient 5 "10.0.0.1:4000".toList with
        sent := [(5, ":logcaster-irc 451 * :You have not registered\r\n".toList)] } :=
  IRCCommandHandler.handleCommand_not_registered
    ((IRCServer.started []).acceptClient 5 "10.0.0.1:4000".toList) 0
    (IRCClient.new 5 "10.0.0.1:4000".toList) (IRCCommandParser.parse "JOIN #x".toList)
    rfl (by decide) (by decide) (by decide) (by decide) (by decide) (by decide)

/-- C16. When the nickname `n` of a `NICK` command is, after lower-casing, the key of an
entry of the nickname registry, the session is sent the one line
`:logcaster-irc 433 <nick or *> <n> :Nickname is already in use`, and every client, both
registries and every channel are left as they were. -/
theorem IRCCommandHandler.handleNICK_in_use (s : IRCServer) (client : Nat) (c : IRCClient)
    (cmd : IRCCommand) (n m : Str) (rest : List Str) (holder : Nat)
    (hc : s.clients[client]? = some c) (hfd : c.fd_ ≠ -1)
    (hcmd : cmd.command = "NICK".toList) (hparams : cmd.params = n :: rest)
    (hm : IRCClientManager.getClientByNickname s m = some holder)
    (hn : n.map tolower = m.map tolower) :
    IRCCommandHandler.handleCommand s client cmd =
      { s with sent := s.sent ++ [(c.fd_,
          ":logcaster-irc 433 ".toList ++
            (if c.nickname_.isEmpty then "*".toList else c.nickname_) ++ " ".toList ++ n ++
            " :Nickname is already in use\r\n".toList)] } := by
  have hd := IRCServer.deref_eq s client c hc
  unfold IRCCommandHandler.handleCommand
  have h1 : ¬ ((s.clients[client]?).isNone = true ∨ cmd.command.isEmpty = true) := by
    rw [hc, hcmd]
    simp
  have h2 : ¬ ((!(s.deref client).isAuthenticated) = true ∧ cmd.command ≠ "NICK".toList ∧
      cmd.command ≠ "USER".toList ∧ cmd.command ≠ "QUIT".toList) := fun h => h.2.1 hcmd
  rw [if_neg h1, if_neg h2, if_pos hcmd]
  unfold IRCCommandHandler.handleNICK
  have hp : cmd.params.isEmpty = false := by rw [hparams]; rfl
  have hg : cmd.getParam 0 = n := by
    unfold IRCCommand.getParam
    rw [hparams]
    simp
  have havail : IRCClientManager.isNicknameAvailable s n = false := by
    unfold IRCClientManager.isNicknameAvailable IRCClientManager.normalizeNickname
    unfold IRCClientManager.getClientByNickname IRCClientManager.normalizeNickname at hm
    rw [hn, hm]
    rfl
  simp only [hp, hg, havail, Bool.false_eq_true, if_false, Bool.not_false, if_true]
  unfold IRCClient.sendErrorReply
  have hsend := IRCClient.sendNumericReply_append s client 433
    (n ++ " :Nickname is already in u".toList) 's' 'e' (by decide) (by rw [hd]; exact hfd)
  have htext : n ++ " :Nickname is already in use".toList =
      (n ++ " :Nickname is already in u".toList) ++ ['s', 'e'] := by
    rw [List.append_assoc]
    rfl
  rw [htext, hsend, hd]
  have hdec : decimal 433 = "433".toList := rfl
  simp only [IRCCommandParser.formatReply, hdec]
  congr 1
  simp only [List.append_assoc]
  rfl

/-- C16, at a second connection that asks for `ALICE` while `alice` is registered. -/
theorem IRCCommandHandler.handleNICK_in_use_witness :
    IRCCommandHandler.handleCommand
        ((irc_start.run trace_register).acceptClient 6 "10.0.0.2:4000".toList) 1
        (IRCCommandParser.parse "NICK ALICE".toList) =
      { (irc_start.run trace_register).acceptClient 6 "10.0.0.2:4000".toList with
        sent := ((irc_start.run trace_register).acceptClient 6 "10.0.0.2:4000".toList).sent ++
          [(6, ":logcaster-irc 433 * ALICE :Nickname is already in use\r\n".toList)] } :=
  IRCCommandHandler.handleNICK_in_use
    ((irc_start.run trace_register).acceptClient 6 "10.0.0.2:4000".toList) 1
    (IRCClient.new 6 "10.0.0.2:4000".toList) (IRCCommandParser.parse "NICK ALICE".toList)
    "ALICE".toList "alice".toList [] 0 rfl (by decide) rfl rfl rfl rfl

/-! ## Traces that show defects -/

/-- C15 (defect of the code). After `NICK alice` and `USER a b c :A` on a new connection the
session is AUTHENTICATED and exactly four replies were sent, in the order `RPL_WELCOME`,
`RPL_YOURHOST`, `RPL_CREATED`, `RPL_MYINFO`; but `formatReply` writes the code with
`oss << code`, so the numeric field of the lines is `1`, `2`, `3`, `4`, not `001` to `004`. -/
theorem IRCServer.welcome_numerics :
    ((irc_start.run trace_register).deref 0).state_ = IRCClient.State.AUTHENTICATED ∧
    (irc_start.run trace_register).sent =
      [(5, ":logcaster-irc 1 alice :Welcome to the LogCaster IRC Network alice!a@b\r\n".toList),
       (5, ":logcaster-irc 2 alice :Your host is logcaster-irc, running version 1.0\r\n".toList),
       (5, ":logcaster-irc 3 alice :This server was created Sun Nov  1 06:00:00 2026\r\n".toList),
       (5, ":logcaster-irc 4 alice logcaster-irc 1.0 o o\r\n".toList)] ∧
    IRCCommandParser.formatReply "logcaster-irc".toList "alice".toList 1 ":Welcome".toList =
      ":logcaster-irc 1 alice :Welcome".toList ∧
    IRCCommandParser.formatReply "logcaster-irc".toList "alice".toList 1 ":Welcome".toList ≠
      ":logcaster-irc 001 alice :Welcome".toList := by
  decide

/-- C17 (defect of the code). A session that has the nickname `alice` and sends `NICK bob`
gets the nickname `bob`, and `alice` is free; but `handleNICK` has removed the session from
`clientsByFd_` (with `removeClient`), so `registerNickname` finds no client and registers
nothing: the lookup of `bob` returns no session, the session is not registered under its
descriptor any more, and its next line is not dispatched. -/
theorem IRCServer.rename_unregisters :
    ((irc_start.run trace_rename).deref 0).nickname_ = "bob".toList ∧
    IRCClientManager.isNicknameAvailable (irc_start.run trace_rename) "alice".toList = true ∧
    IRCClientManager.getClientByNickname (irc_start.run trace_rename) "bob".toList = none ∧
    IRCClientManager.getClientByFd (irc_start.run trace_rename) 5 = none ∧
    (irc_start.run trace_rename).processClientData 5 "USER a b c :A".toList =
      irc_start.run trace_rename ∧
    IRCClientManager.getClientByFd (irc_start.run (trace_rename.take 2)) 5 = some 0 ∧
    IRCClientManager.getClientByNickname (irc_start.run (trace_rename.take 2)) "alice".toList =
      some 0 := by
  decide

/-- C12 (defect of the code). Two distinct client objects, both AUTHENTICATED and both
members of `#x`, have the nickname `bob`: the first changed its nickname from `alice` to
`bob`, which `handleNICK` did not register, so the second could take `bob`. The reply to
`NAMES #x` lists `bob bob`. -/
theorem IRCServer.two_sessions_one_nickname :
    (irc_start.run trace_two_bobs).clients.map (fun c => (c.fd_, c.nickname_, c.state_)) =
      [(5, "bob".toList, IRCClient.State.AUTHENTICATED),
       (6, "bob".toList, IRCClient.State.AUTHENTICATED)] ∧
    (IRCChannelManager.getChannel (irc_start.run trace_two_bobs) "#x".toList).map
        (fun channel => channel.clients_) = some [("alice".toList, 0), ("bob".toList, 1)] ∧
    ((irc_start.run trace_two_bobs).processClientData 6 "NAMES #x".toList).sent.drop
        (irc_start.run trace_two_bobs).sent.length =
      [(6, ":logcaster-irc 353 bob = #x :bob bob \r\n".toList),
       (6, ":logcaster-irc 366 bob #x :End of /NAMES list.\r\n".toList)] := by
  decide

/-- C13 (defect of the code). The client object of the first connection has `#x` and `#y` in
its channel set and is still held by the member map of `#y`, but it is not in the member
map of `#x`: after it changed its nickname from `alice` to `bob` (which left its entries
under the key `alice`), the second connection, now `alice`, joined `#x` and `addClient`
overwrote the entry. Straight after the change of nickname already, `hasClient` of its
nickname is false for a channel of its channel set. -/
theorem IRCServer.membership_not_symmetric :
    ((irc_start.run trace_member_lost).deref 0).channels_ = ["#x".toList, "#y".toList] ∧
    (IRCChannelManager.getChannel (irc_start.run trace_member_lost) "#x".toList).map
        (fun channel => channel.clients_) = some [("alice".toList, 1)] ∧
    (IRCChannelManager.getChannel (irc_start.run trace_member_lost) "#y".toList).map
        (fun channel => channel.clients_) = some [("alice".toList, 0)] ∧
    ((irc_start.run (trace_member_lost.take 5)).deref 0).isInChannel "#x".toList = true ∧
    (IRCChannelManager.getChannel (irc_start.run (trace_member_lost.take 5)) "#x".toList).map
        (fun channel => channel.hasClient
          ((irc_start.run (trace_member_lost.take 5)).deref 0).nickname_) = some false := by
  decide

/-- C18, as stated, fails after `QUIT`: the session keeps its nickname and its username and
stays registered under its descriptor, and its state is DISCONNECTED, not AUTHENTICATED. -/
theorem IRCServer.quit_keeps_names :
    ((irc_start.run trace_quit).deref 0).nickname_ = "alice".toList ∧
    ((irc_start.run trace_quit).deref 0).username_ = "a".toList ∧
    ((irc_start.run trace_quit).deref 0).state_ = IRCClient.State.DISCONNECTED ∧
    IRCClientManager.getClientByFd (irc_start.run trace_quit) 5 = some 0 := by
  decide

/-! ## Containers -/

theorem map_find_none_iff {κ α : Type} [DecidableEq κ] (key : κ) (m : List (κ × α)) :
    map_find key m = none ↔ ∀ e ∈ m, e.1 ≠ key := by
  induction m with
  | nil => simp [map_find]
  | cons e rest ih =>
    obtain ⟨k, v⟩ := e
    by_cases hk : k = key
    · simp [map_find, hk]
    · simp [map_find, hk, ih]

theorem map_find_mem {κ α : Type} [DecidableEq κ] (key : κ) (m : List (κ × α)) (v : α)
    (h : map_find key m = some v) : (key, v) ∈ m := by
  induction m with
  | nil => simp [map_find] at h
  | cons e rest ih =>
    obtain ⟨k, w⟩ := e
    by_cases hk : k = key
    · simp only [map_find, hk, if_true, Option.some.injEq] at h
      rw [hk, h]
      exact List.mem_cons_self _ _
    · simp only [map_find, hk, if_false] at h
      exact List.mem_cons_of_mem _ (ih h)

theorem map_find_append {κ α : Type} [DecidableEq κ] (key : κ) (m m2 : List (κ × α)) :
    map_find key (m ++ m2) =
      match map_find key m with
      | some v => some v
      | none => map_find key m2 := by
  induction m with
  | nil => simp [map_find]
  | cons e rest ih =>
    obtain ⟨k, w⟩ := e
    by_cases hk : k = key
    · simp [map_find, hk]
    · simp [map_find, hk, ih]

theorem map_replace_absent {κ α : Type} [DecidableEq κ] (key : κ) (value : α) (m : List (κ × α))
    (h : map_find key m = none) :
    m.map (fun e => if e.1 = key then (key, value) else e) = m := by
  have hne := (map_find_none_iff key m).mp h
  have : ∀ e ∈ m, (fun e : κ × α => if e.1 = key then (key, value) else e) e = e := by
    intro e he
    simp [hne e he]
  rw [List.map_congr_left this, List.map_id']

theorem umap_set_absent {κ α : Type} [DecidableEq κ] (key : κ) (value : α) (m : List (κ × α))
    (h : map_find key m = none) : umap_set key value m = m ++ [(key, value)] := by
  unfold umap_set
  rw [h]
  rfl

theorem umap_set_last {κ α : Type} [DecidableEq κ] (key : κ) (v1 v2 : α) (m : List (κ × α))
    (h : map_find key m = none) :
    umap_set key v2 (m ++ [(key, v1)]) = m ++ [(key, v2)] := by
  unfold umap_set
  have hfind : map_find key (m ++ [(key, v1)]) = some v1 := by
    rw [map_find_append, h]
    simp [map_find]
  rw [hfind]
  simp only [Option.isSome_some, if_true, List.map_append, List.map_cons, List.map_nil]
  rw [map_replace_absent key v2 m h]

theorem set_insert_mem (x : Str) (l : List Str) : x ∈ set_insert x l := by
  induction l with
  | nil => simp [set_insert]
  | cons y rest ih =>
    unfold set_insert
    by_cases h1 : y = x
    · simp [h1]
    · by_cases h2 : str_lt x y = true
      · simp [h1, h2]
      · simp [h1, h2, ih]

/-- A name with no comma in it is one channel name for `splitChannels`. -/
theorem IRCCommandParser.splitChannels_single (name : Str) (hne : name ≠ [])
    (hcomma : ',' ∉ name) : IRCCommandParser.splitChannels name = [name] := by
  unfold IRCCommandParser.splitChannels
  cases hlen : name.length with
  | zero => exact absurd (List.length_eq_zero.mp hlen) hne
  | succ n =>
    have htake : name.takeWhile (fun c => c != ',') = name := by
      rw [List.takeWhile_eq_self_iff]
      intro c hc
      simp only [bne_iff_ne, ne_eq]
      intro hcc
      exact hcomma (hcc ▸ hc)
    have hdrop : name.dropWhile (fun c => c != ',') = [] := by
      rw [List.dropWhile_eq_nil_iff]
      intro c hc
      simp only [bne_iff_ne, ne_eq]
      intro hcc
      exact hcomma (hcc ▸ hc)
    have hempty : name.isEmpty = false := by
      cases name with
      | nil => exact absurd rfl hne
      | cons x xs => rfl
    have hnil : ∀ k, getlines k [] = [] := by
      intro k
      cases k <;> simp [getlines, getline]
    simp only [getlines, getline, hempty, htake, hdrop, hnil, List.drop_nil,
      Bool.false_eq_true, if_false]
    simp [hempty]

/-! ## JOIN of a channel that does not exist -/

theorem list_modify_getElem {α : Type} (f : α → α) (i j : Nat) (l : List α) :
    (list_modify f i l)[j]? = if j = i then (l[j]?).map f else l[j]? := by
  induction l generalizing i j with
  | nil => simp [list_modify]
  | cons x xs ih =>
    cases i with
    | zero =>
      cases j with
      | zero => simp [list_modify]
      | succ j => simp [list_modify]
    | succ i =>
      cases j with
      | zero => simp [list_modify]
      | succ j => simp [list_modify, ih]

theorem IRCServer.deref_modifyClient (s : IRCServer) (client : Nat) (c : IRCClient)
    (f : IRCClient → IRCClient) (hc : s.clients[client]? = some c) :
    (s.modifyClient client f).deref client = f c := by
  unfold IRCServer.deref IRCServer.modifyClient
  simp only
  rw [list_modify_getElem, if_pos rfl, hc]
  rfl

/-- C19. For an AUTHENTICATED session and a name that is not in the channel table (not empty,
without comma): when the name starts with `#logs-`, `JOIN` sends the one line
`:logcaster-irc 403 <nick> <name> :Log channel does not exist` and changes nothing else;
otherwise it adds to the table a NORMAL channel of that name whose only member and only
operator is the joiner, puts the name into the channel set of the joiner, and sends the
`JOIN` line to the joiner. -/
theorem IRCCommandHandler.handleJOIN_absent (s : IRCServer) (client : Nat) (c : IRCClient)
    (cmd : IRCCommand) (name : Str) (rest : List Str)
    (hc : s.clients[client]? = some c) (hfd : c.fd_ ≠ -1)
    (hstate : c.state_ = IRCClient.State.AUTHENTICATED)
    (hcmd : cmd.command = "JOIN".toList) (hparams : cmd.params = name :: rest)
    (hne : name ≠ []) (hcomma : ',' ∉ name)
    (habsent : IRCChannelManager.getChannel s name = none) :
    (is_log_name name = true →
      IRCCommandHandler.handleCommand s client cmd =
        { s with sent := s.sent ++ [(c.fd_,
            ":logcaster-irc 403 ".toList ++
              (if c.nickname_.isEmpty then "*".toList else c.nickname_) ++ " ".toList ++ name ++
              " :Log channel does not exist\r\n".toList)] }) ∧
    (is_log_name name = false →
      (IRCCommandHandler.handleCommand s client cmd).channels_ =
          s.channels_ ++ [(name,
            { name_ := name, type_ := IRCChannel.ChannelType.NORMAL,
              clients_ := [(c.nickname_, client)], operators_ := [c.nickname_] })] ∧
        (IRCCommandHandler.handleCommand s client cmd).clients =
          list_modify (fun c => c.joinChannel name) client s.clients ∧
        name ∈ ((IRCCommandHandler.handleCommand s client cmd).deref client).channels_ ∧
        (IRCCommandHandler.handleCommand s client cmd).clientsByFd_ = s.clientsByFd_ ∧
        (IRCCommandHandler.handleCommand s client cmd).clientsByNick_ = s.clientsByNick_ ∧
        (IRCCommandHandler.handleCommand s client cmd).sent =
          (IRCClient.sendMessage s client
            (":".toList ++ c.getFullIdentifier ++ " JOIN :".toList ++ name)).sent) := by
  have hd := IRCServer.deref_eq s client c hc
  have hauth : (s.deref client).isAuthenticated = true := by
    rw [hd]
    simp [IRCClient.isAuthenticated, hstate]
  have h1 : ¬ ((s.clients[client]?).isNone = true ∨ cmd.command.isEmpty = true) := by
    rw [hc, hcmd]
    simp
  have h2 : ¬ ((!(s.deref client).isAuthenticated) = true ∧ cmd.command ≠ "NICK".toList ∧
      cmd.command ≠ "USER".toList ∧ cmd.command ≠ "QUIT".toList) := by
    rw [hauth]
    simp
  have h3 : ¬ cmd.command = "NICK".toList := by rw [hcmd]; decide
  have h4 : ¬ cmd.command = "USER".toList := by rw [hcmd]; decide
  have hp : cmd.params.isEmpty = false := by rw [hparams]; rfl
  have hg : cmd.getParam 0 = name := by
    unfold IRCCommand.getParam
    rw [hparams]
    simp
  have hfind : map_find name s.channels_ = none := habsent
  have hexists : IRCChannelManager.channelExists s name = false := by
    unfold IRCChannelManager.channelExists
    rw [hfind]
    rfl
  have hcommand : IRCCommandHandler.handleCommand s client cmd =
      IRCCommandHandler.handleJOIN_loop client [name] s := by
    unfold IRCCommandHandler.handleCommand
    rw [if_neg h1, if_neg h2, if_neg h3, if_neg h4, if_pos hcmd]
    unfold IRCCommandHandler.handleJOIN
    simp only [hp, hg, Bool.false_eq_true, if_false]
    rw [IRCCommandParser.splitChannels_single name hne hcomma]
  rw [hcommand]
  constructor
  · intro hlog
    simp only [IRCCommandHandler.handleJOIN_loop, hlog, hexists, Bool.not_false, and_self,
      if_true]
    unfold IRCClient.sendErrorReply
    have hsend := IRCClient.sendNumericReply_append s client 403
      (name ++ " :Log channel does not exi".toList) 's' 't' (by decide) (by rw [hd]; exact hfd)
    have htext : name ++ " :Log channel does not exist".toList =
        (name ++ " :Log channel does not exi".toList) ++ ['s', 't'] := by
      rw [List.append_assoc]
      rfl
    rw [htext, hsend, hd]
    have hdec : decimal 403 = "403".toList := rfl
    simp only [IRCCommandParser.formatReply, hdec]
    congr 1
    simp only [List.append_assoc]
    rfl
  · intro hlog
    have hisnone : (s.clients[client]?).isNone = false := by rw [hc]; rfl
    have hjoin : IRCCommandHandler.handleJOIN_loop client [name] s =
        IRCChannelManager.joinChannel_enter
          (s.setChannel name { name_ := name, type_ := IRCChannel.ChannelType.NORMAL }) client
          name { name_ := name, type_ := IRCChannel.ChannelType.NORMAL } := by
      simp only [IRCCommandHandler.handleJOIN_loop, hlog, Bool.false_eq_true, false_and,
        if_false, IRCChannelManager.joinChannel, hisnone, hauth, Bool.not_true, or_self, hfind,
        Bool.not_false, if_true]
    rw [hjoin]
    have hd0 : (s.setChannel name
        { name_ := name, type_ := IRCChannel.ChannelType.NORMAL }).deref client = c := by
      unfold IRCServer.deref IRCServer.setChannel
      simp only
      rw [hc]
      rfl
    have hadd : IRCChannel.addClient
        (s.setChannel name { name_ := name, type_ := IRCChannel.ChannelType.NORMAL })
        { name_ := name, type_ := IRCChannel.ChannelType.NORMAL } client =
        { name_ := name, type_ := IRCChannel.ChannelType.NORMAL,
          clients_ := [(c.nickname_, client)], operators_ := [c.nickname_] } := by
      unfold IRCChannel.addClient
      rw [hd0]
      rfl
    unfold IRCChannelManager.joinChannel_enter
    simp only [hadd]
    unfold IRCChannelManager.sendJoinMessages IRCChannel.broadcast
    simp only [IRCChannel.broadcast_loop]
    have hchan : umap_set name
        ({ name_ := name, type_ := IRCChannel.ChannelType.NORMAL,
           clients_ := [(c.nickname_, client)], operators_ := [c.nickname_] } : IRCChannel)
        (umap_set name { name_ := name, type_ := IRCChannel.ChannelType.NORMAL } s.channels_) =
        s.channels_ ++ [(name,
          { name_ := name, type_ := IRCChannel.ChannelType.NORMAL,
            clients_ := [(c.nickname_, client)], operators_ := [c.nickname_] })] := by
      rw [umap_set_absent name _ s.channels_ hfind, umap_set_last name _ _ s.channels_ hfind]
    have hd2 : (((s.setChannel name
        { name_ := name, type_ := IRCChannel.ChannelType.NORMAL }).setChannel name
        { name_ := name, type_ := IRCChannel.ChannelType.NORMAL,
          clients_ := [(c.nickname_, client)], operators_ := [c.nickname_] }).modifyClient client
        (fun c => c.joinChannel name)).deref client = c.joinChannel name := by
      apply IRCServer.deref_modifyClient
      exact hc
    have hfd2 : (c.joinChannel name).fd_ = c.fd_ := rfl
    have hid2 : (c.joinChannel name).getFullIdentifier = c.getFullIdentifier := rfl
    unfold IRCClient.sendMessage
    rw [hd2, hd, hfd2, hid2]
    rw [if_neg hfd, if_neg hfd]
    simp only [IRCServer.setChannel, IRCServer.modifyClient, hchan]
    refine ⟨trivial, trivial, ?_, trivial, trivial, trivial⟩
    unfold IRCServer.deref
    simp only
    rw [list_modify_getElem, if_pos rfl, hc]
    exact set_insert_mem name c.channels_

/-! ## What the sending methods leave unchanged -/

theorem IRCServer.same_but_sent_refl (s : IRCServer) : s.same_but_sent s :=
  ⟨rfl, rfl, rfl, rfl, rfl⟩

theorem IRCServer.same_but_sent_trans {s t u : IRCServer} (h1 : s.same_but_sent t)
    (h2 : t.same_but_sent u) : s.same_but_sent u :=
  ⟨h2.1.trans h1.1, h2.2.1.trans h1.2.1, h2.2.2.1.trans h1.2.2.1,
    h2.2.2.2.1.trans h1.2.2.2.1, h2.2.2.2.2.trans h1.2.2.2.2⟩

theorem IRCClient.sendMessage_same (s : IRCServer) (client : Nat) (message : Str) :
    s.same_but_sent (IRCClient.sendMessage s client message) := by
  unfold IRCClient.sendMessage
  split
  · exact IRCServer.same_but_sent_refl s
  · exact ⟨rfl, rfl, rfl, rfl, rfl⟩

theorem IRCClient.sendNumericReply_same (s : IRCServer) (client : Nat) (code : Nat)
    (params : Str) : s.same_but_sent (IRCClient.sendNumericReply s client code params) :=
  IRCClient.sendMessage_same s client _

theorem IRCClient.sendErrorReply_same (s : IRCServer) (client : Nat) (code : Nat)
    (params : Str) : s.same_but_sent (IRCClient.sendErrorReply s client code params) :=
  IRCClient.sendMessage_same s client _

theorem IRCChannel.broadcast_loop_same (message : Str) (members : List (Str × Nat))
    (s : IRCServer) : s.same_but_sent (IRCChannel.broadcast_loop message members s) := by
  induction members generalizing s with
  | nil => exact IRCServer.same_but_sent_refl s
  | cons e rest ih =>
    obtain ⟨nick, client⟩ := e
    exact IRCServer.same_but_sent_trans (IRCClient.sendMessage_same s client message) (ih _)

theorem IRCChannel.broadcast_same (s : IRCServer) (channel : IRCChannel) (message : Str) :
    s.same_but_sent (IRCChannel.broadcast s channel message) :=
  IRCChannel.broadcast_loop_same message channel.clients_ s

theorem IRCChannel.broadcastExcept_loop_same (message exceptNick : Str)
    (members : List (Str × Nat)) (s : IRCServer) :
    s.same_but_sent (IRCChannel.broadcastExcept_loop message exceptNick members s) := by
  induction members generalizing s with
  | nil => exact IRCServer.same_but_sent_refl s
  | cons e rest ih =>
    obtain ⟨nick, client⟩ := e
    unfold IRCChannel.broadcastExcept_loop
    split
    · exact IRCServer.same_but_sent_trans (IRCClient.sendMessage_same s client message) (ih _)
    · exact ih s

theorem IRCChannel.broadcastExcept_same (s : IRCServer) (channel : IRCChannel)
    (message exceptNick : Str) :
    s.same_but_sent (IRCChannel.broadcastExcept s channel message exceptNick) :=
  IRCChannel.broadcastExcept_loop_same message exceptNick channel.clients_ s

theorem IRCCommandHandler.sendWelcome_same (s : IRCServer) (client : Nat) :
    s.same_but_sent (IRCCommandHandler.sendWelcome s client) := by
  unfold IRCCommandHandler.sendWelcome
  exact IRCServer.same_but_sent_trans (IRCClient.sendNumericReply_same s client _ _)
    (IRCServer.same_but_sent_trans (IRCClient.sendNumericReply_same _ client _ _)
      (IRCServer.same_but_sent_trans (IRCClient.sendNumericReply_same _ client _ _)
        (IRCClient.sendNumericReply_same _ client _ _)))

theorem IRCCommandHandler.handlePING_same (s : IRCServer) (client : Nat) (cmd : IRCCommand) :
    s.same_but_sent (IRCCommandHandler.handlePING s client cmd) :=
  IRCClient.sendMessage_same s client _

theorem IRCCommandHandler.handleLIST_loop_same (client : Nat) (names : List Str)
    (s : IRCServer) : s.same_but_sent (IRCCommandHandler.handleLIST_loop client names s) := by
  induction names generalizing s with
  | nil => exact IRCServer.same_but_sent_refl s
  | cons name rest ih =>
    unfold IRCCommandHandler.handleLIST_loop
    split
    · exact IRCServer.same_but_sent_trans (IRCClient.sendMessage_same s client _) (ih _)
    · exact ih s

theorem IRCCommandHandler.handleNAMES_loop_same (client : Nat) (names : List Str)
    (s : IRCServer) : s.same_but_sent (IRCCommandHandler.handleNAMES_loop client names s) := by
  induction names generalizing s with
  | nil => exact IRCServer.same_but_sent_refl s
  | cons name rest ih =>
    unfold IRCCommandHandler.handleNAMES_loop
    split
    · exact IRCServer.same_but_sent_trans (IRCClient.sendNumericReply_same s client _ _)
        (IRCServer.same_but_sent_trans (IRCClient.sendNumericReply_same _ client _ _) (ih _))
    · exact ih s

theorem IRCCommandHandler.handleNAMES_same (s : IRCServer) (client : Nat) (cmd : IRCCommand) :
    s.same_but_sent (IRCCommandHandler.handleNAMES s client cmd) := by
  unfold IRCCommandHandler.handleNAMES
  split
  · exact IRCCommandHandler.handleNAMES_loop_same client _ s
  · exact IRCCommandHandler.handleNAMES_loop_same client _ s

theorem IRCCommandHandler.handlePRIVMSG_same (s : IRCServer) (client : Nat) (cmd : IRCCommand) :
    s.same_but_sent (IRCCommandHandler.handlePRIVMSG s client cmd) := by
  unfold IRCCommandHandler.handlePRIVMSG
  split
  · exact IRCClient.sendErrorReply_same s client _ _
  · split
    · exact IRCClient.sendErrorReply_same s client _ _
    · simp only
      split
      · split
        · exact IRCClient.sendErrorReply_same s client _ _
        · split
          · exact IRCClient.sendErrorReply_same s client _ _
          · exact IRCChannel.broadcastExcept_same s _ _ _
      · split
        · exact IRCClient.sendErrorReply_same s client _ _
        · exact IRCClient.sendMessage_same s _ _

theorem IRCCommandHandler.handleQUIT_loop_same (client : Nat) (quitNotice : Str)
    (names : List Str) (s : IRCServer) :
    s.same_but_sent (IRCCommandHandler.handleQUIT_loop client quitNotice names s) := by
  induction names generalizing s with
  | nil => exact IRCServer.same_but_sent_refl s
  | cons name rest ih =>
    unfold IRCCommandHandler.handleQUIT_loop
    split
    · exact IRCServer.same_but_sent_trans (IRCChannel.broadcastExcept_same s _ _ _) (ih _)
    · exact ih s


/-! ## More on the containers -/

theorem map_find_replace {κ α : Type} [DecidableEq κ] (key key2 : κ) (value : α)
    (m : List (κ × α)) :
    map_find key2 (m.map (fun e => if e.1 = key then (key, value) else e)) =
      if key2 = key then (if (map_find key m).isSome then some value else none)
      else map_find key2 m := by
  induction m with
  | nil => simp [map_find]
  | cons e rest ih =>
    obtain ⟨k, w⟩ := e
    rw [List.map_cons]
    by_cases hk : k = key
    · have hf : (if (k, w).1 = key then (key, value) else (k, w)) = (key, value) := if_pos hk
      rw [hf]
      simp only [map_find]
      by_cases h2 : key2 = key
      · rw [if_pos h2.symm, if_pos h2]
        simp [hk]
      · rw [if_neg (fun h => h2 h.symm), if_neg h2, ih, if_neg h2]
        rw [if_neg (fun h : k = key2 => h2 (h.symm.trans hk))]
    · have hf : (if (k, w).1 = key then (key, value) else (k, w)) = (k, w) := if_neg hk
      rw [hf]
      simp only [map_find]
      by_cases h4 : k = key2
      · rw [if_pos h4, if_neg (fun h : key2 = key => hk (h4.trans h)), if_pos h4]
      · rw [if_neg h4, ih, if_neg h4]
        by_cases h2 : key2 = key
        · rw [if_pos h2, if_pos h2]
          simp [hk]
        · rw [if_neg h2, if_neg h2]

theorem map_find_umap_set {κ α : Type} [DecidableEq κ] (key key2 : κ) (value : α)
    (m : List (κ × α)) :
    map_find key2 (umap_set key value m) =
      if key2 = key then some value else map_find key2 m := by
  unfold umap_set
  by_cases hp : (map_find key m).isSome = true
  · rw [if_pos hp, map_find_replace, if_pos hp]
  · rw [if_neg hp, map_find_append]
    have hnone : map_find key m = none := by
      cases hf : map_find key m with
      | none => rfl
      | some v => rw [hf] at hp; exact absurd rfl hp
    by_cases h2 : key2 = key
    · rw [h2, hnone]
      simp [map_find]
    · have h3 : ¬ key = key2 := fun h => h2 h.symm
      cases hf : map_find key2 m with
      | none => simp [map_find, h2, h3]
      | some v => simp [h2]

theorem mem_umap_set {κ α : Type} [DecidableEq κ] (key : κ) (value : α) (m : List (κ × α))
    (e : κ × α) (h : e ∈ umap_set key value m) : e = (key, value) ∨ (e ∈ m ∧ e.1 ≠ key) := by
  unfold umap_set at h
  by_cases hp : (map_find key m).isSome = true
  · rw [if_pos hp] at h
    obtain ⟨e0, he0, hf⟩ := List.mem_map.mp h
    by_cases hk : e0.1 = key
    · rw [if_pos hk] at hf
      exact Or.inl hf.symm
    · rw [if_neg hk] at hf
      rw [← hf]
      exact Or.inr ⟨he0, hk⟩
  · rw [if_neg hp] at h
    have hnone : map_find key m = none := by
      cases hf : map_find key m with
      | none => rfl
      | some v => rw [hf] at hp; exact absurd rfl hp
    rcases List.mem_append.mp h with h1 | h1
    · exact Or.inr ⟨h1, (map_find_none_iff key m).mp hnone e h1⟩
    · exact Or.inl (List.mem_singleton.mp h1)

theorem mem_map_erase {κ α : Type} [DecidableEq κ] (key : κ) (m : List (κ × α)) (e : κ × α) :
    e ∈ map_erase key m ↔ e ∈ m ∧ e.1 ≠ key := by
  unfold map_erase
  simp [List.mem_filter]

theorem map_erase_cons {κ α : Type} [DecidableEq κ] (key : κ) (e : κ × α)
    (m : List (κ × α)) :
    map_erase key (e :: m) = if e.1 = key then map_erase key m else e :: map_erase key m := by
  unfold map_erase
  by_cases hk : e.1 = key
  · rw [if_pos hk, List.filter_cons_of_neg]
    simp [hk]
  · rw [if_neg hk, List.filter_cons_of_pos]
    simp [hk]

theorem map_find_map_erase {κ α : Type} [DecidableEq κ] (key key2 : κ) (m : List (κ × α)) :
    map_find key2 (map_erase key m) = if key2 = key then none else map_find key2 m := by
  induction m with
  | nil => simp [map_find, map_erase]
  | cons e rest ih =>
    obtain ⟨k, w⟩ := e
    rw [map_erase_cons]
    by_cases hk : k = key
    · rw [if_pos hk, ih]
      by_cases h2 : key2 = key
      · rw [if_pos h2, if_pos h2]
      · rw [if_neg h2, if_neg h2]
        simp only [map_find]
        rw [if_neg (fun h : k = key2 => h2 (h.symm.trans hk))]
    · rw [if_neg hk]
      simp only [map_find]
      by_cases h4 : k = key2
      · rw [if_pos h4, if_pos h4, if_neg (fun h : key2 = key => hk (h4.trans h))]
      · rw [if_neg h4, if_neg h4, ih]

theorem map_erase_replace {κ α : Type} [DecidableEq κ] (key : κ) (value : α)
    (m : List (κ × α)) :
    map_erase key (m.map (fun e => if e.1 = key then (key, value) else e)) =
      map_erase key m := by
  induction m with
  | nil => rfl
  | cons e rest ih =>
    rw [List.map_cons, map_erase_cons, map_erase_cons, ih]
    by_cases hk : e.1 = key
    · have hf : (if e.1 = key then (key, value) else e) = (key, value) := if_pos hk
      rw [hf, if_pos rfl, if_pos hk]
    · have hf : (if e.1 = key then (key, value) else e) = e := if_neg hk
      rw [hf, if_neg hk]

theorem map_erase_umap_set {κ α : Type} [DecidableEq κ] (key : κ) (value : α)
    (m : List (κ × α)) : map_erase key (umap_set key value m) = map_erase key m := by
  unfold umap_set
  by_cases hp : (map_find key m).isSome = true
  · rw [if_pos hp, map_erase_replace]
  · rw [if_neg hp]
    unfold map_erase
    simp [List.filter_append]

theorem omap_set_ne_nil {α : Type} (key : Str) (value : α) (m : List (Str × α)) :
    omap_set key value m ≠ [] := by
  cases m with
  | nil => simp [omap_set]
  | cons e rest =>
    obtain ⟨k, v⟩ := e
    unfold omap_set
    split
    · simp
    · split <;> simp


/-! ## The channel table -/

theorem channel_inv_set (channels : List (Str × IRCChannel)) (name : Str) (channel : IRCChannel)
    (hinv : channel_inv channels)
    (hnormal : channel.type_ = IRCChannel.ChannelType.NORMAL →
      channel.clients_ ≠ [] ∧ is_log_name name = false)
    (hlog : ∀ old, map_find name channels = some old →
      old.type_ = IRCChannel.ChannelType.LOG_STREAM →
      channel.type_ = IRCChannel.ChannelType.LOG_STREAM) :
    channel_inv (umap_set name channel channels) := by
  obtain ⟨⟨c1, hf1, ht1⟩, ⟨c2, hf2, ht2⟩, hall⟩ := hinv
  refine ⟨?_, ?_, ?_⟩
  · rw [map_find_umap_set]
    by_cases hk : "#logs-all".toList = name
    · rw [if_pos hk]
      exact ⟨channel, rfl, hlog c1 (hk ▸ hf1) ht1⟩
    · rw [if_neg hk]
      exact ⟨c1, hf1, ht1⟩
  · rw [map_find_umap_set]
    by_cases hk : "#logs-error".toList = name
    · rw [if_pos hk]
      exact ⟨channel, rfl, hlog c2 (hk ▸ hf2) ht2⟩
    · rw [if_neg hk]
      exact ⟨c2, hf2, ht2⟩
  · intro e he hty
    rcases mem_umap_set name channel channels e he with heq | ⟨hmem, _⟩
    · rw [heq] at hty ⊢
      exact hnormal hty
    · exact hall e hmem hty

theorem channel_inv_erase (channels : List (Str × IRCChannel)) (name : Str)
    (hinv : channel_inv channels) (hname : is_log_name name = false) :
    channel_inv (map_erase name channels) := by
  obtain ⟨⟨c1, hf1, ht1⟩, ⟨c2, hf2, ht2⟩, hall⟩ := hinv
  have hk1 : ¬ "#logs-all".toList = name := by
    intro h
    rw [← h] at hname
    revert hname
    decide
  have hk2 : ¬ "#logs-error".toList = name := by
    intro h
    rw [← h] at hname
    revert hname
    decide
  refine ⟨?_, ?_, ?_⟩
  · rw [map_find_map_erase, if_neg hk1]
    exact ⟨c1, hf1, ht1⟩
  · rw [map_find_map_erase, if_neg hk2]
    exact ⟨c2, hf2, ht2⟩
  · intro e he hty
    exact hall e ((mem_map_erase name channels e).mp he).1 hty

theorem IRCServer.modifyClient_channels (s : IRCServer) (client : Nat)
    (f : IRCClient → IRCClient) : (s.modifyClient client f).channels_ = s.channels_ := rfl

theorem IRCChannelManager.joinChannel_enter_channels (s : IRCServer) (client : Nat)
    (channelName : Str) (channel : IRCChannel) :
    (IRCChannelManager.joinChannel_enter s client channelName channel).channels_ =
      umap_set channelName (IRCChannel.addClient s channel client) s.channels_ := by
  unfold IRCChannelManager.joinChannel_enter IRCChannelManager.sendJoinMessages
  simp only
  rw [(IRCChannel.broadcast_same _ _ _).2.2.2.1]
  rfl

theorem IRCChannel.addClient_type (s : IRCServer) (channel : IRCChannel) (client : Nat) :
    (IRCChannel.addClient s channel client).type_ = channel.type_ := rfl

theorem IRCChannel.addClient_clients (s : IRCServer) (channel : IRCChannel) (client : Nat) :
    (IRCChannel.addClient s channel client).clients_ ≠ [] :=
  omap_set_ne_nil _ _ _

/-- Method `joinChannel` keeps the invariant of the channel table. -/
theorem IRCChannelManager.joinChannel_inv (s : IRCServer) (client : Nat) (channelName : Str)
    (hinv : channel_inv s.channels_) :
    channel_inv (IRCChannelManager.joinChannel s client channelName).1.channels_ := by
  unfold IRCChannelManager.joinChannel
  split
  · exact hinv
  · cases hfind : map_find channelName s.channels_ with
    | none =>
      simp only
      by_cases hlog : is_log_name channelName = true
      · simp only [hlog, Bool.not_true, Bool.false_eq_true, if_false]
        exact hinv
      · have hlog2 : is_log_name channelName = false := by
          cases h : is_log_name channelName with
          | true => exact absurd h hlog
          | false => rfl
        simp only [hlog2, Bool.not_false, if_true]
        rw [IRCChannelManager.joinChannel_enter_channels]
        simp only [IRCServer.setChannel]
        rw [umap_set_absent channelName _ s.channels_ hfind,
          umap_set_last channelName _ _ s.channels_ hfind,
          ← umap_set_absent channelName _ s.channels_ hfind]
        apply channel_inv_set _ _ _ hinv
        · intro _
          exact ⟨IRCChannel.addClient_clients _ _ _, hlog2⟩
        · intro old hold
          rw [hfind] at hold
          exact absurd hold (by simp)
    | some channel =>
      simp only
      rw [IRCChannelManager.joinChannel_enter_channels]
      apply channel_inv_set _ _ _ hinv
      · intro hty
        refine ⟨IRCChannel.addClient_clients _ _ _, ?_⟩
        rw [IRCChannel.addClient_type] at hty
        exact (hinv.2.2 (channelName, channel) (map_find_mem _ _ _ hfind) hty).2
      · intro old hold hty
        rw [hfind] at hold
        rw [IRCChannel.addClient_type]
        cases hold
        exact hty

/-- Method `partChannel` keeps the invariant of the channel table. -/
theorem IRCChannelManager.partChannel_inv (s : IRCServer) (client : Nat)
    (channelName reason : Str) (hinv : channel_inv s.channels_) :
    channel_inv (IRCChannelManager.partChannel s client channelName reason).1.channels_ := by
  unfold IRCChannelManager.partChannel
  split
  · exact hinv
  · cases hfind : IRCChannelManager.getChannel s channelName with
    | none => exact hinv
    | some channel =>
      simp only
      split
      · exact hinv
      · have hsame := IRCChannel.broadcast_same s channel
          (":".toList ++ (s.deref client).getFullIdentifier ++ " PART ".toList ++
            channel.name_ ++ (if !reason.isEmpty then " :".toList ++ reason else []))
        have hch : (IRCChannelManager.sendPartMessages s channel client reason).channels_ =
            s.channels_ := hsame.2.2.2.1
        have hmem : (channelName, channel) ∈ s.channels_ := map_find_mem _ _ _ hfind
        split
        · rename_i hcond
          unfold IRCChannelManager.removeChannel
          have hlog : is_log_name channelName = false := by
            cases h : is_log_name channelName with
            | true => rw [h] at hcond; simp at hcond
            | false => rfl
          simp only [hlog, Bool.false_eq_true, if_false, IRCServer.modifyClient,
            IRCServer.setChannel, hch]
          rw [map_erase_umap_set]
          exact channel_inv_erase _ _ hinv hlog
        · rename_i hcond
          simp only [IRCServer.modifyClient, IRCServer.setChannel, hch]
          apply channel_inv_set _ _ _ hinv
          · intro hty
            have hall := hinv.2.2 (channelName, channel) hmem hty
            refine ⟨?_, hall.2⟩
            intro hempty
            apply hcond
            refine ⟨?_, ?_⟩
            · unfold IRCChannel.getClientCount
              rw [hempty]
              rfl
            · rw [hall.2]
              rfl
          · intro old hold hty
            have hold2 : map_find channelName s.channels_ = some channel := hfind
            rw [hold2] at hold
            cases hold
            exact hty


theorem IRCChannelManager.partAllChannels_loop_inv (client : Nat) (reason : Str)
    (names : List Str) (s : IRCServer) (hinv : channel_inv s.channels_) :
    channel_inv (IRCChannelManager.partAllChannels_loop client reason names s).channels_ := by
  induction names generalizing s with
  | nil => exact hinv
  | cons name rest ih =>
    exact ih _ (IRCChannelManager.partChannel_inv s client name reason hinv)

theorem IRCChannelManager.partAllChannels_inv (s : IRCServer) (client : Nat) (reason : Str)
    (hinv : channel_inv s.channels_) :
    channel_inv (IRCChannelManager.partAllChannels s client reason).channels_ := by
  unfold IRCChannelManager.partAllChannels
  split
  · exact hinv
  · exact IRCChannelManager.partAllChannels_loop_inv client reason _ s hinv

theorem IRCCommandHandler.handleJOIN_loop_inv (client : Nat) (names : List Str)
    (s : IRCServer) (hinv : channel_inv s.channels_) :
    channel_inv (IRCCommandHandler.handleJOIN_loop client names s).channels_ := by
  induction names generalizing s with
  | nil => exact hinv
  | cons name rest ih =>
    unfold IRCCommandHandler.handleJOIN_loop
    split
    · apply ih
      rw [(IRCClient.sendErrorReply_same s client _ _).2.2.2.1]
      exact hinv
    · exact ih _ (IRCChannelManager.joinChannel_inv s client name hinv)

theorem IRCCommandHandler.handlePART_loop_inv (client : Nat) (reason : Str) (names : List Str)
    (s : IRCServer) (hinv : channel_inv s.channels_) :
    channel_inv (IRCCommandHandler.handlePART_loop client reason names s).channels_ := by
  induction names generalizing s with
  | nil => exact hinv
  | cons name rest ih =>
    unfold IRCCommandHandler.handlePART_loop
    split
    · apply ih
      rw [(IRCClient.sendErrorReply_same s client _ _).2.2.2.1]
      exact hinv
    · split
      · apply ih
        rw [(IRCClient.sendErrorReply_same s client _ _).2.2.2.1]
        exact hinv
      · exact ih _ (IRCChannelManager.partChannel_inv s client name reason hinv)

theorem IRCCommandHandler.handleQUIT_inv (s : IRCServer) (client : Nat) (cmd : IRCCommand)
    (hinv : channel_inv s.channels_) :
    channel_inv (IRCCommandHandler.handleQUIT s client cmd).channels_ := by
  unfold IRCCommandHandler.handleQUIT
  simp only [IRCServer.modifyClient]
  apply IRCChannelManager.partAllChannels_inv
  rw [(IRCCommandHandler.handleQUIT_loop_same client _ _ s).2.2.2.1]
  exact hinv

theorem IRCClientManager.removeClient_channels (s : IRCServer) (fd : Int) :
    (IRCClientManager.removeClient s fd).channels_ = s.channels_ := by
  unfold IRCClientManager.removeClient
  split
  · rfl
  · simp only
    split <;> rfl

theorem IRCClientManager.registerNickname_channels (s : IRCServer) (fd : Int) (nickname : Str) :
    (IRCClientManager.registerNickname s fd nickname).channels_ = s.channels_ := by
  unfold IRCClientManager.registerNickname
  split <;> rfl

theorem IRCCommandHandler.checkAuthentication_channels (s : IRCServer) (client : Nat) :
    (IRCCommandHandler.checkAuthentication s client).channels_ = s.channels_ := by
  unfold IRCCommandHandler.checkAuthentication
  split
  · rw [(IRCCommandHandler.sendWelcome_same _ client).2.2.2.1]
    rfl
  · rfl

theorem IRCCommandHandler.handleNICK_channels (s : IRCServer) (client : Nat)
    (cmd : IRCCommand) : (IRCCommandHandler.handleNICK s client cmd).channels_ = s.channels_ := by
  unfold IRCCommandHandler.handleNICK
  split
  · exact (IRCClient.sendErrorReply_same s client _ _).2.2.2.1
  · dsimp only
    split
    · exact (IRCClient.sendErrorReply_same s client _ _).2.2.2.1
    · rw [IRCCommandHandler.checkAuthentication_channels,
        IRCClientManager.registerNickname_channels, IRCServer.modifyClient_channels]
      split
      · exact IRCClientManager.removeClient_channels s _
      · rfl

theorem IRCCommandHandler.handleUSER_channels (s : IRCServer) (client : Nat)
    (cmd : IRCCommand) : (IRCCommandHandler.handleUSER s client cmd).channels_ = s.channels_ := by
  unfold IRCCommandHandler.handleUSER
  split
  · exact (IRCClient.sendErrorReply_same s client _ _).2.2.2.1
  · split
    · exact (IRCClient.sendErrorReply_same s client _ _).2.2.2.1
    · dsimp only
      rw [IRCCommandHandler.checkAuthentication_channels, IRCServer.modifyClient_channels,
        IRCServer.modifyClient_channels, IRCServer.modifyClient_channels]

theorem ite_ind {α : Type} (P : α → Prop) (c : Prop) [Decidable c] (a b : α)
    (ha : c → P a) (hb : ¬ c → P b) : P (if c then a else b) := by
  by_cases h : c
  · rw [if_pos h]
    exact ha h
  · rw [if_neg h]
    exact hb h

/-- Method `handleCommand` keeps the invariant of the channel table. -/
theorem IRCCommandHandler.handleCommand_inv (s : IRCServer) (client : Nat) (cmd : IRCCommand)
    (hinv : channel_inv s.channels_) :
    channel_inv (IRCCommandHandler.handleCommand s client cmd).channels_ := by
  have herr : ∀ code params,
      channel_inv (IRCClient.sendErrorReply s client code params).channels_ := by
    intro code params
    rw [(IRCClient.sendErrorReply_same s client _ _).2.2.2.1]
    exact hinv
  unfold IRCCommandHandler.handleCommand
  refine ite_ind (fun t : IRCServer => channel_inv t.channels_) _ _ _ (fun _ => hinv) (fun _ => ?_)
  refine ite_ind (fun t : IRCServer => channel_inv t.channels_) _ _ _ (fun _ => herr _ _) (fun _ => ?_)
  refine ite_ind (fun t : IRCServer => channel_inv t.channels_) _ _ _ (fun _ => ?_) (fun _ => ?_)
  · show channel_inv (IRCCommandHandler.handleNICK s client cmd).channels_
    rw [IRCCommandHandler.handleNICK_channels]
    exact hinv
  refine ite_ind (fun t : IRCServer => channel_inv t.channels_) _ _ _ (fun _ => ?_) (fun _ => ?_)
  · show channel_inv (IRCCommandHandler.handleUSER s client cmd).channels_
    rw [IRCCommandHandler.handleUSER_channels]
    exact hinv
  refine ite_ind (fun t : IRCServer => channel_inv t.channels_) _ _ _ (fun _ => ?_) (fun _ => ?_)
  · show channel_inv (IRCCommandHandler.handleJOIN s client cmd).channels_
    unfold IRCCommandHandler.handleJOIN
    exact ite_ind (fun t : IRCServer => channel_inv t.channels_) _ _ _ (fun _ => herr _ _)
      (fun _ => IRCCommandHandler.handleJOIN_loop_inv client _ s hinv)
  refine ite_ind (fun t : IRCServer => channel_inv t.channels_) _ _ _ (fun _ => ?_) (fun _ => ?_)
  · show channel_inv (IRCCommandHandler.handlePART s client cmd).channels_
    unfold IRCCommandHandler.handlePART
    exact ite_ind (fun t : IRCServer => channel_inv t.channels_) _ _ _ (fun _ => herr _ _)
      (fun _ => IRCCommandHandler.handlePART_loop_inv client _ _ s hinv)
  refine ite_ind (fun t : IRCServer => channel_inv t.channels_) _ _ _ (fun _ => ?_) (fun _ => ?_)
  · show channel_inv (IRCCommandHandler.handlePRIVMSG s client cmd).channels_
    rw [(IRCCommandHandler.handlePRIVMSG_same s client cmd).2.2.2.1]
    exact hinv
  refine ite_ind (fun t : IRCServer => channel_inv t.channels_) _ _ _ (fun _ => ?_) (fun _ => ?_)
  · exact IRCCommandHandler.handleQUIT_inv s client cmd hinv
  refine ite_ind (fun t : IRCServer => channel_inv t.channels_) _ _ _ (fun _ => ?_) (fun _ => ?_)
  · show channel_inv (IRCCommandHandler.handlePING s client cmd).channels_
    rw [(IRCCommandHandler.handlePING_same s client cmd).2.2.2.1]
    exact hinv
  refine ite_ind (fun t : IRCServer => channel_inv t.channels_) _ _ _ (fun _ => ?_) (fun _ => ?_)
  · show channel_inv (IRCCommandHandler.handleLIST s client cmd).channels_
    unfold IRCCommandHandler.handleLIST
    rw [(IRCCommandHandler.handleLIST_loop_same client _ s).2.2.2.1]
    exact hinv
  refine ite_ind (fun t : IRCServer => channel_inv t.channels_) _ _ _ (fun _ => ?_) (fun _ => herr _ _)
  show channel_inv (IRCCommandHandler.handleNAMES s client cmd).channels_
  rw [(IRCCommandHandler.handleNAMES_same s client cmd).2.2.2.1]
  exact hinv

theorem IRCServer.step_inv (s : IRCServer) (event : IRCEvent)
    (hinv : channel_inv s.channels_) : channel_inv (s.step event).channels_ := by
  cases event with
  | connect fd address =>
    simp only [IRCServer.step, IRCServer.acceptClient]
    split
    · exact hinv
    · exact hinv
  | line fd data =>
    simp only [IRCServer.step, IRCServer.processClientData]
    split
    · exact hinv
    · split
      · exact IRCCommandHandler.handleCommand_inv s _ _ hinv
      · exact hinv
  | disconnect fd =>
    simp only [IRCServer.step, IRCServer.closeClient]
    split
    · exact hinv
    · rw [IRCClientManager.removeClient_channels]
      exact IRCCommandHandler.handleCommand_inv s _ _ hinv

theorem IRCServer.run_inv (events : List IRCEvent) (s : IRCServer)
    (hinv : channel_inv s.channels_) : channel_inv (s.run events).channels_ := by
  induction events generalizing s with
  | nil => exact hinv
  | cons event rest ih =>
    exact ih _ (IRCServer.step_inv s event hinv)

theorem IRCServer.started_inv (created : Str) :
    channel_inv (IRCServer.started created).channels_ := by
  have hch : (IRCServer.started created).channels_ =
      [("#logs-all".toList, IRCChannelManager.log_channel "#logs-all".toList "*".toList
          "All log messages".toList),
       ("#logs-error".toList, IRCChannelManager.log_channel "#logs-error".toList
          "ERROR".toList "Error level logs only".toList)] := rfl
  rw [hch]
  refine ⟨⟨_, rfl, rfl⟩, ⟨_, rfl, rfl⟩, ?_⟩
  intro e he hty
  rcases List.mem_cons.mp he with h1 | h1
  · rw [h1] at hty
    exact absurd hty (by decide)
  · rw [List.mem_singleton.mp h1] at hty
    exact absurd hty (by decide)


/-! ## Nickname, username and state -/

theorem list_modify_modify {α : Type} (f g : α → α) (i : Nat) (l : List α) :
    list_modify g i (list_modify f i l) = list_modify (fun x => g (f x)) i l := by
  induction l generalizing i with
  | nil => simp [list_modify]
  | cons x xs ih =>
    cases i with
    | zero => simp [list_modify]
    | succ i => simp [list_modify, ih]

theorem list_modify_core (f : IRCClient → IRCClient) (i : Nat) (l : List IRCClient)
    (hf : ∀ c, (f c).core = c.core) :
    (list_modify f i l).map IRCClient.core = l.map IRCClient.core := by
  induction l generalizing i with
  | nil => simp [list_modify]
  | cons x xs ih =>
    cases i with
    | zero => simp [list_modify, hf]
    | succ i => simp [list_modify, ih]

theorem core_getElem (l : List IRCClient) (id : Nat) (fd : Int) (nick user : Str)
    (st : IRCClient.State) :
    (l.map IRCClient.core)[id]? = some (fd, nick, user, st) ↔
      ∃ c, l[id]? = some c ∧ c.fd_ = fd ∧ c.nickname_ = nick ∧ c.username_ = user ∧
        c.state_ = st := by
  rw [List.getElem?_map]
  constructor
  · intro h
    cases hc : l[id]? with
    | none => rw [hc] at h; exact absurd h (by simp)
    | some c =>
      rw [hc] at h
      simp only [Option.map_some', Option.some.injEq, IRCClient.core, Prod.mk.injEq] at h
      exact ⟨c, rfl, h⟩
  · rintro ⟨c, hc, h1, h2, h3, h4⟩
    rw [hc]
    simp [IRCClient.core, h1, h2, h3, h4]

/-- A step that changes one client object and removes entries of `clientsByFd_` at most
keeps `auth_inv`, when the changed client meets the conditions of `auth_inv`. -/
theorem IRCServer.auth_inv_modify (s t : IRCServer) (client : Nat) (f : IRCClient → IRCClient)
    (hinv : s.auth_inv)
    (hclients : t.clients = list_modify f client s.clients)
    (hfd : ∀ c, (f c).fd_ = c.fd_)
    (hstate : ∀ c, s.clients[client]? = some c →
      ((f c).state_ = IRCClient.State.CONNECTED → (f c).nickname_ = [] ∨ (f c).username_ = []) ∧
      ((f c).state_ = IRCClient.State.AUTHENTICATED → (f c).username_ ≠ []))
    (hsub : ∀ key id, map_find key t.clientsByFd_ = some id →
      map_find key s.clientsByFd_ = some id)
    (hreg : ∀ key c, map_find key t.clientsByFd_ = some client → s.clients[client]? = some c →
      (f c).state_ = IRCClient.State.AUTHENTICATED → (f c).nickname_ ≠ []) :
    t.auth_inv := by
  obtain ⟨h1, h2⟩ := hinv
  constructor
  · intro id fd nick user st hget
    rw [core_getElem, hclients, list_modify_getElem] at hget
    obtain ⟨c, hc, hc1, hc2, hc3, hc4⟩ := hget
    by_cases hid : id = client
    · rw [if_pos hid] at hc
      cases hc0 : s.clients[id]? with
      | none => rw [hc0] at hc; exact absurd hc (by simp)
      | some c0 =>
        rw [hc0] at hc
        simp only [Option.map_some', Option.some.injEq] at hc
        have := hstate c0 (hid ▸ hc0)
        rw [hc, hc2, hc3, hc4] at this
        exact this
    · rw [if_neg hid] at hc
      exact h1 id fd nick user st ((core_getElem _ _ _ _ _ _).mpr ⟨c, hc, hc1, hc2, hc3, hc4⟩)
  · intro key id hfind
    obtain ⟨nick, user, st, hget, hauth⟩ := h2 key id (hsub key id hfind)
    rw [core_getElem] at hget
    obtain ⟨c, hc, hc1, hc2, hc3, hc4⟩ := hget
    by_cases hid : id = client
    · refine ⟨(f c).nickname_, (f c).username_, (f c).state_, ?_, ?_⟩
      · rw [core_getElem, hclients, list_modify_getElem, if_pos hid, hc]
        exact ⟨f c, rfl, (hfd c).trans hc1, rfl, rfl, rfl⟩
      · exact hreg key c (hid ▸ hfind) (hid ▸ hc)
    · refine ⟨nick, user, st, ?_, hauth⟩
      rw [core_getElem, hclients, list_modify_getElem, if_neg hid]
      exact ⟨c, hc, hc1, hc2, hc3, hc4⟩

theorem IRCServer.same_core_refl (s : IRCServer) : s.same_core s := ⟨rfl, rfl⟩

theorem IRCServer.same_core_trans {s t u : IRCServer} (h1 : s.same_core t)
    (h2 : t.same_core u) : s.same_core u :=
  ⟨h2.1.trans h1.1, h2.2.trans h1.2⟩

theorem IRCServer.same_core_of_sent {s t : IRCServer} (h : s.same_but_sent t) :
    s.same_core t := by
  refine ⟨?_, h.2.1⟩
  rw [h.1]

theorem IRCServer.auth_inv_of_same_core {s t : IRCServer} (h : s.same_core t)
    (hinv : s.auth_inv) : t.auth_inv := by
  unfold IRCServer.auth_inv
  rw [h.1, h.2]
  exact hinv

theorem IRCServer.modifyClient_same_core (s : IRCServer) (client : Nat)
    (f : IRCClient → IRCClient) (hf : ∀ c, (f c).core = c.core) :
    s.same_core (s.modifyClient client f) :=
  ⟨list_modify_core f client s.clients hf, rfl⟩

theorem IRCChannelManager.joinChannel_same_core (s : IRCServer) (client : Nat)
    (channelName : Str) : s.same_core (IRCChannelManager.joinChannel s client channelName).1 := by
  have henter : ∀ (s : IRCServer) (channel : IRCChannel),
      s.same_core (IRCChannelManager.joinChannel_enter s client channelName channel) := by
    intro s channel
    unfold IRCChannelManager.joinChannel_enter IRCChannelManager.sendJoinMessages
    dsimp only
    refine IRCServer.same_core_trans ?_
      (IRCServer.same_core_of_sent (IRCChannel.broadcast_same _ _ _))
    exact IRCServer.same_core_trans (t := s.setChannel channelName _) ⟨rfl, rfl⟩
      (IRCServer.modifyClient_same_core _ client _ (fun _ => rfl))
  unfold IRCChannelManager.joinChannel
  split
  · exact IRCServer.same_core_refl s
  · split
    · split
      · exact IRCServer.same_core_trans (t := s.setChannel channelName _) ⟨rfl, rfl⟩
          (henter _ _)
      · exact IRCServer.same_core_refl s
    · exact henter _ _

theorem IRCChannelManager.removeChannel_same_core (u : IRCServer) (channelName : Str) :
    u.same_core (IRCChannelManager.removeChannel u channelName) := by
  unfold IRCChannelManager.removeChannel
  split
  · exact IRCServer.same_core_refl _
  · exact ⟨rfl, rfl⟩

theorem IRCChannelManager.partChannel_same_core (s : IRCServer) (client : Nat)
    (channelName reason : Str) :
    s.same_core (IRCChannelManager.partChannel s client channelName reason).1 := by
  unfold IRCChannelManager.partChannel
  split
  · exact IRCServer.same_core_refl s
  · cases hfind : IRCChannelManager.getChannel s channelName with
    | none => exact IRCServer.same_core_refl s
    | some channel =>
      simp only
      split
      · exact IRCServer.same_core_refl s
      · have h1 : s.same_core (IRCChannelManager.sendPartMessages s channel client reason) :=
          IRCServer.same_core_of_sent (IRCChannel.broadcast_same s channel _)
        have hset : ∀ (u : IRCServer) (ch : IRCChannel), u.same_core
            ((u.setChannel channelName ch).modifyClient client
              (fun c => c.partChannel channelName)) := fun u ch =>
          IRCServer.same_core_trans (t := u.setChannel channelName ch) ⟨rfl, rfl⟩
            (IRCServer.modifyClient_same_core _ client _ (fun _ => rfl))
        split
        · exact IRCServer.same_core_trans h1 (IRCServer.same_core_trans (hset _ _)
            (IRCChannelManager.removeChannel_same_core _ _))
        · exact IRCServer.same_core_trans h1 (hset _ _)


theorem list_modify_congr {α : Type} (f g : α → α) (i : Nat) (l : List α) (c : α)
    (hc : l[i]? = some c) (hfg : f c = g c) : list_modify f i l = list_modify g i l := by
  induction l generalizing i with
  | nil => simp [list_modify]
  | cons x xs ih =>
    cases i with
    | zero =>
      simp only [List.getElem?_cons_zero, Option.some.injEq] at hc
      simp [list_modify, hc, hfg]
    | succ i =>
      simp only [List.getElem?_cons_succ] at hc
      simp [list_modify, ih i hc]

theorem list_modify_fixed {α : Type} (f : α → α) (i : Nat) (l : List α) (c : α)
    (hc : l[i]? = some c) (hf : f c = c) : list_modify f i l = l := by
  induction l generalizing i with
  | nil => simp [list_modify]
  | cons x xs ih =>
    cases i with
    | zero =>
      simp only [List.getElem?_cons_zero, Option.some.injEq] at hc
      simp [list_modify, hc, hf]
    | succ i =>
      simp only [List.getElem?_cons_succ] at hc
      simp [list_modify, ih i hc]

theorem isEmpty_not_iff (x : Str) : (!x.isEmpty) = true ↔ x ≠ [] := by
  cases x <;> simp

theorem IRCCommandHandler.checkAuthentication_byFd (s : IRCServer) (client : Nat) :
    (IRCCommandHandler.checkAuthentication s client).clientsByFd_ = s.clientsByFd_ := by
  unfold IRCCommandHandler.checkAuthentication
  split
  · rw [(IRCCommandHandler.sendWelcome_same _ client).2.1]
    rfl
  · rfl

theorem IRCCommandHandler.checkAuthentication_clients (s : IRCServer) (client : Nat)
    (c : IRCClient) (hc : s.clients[client]? = some c) :
    (IRCCommandHandler.checkAuthentication s client).clients =
      list_modify (fun x => if x.nickname_ ≠ [] ∧ x.username_ ≠ [] then
        x.setState IRCClient.State.AUTHENTICATED else x) client s.clients := by
  unfold IRCCommandHandler.checkAuthentication
  rw [IRCServer.deref_eq s client c hc]
  simp only [isEmpty_not_iff]
  split
  · rename_i hcond
    rw [(IRCCommandHandler.sendWelcome_same _ client).1]
    simp only [IRCServer.modifyClient]
    exact list_modify_congr _ _ client s.clients c hc (by rw [if_pos hcond])
  · rename_i hcond
    exact (list_modify_fixed _ client s.clients c hc (by rw [if_neg hcond])).symm

theorem IRCClientManager.removeClient_clients (s : IRCServer) (fd : Int) :
    (IRCClientManager.removeClient s fd).clients = s.clients := by
  unfold IRCClientManager.removeClient
  split
  · rfl
  · simp only
    split <;> rfl

theorem IRCClientManager.removeClient_byFd (s : IRCServer) (fd key : Int) :
    map_find key (IRCClientManager.removeClient s fd).clientsByFd_ =
      if key = fd then none else map_find key s.clientsByFd_ := by
  unfold IRCClientManager.removeClient
  cases hfind : map_find fd s.clientsByFd_ with
  | none =>
    simp only
    by_cases hk : key = fd
    · rw [if_pos hk, hk]
      exact hfind
    · rw [if_neg hk]
  | some client =>
    simp only
    rw [← map_find_map_erase]
    split <;> rfl

theorem IRCClientManager.registerNickname_clients (s : IRCServer) (fd : Int) (nickname : Str) :
    (IRCClientManager.registerNickname s fd nickname).clients = s.clients := by
  unfold IRCClientManager.registerNickname
  split <;> rfl

theorem IRCClientManager.registerNickname_byFd (s : IRCServer) (fd : Int) (nickname : Str) :
    (IRCClientManager.registerNickname s fd nickname).clientsByFd_ = s.clientsByFd_ := by
  unfold IRCClientManager.registerNickname
  split <;> rfl

/-- Method `handleNICK` keeps `auth_inv`. -/
theorem IRCCommandHandler.handleNICK_auth_inv (s : IRCServer) (client : Nat) (cmd : IRCCommand)
    (c : IRCClient) (hc : s.clients[client]? = some c) (hinv : s.auth_inv) :
    (IRCCommandHandler.handleNICK s client cmd).auth_inv := by
  unfold IRCCommandHandler.handleNICK
  split
  · exact IRCServer.auth_inv_of_same_core
      (IRCServer.same_core_of_sent (IRCClient.sendErrorReply_same s client _ _)) hinv
  · dsimp only
    split
    · exact IRCServer.auth_inv_of_same_core
        (IRCServer.same_core_of_sent (IRCClient.sendErrorReply_same s client _ _)) hinv
    · rw [IRCServer.deref_eq s client c hc]
      have hc1 : ((if (!c.nickname_.isEmpty) = true then IRCClientManager.removeClient s c.fd_
          else s).modifyClient client (fun x => x.setNickname (cmd.getParam 0))).clients[client]? =
          some (c.setNickname (cmd.getParam 0)) := by
        simp only [IRCServer.modifyClient]
        rw [list_modify_getElem, if_pos rfl]
        split
        · rw [IRCClientManager.removeClient_clients, hc]
          rfl
        · rw [hc]
          rfl
      refine IRCServer.auth_inv_modify s _ client
        (fun x => (fun y : IRCClient => if y.nickname_ ≠ [] ∧ y.username_ ≠ [] then
          y.setState IRCClient.State.AUTHENTICATED else y) (x.setNickname (cmd.getParam 0)))
        hinv ?_ ?_ ?_ ?_ ?_
      · rw [IRCCommandHandler.checkAuthentication_clients _ client
          (c.setNickname (cmd.getParam 0))
          (by rw [IRCClientManager.registerNickname_clients]; exact hc1),
          IRCClientManager.registerNickname_clients]
        simp only [IRCServer.modifyClient]
        rw [list_modify_modify]
        split
        · rw [IRCClientManager.removeClient_clients]
        · rfl
      · intro x
        dsimp only
        split <;> rfl
      · intro x hx
        rw [hc] at hx
        cases hx
        have hold := hinv.1 client c.fd_ c.nickname_ c.username_ c.state_
          ((core_getElem _ _ _ _ _ _).mpr ⟨c, hc, rfl, rfl, rfl, rfl⟩)
        dsimp only
        split
        · rename_i hcond
          exact ⟨fun h => absurd h (by simp [IRCClient.setState]), fun _ => hcond.2⟩
        · rename_i hcond
          refine ⟨fun _ => ?_, fun h => hold.2 h⟩
          by_cases hn : (c.setNickname (cmd.getParam 0)).nickname_ = []
          · exact Or.inl hn
          · by_cases hu : (c.setNickname (cmd.getParam 0)).username_ = []
            · exact Or.inr hu
            · exact absurd ⟨hn, hu⟩ hcond
      · intro key id hfind
        rw [IRCCommandHandler.checkAuthentication_byFd,
          IRCClientManager.registerNickname_byFd] at hfind
        simp only [IRCServer.modifyClient] at hfind
        split at hfind
        · rw [IRCClientManager.removeClient_byFd] at hfind
          split at hfind
          · exact absurd hfind (by simp)
          · exact hfind
        · exact hfind
      · intro key x hfind hx
        rw [hc] at hx
        cases hx
        rw [IRCCommandHandler.checkAuthentication_byFd,
          IRCClientManager.registerNickname_byFd] at hfind
        simp only [IRCServer.modifyClient] at hfind
        dsimp only
        split
        · rename_i hcond
          intro _
          exact hcond.1
        · intro hst
          have hst0 : c.state_ = IRCClient.State.AUTHENTICATED := hst
          split at hfind
          · rw [IRCClientManager.removeClient_byFd] at hfind
            split at hfind
            · exact absurd hfind (by simp)
            · rename_i hkey
              obtain ⟨nick, user, st, hget, _⟩ := hinv.2 key client hfind
              rw [core_getElem] at hget
              obtain ⟨x, hx, hfd, _⟩ := hget
              rw [hc] at hx
              cases hx
              exact absurd hfd.symm hkey
          · rename_i hnick
            obtain ⟨nick, user, st, hget, hauth⟩ := hinv.2 key client hfind
            rw [core_getElem] at hget
            obtain ⟨x, hx, _, hn, _, hs⟩ := hget
            rw [hc] at hx
            cases hx
            have hne := hauth (hs ▸ hst0)
            rw [← hn] at hne
            exact absurd ((isEmpty_not_iff _).mpr hne) hnick


/-- Method `handleUSER` keeps `auth_inv`. -/
theorem IRCCommandHandler.handleUSER_auth_inv (s : IRCServer) (client : Nat) (cmd : IRCCommand)
    (c : IRCClient) (hc : s.clients[client]? = some c) (hinv : s.auth_inv) :
    (IRCCommandHandler.handleUSER s client cmd).auth_inv := by
  unfold IRCCommandHandler.handleUSER
  rw [IRCServer.deref_eq s client c hc]
  split
  · exact IRCServer.auth_inv_of_same_core
      (IRCServer.same_core_of_sent (IRCClient.sendErrorReply_same s client _ _)) hinv
  · rename_i hnot
    have hst : c.state_ ≠ IRCClient.State.AUTHENTICATED := by
      intro h
      apply hnot
      simp [IRCClient.isAuthenticated, h]
    split
    · exact IRCServer.auth_inv_of_same_core
        (IRCServer.same_core_of_sent (IRCClient.sendErrorReply_same s client _ _)) hinv
    · dsimp only
      generalize (if cmd.trailing.isEmpty then cmd.getParam 3 else cmd.trailing) = realname
      have hc3 : (((s.modifyClient client (fun x => x.setUsername (cmd.getParam 0))).modifyClient
          client (fun x => x.setHostname (cmd.getParam 1))).modifyClient client
          (fun x => x.setRealname realname)).clients =
          list_modify (fun x => ((x.setUsername (cmd.getParam 0)).setHostname
            (cmd.getParam 1)).setRealname realname) client
            s.clients := by
        simp only [IRCServer.modifyClient]
        rw [list_modify_modify, list_modify_modify]
      refine IRCServer.auth_inv_modify s _ client
        (fun x => (fun y : IRCClient => if y.nickname_ ≠ [] ∧ y.username_ ≠ [] then
          y.setState IRCClient.State.AUTHENTICATED else y)
          (((x.setUsername (cmd.getParam 0)).setHostname (cmd.getParam 1)).setRealname realname))
        hinv ?_ ?_ ?_ ?_ ?_
      · rw [IRCCommandHandler.checkAuthentication_clients _ client
          (((c.setUsername (cmd.getParam 0)).setHostname (cmd.getParam 1)).setRealname realname)
          (by rw [hc3, list_modify_getElem, if_pos rfl, hc]; rfl), hc3, list_modify_modify]
      · intro x
        dsimp only
        split <;> rfl
      · intro x hx
        rw [hc] at hx
        cases hx
        dsimp only
        split
        · rename_i hcond
          exact ⟨fun h => absurd h (by simp [IRCClient.setState]), fun _ => hcond.2⟩
        · rename_i hcond
          refine ⟨fun _ => ?_, fun h => absurd h hst⟩
          by_cases hn : (((c.setUsername (cmd.getParam 0)).setHostname
              (cmd.getParam 1)).setRealname realname).nickname_ = []
          · exact Or.inl hn
          · by_cases hu : (((c.setUsername (cmd.getParam 0)).setHostname
                (cmd.getParam 1)).setRealname realname).username_ = []
            · exact Or.inr hu
            · exact absurd ⟨hn, hu⟩ hcond
      · intro key id hfind
        rw [IRCCommandHandler.checkAuthentication_byFd] at hfind
        exact hfind
      · intro key x _ hx
        rw [hc] at hx
        cases hx
        dsimp only
        split
        · rename_i hcond
          intro _
          exact hcond.1
        · intro h
          exact absurd h hst

theorem IRCChannelManager.partAllChannels_same_core (s : IRCServer) (client : Nat)
    (reason : Str) : s.same_core (IRCChannelManager.partAllChannels s client reason) := by
  have hloop : ∀ (names : List Str) (s : IRCServer),
      s.same_core (IRCChannelManager.partAllChannels_loop client reason names s) := by
    intro names
    induction names with
    | nil => exact fun s => IRCServer.same_core_refl s
    | cons name rest ih =>
      intro s
      exact IRCServer.same_core_trans
        (IRCChannelManager.partChannel_same_core s client name reason) (ih _)
  unfold IRCChannelManager.partAllChannels
  split
  · exact IRCServer.same_core_refl s
  · exact hloop _ s

theorem IRCCommandHandler.handleJOIN_same_core (s : IRCServer) (client : Nat)
    (cmd : IRCCommand) : s.same_core (IRCCommandHandler.handleJOIN s client cmd) := by
  have hloop : ∀ (names : List Str) (s : IRCServer),
      s.same_core (IRCCommandHandler.handleJOIN_loop client names s) := by
    intro names
    induction names with
    | nil => exact fun s => IRCServer.same_core_refl s
    | cons name rest ih =>
      intro s
      unfold IRCCommandHandler.handleJOIN_loop
      split
      · exact IRCServer.same_core_trans
          (IRCServer.same_core_of_sent (IRCClient.sendErrorReply_same s client _ _)) (ih _)
      · exact IRCServer.same_core_trans
          (IRCChannelManager.joinChannel_same_core s client name) (ih _)
  unfold IRCCommandHandler.handleJOIN
  split
  · exact IRCServer.same_core_of_sent (IRCClient.sendErrorReply_same s client _ _)
  · exact hloop _ s

theorem IRCCommandHandler.handlePART_same_core (s : IRCServer) (client : Nat)
    (cmd : IRCCommand) : s.same_core (IRCCommandHandler.handlePART s client cmd) := by
  have hloop : ∀ (reason : Str) (names : List Str) (s : IRCServer),
      s.same_core (IRCCommandHandler.handlePART_loop client reason names s) := by
    intro reason names
    induction names with
    | nil => exact fun s => IRCServer.same_core_refl s
    | cons name rest ih =>
      intro s
      unfold IRCCommandHandler.handlePART_loop
      split
      · exact IRCServer.same_core_trans
          (IRCServer.same_core_of_sent (IRCClient.sendErrorReply_same s client _ _)) (ih _)
      · split
        · exact IRCServer.same_core_trans
            (IRCServer.same_core_of_sent (IRCClient.sendErrorReply_same s client _ _)) (ih _)
        · exact IRCServer.same_core_trans
            (IRCChannelManager.partChannel_same_core s client name reason) (ih _)
  unfold IRCCommandHandler.handlePART
  split
  · exact IRCServer.same_core_of_sent (IRCClient.sendErrorReply_same s client _ _)
  · exact hloop _ _ s

/-- Method `handleQUIT` keeps `auth_inv`. -/
theorem IRCCommandHandler.handleQUIT_auth_inv (s : IRCServer) (client : Nat) (cmd : IRCCommand)
    (hinv : s.auth_inv) : (IRCCommandHandler.handleQUIT s client cmd).auth_inv := by
  unfold IRCCommandHandler.handleQUIT
  dsimp only
  have h2 := IRCServer.auth_inv_of_same_core
    (IRCServer.same_core_trans
      (IRCServer.same_core_of_sent (IRCCommandHandler.handleQUIT_loop_same client
        (":".toList ++ (s.deref client).getFullIdentifier ++ " QUIT :".toList ++
          (if cmd.trailing.isEmpty then "Client Quit".toList else cmd.trailing))
        (s.deref client).channels_ s))
      (IRCChannelManager.partAllChannels_same_core _ client
        (if cmd.trailing.isEmpty then "Client Quit".toList else cmd.trailing))) hinv
  refine IRCServer.auth_inv_modify _ _ client
    (fun x => x.setState IRCClient.State.DISCONNECTED) h2 rfl (fun _ => rfl) ?_ ?_ ?_
  · intro x _
    exact ⟨fun h => absurd h (by simp [IRCClient.setState]),
      fun h => absurd h (by simp [IRCClient.setState])⟩
  · intro key id h
    exact h
  · intro key x _ _ h
    exact absurd h (by simp [IRCClient.setState])


theorem IRCServer.auth_inv_sub (s t : IRCServer) (hinv : s.auth_inv)
    (hclients : t.clients = s.clients)
    (hsub : ∀ key id, map_find key t.clientsByFd_ = some id →
      map_find key s.clientsByFd_ = some id) : t.auth_inv := by
  unfold IRCServer.auth_inv
  rw [hclients]
  exact ⟨hinv.1, fun key id h => hinv.2 key id (hsub key id h)⟩

theorem IRCClientManager.removeClient_auth_inv (s : IRCServer) (fd : Int) (hinv : s.auth_inv) :
    (IRCClientManager.removeClient s fd).auth_inv := by
  refine IRCServer.auth_inv_sub s _ hinv (IRCClientManager.removeClient_clients s fd) ?_
  intro key id h
  rw [IRCClientManager.removeClient_byFd] at h
  split at h
  · exact absurd h (by simp)
  · exact h

theorem IRCClientManager.addClient_auth_inv (s : IRCServer) (fd : Int) (address : Str)
    (hinv : s.auth_inv) : (IRCClientManager.addClient s fd address).1.auth_inv := by
  have hnew : (IRCClient.new fd address).core = (fd, [], [], IRCClient.State.CONNECTED) := rfl
  have hcl : (IRCClientManager.addClient s fd address).1.clients.map IRCClient.core =
      s.clients.map IRCClient.core ++ [(fd, [], [], IRCClient.State.CONNECTED)] := by
    simp [IRCClientManager.addClient, hnew]
  have hfd : (IRCClientManager.addClient s fd address).1.clientsByFd_ =
      umap_set fd s.clients.length s.clientsByFd_ := rfl
  have hlen : (s.clients.map IRCClient.core).length = s.clients.length := List.length_map _ _
  unfold IRCServer.auth_inv
  rw [hcl, hfd]
  constructor
  · intro id fd2 nick user st hget
    by_cases hlt : id < (s.clients.map IRCClient.core).length
    · rw [List.getElem?_append_left hlt] at hget
      exact hinv.1 id fd2 nick user st hget
    · rw [List.getElem?_append_right (Nat.le_of_not_lt hlt)] at hget
      cases hsub : id - (s.clients.map IRCClient.core).length with
      | zero =>
        rw [hsub] at hget
        simp only [List.getElem?_cons_zero, Option.some.injEq, Prod.mk.injEq] at hget
        obtain ⟨_, hn, _, hs⟩ := hget
        exact ⟨fun _ => Or.inl hn.symm, fun h => absurd (hs.trans h) (by decide)⟩
      | succ k =>
        rw [hsub] at hget
        simp at hget
  · intro key id hfind
    rw [map_find_umap_set] at hfind
    split at hfind
    · rename_i hkey
      simp only [Option.some.injEq] at hfind
      refine ⟨[], [], IRCClient.State.CONNECTED, ?_, fun h => absurd h (by decide)⟩
      rw [← hfind, ← hlen, List.getElem?_append_right (Nat.le_refl _), Nat.sub_self, hkey]
      rfl
    · obtain ⟨nick, user, st, hget, hauth⟩ := hinv.2 key id hfind
      refine ⟨nick, user, st, ?_, hauth⟩
      have hlt : id < (s.clients.map IRCClient.core).length := by
        by_contra hge
        rw [List.getElem?_eq_none (Nat.le_of_not_lt hge)] at hget
        exact absurd hget (by simp)
      rw [List.getElem?_append_left hlt]
      exact hget

/-- Method `handleCommand` keeps `auth_inv`. -/
theorem IRCCommandHandler.handleCommand_auth_inv (s : IRCServer) (client : Nat)
    (cmd : IRCCommand) (hinv : s.auth_inv) :
    (IRCCommandHandler.handleCommand s client cmd).auth_inv := by
  have hsent : ∀ t : IRCServer, s.same_but_sent t → t.auth_inv := fun t h =>
    IRCServer.auth_inv_of_same_core (IRCServer.same_core_of_sent h) hinv
  have herr : ∀ code params, (IRCClient.sendErrorReply s client code params).auth_inv :=
    fun code params => hsent _ (IRCClient.sendErrorReply_same s client code params)
  unfold IRCCommandHandler.handleCommand
  refine ite_ind (fun t : IRCServer => t.auth_inv) _ _ _ (fun _ => hinv) (fun hguard => ?_)
  have hsome : ∃ c, s.clients[client]? = some c := by
    cases hc : s.clients[client]? with
    | none => exact absurd (Or.inl (by rw [hc]; rfl)) hguard
    | some c => exact ⟨c, rfl⟩
  obtain ⟨c, hc⟩ := hsome
  refine ite_ind (fun t : IRCServer => t.auth_inv) _ _ _ (fun _ => herr _ _) (fun _ => ?_)
  refine ite_ind (fun t : IRCServer => t.auth_inv) _ _ _ (fun _ => ?_) (fun _ => ?_)
  · exact IRCCommandHandler.handleNICK_auth_inv s client cmd c hc hinv
  refine ite_ind (fun t : IRCServer => t.auth_inv) _ _ _ (fun _ => ?_) (fun _ => ?_)
  · exact IRCCommandHandler.handleUSER_auth_inv s client cmd c hc hinv
  refine ite_ind (fun t : IRCServer => t.auth_inv) _ _ _ (fun _ => ?_) (fun _ => ?_)
  · exact IRCServer.auth_inv_of_same_core (IRCCommandHandler.handleJOIN_same_core s client cmd)
      hinv
  refine ite_ind (fun t : IRCServer => t.auth_inv) _ _ _ (fun _ => ?_) (fun _ => ?_)
  · exact IRCServer.auth_inv_of_same_core (IRCCommandHandler.handlePART_same_core s client cmd)
      hinv
  refine ite_ind (fun t : IRCServer => t.auth_inv) _ _ _ (fun _ => ?_) (fun _ => ?_)
  · exact hsent _ (IRCCommandHandler.handlePRIVMSG_same s client cmd)
  refine ite_ind (fun t : IRCServer => t.auth_inv) _ _ _ (fun _ => ?_) (fun _ => ?_)
  · exact IRCCommandHandler.handleQUIT_auth_inv s client cmd hinv
  refine ite_ind (fun t : IRCServer => t.auth_inv) _ _ _ (fun _ => ?_) (fun _ => ?_)
  · exact hsent _ (IRCCommandHandler.handlePING_same s client cmd)
  refine ite_ind (fun t : IRCServer => t.auth_inv) _ _ _ (fun _ => ?_) (fun _ => ?_)
  · show (IRCCommandHandler.handleLIST s client cmd).auth_inv
    unfold IRCCommandHandler.handleLIST
    exact hsent _ (IRCCommandHandler.handleLIST_loop_same client _ s)
  refine ite_ind (fun t : IRCServer => t.auth_inv) _ _ _ (fun _ => ?_) (fun _ => herr _ _)
  exact hsent _ (IRCCommandHandler.handleNAMES_same s client cmd)

theorem IRCServer.step_auth_inv (s : IRCServer) (event : IRCEvent) (hinv : s.auth_inv) :
    (s.step event).auth_inv := by
  cases event with
  | connect fd address =>
    simp only [IRCServer.step, IRCServer.acceptClient]
    split
    · exact IRCServer.auth_inv_sub s _ hinv rfl (fun _ _ h => h)
    · exact IRCClientManager.addClient_auth_inv s fd address hinv
  | line fd data =>
    simp only [IRCServer.step, IRCServer.processClientData]
    split
    · exact hinv
    · split
      · exact IRCCommandHandler.handleCommand_auth_inv s _ _ hinv
      · exact hinv
  | disconnect fd =>
    simp only [IRCServer.step, IRCServer.closeClient]
    split
    · exact hinv
    · exact IRCClientManager.removeClient_auth_inv _ fd
        (IRCCommandHandler.handleCommand_auth_inv s _ _ hinv)

theorem IRCServer.run_auth_inv (events : List IRCEvent) (s : IRCServer) (hinv : s.auth_inv) :
    (s.run events).auth_inv := by
  induction events generalizing s with
  | nil => exact hinv
  | cons event rest ih =>
    exact ih _ (IRCServer.step_auth_inv s event hinv)

theorem IRCServer.started_auth_inv (created : Str) : (IRCServer.started created).auth_inv := by
  have h1 : (IRCServer.started created).clients = [] := rfl
  have h2 : (IRCServer.started created).clientsByFd_ = [] := rfl
  unfold IRCServer.auth_inv
  rw [h1, h2]
  constructor
  · intro id fd nick user st h
    simp at h
  · intro key id h
    simp [map_find] at h


/-- Method `partChannel` for the only member of a channel whose name does not start with
`#logs-`: the channel is removed from the table. -/
theorem IRCChannelManager.partChannel_last (s : IRCServer) (client : Nat) (c : IRCClient)
    (name reason : Str) (channel : IRCChannel) (id : Nat)
    (hc : s.clients[client]? = some c)
    (hch : IRCChannelManager.getChannel s name = some channel)
    (hmembers : channel.clients_ = [(c.nickname_, id)])
    (hlog : is_log_name name = false) :
    IRCChannelManager.getChannel (IRCChannelManager.partChannel s client name reason).1 name =
      none := by
  have hd := IRCServer.deref_eq s client c hc
  have hisnone : (s.clients[client]?).isNone = false := by rw [hc]; rfl
  have hhas : channel.hasClient c.nickname_ = true := by
    unfold IRCChannel.hasClient
    rw [hmembers]
    simp [map_find]
  have hsame := IRCChannel.broadcast_same s channel
    (":".toList ++ (s.deref client).getFullIdentifier ++ " PART ".toList ++
      channel.name_ ++ (if !reason.isEmpty then " :".toList ++ reason else []))
  have hd1 : (IRCChannelManager.sendPartMessages s channel client reason).deref client = c := by
    unfold IRCServer.deref
    have : (IRCChannelManager.sendPartMessages s channel client reason).clients = s.clients :=
      hsame.1
    rw [this, hc]
    rfl
  have hcount : (channel.removeClient c.nickname_).getClientCount = 0 := by
    unfold IRCChannel.getClientCount IRCChannel.removeClient
    simp only
    rw [hmembers]
    simp [map_erase]
  unfold IRCChannelManager.partChannel
  simp only [hisnone, Bool.false_eq_true, if_false, hch, hd, hhas, Bool.not_true, hd1, hcount,
    hlog, Bool.not_false, and_self, if_true]
  unfold IRCChannelManager.removeChannel
  simp only [hlog, Bool.false_eq_true, if_false, IRCChannelManager.getChannel,
    IRCServer.modifyClient, IRCServer.setChannel]
  rw [map_find_map_erase, if_pos rfl]

/-- Command `PART` of an AUTHENTICATED session that is the only member of a channel whose
name does not start with `#logs-`: the channel is removed from the table. -/
theorem IRCCommandHandler.handlePART_last (s : IRCServer) (client : Nat) (c : IRCClient)
    (cmd : IRCCommand) (name : Str) (rest : List Str) (channel : IRCChannel) (id : Nat)
    (hc : s.clients[client]? = some c)
    (hstate : c.state_ = IRCClient.State.AUTHENTICATED)
    (hcmd : cmd.command = "PART".toList) (hparams : cmd.params = name :: rest)
    (hne : name ≠ []) (hcomma : ',' ∉ name)
    (hin : name ∈ c.channels_)
    (hch : IRCChannelManager.getChannel s name = some channel)
    (hmembers : channel.clients_ = [(c.nickname_, id)])
    (hlog : is_log_name name = false) :
    IRCChannelManager.getChannel (IRCCommandHandler.handleCommand s client cmd) name = none := by
  have hd := IRCServer.deref_eq s client c hc
  have hauth : (s.deref client).isAuthenticated = true := by
    rw [hd]
    simp [IRCClient.isAuthenticated, hstate]
  have h1 : ¬ ((s.clients[client]?).isNone = true ∨ cmd.command.isEmpty = true) := by
    rw [hc, hcmd]
    simp
  have h2 : ¬ ((!(s.deref client).isAuthenticated) = true ∧ cmd.command ≠ "NICK".toList ∧
      cmd.command ≠ "USER".toList ∧ cmd.command ≠ "QUIT".toList) := by
    rw [hauth]
    simp
  have h3 : ¬ cmd.command = "NICK".toList := by rw [hcmd]; decide
  have h4 : ¬ cmd.command = "USER".toList := by rw [hcmd]; decide
  have h5 : ¬ cmd.command = "JOIN".toList := by rw [hcmd]; decide
  have hp : cmd.params.isEmpty = false := by rw [hparams]; rfl
  have hg : cmd.getParam 0 = name := by
    unfold IRCCommand.getParam
    rw [hparams]
    simp
  have hexists : IRCChannelManager.channelExists s name = true := by
    unfold IRCChannelManager.channelExists
    have : map_find name s.channels_ = some channel := hch
    rw [this]
    rfl
  have hisin : (s.deref client).isInChannel name = true := by
    rw [hd]
    unfold IRCClient.isInChannel
    exact decide_eq_true hin
  have hcommand : IRCCommandHandler.handleCommand s client cmd =
      (IRCChannelManager.partChannel s client name
        (if cmd.trailing.isEmpty then (s.deref client).nickname_ else cmd.trailing)).1 := by
    unfold IRCCommandHandler.handleCommand
    rw [if_neg h1, if_neg h2, if_neg h3, if_neg h4, if_neg h5, if_pos hcmd]
    unfold IRCCommandHandler.handlePART
    simp only [hp, hg, Bool.false_eq_true, if_false]
    rw [IRCCommandParser.splitChannels_single name hne hcomma]
    simp only [IRCCommandHandler.handlePART_loop, hexists, hisin, Bool.not_true,
      Bool.false_eq_true, if_false]
  rw [hcommand]
  exact IRCChannelManager.partChannel_last s client c name _ channel id hc hch hmembers hlog

/-- C20. In every state that a started server reaches by a sequence of events (connections,
received lines, disconnections): `#logs-all` and `#logs-error` are in the channel table with
type LOG_STREAM, no NORMAL channel of the table has zero members, and `PART` by an
AUTHENTICATED session that is the only member of a NORMAL channel removes the channel from
the table. -/
theorem IRCServer.log_channels_kept (created : Str) (events : List IRCEvent) :
    (∃ channel, IRCChannelManager.getChannel ((IRCServer.started created).run events)
        "#logs-all".toList = some channel ∧
      channel.type_ = IRCChannel.ChannelType.LOG_STREAM) ∧
    (∃ channel, IRCChannelManager.getChannel ((IRCServer.started created).run events)
        "#logs-error".toList = some channel ∧
      channel.type_ = IRCChannel.ChannelType.LOG_STREAM) ∧
    (∀ e ∈ ((IRCServer.started created).run events).channels_,
      e.2.type_ = IRCChannel.ChannelType.NORMAL → e.2.getClientCount ≠ 0) ∧
    (∀ (client : Nat) (c : IRCClient) (cmd : IRCCommand) (name : Str) (rest : List Str)
      (channel : IRCChannel),
      ((IRCServer.started created).run events).clients[client]? = some c →
      c.state_ = IRCClient.State.AUTHENTICATED →
      cmd.command = "PART".toList → cmd.params = name :: rest → name ≠ [] → ',' ∉ name →
      name ∈ c.channels_ →
      IRCChannelManager.getChannel ((IRCServer.started created).run events) name =
        some channel →
      channel.type_ = IRCChannel.ChannelType.NORMAL →
      channel.clients_ = [(c.nickname_, client)] →
      IRCChannelManager.getChannel
        (IRCCommandHandler.handleCommand ((IRCServer.started created).run events) client cmd)
        name = none) := by
  have hinv := IRCServer.run_inv events _ (IRCServer.started_inv created)
  refine ⟨hinv.1, hinv.2.1, ?_, ?_⟩
  · intro e he hty hcount
    have hnil : e.2.clients_ = [] := List.length_eq_zero.mp hcount
    exact (hinv.2.2 e he hty).1 hnil
  · intro client c cmd name rest channel hc hstate hcmd hparams hne hcomma hin hch hty hmembers
    have hlog := (hinv.2.2 (name, channel) (map_find_mem _ _ _ hch) hty).2
    exact IRCCommandHandler.handlePART_last _ client c cmd name rest channel client hc hstate
      hcmd hparams hne hcomma hin hch hmembers hlog


/-- Claim C20 at a concrete state: after `alice` has registered and joined `#x`, the channel
is in the table, and her `PART #x` removes it. -/
theorem IRCServer.log_channels_kept_witness :
    (IRCChannelManager.getChannel (irc_start.run (trace_two_bobs.take 4)) "#x".toList).isSome =
      true ∧
    IRCChannelManager.getChannel
      (IRCCommandHandler.handleCommand (irc_start.run (trace_two_bobs.take 4)) 0
        (IRCCommandParser.parse "PART #x".toList)) "#x".toList = none :=
  ⟨by decide,
   (IRCServer.log_channels_kept "Sun Nov  1 06:00:00 2026".toList (trace_two_bobs.take 4)).2.2.2
     0 ((irc_start.run (trace_two_bobs.take 4)).deref 0)
     (IRCCommandParser.parse "PART #x".toList) "#x".toList []
     { name_ := "#x".toList, type_ := IRCChannel.ChannelType.NORMAL,
       clients_ := [("alice".toList, 0)], operators_ := ["alice".toList] }
     (by decide) (by decide) (by decide) (by decide) (by decide) (by decide) (by decide)
     (by decide) (by decide) (by decide)⟩

/-- C18, amended. In every state that a started server reaches by a sequence of events, a
descriptor of the client table refers to a client object with that descriptor, and unless
the state of the client is DISCONNECTED (the state after `QUIT`), the state is
AUTHENTICATED if and only if nickname and username are both non-empty. -/
theorem IRCServer.authenticated_iff_names (created : Str) (events : List IRCEvent) (fd : Int)
    (client : Nat)
    (hreg : IRCClientManager.getClientByFd ((IRCServer.started created).run events) fd =
      some client) :
    ∃ c, ((IRCServer.started created).run events).clients[client]? = some c ∧ c.fd_ = fd ∧
      (c.state_ ≠ IRCClient.State.DISCONNECTED →
        (c.state_ = IRCClient.State.AUTHENTICATED ↔ c.nickname_ ≠ [] ∧ c.username_ ≠ [])) := by
  have hinv := IRCServer.run_auth_inv events _ (IRCServer.started_auth_inv created)
  obtain ⟨nick, user, st, hget, hauth⟩ := hinv.2 fd client hreg
  have hall := hinv.1 client fd nick user st hget
  rw [core_getElem] at hget
  obtain ⟨c, hc, hfd, hn, hu, hs⟩ := hget
  refine ⟨c, hc, hfd, ?_⟩
  rw [hn, hu, hs]
  intro hnot
  constructor
  · intro h
    exact ⟨hauth h, hall.2 h⟩
  · intro h
    cases st with
    | CONNECTED =>
      rcases hall.1 rfl with h1 | h1
      · exact absurd h1 h.1
      · exact absurd h1 h.2
    | AUTHENTICATED => rfl
    | DISCONNECTED => exact absurd rfl hnot

/-- Claim C18, amended, at the state after `NICK alice` and `USER a b c :A` on descriptor 5. -/
theorem IRCServer.authenticated_iff_names_witness :
    IRCClientManager.getClientByFd (irc_start.run trace_register) 5 = some 0 ∧
    ∃ c, (irc_start.run trace_register).clients[0]? = some c ∧ c.fd_ = 5 ∧
      (c.state_ ≠ IRCClient.State.DISCONNECTED →
        (c.state_ = IRCClient.State.AUTHENTICATED ↔ c.nickname_ ≠ [] ∧ c.username_ ≠ [])) :=
  ⟨by decide,
   IRCServer.authenticated_iff_names "Sun Nov  1 06:00:00 2026".toList trace_register 5 0
     (by decide)⟩

/-- Claim C19 at concrete states: `alice`, registered, joins `#x`, which is not in the table,
and asks for `#logs-x`, which is not in the table either. -/
theorem IRCCommandHandler.handleJOIN_absent_witness :
    (irc_start.run trace_register).clients[0]? =
      some ((irc_start.run trace_register).deref 0) ∧
    IRCChannelManager.getChannel (irc_start.run trace_register) "#x".toList = none ∧
    IRCChannelManager.getChannel (irc_start.run trace_register) "#logs-x".toList = none ∧
    (IRCCommandHandler.handleCommand (irc_start.run trace_register) 0
        (IRCCommandParser.parse "JOIN #x".toList)).channels_ =
      (irc_start.run trace_register).channels_ ++ [("#x".toList,
        { name_ := "#x".toList, type_ := IRCChannel.ChannelType.NORMAL,
          clients_ := [("alice".toList, 0)], operators_ := ["alice".toList] })] ∧
    IRCCommandHandler.handleCommand (irc_start.run trace_register) 0
        (IRCCommandParser.parse "JOIN #logs-x".toList) =
      { irc_start.run trace_register with
        sent := (irc_start.run trace_register).sent ++ [(5,
          ":logcaster-irc 403 alice #logs-x :Log channel does not exist\r\n".toList)] } :=
  ⟨by decide, by decide, by decide,
   ((IRCCommandHandler.handleJOIN_absent (irc_start.run trace_register) 0
      ((irc_start.run trace_register).deref 0) (IRCCommandParser.parse "JOIN #x".toList)
      "#x".toList [] (by decide) (by decide) (by decide) (by decide) (by decide) (by decide)
      (by decide) (by decide)).2 (by decide)).1,
   (IRCCommandHandler.handleJOIN_absent (irc_start.run trace_register) 0
      ((irc_start.run trace_register).deref 0) (IRCCommandParser.parse "JOIN #logs-x".toList)
      "#logs-x".toList [] (by decide) (by decide) (by decide) (by decide) (by decide)
      (by decide) (by decide) (by decide)).1 (by decide)⟩



/-! ## The query handler: STATS and QUERY -/

/-- C29. For every buffer, `processQuery("STATS")` returns
`STATS: Total=<t>, Dropped=<d>, Current=<n>` and a newline, `t` and `d` being the counters
of the buffer and `n` its size, in decimal, and leaves the buffer as it was; after 10 pushes
into a buffer of capacity 5 the response is `STATS: Total=10, Dropped=5, Current=5`. -/
theorem QueryHandler.processQuery_stats (lib : StdLib) (buffer_ : LogBuffer)
    (calls : List PushCall) (hcalls : calls.length = 10) :
    QueryHandler.processQuery lib buffer_ "STATS".toList =
      ("STATS: Total=".toList ++ decimal buffer_.totalLogs_ ++ ", Dropped=".toList ++
        decimal buffer_.droppedLogs_ ++ ", Current=".toList ++ decimal buffer_.buffer_.length ++
        "\n".toList, buffer_) ∧
    (QueryHandler.processQuery lib ((LogBuffer.new 5).pushAll calls) "STATS".toList).1 =
      "STATS: Total=10, Dropped=5, Current=5\n".toList := by
  have hgen : ∀ b : LogBuffer, QueryHandler.processQuery lib b "STATS".toList =
      ("STATS: Total=".toList ++ decimal b.totalLogs_ ++ ", Dropped=".toList ++
        decimal b.droppedLogs_ ++ ", Current=".toList ++ decimal b.buffer_.length ++
        "\n".toList, b) := by
    intro b
    unfold QueryHandler.processQuery
    rw [if_neg (by decide), if_pos rfl]
    rfl
  refine ⟨hgen buffer_, ?_⟩
  rw [hgen]
  obtain ⟨hbuf, _, htot, hdrop, _⟩ := LogBuffer.pushAll_new 5 calls
  simp only
  rw [htot, hdrop, hbuf, List.length_drop, List.length_map, hcalls]
  rfl

/-- C29, at ten pushes of the ingest path. -/
theorem QueryHandler.processQuery_stats_witness :
    (QueryHandler.processQuery literal_lib
      ((LogBuffer.new 5).pushAll ((List.range 10).map (fun i => PushCall.info "m" i)))
      "STATS".toList).1 = "STATS: Total=10, Dropped=5, Current=5\n".toList :=
  (QueryHandler.processQuery_stats literal_lib (LogBuffer.new 5)
    ((List.range 10).map (fun i => PushCall.info "m" i)) rfl).2

/-- C30. For a command that starts with `QUERY` and that `parse` accepts, `processQuery`
returns `FOUND: <k> matches` and a newline, followed by the strings that `searchEnhanced`
returns for the parsed query, in order, each followed by a newline; `k` is their number,
which is the number of stored entries that the query matches. -/
theorem QueryHandler.processQuery_found (lib : StdLib) (buffer_ : LogBuffer) (query : Str)
    (parsed_query : ParsedQuery)
    (hquery : find query "QUERY".toList = some 0)
    (hparse : QueryParser.parse lib query = Except.ok parsed_query) :
    (QueryHandler.processQuery lib buffer_ query).1 =
      "FOUND: ".toList ++ decimal (buffer_.searchEnhanced lib parsed_query).1.length ++
        " matches\n".toList ++
        ((buffer_.searchEnhanced lib parsed_query).1.map
          (fun res => res ++ "\n".toList)).flatten ∧
    (buffer_.searchEnhanced lib parsed_query).1.length =
      (buffer_.buffer_.filter
        (fun e => parsed_query.matches lib e.message e.timestamp)).length := by
  constructor
  · unfold QueryHandler.processQuery QueryHandler.handleSearch
    rw [if_pos hquery, hparse]
  · simp only [LogBuffer.searchEnhanced, LogBuffer.searchEnhanced_loop_eq, List.nil_append,
      List.length_map]

/-- C30, at the command `QUERY keywords=b` on a buffer that holds `a` and `b`. -/
theorem QueryHandler.processQuery_found_witness :
    find "QUERY keywords=b".toList "QUERY".toList = some 0 ∧
    (QueryHandler.processQuery literal_lib
        ((LogBuffer.new 4).pushAll [PushCall.info "a" 1, PushCall.info "b" 2])
        "QUERY keywords=b".toList).1 =
      "FOUND: 1 matches\n[0000-00-00 00:00:00] b\n".toList :=
  ⟨rfl,
   (QueryHandler.processQuery_found literal_lib
      ((LogBuffer.new 4).pushAll [PushCall.info "a" 1, PushCall.info "b" 2])
      "QUERY keywords=b".toList
      { keywords_ := ["b".toList] } rfl rfl).1⟩


/-! ## Callbacks of the buffer -/

theorem count_map_pair (callbacks : List LogCallback) (callback : LogCallback)
    (entry : LogEntry) :
    (callbacks.map (fun c => (c, entry))).count (callback, entry) = callbacks.count callback := by
  induction callbacks with
  | nil => rfl
  | cons c rest ih =>
    by_cases h : c = callback
    · simp [h, ih]
    · have h2 : ((c, entry) == (callback, entry)) = false := by simp [h]
      simp [List.count_cons, h, ih]

theorem LogBuffer.notify_count (level : Str) (entry : LogEntry) (callback : LogCallback)
    (m : List (Str × List LogCallback)) :
    (LogBuffer.notify level entry m).count (callback, entry) =
      LogBuffer.registered "#logs-all".toList callback m +
        (if level = "ERROR".toList then LogBuffer.registered "#logs-error".toList callback m
          else 0) := by
  induction m with
  | nil => simp [LogBuffer.notify, LogBuffer.registered]
  | cons e rest ih =>
    obtain ⟨channel, callbacks⟩ := e
    have hne : "#logs-all".toList ≠ "#logs-error".toList := by decide
    unfold LogBuffer.notify
    by_cases hall : channel = "#logs-all".toList
    · have herr : ¬ channel = "#logs-error".toList := by rw [hall]; exact hne
      rw [if_pos (Or.inl hall), List.count_append, ih, count_map_pair]
      simp only [LogBuffer.registered, List.filter_cons, hall, herr, decide_True, decide_False,
        if_true, List.map_cons, List.sum_cons]
      simp only [Bool.false_eq_true, if_false, hne, decide_False]
      split <;> omega
    · by_cases herr : channel = "#logs-error".toList
      · by_cases hlevel : level = "ERROR".toList
        · rw [if_pos (Or.inr ⟨herr, hlevel⟩), List.count_append, ih, count_map_pair]
          simp only [LogBuffer.registered, List.filter_cons, hall, herr, decide_True,
            decide_False, if_true, List.map_cons, List.sum_cons, hlevel]
          simp only [Bool.false_eq_true, if_false, hne.symm, decide_False]
          omega
        · rw [if_neg (by rintro (h | h); exact hall h; exact hlevel h.2), ih]
          simp only [LogBuffer.registered, List.filter_cons, hall, decide_False, hlevel,
            if_false]
          simp
      · rw [if_neg (by rintro (h | h); exact hall h; exact herr h.1), ih]
        simp only [LogBuffer.registered, List.filter_cons, hall, herr, decide_False]
        simp

theorem LogBuffer.notify_entry (level : Str) (entry : LogEntry)
    (m : List (Str × List LogCallback)) :
    ∀ p ∈ LogBuffer.notify level entry m, p.2 = entry := by
  induction m with
  | nil => simp [LogBuffer.notify]
  | cons e rest ih =>
    obtain ⟨channel, callbacks⟩ := e
    unfold LogBuffer.notify
    split
    · intro p hp
      rcases List.mem_append.mp hp with h | h
      · obtain ⟨c, _, hc⟩ := List.mem_map.mp h
        rw [← hc]
      · exact ih p h
    · exact ih

theorem LogBuffer.registered_push_back (key channel : Str) (callback cb : LogCallback)
    (m : List (Str × List LogCallback)) :
    LogBuffer.registered key callback (map_push_back channel cb m) =
      LogBuffer.registered key callback m +
        (if channel = key ∧ cb = callback then 1 else 0) := by
  induction m with
  | nil =>
    by_cases hk : channel = key
    · by_cases hc : cb = callback
      · simp [map_push_back, LogBuffer.registered, hk, hc]
      · simp [map_push_back, LogBuffer.registered, hk, hc, List.count_cons]
    · simp [map_push_back, LogBuffer.registered, hk]
  | cons e rest ih =>
    obtain ⟨k, v⟩ := e
    unfold map_push_back
    by_cases h1 : k = channel
    · rw [if_pos h1]
      by_cases hk : channel = key
      · have hkk : k = key := h1.trans hk
        by_cases hc : cb = callback
        · simp [LogBuffer.registered, List.filter_cons, hkk, hk, hc, List.count_append]
          omega
        · simp [LogBuffer.registered, List.filter_cons, hkk, hk, hc, List.count_append,
            List.count_cons]
      · have hkk : ¬ k = key := fun h => hk (h1.symm.trans h)
        simp [LogBuffer.registered, List.filter_cons, hkk, hk]
    · rw [if_neg h1]
      split
      · by_cases hk : channel = key
        · by_cases hc : cb = callback
          · by_cases hkk : k = key
            · simp [LogBuffer.registered, List.filter_cons, hkk, hk, hc]
              omega
            · simp [LogBuffer.registered, List.filter_cons, hkk, hk, hc]
              omega
          · by_cases hkk : k = key
            · simp [LogBuffer.registered, List.filter_cons, hkk, hk, hc, List.count_cons]
            · simp [LogBuffer.registered, List.filter_cons, hkk, hk, hc, List.count_cons]
        · by_cases hkk : k = key
          · simp [LogBuffer.registered, List.filter_cons, hkk, hk]
          · simp [LogBuffer.registered, List.filter_cons, hkk, hk]
      · have ih2 := ih
        simp only [LogBuffer.registered] at ih2 ⊢
        by_cases hkk : k = key
        · simp only [List.filter_cons, hkk, decide_True, if_true, List.map_cons, List.sum_cons]
          rw [ih2]
          omega
        · simp only [List.filter_cons, hkk, decide_False, Bool.false_eq_true, if_false]
          rw [ih2]

theorem LogBuffer.registered_calls (key : Str) (callback : LogCallback)
    (cs : List LogBufferCall) (b : LogBuffer) :
    LogBuffer.registered key callback (b.calls cs).callbacks_ =
      LogBuffer.registered key callback b.callbacks_ +
        LogBufferCall.registrations key callback cs := by
  induction cs generalizing b with
  | nil => simp [LogBuffer.calls, LogBufferCall.registrations]
  | cons call rest ih =>
    have hstep : b.calls (call :: rest) = (b.call call).calls rest := rfl
    rw [hstep, ih]
    cases call with
    | push p =>
      have h1 : (b.call (LogBufferCall.push p)).callbacks_ = b.callbacks_ :=
        LogBuffer.push_callbacks b p.message p.level p.source p.now
      rw [h1]
      simp [LogBufferCall.registrations, List.count_cons]
    | registerCallback channel cb =>
      have h1 : (b.call (LogBufferCall.registerCallback channel cb)).callbacks_ =
          map_push_back channel cb b.callbacks_ := rfl
      rw [h1, LogBuffer.registered_push_back]
      unfold LogBufferCall.registrations
      rw [List.count_cons]
      by_cases h : channel = key ∧ cb = callback
      · obtain ⟨hk, hc⟩ := h
        simp [hk, hc]
        omega
      · have h2 : (LogBufferCall.registerCallback channel cb ==
            LogBufferCall.registerCallback key callback) = false := by
          simp only [beq_eq_false_iff_ne, ne_eq, LogBufferCall.registerCallback.injEq]
          exact h
        rw [if_neg h, h2]
        simp

/-- C24. On a buffer made by any sequence of `registerCallback` and `push` calls, a `push`
appends its entry to the buffer and then invokes a callback once for each of its
registrations under `#logs-all`, once more for each of its registrations under
`#logs-error` when the level is `ERROR`, and for no other registration; every invocation
is passed the entry of this push. -/
theorem LogBuffer.push_notifies (c : Nat) (cs : List LogBufferCall)
    (message level source : Str) (now : Int) (callback : LogCallback) :
    ((((LogBuffer.new c).calls cs).push message level source now).2.count
        (callback, { message := message, timestamp := now, level := level, source := source }) =
      LogBufferCall.registrations "#logs-all".toList callback cs +
        (if level = "ERROR".toList then
          LogBufferCall.registrations "#logs-error".toList callback cs else 0)) ∧
    (∀ p ∈ (((LogBuffer.new c).calls cs).push message level source now).2,
      p.2 = { message := message, timestamp := now, level := level, source := source }) ∧
    (((LogBuffer.new c).calls cs).push message level source now).1.buffer_.getLast? =
      some { message := message, timestamp := now, level := level, source := source } := by
  have hreg : ∀ key, LogBuffer.registered key callback ((LogBuffer.new c).calls cs).callbacks_ =
      LogBufferCall.registrations key callback cs := by
    intro key
    rw [LogBuffer.registered_calls]
    simp [LogBuffer.new, LogBuffer.registered]
  have hcb : ∀ b : LogBuffer, (if b.buffer_.length ≥ b.capacity_ then b.dropOldest_
      else b).callbacks_ = b.callbacks_ := by
    intro b
    unfold LogBuffer.dropOldest_
    split
    · split <;> rfl
    · rfl
  refine ⟨?_, ?_, ?_⟩
  · simp only [LogBuffer.push, hcb]
    rw [LogBuffer.notify_count, hreg, hreg]
  · simp only [LogBuffer.push]
    exact LogBuffer.notify_entry _ _ _
  · simp [LogBuffer.push]

/-- Claim C24 at a buffer with one callback under each of `#logs-all`, `#logs-error` and
`#other`: the invocations for a push of level `ERROR` and for one of level `info`. -/
theorem LogBuffer.push_notifies_example :
    ((((LogBuffer.new 4).calls
        [LogBufferCall.registerCallback "#other".toList 3,
         LogBufferCall.registerCallback "#logs-error".toList 2,
         LogBufferCall.registerCallback "#logs-all".toList 1]).push
        "boom".toList "ERROR".toList "unknown".toList 0).2.map (fun p => p.1) = [1, 2]) ∧
    ((((LogBuffer.new 4).calls
        [LogBufferCall.registerCallback "#other".toList 3,
         LogBufferCall.registerCallback "#logs-error".toList 2,
         LogBufferCall.registerCallback "#logs-all".toList 1]).push
        "boom".toList "info".toList "unknown".toList 0).2.map (fun p => p.1) = [1]) := by
  decide


/-! ## The ingest reader -/

theorem LogServer.log_message_eq (chunk : Str) :
    LogServer.log_message chunk =
      if chunk.length > 1024 then chunk.take 1024 ++ "...".toList else chunk := by
  unfold LogServer.log_message
  by_cases h : chunk.length > 1024
  · simp only [h, if_true]
  · simp only [h, if_false, List.take_length]

theorem LogServer.log_message_length (chunk : Str) (h : chunk.length > 1024) :
    (LogServer.log_message chunk).length = 1027 := by
  rw [LogServer.log_message_eq, if_pos h, List.length_append, List.length_take]
  have : ("...".toList : Str).length = 3 := rfl
  omega

set_option maxRecDepth 100000 in
theorem handle_client_job_message_long :
    handle_client_job_message (List.replicate 1025 'a') =
      List.replicate 1020 'a' ++ "...".toList := by
  decide


theorem takeWhile_length_le {α : Type} (p : α → Bool) (l : List α) (i : Nat) (x : α)
    (h : l[i]? = some x) (hp : p x = false) : (l.takeWhile p).length ≤ i := by
  induction l generalizing i with
  | nil => simp at h
  | cons y ys ih =>
    cases i with
    | zero =>
      simp only [List.getElem?_cons_zero, Option.some.injEq] at h
      rw [List.takeWhile_cons, h, hp]
      simp
    | succ i =>
      simp only [List.getElem?_cons_succ] at h
      rw [List.takeWhile_cons]
      split
      · simp only [List.length_cons]
        exact Nat.succ_le_succ (ih i h)
      · simp

theorem getElem?_set_nul (buffer : Str) (i j : Nat)
    (h : buffer[i]? = some (Char.ofNat 0)) :
    (buffer.set j (Char.ofNat 0))[i]? = some (Char.ofNat 0) := by
  by_cases hji : j = i
  · have hlt : i < buffer.length := by
      by_contra hge
      rw [List.getElem?_eq_none (Nat.le_of_not_lt hge)] at h
      exact absurd h (by simp)
    rw [hji, List.getElem?_set_self hlt]
  · rw [List.getElem?_set_ne hji]
    exact h

/-- The C variant never passes on more than 1024 bytes, and at most 1023 of a chunk of more
than 1024 bytes. -/
theorem handle_client_job_message_length (chunk : Str) :
    (handle_client_job_message chunk).length ≤ 1024 ∧
    (chunk.length > 1024 → (handle_client_job_message chunk).length ≤ 1023) := by
  have hnul : (fun c : Char => decide (c ≠ Char.ofNat 0)) (Char.ofNat 0) = false := by decide
  have key : ∀ (buffer : Str) (i : Nat), buffer[i]? = some (Char.ofNat 0) →
      (c_str buffer).length ≤ i := by
    intro buffer i h
    exact takeWhile_length_le _ buffer i _ h hnul
  have hite : ∀ (c : Prop) [Decidable c] (buffer : Str) (i j : Nat),
      buffer[i]? = some (Char.ofNat 0) →
      (if c then buffer.set j (Char.ofNat 0) else buffer)[i]? = some (Char.ofNat 0) := by
    intro c _ buffer i j h
    split
    · exact getElem?_set_nul buffer i j h
    · exact h
  by_cases hlong : chunk.length > 1024
  · have h1023 : (handle_client_job_message chunk).length ≤ 1023 := by
      unfold handle_client_job_message
      simp only [hlong, if_true]
      apply key
      apply hite
      apply List.getElem?_set_self
      simp only [List.length_set]
      split <;> simp <;> omega
    exact ⟨by omega, fun _ => h1023⟩
  · refine ⟨?_, fun h => absurd h hlong⟩
    have hle : (handle_client_job_message chunk).length ≤ chunk.length := by
      unfold handle_client_job_message
      simp only [hlong, if_false]
      apply key
      apply hite
      apply hite
      simp
    omega


theorem LogServer.handleClientTask_pass_new (chunk : Str) (now : Int) :
    (LogServer.handleClientTask_pass (LogBuffer.new 4) chunk now).1.buffer_ =
      [{ message := LogServer.log_message chunk, timestamp := now, level := "info".toList,
         source := "unknown".toList }] := rfl

/-- C25 (defect of the code). For a chunk of 1025 bytes, `handleClientTask` pushes a message
of 1027 bytes: the first 1024 bytes of the chunk and `...`. The C variant passes on 1023
bytes of the same chunk. -/
theorem LogServer.message_exceeds_limit :
    (List.replicate 1025 'a').length = 1025 ∧
    (LogServer.log_message (List.replicate 1025 'a')).length = 1027 ∧
    (LogServer.handleClientTask_pass (LogBuffer.new 4) (List.replicate 1025 'a') 0).1.buffer_.map
        (fun entry => entry.message.length) = [1027] ∧
    (handle_client_job_message (List.replicate 1025 'a')).length = 1023 := by
  have hlen : (List.replicate 1025 'a').length = 1025 := List.length_replicate _ _
  have h := LogServer.log_message_length (List.replicate 1025 'a') (by rw [hlen]; omega)
  refine ⟨hlen, h, ?_, ?_⟩
  · rw [LogServer.handleClientTask_pass_new]
    simp only [List.map_cons, List.map_nil, h]
  · rw [handle_client_job_message_long, List.length_append, List.length_replicate]
    rfl

/-- C26 (defect of the code). The chunk `abc` with a newline is pushed with its newline, with
level `info` and source `unknown`; the C variant strips the newline. A chunk of 1025 bytes
is pushed as its first 1024 bytes and `...` (in the C variant: its first 1020 bytes and
`...`), not as its first 1021 bytes and `...`. -/
theorem LogServer.message_keeps_newline :
    LogServer.log_message "abc\n".toList = "abc\n".toList ∧
    (LogServer.handleClientTask_pass (LogBuffer.new 4) "abc\n".toList 0).1.buffer_ =
      [{ message := "abc\n".toList, timestamp := 0, level := "info".toList,
         source := "unknown".toList }] ∧
    handle_client_job_message "abc\n".toList = "abc".toList ∧
    LogServer.log_message (List.replicate 1025 'a') =
      List.replicate 1024 'a' ++ "...".toList ∧
    handle_client_job_message (List.replicate 1025 'a') =
      List.replicate 1020 'a' ++ "...".toList := by
  have hlen : (List.replicate 1025 'a').length = 1025 := List.length_replicate _ _
  refine ⟨by decide, by decide, by decide, ?_, handle_client_job_message_long⟩
  rw [LogServer.log_message_eq, if_pos (by rw [hlen]; omega), List.take_replicate]
  rfl


/-! ## What a broadcast sends -/

theorem IRCServer.deref_same {s t : IRCServer} (h : s.same_but_sent t) (client : Nat) :
    t.deref client = s.deref client := by
  unfold IRCServer.deref
  rw [h.1]

theorem IRCChannel.deliveries_same {s t : IRCServer} (h : s.same_but_sent t)
    (members : List (Str × Nat)) (message : Str) :
    IRCChannel.deliveries t members message = IRCChannel.deliveries s members message := by
  unfold IRCChannel.deliveries
  simp only [IRCServer.deref_same h]

theorem IRCClient.sendMessage_sent (s : IRCServer) (client : Nat) (message : Str) :
    (IRCClient.sendMessage s client message).sent =
      s.sent ++ IRCChannel.deliveries s [("".toList, client)] message := by
  unfold IRCClient.sendMessage IRCChannel.deliveries IRCClient.fullMessage
  by_cases h : (s.deref client).fd_ = -1
  · simp [h]
  · simp [h]

theorem IRCChannel.deliveries_cons (s : IRCServer) (nick : Str) (client : Nat)
    (rest : List (Str × Nat)) (message : Str) :
    IRCChannel.deliveries s ((nick, client) :: rest) message =
      IRCChannel.deliveries s [("".toList, client)] message ++
        IRCChannel.deliveries s rest message := by
  unfold IRCChannel.deliveries
  by_cases h : (s.deref client).fd_ = -1
  · simp [List.filter_cons, h]
  · simp [List.filter_cons, h]

theorem IRCChannel.broadcast_loop_sent (message : Str) (members : List (Str × Nat))
    (s : IRCServer) :
    (IRCChannel.broadcast_loop message members s).sent =
      s.sent ++ IRCChannel.deliveries s members message := by
  induction members generalizing s with
  | nil => simp [IRCChannel.broadcast_loop, IRCChannel.deliveries]
  | cons e rest ih =>
    obtain ⟨nick, client⟩ := e
    unfold IRCChannel.broadcast_loop
    rw [ih, IRCClient.sendMessage_sent,
      IRCChannel.deliveries_same (IRCClient.sendMessage_same s client message),
      IRCChannel.deliveries_cons s nick client rest, List.append_assoc]

theorem IRCChannel.broadcastExcept_loop_sent (message exceptNick : Str)
    (members : List (Str × Nat)) (s : IRCServer) :
    (IRCChannel.broadcastExcept_loop message exceptNick members s).sent =
      s.sent ++ IRCChannel.deliveries s (members.filter (fun e => e.1 ≠ exceptNick)) message := by
  induction members generalizing s with
  | nil => simp [IRCChannel.broadcastExcept_loop, IRCChannel.deliveries]
  | cons e rest ih =>
    obtain ⟨nick, client⟩ := e
    unfold IRCChannel.broadcastExcept_loop
    by_cases h : nick ≠ exceptNick
    · rw [if_pos h, ih, IRCClient.sendMessage_sent,
        IRCChannel.deliveries_same (IRCClient.sendMessage_same s client message)]
      have hf : ((nick, client) :: rest).filter (fun e => decide (e.1 ≠ exceptNick)) =
          (nick, client) :: rest.filter (fun e => decide (e.1 ≠ exceptNick)) := by
        rw [List.filter_cons]
        simp [h]
      rw [hf, IRCChannel.deliveries_cons s nick client, List.append_assoc]
    · rw [if_neg h, ih]
      have hf : ((nick, client) :: rest).filter (fun e => decide (e.1 ≠ exceptNick)) =
          rest.filter (fun e => decide (e.1 ≠ exceptNick)) := by
        rw [List.filter_cons]
        simp [h]
      rw [hf]


/-! ## PRIVMSG to a channel, and the names of channels -/

/-- For an AUTHENTICATED session and a `PRIVMSG` whose target starts with `#` or `&` and is
in the channel table: a sender that is not a member gets the one line
`:logcaster-irc 404 <nick> <target> :Cannot send to channel` and nothing else changes; for
a member, the line `:<nick>!<user>@<host> PRIVMSG <target> :<text>` is sent once for each
entry of the member map whose key is not the nickname of the sender, and nothing else
changes. -/
theorem IRCCommandHandler.handlePRIVMSG_channel (s : IRCServer) (client : Nat) (c : IRCClient)
    (cmd : IRCCommand) (target text : Str) (rest : List Str) (channel : IRCChannel)
    (hc : s.clients[client]? = some c) (hfd : c.fd_ ≠ -1)
    (hstate : c.state_ = IRCClient.State.AUTHENTICATED)
    (hcmd : cmd.command = "PRIVMSG".toList) (hparams : cmd.params = target :: rest)
    (htext : text = if cmd.trailing.isEmpty then cmd.getParam 1 else cmd.trailing)
    (hgiven : ¬ (cmd.trailing.isEmpty ∧ cmd.params.length < 2)) (hne : text ≠ [])
    (hhead : target.head? = some '#' ∨ target.head? = some '&')
    (hch : IRCChannelManager.getChannel s target = some channel) :
    (channel.hasClient c.nickname_ = false →
      IRCCommandHandler.handleCommand s client cmd =
        { s with sent := s.sent ++ [(c.fd_,
            ":logcaster-irc 404 ".toList ++
              (if c.nickname_.isEmpty then "*".toList else c.nickname_) ++ " ".toList ++
              target ++ " :Cannot send to channel\r\n".toList)] }) ∧
    (channel.hasClient c.nickname_ = true →
      s.same_but_sent (IRCCommandHandler.handleCommand s client cmd) ∧
      (IRCCommandHandler.handleCommand s client cmd).sent =
        s.sent ++ IRCChannel.deliveries s
          (channel.clients_.filter (fun e => e.1 ≠ c.nickname_))
          (":".toList ++ c.nickname_ ++ "!".toList ++ c.username_ ++ "@".toList ++
            c.hostname_ ++ " PRIVMSG ".toList ++ target ++ " :".toList ++ text)) := by
  have hd := IRCServer.deref_eq s client c hc
  have hauth : (s.deref client).isAuthenticated = true := by
    rw [hd]
    simp [IRCClient.isAuthenticated, hstate]
  have h1 : ¬ ((s.clients[client]?).isNone = true ∨ cmd.command.isEmpty = true) := by
    rw [hc, hcmd]
    simp
  have h2 : ¬ ((!(s.deref client).isAuthenticated) = true ∧ cmd.command ≠ "NICK".toList ∧
      cmd.command ≠ "USER".toList ∧ cmd.command ≠ "QUIT".toList) := by
    rw [hauth]
    simp
  have h3 : ¬ cmd.command = "NICK".toList := by rw [hcmd]; decide
  have h4 : ¬ cmd.command = "USER".toList := by rw [hcmd]; decide
  have h5 : ¬ cmd.command = "JOIN".toList := by rw [hcmd]; decide
  have h6 : ¬ cmd.command = "PART".toList := by rw [hcmd]; decide
  have hp : ¬ cmd.params.isEmpty = true := by rw [hparams]; simp
  have hg : cmd.getParam 0 = target := by
    unfold IRCCommand.getParam
    rw [hparams]
    simp
  have hcommand : IRCCommandHandler.handleCommand s client cmd =
      if !channel.hasClient c.nickname_ then
        IRCClient.sendErrorReply s client 404 (target ++ " :Cannot send to channel".toList)
      else IRCChannel.broadcastExcept s channel
        (IRCCommandParser.formatUserMessage c.nickname_ c.username_ c.hostname_
          "PRIVMSG".toList target text) c.nickname_ := by
    unfold IRCCommandHandler.handleCommand
    rw [if_neg h1, if_neg h2, if_neg h3, if_neg h4, if_neg h5, if_neg h6, if_pos hcmd]
    unfold IRCCommandHandler.handlePRIVMSG
    rw [if_neg hp, if_neg hgiven]
    simp only [hg, hd, ← htext, if_pos hhead, hch]
  have hline : IRCCommandParser.formatUserMessage c.nickname_ c.username_ c.hostname_
      "PRIVMSG".toList target text =
      ":".toList ++ c.nickname_ ++ "!".toList ++ c.username_ ++ "@".toList ++
        c.hostname_ ++ " PRIVMSG ".toList ++ target ++ " :".toList ++ text := by
    unfold IRCCommandParser.formatUserMessage
    have : (!text.isEmpty) = true := by
      cases text with
      | nil => exact absurd rfl hne
      | cons a as => rfl
    rw [if_pos this]
    simp only [List.append_assoc]
    rfl
  rw [hcommand]
  constructor
  · intro hmem
    rw [hmem]
    simp only [Bool.not_false, if_true]
    unfold IRCClient.sendErrorReply
    have hsend := IRCClient.sendNumericReply_append s client 404
      (target ++ " :Cannot send to chann".toList) 'e' 'l' (by decide) (by rw [hd]; exact hfd)
    have htxt : target ++ " :Cannot send to channel".toList =
        (target ++ " :Cannot send to chann".toList) ++ ['e', 'l'] := by
      rw [List.append_assoc]
      rfl
    rw [htxt, hsend, hd]
    have hdec : decimal 404 = "404".toList := rfl
    simp only [IRCCommandParser.formatReply, hdec]
    congr 1
    simp only [List.append_assoc]
    rfl
  · intro hmem
    rw [hmem]
    simp only [Bool.not_true, Bool.false_eq_true, if_false]
    refine ⟨IRCChannel.broadcastExcept_same s channel _ _, ?_⟩
    unfold IRCChannel.broadcastExcept
    rw [IRCChannel.broadcastExcept_loop_sent, hline]

/-- The two cases at concrete states: the second connection of `trace_two_bobs` sends `hi` to
`#x` before it has joined the channel, and after. -/
theorem IRCCommandHandler.handlePRIVMSG_channel_example :
    ((irc_start.run (trace_two_bobs.take 8)).processClientData 6
        "PRIVMSG #x :hi".toList).sent.drop
        (irc_start.run (trace_two_bobs.take 8)).sent.length =
      [(6, ":logcaster-irc 404 bob #x :Cannot send to channel\r\n".toList)] ∧
    ((irc_start.run trace_two_bobs).processClientData 6 "PRIVMSG #x :hi".toList).sent.drop
        (irc_start.run trace_two_bobs).sent.length =
      [(5, ":bob!b@b PRIVMSG #x :hi\r\n".toList)] := by
  decide

/-- C21 (defect of the code). The channel `x` is in the channel table (`JOIN` does not check
the name, see C22) with `alice` as its member. `PRIVMSG x :hi` of `bob`, who is not a
member, is answered `401 ... :No such nick/channel`, not `404`; the same line of the member
`alice` is answered `401` too and nothing is broadcast: `handlePRIVMSG` takes a target for
a channel only when it starts with `#` or `&`. -/
theorem IRCServer.privmsg_unprefixed_channel :
    (IRCChannelManager.getChannel (irc_start.run trace_join_x) "x".toList).map
        (fun channel => channel.clients_) = some [("alice".toList, 0)] ∧
    ((irc_start.run trace_join_x).deref 1).state_ = IRCClient.State.AUTHENTICATED ∧
    ((irc_start.run trace_join_x).processClientData 6 "PRIVMSG x :hi".toList).sent.drop
        (irc_start.run trace_join_x).sent.length =
      [(6, ":logcaster-irc 401 bob x :No such nick/channel\r\n".toList)] ∧
    ((irc_start.run trace_join_x).processClientData 5 "PRIVMSG x :hi".toList).sent.drop
        (irc_start.run trace_join_x).sent.length =
      [(5, ":logcaster-irc 401 alice x :No such nick/channel\r\n".toList)] := by
  decide

/-- C22 (defect of the code). After `JOIN x` of a registered session the channel table has a
NORMAL channel named `x`, a name that `isValidChannelName` rejects: neither `handleJOIN` nor
`joinChannel` calls `isValidChannelName`. -/
theorem IRCServer.join_invalid_name :
    (irc_start.run trace_join_x).channels_.map (fun e => (e.1, e.2.type_)) =
      [("#logs-all".toList, IRCChannel.ChannelType.LOG_STREAM),
       ("#logs-error".toList, IRCChannel.ChannelType.LOG_STREAM),
       ("x".toList, IRCChannel.ChannelType.NORMAL)] ∧
    IRCChannelManager.isValidChannelName "x".toList = false ∧
    IRCChannelManager.isValidChannelName "#logs-all".toList = true ∧
    IRCChannelManager.isValidChannelName "#x".toList = true := by
  decide


/-! ## Distribution of log entries to the channels -/

theorem IRCChannel.processLogEntry_sent (lib : StdLib) (s : IRCServer) (channel : IRCChannel)
    (entry : LogEntry) :
    s.same_but_sent
      (if channel.type_ = IRCChannel.ChannelType.LOG_STREAM ∧ channel.streamingEnabled_ then
        IRCChannel.processLogEntry lib s channel entry else s) ∧
    (if channel.type_ = IRCChannel.ChannelType.LOG_STREAM ∧ channel.streamingEnabled_ then
        IRCChannel.processLogEntry lib s channel entry else s).sent =
      s.sent ++ (if channel.streams entry then
        IRCChannel.deliveries s channel.clients_
          (IRCCommandParser.formatUserMessage "LogBot".toList "log".toList "system".toList
            "PRIVMSG".toList channel.name_ (IRCChannel.formatLogEntry lib entry))
        else []) := by
  unfold IRCChannel.streams
  by_cases h1 : channel.type_ = IRCChannel.ChannelType.LOG_STREAM
  · by_cases h2 : channel.streamingEnabled_ = true
    · rw [if_pos ⟨h1, h2⟩]
      unfold IRCChannel.processLogEntry
      by_cases h3 : channel.filter_rejects entry = true
      · simp only [h1, h2, h3, decide_True, Bool.not_true, Bool.and_false, Bool.false_eq_true,
          if_false, List.append_nil, if_true]
        split
        · exact ⟨IRCServer.same_but_sent_refl s, rfl⟩
        · exact ⟨IRCServer.same_but_sent_refl s, rfl⟩
      · have h3f : channel.filter_rejects entry = false := by
          cases h : channel.filter_rejects entry with
          | true => exact absurd h h3
          | false => rfl
        simp only [h1, h2, h3f, decide_True, Bool.not_false, Bool.and_self, if_true,
          Bool.not_true, Bool.false_eq_true, false_or, if_false]
        split
        · rename_i hempty
          have hnil : channel.clients_ = [] := List.isEmpty_iff.mp hempty
          rw [hnil]
          exact ⟨IRCServer.same_but_sent_refl s, by simp [IRCChannel.deliveries]⟩
        · exact ⟨IRCChannel.broadcast_same s channel _,
            IRCChannel.broadcast_loop_sent _ channel.clients_ s⟩
    · have h2f : channel.streamingEnabled_ = false := by
        cases h : channel.streamingEnabled_ with
        | true => exact absurd h h2
        | false => rfl
      rw [if_neg (fun h => h2 h.2)]
      simp only [h2f, Bool.and_false, Bool.false_and, Bool.false_eq_true, if_false,
        List.append_nil]
      exact ⟨IRCServer.same_but_sent_refl s, trivial⟩
  · rw [if_neg (fun h => h1 h.1)]
    simp only [h1, decide_False, Bool.false_and, Bool.false_eq_true, if_false, List.append_nil]
    exact ⟨IRCServer.same_but_sent_refl s, trivial⟩

theorem IRCChannelManager.distributeLogEntry_loop_sent (lib : StdLib) (entry : LogEntry)
    (channels : List (Str × IRCChannel)) (s : IRCServer) :
    s.same_but_sent (IRCChannelManager.distributeLogEntry_loop lib entry channels s) ∧
    (IRCChannelManager.distributeLogEntry_loop lib entry channels s).sent =
      s.sent ++ (channels.map (fun e => if e.2.streams entry then
        IRCChannel.deliveries s e.2.clients_
          (IRCCommandParser.formatUserMessage "LogBot".toList "log".toList "system".toList
            "PRIVMSG".toList e.2.name_ (IRCChannel.formatLogEntry lib entry))
        else [])).flatten := by
  induction channels generalizing s with
  | nil => exact ⟨IRCServer.same_but_sent_refl s, by simp [IRCChannelManager.distributeLogEntry_loop]⟩
  | cons e rest ih =>
    obtain ⟨name, channel⟩ := e
    unfold IRCChannelManager.distributeLogEntry_loop
    obtain ⟨hsame, hsent⟩ := IRCChannel.processLogEntry_sent lib s channel entry
    obtain ⟨hsame2, hsent2⟩ := ih
      (if channel.type_ = IRCChannel.ChannelType.LOG_STREAM ∧ channel.streamingEnabled_ then
        IRCChannel.processLogEntry lib s channel entry else s)
    refine ⟨IRCServer.same_but_sent_trans hsame hsame2, ?_⟩
    rw [hsent2, hsent]
    simp only [IRCChannel.deliveries_same hsame, List.map_cons, List.flatten_cons,
      List.append_assoc]

theorem IRCChannel.formatLogEntry_line (lib : StdLib) (name : Str) (entry : LogEntry)
    (hlevel : entry.level ≠ []) (hsource : entry.source ≠ []) :
    IRCCommandParser.formatUserMessage "LogBot".toList "log".toList "system".toList
      "PRIVMSG".toList name (IRCChannel.formatLogEntry lib entry) = log_line lib name entry := by
  have h1 : (!entry.level.isEmpty) = true := by
    cases h : entry.level with
    | nil => exact absurd h hlevel
    | cons a as => rfl
  have h2 : (!entry.source.isEmpty) = true := by
    cases h : entry.source with
    | nil => exact absurd h hsource
    | cons a as => rfl
  unfold IRCCommandParser.formatUserMessage IRCChannel.formatLogEntry log_line
  rw [if_pos h1, if_pos h2]
  have h3 : (!("[".toList ++ lib.put_time entry.timestamp ++ "] ".toList ++
      (entry.level ++ ": ".toList) ++ ("[".toList ++ entry.source ++ "] ".toList) ++
      entry.message).isEmpty) = true := rfl
  rw [if_pos h3]
  simp only [List.append_assoc]
  rfl

/-- C23, amended. For an entry with a level and a source, `distributeLogEntry` changes
nothing but what is sent, and sends, channel after channel, to every member (with a
descriptor other than -1) of each LOG_STREAM channel with streaming enabled whose filter is
absent or accepts the entry the line
`:LogBot!log@system PRIVMSG <channel> :[<timestamp>] <level>: [<source>] <message>`, ended
by CR-LF; nothing is sent for the other channels. -/
theorem IRCChannelManager.distributeLogEntry_sent (lib : StdLib) (s : IRCServer)
    (entry : LogEntry) (hlevel : entry.level ≠ []) (hsource : entry.source ≠ []) :
    s.same_but_sent (IRCChannelManager.distributeLogEntry lib s entry) ∧
    (IRCChannelManager.distributeLogEntry lib s entry).sent =
      s.sent ++ (s.channels_.map (fun e => if e.2.streams entry then
        IRCChannel.deliveries s e.2.clients_ (log_line lib e.2.name_ entry)
        else [])).flatten := by
  obtain ⟨h1, h2⟩ := IRCChannelManager.distributeLogEntry_loop_sent lib entry s.channels_ s
  refine ⟨h1, ?_⟩
  unfold IRCChannelManager.distributeLogEntry
  rw [h2]
  simp only [IRCChannel.formatLogEntry_line lib _ entry hlevel hsource]

/-- C23, amended, at a member of `#logs-error`: an entry with level `ERROR` and message
`boom` reaches the member, one with level `info` does not. -/
theorem IRCChannelManager.distributeLogEntry_sent_witness :
    ((IRCChannelManager.distributeLogEntry literal_lib (irc_start.run trace_logs_error)
        (entry_boom "ERROR")).sent =
      (irc_start.run trace_logs_error).sent ++
        ((irc_start.run trace_logs_error).channels_.map (fun e =>
          if e.2.streams (entry_boom "ERROR") then
            IRCChannel.deliveries (irc_start.run trace_logs_error) e.2.clients_
              (log_line literal_lib e.2.name_ (entry_boom "ERROR"))
          else [])).flatten) ∧
    (IRCChannelManager.distributeLogEntry literal_lib (irc_start.run trace_logs_error)
        (entry_boom "ERROR")).sent.drop (irc_start.run trace_logs_error).sent.length =
      [(5, (":LogBot!log@system PRIVMSG #logs-error :[0000-00-00 00:00:00] ERROR: " ++
          "[unknown] boom\r\n").toList)] ∧
    (IRCChannelManager.distributeLogEntry literal_lib (irc_start.run trace_logs_error)
        (entry_boom "info")).sent = (irc_start.run trace_logs_error).sent :=
  ⟨(IRCChannelManager.distributeLogEntry_sent literal_lib (irc_start.run trace_logs_error)
      (entry_boom "ERROR") (by decide) (by decide)).2, by decide, by decide⟩

/-- C23, as stated, fails for an entry without a level: `formatLogEntry` leaves the level and
its colon out, so a member of `#logs-all` is sent `[<timestamp>] [unknown] boom`, not the
line of the claim. -/
theorem IRCChannelManager.distributeLogEntry_no_level :
    (IRCChannelManager.distributeLogEntry literal_lib (irc_start.run trace_logs_all)
        (entry_boom "")).sent.drop (irc_start.run trace_logs_all).sent.length =
      [(5, (":LogBot!log@system PRIVMSG #logs-all :[0000-00-00 00:00:00] " ++
          "[unknown] boom\r\n").toList)] ∧
    log_line literal_lib "#logs-all".toList (entry_boom "") ++ "\r\n".toList =
      (":LogBot!log@system PRIVMSG #logs-all :[0000-00-00 00:00:00] : " ++
          "[unknown] boom\r\n").toList := by
  decide


/-! ## The persistence writer -/

theorem log_name_inj (a b : Str)
    (h : "log-".toList ++ a ++ ".log".toList = "log-".toList ++ b ++ ".log".toList) : a = b := by
  have h1 := List.append_cancel_right h
  exact List.append_cancel_left h1

theorem log_name_ne_current (a : Str) : "log-".toList ++ a ++ ".log".toList ≠ current_log := by
  intro h
  have := congrArg List.head? h
  simp [current_log] at this

theorem lines_text_append (xs ys : List Str) :
    lines_text (xs ++ ys) = lines_text xs ++ lines_text ys := by
  simp [lines_text]

theorem lines_text_cons (x : Str) (xs : List Str) :
    lines_text (x :: xs) = x ++ "\n".toList ++ lines_text xs := by
  simp [lines_text]

theorem map_erase_absent {κ α : Type} [DecidableEq κ] (key : κ) (m : List (κ × α))
    (h : ∀ e ∈ m, e.1 ≠ key) : map_erase key m = m := by
  unfold map_erase
  rw [List.filter_eq_self]
  intro e he
  simp [h e he]

theorem map_erase_last {κ α : Type} [DecidableEq κ] (key : κ) (value : α) (m : List (κ × α))
    (h : ∀ e ∈ m, e.1 ≠ key) : map_erase key (m ++ [(key, value)]) = m := by
  unfold map_erase
  rw [List.filter_append, List.filter_eq_self.mpr (fun e he => by simp [h e he])]
  simp

theorem map_find_last {κ α : Type} [DecidableEq κ] (key : κ) (value : α) (m : List (κ × α))
    (h : ∀ e ∈ m, e.1 ≠ key) : map_find key (m ++ [(key, value)]) = some value := by
  rw [map_find_append, (map_find_none_iff key m).mpr h]
  simp [map_find]

theorem fs_append_last (text cur : Str) (rotated : Directory)
    (h : ∀ f ∈ rotated, f.1 ≠ current_log) :
    fs_append current_log text (rotated ++ [(current_log, cur)]) =
      rotated ++ [(current_log, cur ++ text)] := by
  unfold fs_append
  rw [List.map_append]
  congr 1
  · conv => rhs; rw [← List.map_id rotated]
    apply List.map_congr_left
    intro f hf
    simp [h f hf]

theorem Directory.rotated_then_current_last (cur : Str) (rotated : Directory)
    (h : ∀ f ∈ rotated, f.1 ≠ current_log) :
    Directory.rotated_then_current (rotated ++ [(current_log, cur)]) =
      (rotated.map (fun f => f.2)).flatten ++ cur := by
  unfold Directory.rotated_then_current
  rw [map_find_last current_log cur rotated h, List.filter_append,
    List.filter_eq_self.mpr (fun f hf => by simp [h f hf])]
  simp

theorem PersistenceManager.write_loop_last (queue : List Str) (p : PersistenceManager)
    (rotated : Directory) (cur : Str) (hopen : p.log_file_open = true)
    (hfiles : p.files = rotated ++ [(current_log, cur)])
    (h : ∀ f ∈ rotated, f.1 ≠ current_log) :
    (PersistenceManager.write_loop queue p).files =
        rotated ++ [(current_log, cur ++ lines_text queue)] ∧
      (PersistenceManager.write_loop queue p).log_file_open = true ∧
      (PersistenceManager.write_loop queue p).config_ = p.config_ ∧
      (PersistenceManager.write_loop queue p).write_queue_ = p.write_queue_ ∧
      (PersistenceManager.write_loop queue p).running_ = p.running_ ∧
      (PersistenceManager.write_loop queue p).pc = p.pc := by
  induction queue generalizing p cur with
  | nil =>
    have hl : lines_text [] = [] := rfl
    rw [hl, List.append_nil]
    exact ⟨hfiles, hopen, rfl, rfl, rfl, rfl⟩
  | cons message rest ih =>
    unfold PersistenceManager.write_loop
    rw [if_pos hopen]
    have := ih { p with files := fs_append current_log (message ++ "\n".toList) p.files,
                        current_file_size_ :=
                          (p.current_file_size_ + (message.length + 1)) % 2 ^ 64 }
      (cur ++ (message ++ "\n".toList)) hopen
      (by simp only; rw [hfiles, fs_append_last _ _ _ h])
    rw [lines_text_cons]
    simpa only [List.append_assoc] using this


theorem PersistenceManager.write_holds (p : PersistenceManager) (enqueued : List Str)
    (message : Str) (hinv : p.holds enqueued) :
    (p.write message).holds (enqueued ++ [message]) ∧ (p.write message).files = p.files := by
  obtain ⟨hen, hopen, rotated, cur, hfiles, hrot, hcontent⟩ := hinv
  have hw : p.write message = { p with write_queue_ := p.write_queue_ ++ [message] } := by
    unfold PersistenceManager.write
    simp only [hen, Bool.not_true, Bool.false_eq_true, if_false]
  rw [hw]
  refine ⟨⟨hen, hopen, rotated, cur, hfiles, hrot, ?_⟩, rfl⟩
  show _ ++ lines_text (p.write_queue_ ++ [message]) = _
  rw [lines_text_append, lines_text_append, ← hcontent]
  simp only [List.append_assoc]

theorem PersistenceManager.shutdown_holds (p : PersistenceManager) (enqueued : List Str)
    (hinv : p.holds enqueued) : p.shutdown.holds enqueued ∧ p.shutdown.files = p.files := by
  unfold PersistenceManager.shutdown
  split
  · exact ⟨hinv, rfl⟩
  · exact ⟨hinv, rfl⟩

theorem PersistenceManager.writer_holds (p : PersistenceManager) (enqueued : List Str)
    (e : RotationEnv) (hinv : p.holds enqueued) (hrename : e.rename_ok = true)
    (hreopen : e.open_ok = true)
    (hfresh : p.rotates = true →
      ∀ f ∈ p.files, f.1 ≠ "log-".toList ++ e.stamp ++ ".log".toList) :
    (p.writerThread_step e).holds enqueued ∧
    (∀ f ∈ (p.writerThread_step e).files, (∃ g ∈ p.files, g.1 = f.1) ∨
      (p.rotates = true ∧ f.1 = "log-".toList ++ e.stamp ++ ".log".toList)) := by
  obtain ⟨hen, hopen, rotated, cur, hfiles, hrot, hcontent⟩ := hinv
  have hkeep : ∀ q : PersistenceManager, q.files = p.files →
      ∀ f ∈ q.files, (∃ g ∈ p.files, g.1 = f.1) ∨
        (p.rotates = true ∧ f.1 = "log-".toList ++ e.stamp ++ ".log".toList) := by
    intro q hq f hf
    exact Or.inl ⟨f, hq ▸ hf, rfl⟩
  unfold PersistenceManager.writerThread_step
  cases hpc : p.pc with
  | check =>
    simp only
    split
    · exact ⟨⟨hen, hopen, rotated, cur, hfiles, hrot, hcontent⟩, hkeep _ rfl⟩
    · exact ⟨⟨hen, hopen, rotated, cur, hfiles, hrot, hcontent⟩, hkeep _ rfl⟩
  | done =>
    simp only
    exact ⟨⟨hen, hopen, rotated, cur, hfiles, hrot, hcontent⟩, hkeep _ rfl⟩
  | body =>
    simp only
    obtain ⟨hf1, ho1, hc1, hq1, _, _⟩ := PersistenceManager.write_loop_last p.write_queue_
      { p with write_queue_ := [] } rotated cur hopen hfiles hrot
    have hq1n : (PersistenceManager.write_loop p.write_queue_
        { p with write_queue_ := [] }).write_queue_ = [] := hq1
    have hc1p : (PersistenceManager.write_loop p.write_queue_
        { p with write_queue_ := [] }).config_ = p.config_ := hc1
    have hnil : lines_text ([] : List Str) = [] := rfl
    unfold PersistenceManager.writerThread_body
    simp only
    by_cases hcond : (PersistenceManager.write_loop p.write_queue_
        { p with write_queue_ := [] }).log_file_open = true ∧
        (PersistenceManager.write_loop p.write_queue_
          { p with write_queue_ := [] }).current_file_size_ ≥
        (PersistenceManager.write_loop p.write_queue_
          { p with write_queue_ := [] }).config_.max_file_size
    · rw [if_pos hcond]
      have hrotates : p.rotates = true := by
        have hsz := hcond.2
        rw [hc1p] at hsz
        unfold PersistenceManager.rotates
        rw [hcond.1, decide_eq_true hsz, decide_eq_true hpc]
        rfl
      have hnew := hfresh hrotates
      have hnew_rot : ∀ f ∈ rotated, f.1 ≠ "log-".toList ++ e.stamp ++ ".log".toList := by
        intro f hf
        apply hnew
        rw [hfiles]
        exact List.mem_append_left _ hf
      unfold PersistenceManager.rotateFile
      simp only [hrename, hreopen, if_true, hf1]
      have hren : fs_rename current_log ("log-".toList ++ e.stamp ++ ".log".toList)
          (rotated ++ [(current_log, cur ++ lines_text p.write_queue_)]) =
          rotated ++ [("log-".toList ++ e.stamp ++ ".log".toList,
            cur ++ lines_text p.write_queue_)] := by
        unfold fs_rename
        rw [map_find_last current_log _ rotated hrot]
        simp only
        rw [map_erase_last current_log _ rotated hrot, map_erase_absent _ rotated hnew_rot]
      have hrot2 : ∀ f ∈ rotated ++ [("log-".toList ++ e.stamp ++ ".log".toList,
          cur ++ lines_text p.write_queue_)], f.1 ≠ current_log := by
        intro f hf
        rcases List.mem_append.mp hf with h | h
        · exact hrot f h
        · rw [List.mem_singleton.mp h]
          exact log_name_ne_current e.stamp
      have hopenapp : fs_open_app current_log
          (rotated ++ [("log-".toList ++ e.stamp ++ ".log".toList,
            cur ++ lines_text p.write_queue_)]) =
          (rotated ++ [("log-".toList ++ e.stamp ++ ".log".toList,
            cur ++ lines_text p.write_queue_)]) ++ [(current_log, [])] := by
        unfold fs_open_app
        rw [(map_find_none_iff current_log _).mpr hrot2]
        rfl
      rw [hren, hopenapp]
      refine ⟨⟨?_, rfl, _, [], rfl, hrot2, ?_⟩, ?_⟩
      · show (PersistenceManager.write_loop p.write_queue_
          { p with write_queue_ := [] }).config_.enabled = true
        rw [hc1p]
        exact hen
      · show _ ++ [] ++ lines_text (PersistenceManager.write_loop p.write_queue_
          { p with write_queue_ := [] }).write_queue_ = _
        rw [hq1n, hnil, ← hcontent]
        simp only [List.map_append, List.flatten_append, List.map_cons, List.map_nil,
          List.flatten_cons, List.flatten_nil, List.append_nil, List.append_assoc]
      · intro f hf
        rcases List.mem_append.mp hf with h | h
        · rcases List.mem_append.mp h with h2 | h2
          · left
            exact ⟨f, by rw [hfiles]; exact List.mem_append_left _ h2, rfl⟩
          · right
            rw [List.mem_singleton.mp h2]
            exact ⟨hrotates, rfl⟩
        · left
          rw [List.mem_singleton.mp h]
          exact ⟨(current_log, cur), by rw [hfiles]; simp, rfl⟩
    · rw [if_neg hcond]
      refine ⟨⟨?_, ho1, rotated, cur ++ lines_text p.write_queue_, hf1, hrot, ?_⟩, ?_⟩
      · show (PersistenceManager.write_loop p.write_queue_
          { p with write_queue_ := [] }).config_.enabled = true
        rw [hc1p]
        exact hen
      · show _ ++ lines_text (PersistenceManager.write_loop p.write_queue_
          { p with write_queue_ := [] }).write_queue_ = _
        rw [hq1n, hnil, ← hcontent]
        simp only [List.append_nil, List.append_assoc]
      · intro f hf
        have hf : f ∈ (PersistenceManager.write_loop p.write_queue_
          { p with write_queue_ := [] }).files := hf
        rw [hf1] at hf
        left
        rcases List.mem_append.mp hf with h | h
        · exact ⟨f, by rw [hfiles]; exact List.mem_append_left _ h, rfl⟩
        · rw [List.mem_singleton.mp h]
          exact ⟨(current_log, cur), by rw [hfiles]; simp, rfl⟩


theorem PersistenceManager.run_holds (events : List PersistenceEvent) :
    ∀ (p : PersistenceManager) (enqueued : List Str), p.holds enqueued →
      PersistenceEvent.all_ok events = true →
      (p.rotation_stamps events).Nodup →
      (∀ st ∈ p.rotation_stamps events, ∀ f ∈ p.files,
        f.1 ≠ "log-".toList ++ st ++ ".log".toList) →
      (p.run events).holds (enqueued ++ PersistenceEvent.messages events) := by
  induction events with
  | nil =>
    intro p enqueued hinv _ _ _
    have : enqueued ++ PersistenceEvent.messages [] = enqueued := List.append_nil _
    rw [this]
    exact hinv
  | cons event rest ih =>
    intro p enqueued hinv hok hnodup hfresh
    cases event with
    | write message =>
      have hrun : p.run (PersistenceEvent.write message :: rest) = (p.write message).run rest :=
        rfl
      have hmsg : enqueued ++ PersistenceEvent.messages (PersistenceEvent.write message :: rest) =
          (enqueued ++ [message]) ++ PersistenceEvent.messages rest := by
        simp [PersistenceEvent.messages]
      obtain ⟨h1, h2⟩ := PersistenceManager.write_holds p enqueued message hinv
      rw [hrun, hmsg]
      apply ih _ _ h1 hok hnodup
      rw [h2]
      exact hfresh
    | shutdown =>
      have hrun : p.run (PersistenceEvent.shutdown :: rest) = p.shutdown.run rest := rfl
      obtain ⟨h1, h2⟩ := PersistenceManager.shutdown_holds p enqueued hinv
      rw [hrun]
      apply ih _ _ h1 hok hnodup
      rw [h2]
      exact hfresh
    | writer e =>
      have hrun : p.run (PersistenceEvent.writer e :: rest) =
          (p.writerThread_step e).run rest := rfl
      have hstamps : p.rotation_stamps (PersistenceEvent.writer e :: rest) =
          (if p.rotates then [e.stamp] else []) ++
            (p.writerThread_step e).rotation_stamps rest := rfl
      have hok2 : (e.rename_ok && e.open_ok && PersistenceEvent.all_ok rest) = true := hok
      simp only [Bool.and_eq_true] at hok2
      obtain ⟨⟨hr, ho⟩, hrest⟩ := hok2
      rw [hstamps] at hnodup hfresh
      have hfresh1 : p.rotates = true → ∀ f ∈ p.files,
          f.1 ≠ "log-".toList ++ e.stamp ++ ".log".toList := by
        intro hrot f hf
        apply hfresh e.stamp _ f hf
        rw [if_pos hrot]
        simp
      obtain ⟨h1, h2⟩ := PersistenceManager.writer_holds p enqueued e hinv hr ho hfresh1
      rw [hrun]
      apply ih _ _ h1 hrest (List.Nodup.of_append_right hnodup)
      intro st hst f hf
      rcases h2 f hf with ⟨g, hg, hgf⟩ | ⟨hrot, hname⟩
      · rw [← hgf]
        exact hfresh st (List.mem_append_right _ hst) g hg
      · rw [hname]
        intro heq
        have hsame := log_name_inj _ _ heq
        rw [if_pos hrot] at hnodup
        have hnot : e.stamp ∉ (p.writerThread_step e).rotation_stamps rest := by
          have := List.nodup_cons.mp hnodup
          exact this.1
        exact hnot (hsame ▸ hst)

theorem manager_with_holds (max_file_size : Nat) : (manager_with max_file_size).holds [] :=
  ⟨rfl, rfl, [], [], rfl, fun _ h => absurd h (List.not_mem_nil _), rfl⟩

theorem PersistenceManager.run_content (max_file_size : Nat) (events : List PersistenceEvent)
    (hok : PersistenceEvent.all_ok events = true)
    (hdistinct : ((manager_with max_file_size).rotation_stamps events).Nodup) :
    ((manager_with max_file_size).run events).files.rotated_then_current ++
        lines_text ((manager_with max_file_size).run events).write_queue_ =
      lines_text (PersistenceEvent.messages events) := by
  have hinv := PersistenceManager.run_holds events (manager_with max_file_size) []
    (manager_with_holds max_file_size) hok hdistinct
    (by
      intro st _ f hf
      have hf2 : f ∈ [(current_log, ([] : Str))] := hf
      rw [List.mem_singleton.mp hf2]
      exact (log_name_ne_current st).symm)
  obtain ⟨_, _, rotated, cur, hfiles, hrot, hcontent⟩ := hinv
  rw [hfiles, Directory.rotated_then_current_last cur rotated hrot, hcontent]
  rfl

/-- C27, amended. On an enabled manager started on an empty directory, when `rename` and the
reopening succeed at every rotation and no two rotations get the same clock text, the
contents of the rotated files in rotation order, then that of `current.log`, then the
lines still in the queue, are the messages enqueued, in order, each followed by a
newline; once the queue is drained the files alone hold these lines. -/
theorem PersistenceManager.files_hold_messages (max_file_size : Nat)
    (events : List PersistenceEvent)
    (hok : PersistenceEvent.all_ok events = true)
    (hdistinct : ((manager_with max_file_size).rotation_stamps events).Nodup) :
    PersistenceManager.new { enabled := true, max_file_size := max_file_size } [] true =
      Except.ok (manager_with max_file_size) ∧
    ((manager_with max_file_size).run events).files.rotated_then_current ++
        lines_text ((manager_with max_file_size).run events).write_queue_ =
      lines_text (PersistenceEvent.messages events) ∧
    (((manager_with max_file_size).run events).write_queue_ = [] →
      ((manager_with max_file_size).run events).files.rotated_then_current =
        lines_text (PersistenceEvent.messages events)) := by
  have hmain := PersistenceManager.run_content max_file_size events hok hdistinct
  refine ⟨rfl, hmain, ?_⟩
  intro hq
  rw [hq] at hmain
  have hnil : lines_text ([] : List Str) = [] := rfl
  rw [hnil, List.append_nil] at hmain
  exact hmain

/-- C27, amended, at two messages that are rotated in different seconds. -/
theorem PersistenceManager.files_hold_messages_witness :
    PersistenceEvent.all_ok trace_next_second = true ∧
    ((manager_with 1).rotation_stamps trace_next_second).Nodup ∧
    ((manager_with 1).run trace_next_second).files =
      [("log-20261101-060000.log".toList, "a\n".toList),
       ("log-20261101-060001.log".toList, "b\n".toList), (current_log, [])] ∧
    (((manager_with 1).run trace_next_second).write_queue_ = [] →
      ((manager_with 1).run trace_next_second).files.rotated_then_current =
        lines_text (PersistenceEvent.messages trace_next_second)) :=
  ⟨by decide, by decide, by decide,
   (PersistenceManager.files_hold_messages 1 trace_next_second (by decide) (by decide)).2.2⟩

/-- C27, as stated, fails when two rotations fall into one second: no `rename` and no
reopening fails, the queue is drained, and the second rotated file has replaced the first,
so that the files hold the line `b` only. -/
theorem PersistenceManager.rotation_same_second :
    PersistenceEvent.all_ok trace_same_second = true ∧
    PersistenceEvent.messages trace_same_second = ["a".toList, "b".toList] ∧
    ((manager_with 1).run trace_same_second).write_queue_ = [] ∧
    ((manager_with 1).run trace_same_second).files =
      [("log-20261101-060000.log".toList, "b\n".toList), (current_log, [])] ∧
    ((manager_with 1).run trace_same_second).files.rotated_then_current = "b\n".toList ∧
    lines_text (PersistenceEvent.messages trace_same_second) = "a\nb\n".toList ∧
    (manager_with 1).rotation_stamps trace_same_second =
      ["20261101-060000".toList, "20261101-060000".toList] := by
  decide

/-! ## Shutdown of the writer -/

/-- The writer of the C++ variant returns only when the queue is empty and `running_` is
cleared, and it changes nothing when it returns. -/
theorem PersistenceManager.writer_exit (p : PersistenceManager) (e : RotationEnv)
    (hpc : p.pc ≠ WriterPc.done) (hdone : (p.writerThread_step e).pc = WriterPc.done) :
    p.write_queue_ = [] ∧ p.running_ = false ∧
      p.writerThread_step e = { p with pc := WriterPc.done } := by
  unfold PersistenceManager.writerThread_step at hdone ⊢
  cases h : p.pc with
  | done => exact absurd h hpc
  | body =>
    rw [h] at hdone
    simp at hdone
  | check =>
    rw [h] at hdone
    simp only at hdone ⊢
    by_cases hc : p.running_ = true ∨ (!p.write_queue_.isEmpty) = true
    · rw [if_pos hc] at hdone
      simp at hdone
    · rw [if_neg hc]
      have h1 : p.running_ = false := by
        cases hr : p.running_ with
        | true => exact absurd (Or.inl hr) hc
        | false => rfl
      have h2 : p.write_queue_ = [] := by
        cases hq : p.write_queue_ with
        | nil => rfl
        | cons a as => exact absurd (Or.inr (by rw [hq]; rfl)) hc
      exact ⟨h2, h1, rfl⟩

/-- When the writer of the C++ variant returns, every message enqueued until then is in the
files (`rename` and the reopening having succeeded, under distinct clock texts). -/
theorem PersistenceManager.exit_all_written (max_file_size : Nat)
    (events : List PersistenceEvent) (e : RotationEnv)
    (hok : PersistenceEvent.all_ok events = true)
    (hdistinct : ((manager_with max_file_size).rotation_stamps events).Nodup)
    (hpc : ((manager_with max_file_size).run events).pc ≠ WriterPc.done)
    (hdone : (((manager_with max_file_size).run events).writerThread_step e).pc =
      WriterPc.done) :
    (((manager_with max_file_size).run events).writerThread_step e).files.rotated_then_current =
      lines_text (PersistenceEvent.messages events) := by
  obtain ⟨hq, _, hstep⟩ := PersistenceManager.writer_exit _ e hpc hdone
  have hmain := PersistenceManager.run_content max_file_size events hok hdistinct
  rw [hq] at hmain
  have hnil : lines_text ([] : List Str) = [] := rfl
  rw [hnil, List.append_nil] at hmain
  rw [hstep]
  exact hmain

/-- Once `running_` is cleared and no further message is enqueued, three steps of the writer
of the C++ variant are enough for it to return, with the queue empty. -/
theorem PersistenceManager.writer_returns (p : PersistenceManager) (e1 e2 e3 : RotationEnv)
    (hrun : p.running_ = false) :
    (((p.writerThread_step e1).writerThread_step e2).writerThread_step e3).pc =
        WriterPc.done ∧
      ((p.writerThread_step e1).writerThread_step e2).writerThread_step e3 =
        p.run [PersistenceEvent.writer e1, PersistenceEvent.writer e2,
          PersistenceEvent.writer e3] := by
  refine ⟨?_, rfl⟩
  have hbody : ∀ (q : PersistenceManager) (e : RotationEnv),
      (q.writerThread_body e).write_queue_ = [] ∧
        (q.writerThread_body e).running_ = q.running_ := by
    intro q e
    have hloop : ∀ (queue : List Str) (r : PersistenceManager),
        (PersistenceManager.write_loop queue r).write_queue_ = r.write_queue_ ∧
          (PersistenceManager.write_loop queue r).running_ = r.running_ := by
      intro queue
      induction queue with
      | nil => exact fun r => ⟨rfl, rfl⟩
      | cons m rest ih =>
        intro r
        unfold PersistenceManager.write_loop
        split
        · exact ih _
        · exact ih _
    unfold PersistenceManager.writerThread_body
    simp only
    split
    · unfold PersistenceManager.rotateFile
      simp only
      split
      · exact hloop _ _
      · exact hloop _ _
    · exact hloop _ _
  have hcheck : ∀ q : PersistenceManager, q.pc = WriterPc.check → q.running_ = false →
      q.write_queue_ = [] → ∀ e, (q.writerThread_step e).pc = WriterPc.done := by
    intro q hq hr hqueue e
    unfold PersistenceManager.writerThread_step
    rw [hq]
    simp [hr, hqueue]
  have hdone : ∀ q : PersistenceManager, q.pc = WriterPc.done →
      ∀ e, (q.writerThread_step e).pc = WriterPc.done := by
    intro q hq e
    unfold PersistenceManager.writerThread_step
    rw [hq]
    exact hq
  have hfrom_body : ∀ q : PersistenceManager, q.pc = WriterPc.body → q.running_ = false →
      ∀ e e2, ((q.writerThread_step e).writerThread_step e2).pc = WriterPc.done := by
    intro q hq hr e e2
    have hstep : q.writerThread_step e = { q.writerThread_body e with pc := WriterPc.check } := by
      unfold PersistenceManager.writerThread_step
      rw [hq]
    rw [hstep]
    apply hcheck
    · rfl
    · exact (hbody q e).2.trans hr
    · exact (hbody q e).1
  cases hpc : p.pc with
  | done =>
    exact hdone _ (hdone _ (hdone _ hpc e1) e2) e3
  | body =>
    exact hdone _ (hfrom_body p hpc hrun e1 e2) e3
  | check =>
    by_cases hq : p.write_queue_ = []
    · exact hdone _ (hdone _ (hcheck p hpc hrun hq e1) e2) e3
    · have hstep : p.writerThread_step e1 = { p with pc := WriterPc.body } := by
        unfold PersistenceManager.writerThread_step
        rw [hpc]
        have : (!p.write_queue_.isEmpty) = true := by
          cases h : p.write_queue_ with
          | nil => exact absurd h hq
          | cons a as => rfl
        simp [this]
      rw [hstep]
      exact hfrom_body { p with pc := WriterPc.body } rfl hrun e2 e3

/-- C28 (defect of the C variant). A message is enqueued while the writer is busy, and the
manager is shut down before the writer is back at the test of its loop. The writer of the
C variant (`while (!manager->stop_thread)`) returns with the message `b` in the queue, and
the file has the line `a` only; the writer of the C++ variant
(`while (running_ || !write_queue_.empty())`) returns with an empty queue and both lines
in the file. -/
theorem persistence_writer_thread_leaves_queue :
    ((persistence_create true 100).run trace_shutdown_busy).pc = c_writer_pc.done ∧
    ((persistence_create true 100).run trace_shutdown_busy).write_queue = ["b".toList] ∧
    ((persistence_create true 100).run trace_shutdown_busy).files =
      [(current_log, "a\n".toList)] ∧
    ((manager_with 100).run trace_shutdown_busy).pc = WriterPc.done ∧
    ((manager_with 100).run trace_shutdown_busy).write_queue_ = [] ∧
    ((manager_with 100).run trace_shutdown_busy).files = [(current_log, "a\nb\n".toList)] := by
  decide



/-! ## The dispatch of `processQuery` -/

theorem find_eq_zero_iff (s pat : Str) : find s pat = some 0 ↔ pat <+: s := by
  cases s with
  | nil =>
    cases pat with
    | nil => simp [find]
    | cons p ps => simp [find]
  | cons c cs =>
    unfold find
    by_cases h : pat.isPrefixOf (c :: cs) = true
    · rw [if_pos h]
      simp only [true_iff]
      exact List.isPrefixOf_iff_prefix.mp h
    · rw [if_neg h]
      constructor
      · intro h2
        cases hf : find cs pat with
        | none => rw [hf] at h2; simp at h2
        | some n => rw [hf] at h2; simp at h2
      · intro h2
        exact absurd (List.isPrefixOf_iff_prefix.mpr h2) h

/-- C31, amended. For every command string that does not begin with the five characters
`QUERY` and is not exactly `STATS`, `COUNT` or `HELP`, `processQuery` returns
`ERROR: Unknown command. Use HELP for usage.` with a newline, and leaves the buffer as it
is. -/
theorem QueryHandler.processQuery_unknown (lib : StdLib) (buffer_ : LogBuffer) (query : Str)
    (hquery : ¬ "QUERY".toList <+: query) (hstats : query ≠ "STATS".toList)
    (hcount : query ≠ "COUNT".toList) (hhelp : query ≠ "HELP".toList) :
    QueryHandler.processQuery lib buffer_ query =
      ("ERROR: Unknown command. Use HELP for usage.\n".toList, buffer_) := by
  unfold QueryHandler.processQuery
  have h0 : ¬ find query "QUERY".toList = some 0 := fun h =>
    hquery ((find_eq_zero_iff query _).mp h)
  rw [if_neg h0, if_neg hstats, if_neg hcount, if_neg hhelp]

/-- C31, amended, at the commands `query` (in lower case) and `STATS ` (with a space). -/
theorem QueryHandler.processQuery_unknown_witness :
    QueryHandler.processQuery literal_lib (LogBuffer.new 4) "query".toList =
      ("ERROR: Unknown command. Use HELP for usage.\n".toList, LogBuffer.new 4) ∧
    QueryHandler.processQuery literal_lib (LogBuffer.new 4) "STATS ".toList =
      ("ERROR: Unknown command. Use HELP for usage.\n".toList, LogBuffer.new 4) :=
  ⟨QueryHandler.processQuery_unknown literal_lib (LogBuffer.new 4) "query".toList
      (by decide) (by decide) (by decide) (by decide),
   QueryHandler.processQuery_unknown literal_lib (LogBuffer.new 4) "STATS ".toList
      (by decide) (by decide) (by decide) (by decide)⟩

/-- C31, as stated, fails for the command `QUERYX`: its first word is `QUERYX`, not the word
`QUERY`, and it is none of `STATS`, `COUNT`, `HELP`, yet it begins with `QUERY` and is
answered as a search. -/
theorem QueryHandler.processQuery_queryx :
    (read_word "QUERYX".toList).map Prod.fst = some "QUERYX".toList ∧
    "QUERYX".toList ≠ "QUERY".toList ∧
    (QueryHandler.processQuery literal_lib (LogBuffer.new 4) "QUERYX".toList).1 =
      "FOUND: 0 matches\n".toList ∧
    (QueryHandler.processQuery literal_lib
        ((LogBuffer.new 4).pushAll [PushCall.info "boom" 1]) "QUERYX".toList).1 =
      "FOUND: 1 matches\n[0000-00-00 00:00:00] boom\n".toList := by
  decide


/-! ## The size recorded by the writer -/

theorem PersistenceManager.write_loop_config_ (queue : List Str) (p : PersistenceManager) :
    (PersistenceManager.write_loop queue p).config_ = p.config_ := by
  induction queue generalizing p with
  | nil => rfl
  | cons message rest ih =>
    unfold PersistenceManager.write_loop
    rw [ih]
    split <;> rfl

theorem PersistenceManager.rotateFile_size (p : PersistenceManager) (e : RotationEnv) :
    (p.rotateFile e).current_file_size_ = 0 ∧ (p.rotateFile e).config_ = p.config_ := by
  unfold PersistenceManager.rotateFile
  by_cases h : e.open_ok = true
  · simp [h]
  · simp [h]

theorem PersistenceManager.write_loop_size (queue : List Str) (p : PersistenceManager)
    (hopen : p.log_file_open = true) :
    (PersistenceManager.write_loop queue p).log_file_open = true ∧
    (PersistenceManager.write_loop queue p).current_file_size_ % 2 ^ 64 =
      (p.current_file_size_ + (queue.map (fun message => message.length + 1)).sum) % 2 ^ 64 := by
  induction queue generalizing p with
  | nil => exact ⟨hopen, rfl⟩
  | cons message rest ih =>
    unfold PersistenceManager.write_loop
    rw [if_pos hopen]
    obtain ⟨h1, h2⟩ := ih { p with
      files := fs_append current_log (message ++ "\n".toList) p.files,
      current_file_size_ := (p.current_file_size_ + (message.length + 1)) % 2 ^ 64 } hopen
    refine ⟨h1, ?_⟩
    rw [h2]
    simp only [List.map_cons, List.sum_cons]
    omega

/-- C36. For every `max_file_size > 0`, when the log file is open at the end of the body of
the loop of `writerThread`, the recorded `current_file_size_` is less than `max_file_size`.
The body adds `length + 1` (modulo `2^64`) for each message it appends to the open file;
when the size after the batch is at least `max_file_size` the file is rotated, and the
size recorded after the rotation is zero. -/
theorem PersistenceManager.writerThread_body_size (p : PersistenceManager) (e : RotationEnv)
    (hmax : 0 < p.config_.max_file_size)
    (hopen : (p.writerThread_body e).log_file_open = true) :
    (p.writerThread_body e).current_file_size_ < p.config_.max_file_size ∧
    (p.writerThread_body e).config_ = p.config_ ∧
    (p.log_file_open = true →
      (PersistenceManager.write_loop p.write_queue_ { p with write_queue_ := [] }).current_file_size_
          % 2 ^ 64 =
        (p.current_file_size_ +
          (p.write_queue_.map (fun message => message.length + 1)).sum) % 2 ^ 64) ∧
    ((PersistenceManager.write_loop p.write_queue_ { p with write_queue_ := [] }).log_file_open
        = true →
      (PersistenceManager.write_loop p.write_queue_
        { p with write_queue_ := [] }).current_file_size_ ≥ p.config_.max_file_size →
      (p.writerThread_body e).current_file_size_ = 0) := by
  have hcfg := PersistenceManager.write_loop_config_ p.write_queue_ { p with write_queue_ := [] }
  have hbody : p.writerThread_body e =
      if (PersistenceManager.write_loop p.write_queue_ { p with write_queue_ := [] }).log_file_open
          = true ∧
        (PersistenceManager.write_loop p.write_queue_
          { p with write_queue_ := [] }).current_file_size_ ≥
        (PersistenceManager.write_loop p.write_queue_
          { p with write_queue_ := [] }).config_.max_file_size
      then (PersistenceManager.write_loop p.write_queue_ { p with write_queue_ := [] }).rotateFile e
      else PersistenceManager.write_loop p.write_queue_ { p with write_queue_ := [] } := rfl
  rw [hcfg] at hbody
  have hcfg2 : ({ p with write_queue_ := [] } : PersistenceManager).config_ = p.config_ := rfl
  rw [hcfg2] at hbody hcfg
  refine ⟨?_, ?_, ?_, ?_⟩
  · by_cases hc : (PersistenceManager.write_loop p.write_queue_
        { p with write_queue_ := [] }).log_file_open = true ∧
        (PersistenceManager.write_loop p.write_queue_
          { p with write_queue_ := [] }).current_file_size_ ≥ p.config_.max_file_size
    · rw [hbody, if_pos hc, (PersistenceManager.rotateFile_size _ e).1]
      exact hmax
    · rw [hbody, if_neg hc] at hopen ⊢
      exact Nat.lt_of_not_le (fun hge => hc ⟨hopen, hge⟩)
  · rw [hbody]
    split
    · rw [(PersistenceManager.rotateFile_size _ e).2, hcfg]
    · exact hcfg
  · intro hp
    exact (PersistenceManager.write_loop_size p.write_queue_ { p with write_queue_ := [] } hp).2
  · intro h1 h2
    rw [hbody, if_pos ⟨h1, h2⟩]
    exact (PersistenceManager.rotateFile_size _ e).1

/-- C36 at a writer that takes the batch `abc`, `de` with `max_file_size` 5: the size after
the batch is 7, the file is rotated and the size recorded is 0; with `max_file_size` 100
the size recorded is 7. -/
theorem PersistenceManager.writerThread_body_size_witness :
    ((((manager_with 5).write "abc".toList).write "de".toList).writerThread_body
        { stamp := "20261101-060000".toList }).current_file_size_ = 0 ∧
    ((((manager_with 100).write "abc".toList).write "de".toList).writerThread_body
        { stamp := "20261101-060000".toList }).current_file_size_ = 7 ∧
    ((((manager_with 100).write "abc".toList).write "de".toList).writerThread_body
        { stamp := "20261101-060000".toList }).current_file_size_ <
      (((manager_with 100).write "abc".toList).write "de".toList).config_.max_file_size :=
  ⟨by decide, by decide,
   (PersistenceManager.writerThread_body_size
      (((manager_with 100).write "abc".toList).write "de".toList)
      { stamp := "20261101-060000".toList } (by decide) (by decide)).1⟩


/-! ## Empty keywords -/

theorem strtok_r_ne_nil (s : Str) (delim : Char) (token rest : Str)
    (h : strtok_r s delim = some (token, rest)) : token ≠ [] := by
  unfold strtok_r at h
  simp only at h
  split at h
  · exact absurd h (by simp)
  · rename_i hne
    simp only [Option.some.injEq, Prod.mk.injEq] at h
    rw [← h.1]
    cases hs : s.dropWhile (fun c => decide (c = delim)) with
    | nil => rw [hs] at hne; simp at hne
    | cons c cs =>
      have hc : ¬ (decide (c = delim) = true) := by
        intro hcd
        have h2 := List.head_dropWhile_not (fun c => decide (c = delim)) s (by rw [hs]; simp)
        simp only [hs, List.head_cons] at h2
        rw [hcd] at h2
        simp at h2
      have hcne : c ≠ delim := by simpa using hc
      rw [List.takeWhile_cons]
      simp [hcne]

/-- The loop of the C parser never stores an empty keyword. -/
theorem query_parser_keywords_ne_nil (fuel : Nat) (keywords : List Str) (value : Str)
    (h : ∀ k ∈ keywords, k ≠ []) : ∀ k ∈ query_parser_keywords fuel keywords value, k ≠ [] := by
  induction fuel generalizing keywords value with
  | zero => exact h
  | succ fuel ih =>
    unfold query_parser_keywords
    cases ht : strtok_r value ','  with
    | none => exact h
    | some r =>
      obtain ⟨token, rest⟩ := r
      simp only
      split
      · apply ih
        intro k hk
        rcases List.mem_append.mp hk with hk | hk
        · exact h k hk
        · rw [List.mem_singleton.mp hk]
          exact strtok_r_ne_nil value ','  token rest ht
      · exact h

/-- C40 fails in `QueryParser::parse`: `std::getline` stores every piece between two commas,
so `keywords=a,,b` gives the keywords `a`, the empty string and `b`, and `keywords=,a` gives
the empty string and `a`. The empty keyword is found in every message: under `OR` the query
matches every message, under `AND` the empty keyword filters nothing. The loop of the C
parser, which cuts with `strtok_r`, stores `a` and `b` only. -/
theorem QueryParser.parse_empty_keyword (lib : StdLib) :
    QueryParser.parse lib "QUERY keywords=a,,b".toList =
      Except.ok { keywords_ := ["a".toList, [], "b".toList] } ∧
    QueryParser.parse lib "QUERY keywords=,a".toList =
      Except.ok { keywords_ := [[], "a".toList] } ∧
    QueryParser.parse lib "QUERY keywords=a,,b operator=OR".toList =
      Except.ok { keywords_ := ["a".toList, [], "b".toList], op_ := OperatorType.OR } ∧
    (∀ message timestamp,
      ParsedQuery.matches lib { keywords_ := ["a".toList, [], "b".toList],
                                op_ := OperatorType.OR } message timestamp = true) ∧
    (∀ message timestamp,
      ParsedQuery.matches lib { keywords_ := [[], "a".toList] } message timestamp =
        ParsedQuery.matches lib { keywords_ := ["a".toList] } message timestamp) ∧
    query_parser_keywords 4 [] "a,,b".toList = ["a".toList, "b".toList] ∧
    query_parser_keywords 3 [] ",a".toList = ["a".toList] := by
  refine ⟨rfl, rfl, rfl, ?_, ?_, by decide, by decide⟩
  · intro message timestamp
    simp [ParsedQuery.matches, ParsedQuery.or_loop, find_nil_pat]
  · intro message timestamp
    simp [ParsedQuery.matches, ParsedQuery.and_loop, find_nil_pat]


/-! ## Shutdown of the thread pools -/

/-- Once `shutdown` is set, no step of a worker of the C pool calls a job or takes one from
the queue. -/
theorem thread_pool_worker_step_shutdown (pool : thread_pool_t) (i : Nat)
    (h : pool.shutdown = true) :
    (thread_pool_worker_step pool i).called = pool.called ∧
    (thread_pool_worker_step pool i).job_queue = pool.job_queue ∧
    (thread_pool_worker_step pool i).shutdown = true := by
  unfold thread_pool_worker_step
  cases hw : pool.threads[i]? with
  | none => exact ⟨rfl, rfl, h⟩
  | some w =>
    cases w with
    | waiting => simp [h]
    | running job => exact ⟨rfl, rfl, h⟩
    | exited => exact ⟨rfl, rfl, h⟩
    | fault => exact ⟨rfl, rfl, h⟩

/-- After `thread_pool_destroy` has set `shutdown`, no sequence of worker steps calls a job;
the jobs still queued are freed when the workers have exited. -/
theorem thread_pool_t.run_workers_shutdown (steps : List Nat) (pool : thread_pool_t)
    (h : pool.shutdown = true) :
    (pool.run (steps.map c_pool_event.worker)).called = pool.called ∧
    (pool.run (steps.map c_pool_event.worker)).job_queue = pool.job_queue := by
  induction steps generalizing pool with
  | nil => exact ⟨rfl, rfl⟩
  | cons i rest ih =>
    obtain ⟨h1, h2, h3⟩ := thread_pool_worker_step_shutdown pool i h
    have hrun : pool.run ((i :: rest).map c_pool_event.worker) =
        (thread_pool_worker_step pool i).run (rest.map c_pool_event.worker) := rfl
    rw [hrun, (ih _ h3).1, (ih _ h3).2, h1, h2]
    exact ⟨rfl, rfl⟩

/-- C35 fails in `ThreadPool::workerThread`: a worker that reaches the wait after `stop_`
has been set returns only when the queue is empty; while a task is queued it takes the front
of the queue and calls it. So every task queued when the destructor sets `stop_` is still
called. -/
theorem ThreadPool.workerThread_step_stopped (self : ThreadPool) (i : Nat) (task : Nat)
    (rest : List Nat) (hwait : self.workers_[i]? = some WorkerPc.waiting)
    (hstop : self.stop_ = true) (hqueue : self.tasks_ = task :: rest) :
    (self.workerThread_step i).called = self.called ++ [task] ∧
    (self.workerThread_step i).tasks_ = rest ∧
    (self.workerThread_step i).workers_ = self.workers_.set i (WorkerPc.running task) ∧
    (self.workerThread_step i).stop_ = true := by
  unfold ThreadPool.workerThread_step
  rw [hwait]
  simp [hstop, hqueue]

/-- C35 fails on a pool of one worker: the task 2 is queued and not begun when the destructor
sets `stop_`, and the worker calls it after it has finished the task 1. -/
theorem ThreadPool.workerThread_step_stopped_witness :
    ((ThreadPool.new 1).run (trace_stop_busy.take 5)).stop_ = true ∧
    ((ThreadPool.new 1).run (trace_stop_busy.take 5)).tasks_ = [2] ∧
    ((ThreadPool.new 1).run (trace_stop_busy.take 5)).called = [1] ∧
    (((ThreadPool.new 1).run (trace_stop_busy.take 5)).workerThread_step 0).called = [1] ++ [2] :=
  ⟨by decide, by decide, by decide,
   (ThreadPool.workerThread_step_stopped ((ThreadPool.new 1).run (trace_stop_busy.take 5)) 0 2 []
      (by decide) (by decide) (by decide)).1⟩

/-- The same events on the two pools: the C++ pool calls the tasks 1 and 2 and its worker
then returns; the C pool calls the job 1 only and frees the job 2. -/
theorem trace_stop_busy_called :
    ((ThreadPool.new 1).run trace_stop_busy).called = [1, 2] ∧
    ((ThreadPool.new 1).run trace_stop_busy).joined = true ∧
    ((thread_pool_create 1).run c_trace_stop_busy).called = [1] ∧
    ((thread_pool_create 1).run (c_trace_stop_busy.take 8)).job_queue = [2] ∧
    ((thread_pool_create 1).run c_trace_stop_busy).job_queue = [] ∧
    ((thread_pool_create 1).run c_trace_stop_busy).freed = true := by
  decide


/-! ## The callbacks of `IRCServer::start` -/

theorem IRCServer.start_callbacks_new (c : Nat) :
    (IRCServer.start_callbacks (LogBuffer.new c)).callbacks_ =
      [("#logs-all".toList, [IRCServer.callback_all]),
       ("#logs-error".toList, [IRCServer.callback_error])] :=
  rfl

theorem IRCServer.push_start (lib : StdLib) (s : IRCServer) (logBuffer_ : LogBuffer)
    (message level source : Str) (now : Int)
    (hcb : logBuffer_.callbacks_ =
      [("#logs-all".toList, [IRCServer.callback_all]),
       ("#logs-error".toList, [IRCServer.callback_error])]) :
    (IRCServer.push lib s logBuffer_ message level source now).2 =
      if level = "ERROR".toList then
        IRCChannelManager.distributeLogEntry lib
          (IRCChannelManager.distributeLogEntry lib s
            { message := message, timestamp := now, level := level, source := source })
          { message := message, timestamp := now, level := level, source := source }
      else
        IRCChannelManager.distributeLogEntry lib s
          { message := message, timestamp := now, level := level, source := source } := by
  have hcalls : (logBuffer_.push message level source now).2 =
      LogBuffer.notify level
        { message := message, timestamp := now, level := level, source := source }
        [("#logs-all".toList, [IRCServer.callback_all]),
         ("#logs-error".toList, [IRCServer.callback_error])] := by
    have h0 : (logBuffer_.push message level source now).2 =
        LogBuffer.notify level
          { message := message, timestamp := now, level := level, source := source }
          (logBuffer_.push message level source now).1.callbacks_ := rfl
    rw [LogBuffer.push_callbacks, hcb] at h0
    exact h0
  unfold IRCServer.push
  rw [hcalls]
  by_cases hl : level = "ERROR".toList
  · rw [if_pos hl]
    subst hl
    rfl
  · rw [if_neg hl]
    have hn : LogBuffer.notify level
        { message := message, timestamp := now, level := level, source := source }
        [("#logs-all".toList, [IRCServer.callback_all]),
         ("#logs-error".toList, [IRCServer.callback_error])] =
        [(IRCServer.callback_all,
          { message := message, timestamp := now, level := level, source := source })] := by
      have hl2 : ¬ level = ['E', 'R', 'R', 'O', 'R'] := hl
      simp [LogBuffer.notify, hl2]
    rw [hn]
    rfl

/-- C37 fails for the level `ERROR`. `push` calls the callback registered under `#logs-all`
for every entry and the one registered under `#logs-error` for an entry of level `ERROR`,
and each of the two calls `distributeLogEntry`: an entry of level `ERROR` is distributed
twice, an entry of any other level once. A member of `#logs-all`, and likewise a member of
`#logs-error`, is sent the line of an `ERROR` entry twice by one `push`. -/
theorem IRCServer.push_error_twice (lib : StdLib) (s : IRCServer) (c : Nat)
    (message level source : Str) (now : Int) :
    (IRCServer.push lib s (IRCServer.start_callbacks (LogBuffer.new c)) message level source
        now).2 =
      (if level = "ERROR".toList then
        IRCChannelManager.distributeLogEntry lib
          (IRCChannelManager.distributeLogEntry lib s
            { message := message, timestamp := now, level := level, source := source })
          { message := message, timestamp := now, level := level, source := source }
      else
        IRCChannelManager.distributeLogEntry lib s
          { message := message, timestamp := now, level := level, source := source }) ∧
    (IRCServer.push literal_lib (irc_start.run trace_logs_all)
        (IRCServer.start_callbacks (LogBuffer.new 4)) "boom".toList "ERROR".toList
        "unknown".toList 0).2.sent.drop (irc_start.run trace_logs_all).sent.length =
      [(5, (":LogBot!log@system PRIVMSG #logs-all :[0000-00-00 00:00:00] ERROR: " ++
          "[unknown] boom\r\n").toList),
       (5, (":LogBot!log@system PRIVMSG #logs-all :[0000-00-00 00:00:00] ERROR: " ++
          "[unknown] boom\r\n").toList)] ∧
    (IRCServer.push literal_lib (irc_start.run trace_logs_error)
        (IRCServer.start_callbacks (LogBuffer.new 4)) "boom".toList "ERROR".toList
        "unknown".toList 0).2.sent.drop (irc_start.run trace_logs_error).sent.length =
      [(5, (":LogBot!log@system PRIVMSG #logs-error :[0000-00-00 00:00:00] ERROR: " ++
          "[unknown] boom\r\n").toList),
       (5, (":LogBot!log@system PRIVMSG #logs-error :[0000-00-00 00:00:00] ERROR: " ++
          "[unknown] boom\r\n").toList)] ∧
    (IRCServer.push literal_lib (irc_start.run trace_logs_all)
        (IRCServer.start_callbacks (LogBuffer.new 4)) "boom".toList "info".toList
        "unknown".toList 0).2.sent.drop (irc_start.run trace_logs_all).sent.length =
      [(5, (":LogBot!log@system PRIVMSG #logs-all :[0000-00-00 00:00:00] info: " ++
          "[unknown] boom\r\n").toList)] :=
  ⟨IRCServer.push_start lib s _ message level source now (IRCServer.start_callbacks_new c),
   by decide, by decide, by decide⟩


/-! ## Every text sent ends with CR-LF -/

theorem ends_crlf_iff (message : Str) :
    ends_crlf message ↔
      ¬ (message.length < 2 ∨
        substr_from message (message.length - 2) ≠ "\r\n".toList) := by
  unfold ends_crlf substr_from
  rw [List.suffix_iff_eq_drop]
  have h2 : "\r\n".toList.length = 2 := rfl
  rw [h2]
  constructor
  · intro h hor
    rcases hor with hlt | hne
    · have hl := congrArg List.length h
      rw [List.length_drop, h2] at hl
      omega
    · exact hne h.symm
  · intro h
    by_contra hne
    exact h (Or.inr (fun heq => hne heq.symm))

theorem IRCClient.fullMessage_of_crlf (message : Str) (h : ends_crlf message) :
    IRCClient.fullMessage message = message := by
  unfold IRCClient.fullMessage
  rw [if_neg ((ends_crlf_iff message).mp h)]

theorem IRCClient.fullMessage_of_not_crlf (message : Str) (h : ¬ ends_crlf message) :
    IRCClient.fullMessage message = message ++ "\r\n".toList := by
  unfold IRCClient.fullMessage
  have hc : message.length < 2 ∨
      substr_from message (message.length - 2) ≠ "\r\n".toList := by
    by_contra hn
    exact h ((ends_crlf_iff message).mpr hn)
  rw [if_pos hc]

theorem IRCClient.fullMessage_ends (message : Str) : ends_crlf (IRCClient.fullMessage message) := by
  by_cases h : ends_crlf message
  · rw [IRCClient.fullMessage_of_crlf message h]
    exact h
  · rw [IRCClient.fullMessage_of_not_crlf message h]
    exact List.suffix_append _ _

theorem IRCClient.sendMessage_eq (s : IRCServer) (client : Nat) (message : Str) :
    IRCClient.sendMessage s client message =
      if (s.deref client).fd_ = -1 then s
      else { s with sent := s.sent ++ [((s.deref client).fd_, IRCClient.fullMessage message)] } :=
  rfl

theorem IRCServer.sent_crlf_append (s : IRCServer) (sent : List (Int × Str)) (p : Int × Str)
    (hp : ends_crlf p.2) (hs : s.sent = sent ++ [p]) :
    s.sent_crlf ↔ ∀ q ∈ sent, ends_crlf q.2 := by
  unfold IRCServer.sent_crlf
  rw [hs]
  constructor
  · intro h q hq
    exact h q (List.mem_append_left _ hq)
  · intro h q hq
    rcases List.mem_append.mp hq with hq | hq
    · exact h q hq
    · rw [List.mem_singleton.mp hq]
      exact hp

theorem IRCClient.sendMessage_crlf (s : IRCServer) (client : Nat) (message : Str) :
    (IRCClient.sendMessage s client message).sent_crlf ↔ s.sent_crlf := by
  rw [IRCClient.sendMessage_eq]
  split
  · exact Iff.rfl
  · exact IRCServer.sent_crlf_append _ s.sent _ (IRCClient.fullMessage_ends message) rfl

theorem IRCClient.sendNumericReply_crlf (s : IRCServer) (client : Nat) (code : Nat)
    (params : Str) : (IRCClient.sendNumericReply s client code params).sent_crlf ↔ s.sent_crlf :=
  IRCClient.sendMessage_crlf s client _

theorem IRCClient.sendErrorReply_crlf (s : IRCServer) (client : Nat) (code : Nat)
    (params : Str) : (IRCClient.sendErrorReply s client code params).sent_crlf ↔ s.sent_crlf :=
  IRCClient.sendMessage_crlf s client _

theorem IRCServer.modifyClient_crlf (s : IRCServer) (client : Nat) (f : IRCClient → IRCClient) :
    (s.modifyClient client f).sent_crlf ↔ s.sent_crlf := Iff.rfl

theorem IRCServer.setChannel_crlf (s : IRCServer) (name : Str) (channel : IRCChannel) :
    (s.setChannel name channel).sent_crlf ↔ s.sent_crlf := Iff.rfl

theorem IRCClientManager.addClient_crlf (s : IRCServer) (fd : Int) (address : Str) :
    (IRCClientManager.addClient s fd address).1.sent_crlf ↔ s.sent_crlf := Iff.rfl

theorem IRCClientManager.removeClient_crlf (s : IRCServer) (fd : Int) :
    (IRCClientManager.removeClient s fd).sent_crlf ↔ s.sent_crlf := by
  unfold IRCClientManager.removeClient
  split
  · exact Iff.rfl
  · simp only
    split <;> exact Iff.rfl

theorem IRCClientManager.registerNickname_crlf (s : IRCServer) (fd : Int) (nickname : Str) :
    (IRCClientManager.registerNickname s fd nickname).sent_crlf ↔ s.sent_crlf := by
  unfold IRCClientManager.registerNickname
  split <;> exact Iff.rfl

theorem IRCChannelManager.removeChannel_crlf (s : IRCServer) (name : Str) :
    (IRCChannelManager.removeChannel s name).sent_crlf ↔ s.sent_crlf := by
  unfold IRCChannelManager.removeChannel
  split <;> exact Iff.rfl

theorem IRCChannel.broadcast_loop_crlf (message : Str) (members : List (Str × Nat))
    (s : IRCServer) : (IRCChannel.broadcast_loop message members s).sent_crlf ↔ s.sent_crlf := by
  induction members generalizing s with
  | nil => exact Iff.rfl
  | cons e rest ih =>
    obtain ⟨nick, client⟩ := e
    unfold IRCChannel.broadcast_loop
    rw [ih, IRCClient.sendMessage_crlf]

theorem IRCChannel.broadcast_crlf (s : IRCServer) (self : IRCChannel) (message : Str) :
    (IRCChannel.broadcast s self message).sent_crlf ↔ s.sent_crlf :=
  IRCChannel.broadcast_loop_crlf message self.clients_ s

theorem IRCChannel.broadcastExcept_loop_crlf (message exceptNick : Str)
    (members : List (Str × Nat)) (s : IRCServer) :
    (IRCChannel.broadcastExcept_loop message exceptNick members s).sent_crlf ↔ s.sent_crlf := by
  induction members generalizing s with
  | nil => exact Iff.rfl
  | cons e rest ih =>
    obtain ⟨nick, client⟩ := e
    unfold IRCChannel.broadcastExcept_loop
    split
    · rw [ih, IRCClient.sendMessage_crlf]
    · rw [ih]

theorem IRCChannel.broadcastExcept_crlf (s : IRCServer) (self : IRCChannel)
    (message exceptNick : Str) :
    (IRCChannel.broadcastExcept s self message exceptNick).sent_crlf ↔ s.sent_crlf :=
  IRCChannel.broadcastExcept_loop_crlf message exceptNick self.clients_ s

theorem IRCChannelManager.joinChannel_enter_crlf (s : IRCServer) (client : Nat)
    (channelName : Str) (channel : IRCChannel) :
    (IRCChannelManager.joinChannel_enter s client channelName channel).sent_crlf ↔
      s.sent_crlf := by
  unfold IRCChannelManager.joinChannel_enter IRCChannelManager.sendJoinMessages
  simp only [IRCChannel.broadcast_crlf, IRCServer.modifyClient_crlf, IRCServer.setChannel_crlf]

theorem IRCChannelManager.joinChannel_crlf (s : IRCServer) (client : Nat) (channelName : Str) :
    (IRCChannelManager.joinChannel s client channelName).1.sent_crlf ↔ s.sent_crlf := by
  unfold IRCChannelManager.joinChannel
  split
  · exact Iff.rfl
  · split
    · split
      · simp only [IRCChannelManager.joinChannel_enter_crlf, IRCServer.setChannel_crlf]
      · exact Iff.rfl
    · simp only [IRCChannelManager.joinChannel_enter_crlf]

theorem IRCChannelManager.partChannel_crlf (s : IRCServer) (client : Nat)
    (channelName reason : Str) :
    (IRCChannelManager.partChannel s client channelName reason).1.sent_crlf ↔ s.sent_crlf := by
  unfold IRCChannelManager.partChannel
  split
  · exact Iff.rfl
  · split
    · exact Iff.rfl
    · split
      · exact Iff.rfl
      · simp only
        split
        · simp only [IRCChannelManager.removeChannel_crlf, IRCServer.modifyClient_crlf,
            IRCServer.setChannel_crlf, IRCChannelManager.sendPartMessages,
            IRCChannel.broadcast_crlf]
        · simp only [IRCServer.modifyClient_crlf,
            IRCServer.setChannel_crlf, IRCChannelManager.sendPartMessages,
            IRCChannel.broadcast_crlf]

theorem IRCChannelManager.partAllChannels_loop_crlf (client : Nat) (reason : Str)
    (names : List Str) (s : IRCServer) :
    (IRCChannelManager.partAllChannels_loop client reason names s).sent_crlf ↔ s.sent_crlf := by
  induction names generalizing s with
  | nil => exact Iff.rfl
  | cons name rest ih =>
    unfold IRCChannelManager.partAllChannels_loop
    rw [ih, IRCChannelManager.partChannel_crlf]

theorem IRCChannelManager.partAllChannels_crlf (s : IRCServer) (client : Nat) (reason : Str) :
    (IRCChannelManager.partAllChannels s client reason).sent_crlf ↔ s.sent_crlf := by
  unfold IRCChannelManager.partAllChannels
  split
  · exact Iff.rfl
  · exact IRCChannelManager.partAllChannels_loop_crlf client reason _ s

theorem IRCCommandHandler.sendWelcome_crlf (s : IRCServer) (client : Nat) :
    (IRCCommandHandler.sendWelcome s client).sent_crlf ↔ s.sent_crlf := by
  unfold IRCCommandHandler.sendWelcome
  simp only [IRCClient.sendNumericReply_crlf]

theorem IRCCommandHandler.checkAuthentication_crlf (s : IRCServer) (client : Nat) :
    (IRCCommandHandler.checkAuthentication s client).sent_crlf ↔ s.sent_crlf := by
  unfold IRCCommandHandler.checkAuthentication
  split
  · simp only [IRCCommandHandler.sendWelcome_crlf, IRCServer.modifyClient_crlf]
  · exact Iff.rfl

theorem IRCCommandHandler.handleNICK_crlf (s : IRCServer) (client : Nat) (cmd : IRCCommand) :
    (IRCCommandHandler.handleNICK s client cmd).sent_crlf ↔ s.sent_crlf := by
  unfold IRCCommandHandler.handleNICK
  split
  · exact IRCClient.sendErrorReply_crlf _ _ _ _
  · simp only
    split
    · exact IRCClient.sendErrorReply_crlf _ _ _ _
    · simp only [IRCCommandHandler.checkAuthentication_crlf,
        IRCClientManager.registerNickname_crlf, IRCServer.modifyClient_crlf]
      split
      · exact IRCClientManager.removeClient_crlf _ _
      · exact Iff.rfl

theorem IRCCommandHandler.handleUSER_crlf (s : IRCServer) (client : Nat) (cmd : IRCCommand) :
    (IRCCommandHandler.handleUSER s client cmd).sent_crlf ↔ s.sent_crlf := by
  unfold IRCCommandHandler.handleUSER
  split
  · exact IRCClient.sendErrorReply_crlf _ _ _ _
  · split
    · exact IRCClient.sendErrorReply_crlf _ _ _ _
    · simp only [IRCCommandHandler.checkAuthentication_crlf, IRCServer.modifyClient_crlf]

theorem IRCCommandHandler.handleJOIN_loop_crlf (client : Nat) (names : List Str)
    (s : IRCServer) :
    (IRCCommandHandler.handleJOIN_loop client names s).sent_crlf ↔ s.sent_crlf := by
  induction names generalizing s with
  | nil => exact Iff.rfl
  | cons name rest ih =>
    unfold IRCCommandHandler.handleJOIN_loop
    split
    · rw [ih, IRCClient.sendErrorReply_crlf]
    · rw [ih, IRCChannelManager.joinChannel_crlf]

theorem IRCCommandHandler.handleJOIN_crlf (s : IRCServer) (client : Nat) (cmd : IRCCommand) :
    (IRCCommandHandler.handleJOIN s client cmd).sent_crlf ↔ s.sent_crlf := by
  unfold IRCCommandHandler.handleJOIN
  split
  · exact IRCClient.sendErrorReply_crlf _ _ _ _
  · exact IRCCommandHandler.handleJOIN_loop_crlf _ _ _

theorem IRCCommandHandler.handlePART_loop_crlf (client : Nat) (reason : Str)
    (names : List Str) (s : IRCServer) :
    (IRCCommandHandler.handlePART_loop client reason names s).sent_crlf ↔ s.sent_crlf := by
  induction names generalizing s with
  | nil => exact Iff.rfl
  | cons name rest ih =>
    unfold IRCCommandHandler.handlePART_loop
    split
    · rw [ih, IRCClient.sendErrorReply_crlf]
    · split
      · rw [ih, IRCClient.sendErrorReply_crlf]
      · rw [ih, IRCChannelManager.partChannel_crlf]

theorem IRCCommandHandler.handlePART_crlf (s : IRCServer) (client : Nat) (cmd : IRCCommand) :
    (IRCCommandHandler.handlePART s client cmd).sent_crlf ↔ s.sent_crlf := by
  unfold IRCCommandHandler.handlePART
  split
  · exact IRCClient.sendErrorReply_crlf _ _ _ _
  · exact IRCCommandHandler.handlePART_loop_crlf _ _ _ _

theorem IRCCommandHandler.handlePRIVMSG_crlf (s : IRCServer) (client : Nat) (cmd : IRCCommand) :
    (IRCCommandHandler.handlePRIVMSG s client cmd).sent_crlf ↔ s.sent_crlf := by
  unfold IRCCommandHandler.handlePRIVMSG
  split
  · exact IRCClient.sendErrorReply_crlf _ _ _ _
  · split
    · exact IRCClient.sendErrorReply_crlf _ _ _ _
    · simp only
      split
      · split
        · exact IRCClient.sendErrorReply_crlf _ _ _ _
        · split
          · exact IRCClient.sendErrorReply_crlf _ _ _ _
          · exact IRCChannel.broadcastExcept_crlf _ _ _ _
      · split
        · exact IRCClient.sendErrorReply_crlf _ _ _ _
        · exact IRCClient.sendMessage_crlf _ _ _

theorem IRCCommandHandler.handleQUIT_loop_crlf (client : Nat) (quitNotice : Str)
    (names : List Str) (s : IRCServer) :
    (IRCCommandHandler.handleQUIT_loop client quitNotice names s).sent_crlf ↔ s.sent_crlf := by
  induction names generalizing s with
  | nil => exact Iff.rfl
  | cons name rest ih =>
    unfold IRCCommandHandler.handleQUIT_loop
    split
    · rw [ih, IRCChannel.broadcastExcept_crlf]
    · rw [ih]

theorem IRCCommandHandler.handleQUIT_crlf (s : IRCServer) (client : Nat) (cmd : IRCCommand) :
    (IRCCommandHandler.handleQUIT s client cmd).sent_crlf ↔ s.sent_crlf := by
  unfold IRCCommandHandler.handleQUIT
  simp only [IRCServer.modifyClient_crlf, IRCChannelManager.partAllChannels_crlf,
    IRCCommandHandler.handleQUIT_loop_crlf]

theorem IRCCommandHandler.handlePING_crlf (s : IRCServer) (client : Nat) (cmd : IRCCommand) :
    (IRCCommandHandler.handlePING s client cmd).sent_crlf ↔ s.sent_crlf :=
  IRCClient.sendMessage_crlf _ _ _

theorem IRCCommandHandler.handleLIST_loop_crlf (client : Nat) (names : List Str)
    (s : IRCServer) :
    (IRCCommandHandler.handleLIST_loop client names s).sent_crlf ↔ s.sent_crlf := by
  induction names generalizing s with
  | nil => exact Iff.rfl
  | cons name rest ih =>
    unfold IRCCommandHandler.handleLIST_loop
    split
    · rw [ih, IRCClient.sendMessage_crlf]
    · rw [ih]

theorem IRCCommandHandler.handleLIST_crlf (s : IRCServer) (client : Nat) (cmd : IRCCommand) :
    (IRCCommandHandler.handleLIST s client cmd).sent_crlf ↔ s.sent_crlf :=
  IRCCommandHandler.handleLIST_loop_crlf _ _ _

theorem IRCCommandHandler.handleNAMES_loop_crlf (client : Nat) (names : List Str)
    (s : IRCServer) :
    (IRCCommandHandler.handleNAMES_loop client names s).sent_crlf ↔ s.sent_crlf := by
  induction names generalizing s with
  | nil => exact Iff.rfl
  | cons name rest ih =>
    unfold IRCCommandHandler.handleNAMES_loop
    split
    · rw [ih, IRCClient.sendNumericReply_crlf, IRCClient.sendNumericReply_crlf]
    · rw [ih]

theorem IRCCommandHandler.handleNAMES_crlf (s : IRCServer) (client : Nat) (cmd : IRCCommand) :
    (IRCCommandHandler.handleNAMES s client cmd).sent_crlf ↔ s.sent_crlf := by
  unfold IRCCommandHandler.handleNAMES
  split <;> exact IRCCommandHandler.handleNAMES_loop_crlf _ _ _

theorem IRCCommandHandler.handleCommand_crlf (s : IRCServer) (client : Nat) (cmd : IRCCommand) :
    (IRCCommandHandler.handleCommand s client cmd).sent_crlf ↔ s.sent_crlf := by
  unfold IRCCommandHandler.handleCommand
  refine ite_ind (fun t : IRCServer => t.sent_crlf ↔ s.sent_crlf) _ _ _
    (fun _ => Iff.rfl) (fun _ => ?_)
  refine ite_ind (fun t : IRCServer => t.sent_crlf ↔ s.sent_crlf) _ _ _
    (fun _ => IRCClient.sendErrorReply_crlf _ _ _ _) (fun _ => ?_)
  refine ite_ind (fun t : IRCServer => t.sent_crlf ↔ s.sent_crlf) _ _ _
    (fun _ => IRCCommandHandler.handleNICK_crlf _ _ _) (fun _ => ?_)
  refine ite_ind (fun t : IRCServer => t.sent_crlf ↔ s.sent_crlf) _ _ _
    (fun _ => IRCCommandHandler.handleUSER_crlf _ _ _) (fun _ => ?_)
  refine ite_ind (fun t : IRCServer => t.sent_crlf ↔ s.sent_crlf) _ _ _
    (fun _ => IRCCommandHandler.handleJOIN_crlf _ _ _) (fun _ => ?_)
  refine ite_ind (fun t : IRCServer => t.sent_crlf ↔ s.sent_crlf) _ _ _
    (fun _ => IRCCommandHandler.handlePART_crlf _ _ _) (fun _ => ?_)
  refine ite_ind (fun t : IRCServer => t.sent_crlf ↔ s.sent_crlf) _ _ _
    (fun _ => IRCCommandHandler.handlePRIVMSG_crlf _ _ _) (fun _ => ?_)
  refine ite_ind (fun t : IRCServer => t.sent_crlf ↔ s.sent_crlf) _ _ _
    (fun _ => IRCCommandHandler.handleQUIT_crlf _ _ _) (fun _ => ?_)
  refine ite_ind (fun t : IRCServer => t.sent_crlf ↔ s.sent_crlf) _ _ _
    (fun _ => IRCCommandHandler.handlePING_crlf _ _ _) (fun _ => ?_)
  refine ite_ind (fun t : IRCServer => t.sent_crlf ↔ s.sent_crlf) _ _ _
    (fun _ => IRCCommandHandler.handleLIST_crlf _ _ _) (fun _ => ?_)
  exact ite_ind (fun t : IRCServer => t.sent_crlf ↔ s.sent_crlf) _ _ _
    (fun _ => IRCCommandHandler.handleNAMES_crlf _ _ _)
    (fun _ => IRCClient.sendErrorReply_crlf _ _ _ _)

theorem IRCServer.processClientData_crlf (s : IRCServer) (clientFd : Int) (data : Str) :
    (s.processClientData clientFd data).sent_crlf ↔ s.sent_crlf := by
  unfold IRCServer.processClientData
  split
  · exact Iff.rfl
  · split
    · exact IRCCommandHandler.handleCommand_crlf _ _ _
    · exact Iff.rfl

theorem IRCServer.acceptClient_crlf (s : IRCServer) (clientFd : Int) (clientAddress : Str) :
    (s.acceptClient clientFd clientAddress).sent_crlf ↔ s.sent_crlf := by
  unfold IRCServer.acceptClient
  split
  · exact IRCServer.sent_crlf_append _ s.sent (clientFd, "ERROR :Server is full\r\n".toList)
      (List.suffix_append "ERROR :Server is full".toList "\r\n".toList) rfl
  · exact Iff.rfl

theorem IRCServer.closeClient_crlf (s : IRCServer) (clientFd : Int) :
    (s.closeClient clientFd).sent_crlf ↔ s.sent_crlf := by
  unfold IRCServer.closeClient
  split
  · exact Iff.rfl
  · rw [IRCClientManager.removeClient_crlf, IRCCommandHandler.handleCommand_crlf]

theorem IRCServer.step_crlf (s : IRCServer) (event : IRCEvent) :
    (s.step event).sent_crlf ↔ s.sent_crlf := by
  cases event with
  | connect fd address => exact IRCServer.acceptClient_crlf s fd address
  | line fd data => exact IRCServer.processClientData_crlf s fd data
  | disconnect fd => exact IRCServer.closeClient_crlf s fd

theorem IRCServer.run_crlf (events : List IRCEvent) (s : IRCServer) :
    (s.run events).sent_crlf ↔ s.sent_crlf := by
  induction events generalizing s with
  | nil => exact Iff.rfl
  | cons event rest ih =>
    have hrun : s.run (event :: rest) = (s.step event).run rest := rfl
    rw [hrun, ih, IRCServer.step_crlf]

theorem IRCServer.started_crlf (created : Str) : (IRCServer.started created).sent_crlf := by
  intro p hp
  have hs : (IRCServer.started created).sent = [] := rfl
  rw [hs] at hp
  exact absurd hp (List.not_mem_nil p)

theorem IRCChannel.processLogEntry_crlf (lib : StdLib) (s : IRCServer) (self : IRCChannel)
    (entry : LogEntry) :
    (IRCChannel.processLogEntry lib s self entry).sent_crlf ↔ s.sent_crlf := by
  unfold IRCChannel.processLogEntry
  split
  · exact Iff.rfl
  · split
    · exact Iff.rfl
    · exact IRCChannel.broadcast_crlf _ _ _

theorem IRCChannelManager.distributeLogEntry_loop_crlf (lib : StdLib) (entry : LogEntry)
    (channels : List (Str × IRCChannel)) (s : IRCServer) :
    (IRCChannelManager.distributeLogEntry_loop lib entry channels s).sent_crlf ↔
      s.sent_crlf := by
  induction channels generalizing s with
  | nil => exact Iff.rfl
  | cons e rest ih =>
    obtain ⟨name, channel⟩ := e
    unfold IRCChannelManager.distributeLogEntry_loop
    rw [ih]
    split
    · exact IRCChannel.processLogEntry_crlf _ _ _ _
    · exact Iff.rfl

theorem IRCChannelManager.distributeLogEntry_crlf (lib : StdLib) (s : IRCServer)
    (entry : LogEntry) :
    (IRCChannelManager.distributeLogEntry lib s entry).sent_crlf ↔ s.sent_crlf :=
  IRCChannelManager.distributeLogEntry_loop_crlf lib entry s.channels_ s

/-- C34. `sendMessage` sends nothing to a client whose descriptor is -1; to any other client
it passes `message` unchanged when `message` ends with CR-LF, and `message` followed by
CR-LF otherwise. So the text passed on ends with CR-LF, and after any sequence of
connections, lines and disconnections on a started server, and any distribution of a log
entry, every text the server has sent ends with CR-LF. -/
theorem IRCClient.sendMessage_ends_crlf (s : IRCServer) (client : Nat) (message : Str) :
    ((s.deref client).fd_ = -1 → IRCClient.sendMessage s client message = s) ∧
    ((s.deref client).fd_ ≠ -1 → ends_crlf message →
      IRCClient.sendMessage s client message =
        { s with sent := s.sent ++ [((s.deref client).fd_, message)] }) ∧
    ((s.deref client).fd_ ≠ -1 → ¬ ends_crlf message →
      IRCClient.sendMessage s client message =
        { s with sent := s.sent ++ [((s.deref client).fd_, message ++ "\r\n".toList)] }) ∧
    ends_crlf (IRCClient.fullMessage message) ∧
    (∀ (created : Str) (events : List IRCEvent) (lib : StdLib) (entry : LogEntry),
      ((IRCServer.started created).run events).sent_crlf ∧
      (IRCChannelManager.distributeLogEntry lib ((IRCServer.started created).run events)
        entry).sent_crlf) := by
  refine ⟨?_, ?_, ?_, IRCClient.fullMessage_ends message, ?_⟩
  · intro hfd
    rw [IRCClient.sendMessage_eq, if_pos hfd]
  · intro hfd hm
    rw [IRCClient.sendMessage_eq, if_neg hfd, IRCClient.fullMessage_of_crlf message hm]
  · intro hfd hm
    rw [IRCClient.sendMessage_eq, if_neg hfd, IRCClient.fullMessage_of_not_crlf message hm]
  · intro created events lib entry
    have h1 : ((IRCServer.started created).run events).sent_crlf :=
      (IRCServer.run_crlf events _).mpr (IRCServer.started_crlf created)
    exact ⟨h1, (IRCChannelManager.distributeLogEntry_crlf lib _ entry).mpr h1⟩


/-! ## The C ring buffer and the deque -/

theorem mod_ne_of_lt_add (k n c : Nat) (hkn : k < n) (hnc : n < k + c) : k % c ≠ n % c := by
  intro h
  have h0 : (n - k) % c = 0 := Nat.sub_mod_eq_zero_of_mod_eq h.symm
  have hdvd : c ∣ n - k := Nat.dvd_of_mod_eq_zero h0
  have hle : c ≤ n - k := Nat.le_of_dvd (by omega) hdvd
  omega

theorem range_map_getElem? {α : Type} (l : List α) :
    (List.range l.length).map (fun i => l[i]?) = l.map some := by
  apply List.ext_getElem
  · simp
  · intro i h1 h2
    simp only [List.length_map, List.length_range] at h1
    simp [List.getElem?_eq_getElem h1]

theorem log_buffer_create_holds (c : Nat) (h1 : 1 ≤ c) (h8 : c * 8 < 2 ^ 64) :
    ∃ buffer, log_buffer_create c = some buffer ∧ buffer.holds c [] := by
  have hne : ¬ c = 0 := by omega
  refine ⟨{ entries := List.replicate c none, capacity := c, size := 0, head := 0, tail := 0,
            total_logs := 0, dropped_logs := 0 }, ?_, ?_⟩
  · unfold log_buffer_create
    simp only [if_neg hne]
    rw [if_neg (by omega)]
  · refine ⟨rfl, List.length_replicate _ _, ?_, ?_, ?_, rfl, ?_, ?_⟩
    · simp
    · simp
    · simp
    · simp
    · intro k _ hk
      simp at hk

theorem log_buffer_push_holds (c : Nat) (h1 : 1 ≤ c) (h64 : c < 2 ^ 64) (buffer : log_buffer_t)
    (pushed : List log_entry_t) (message : Str) (now : Int) (h : buffer.holds c pushed) :
    ∃ b, log_buffer_push buffer message now = some b ∧
      b.holds c (pushed ++ [{ message := message, timestamp := now }]) := by
  obtain ⟨hcap, hlen, hsize, hhead, htail, htotal, hdropped, hslots⟩ := h
  have hcne : ¬ buffer.capacity = 0 := by omega
  have hmodlt : ∀ x, x % c < c := fun x => Nat.mod_lt x (by omega)
  by_cases hfull : pushed.length < c
  · -- the ring is not full
    have hsz : buffer.size = pushed.length := by rw [hsize]; exact Nat.min_eq_left (by omega)
    have hne : ¬ buffer.size = buffer.capacity := by omega
    have hhd : buffer.head = pushed.length := by rw [hhead]; exact Nat.mod_eq_of_lt hfull
    have htl : buffer.tail = 0 := by rw [htail, hsz]; simp
    have hlt : buffer.head < buffer.entries.length := by omega
    refine ⟨{ buffer with
        entries := buffer.entries.set buffer.head (some { message := message, timestamp := now })
        head := (buffer.head + 1) % 2 ^ 64 % buffer.capacity
        size := (buffer.size + 1) % 2 ^ 64
        total_logs := (buffer.total_logs + 1) % 2 ^ 64 }, ?_, ?_⟩
    · unfold log_buffer_push
      simp only [if_neg hcne, if_neg hne, if_pos hlt]
    · have hs1 : (buffer.size + 1) % 2 ^ 64 = pushed.length + 1 := by
        rw [hsz]; exact Nat.mod_eq_of_lt (by omega)
      refine ⟨hcap, ?_, ?_, ?_, ?_, ?_, ?_, ?_⟩
      · simp only [List.length_set]; exact hlen
      · simp only [List.length_append, List.length_singleton]
        rw [hs1]; exact (Nat.min_eq_left (by omega)).symm
      · simp only [List.length_append, List.length_singleton]
        rw [hhd, hcap, Nat.mod_eq_of_lt (show pushed.length + 1 < 2 ^ 64 by omega)]
      · simp only [List.length_append, List.length_singleton]
        rw [hs1, htl]; simp
      · simp only [List.length_append, List.length_singleton]
        rw [htotal]; omega
      · simp only [List.length_append, List.length_singleton]
        rw [hdropped]
        have e1 : pushed.length - c = 0 := by omega
        have e2 : pushed.length + 1 - c = 0 := by omega
        rw [e1, e2]
      · intro k _ hk
        simp only [List.length_append, List.length_singleton] at hk
        have hkc : k % c = k := Nat.mod_eq_of_lt (by omega)
        rw [hkc, hhd]
        by_cases hkn : k = pushed.length
        · subst hkn
          rw [List.getElem?_set_self (by omega)]
          simp
        · have hk2 : k < pushed.length := by omega
          rw [List.getElem?_set_ne (fun heq => hkn heq.symm)]
          have := hslots k (by omega) hk2
          rw [hkc] at this
          rw [this, List.getElem?_append_left hk2]
  · -- the ring is full: the oldest entry is freed
    have hge : c ≤ pushed.length := Nat.le_of_not_lt hfull
    have hsz : buffer.size = c := by rw [hsize]; exact Nat.min_eq_right hge
    have heq : buffer.size = buffer.capacity := by rw [hsz, hcap]
    have htl : buffer.tail = (pushed.length - c) % c := by rw [htail, hsz]
    have hold : buffer.entries[buffer.tail]? = some (pushed[pushed.length - c]?) := by
      rw [htl]
      have := hslots (pushed.length - c) (by rw [hsz]) (by omega)
      exact this
    obtain ⟨old, hold2⟩ : ∃ old, pushed[pushed.length - c]? = some old :=
      ⟨pushed[pushed.length - c], List.getElem?_eq_getElem (by omega)⟩
    have hjoin : (buffer.entries[buffer.tail]?).join = some old := by
      rw [hold, hold2]; rfl
    have hlt : buffer.head < buffer.entries.length := by rw [hhead, hlen]; exact hmodlt _
    refine ⟨{ buffer with
        tail := (buffer.tail + 1) % 2 ^ 64 % buffer.capacity
        dropped_logs := (buffer.dropped_logs + 1) % 2 ^ 64
        entries := buffer.entries.set buffer.head (some { message := message, timestamp := now })
        head := (buffer.head + 1) % 2 ^ 64 % buffer.capacity
        size := ((buffer.size + (2 ^ 64 - 1)) % 2 ^ 64 + 1) % 2 ^ 64
        total_logs := (buffer.total_logs + 1) % 2 ^ 64 }, ?_, ?_⟩
    · unfold log_buffer_push
      simp only [if_neg hcne, if_pos heq, hjoin, if_pos hlt]
    · have hs1 : ((buffer.size + (2 ^ 64 - 1)) % 2 ^ 64 + 1) % 2 ^ 64 = c := by
        rw [hsz]; omega
      have htlt : buffer.tail < c := by rw [htl]; exact hmodlt _
      have hhlt : buffer.head < c := by rw [hhead]; exact hmodlt _
      refine ⟨hcap, ?_, ?_, ?_, ?_, ?_, ?_, ?_⟩
      · simp only [List.length_set]; exact hlen
      · simp only [List.length_append, List.length_singleton]
        rw [hs1]; exact (Nat.min_eq_right (by omega)).symm
      · simp only [List.length_append, List.length_singleton]
        rw [hcap, Nat.mod_eq_of_lt (show buffer.head + 1 < 2 ^ 64 by omega), hhead,
          Nat.mod_add_mod]
      · simp only [List.length_append, List.length_singleton]
        rw [hs1, hcap, Nat.mod_eq_of_lt (show buffer.tail + 1 < 2 ^ 64 by omega), htl,
          Nat.mod_add_mod]
        have e : pushed.length - c + 1 = pushed.length + 1 - c := by omega
        rw [e]
      · simp only [List.length_append, List.length_singleton]
        rw [htotal]; omega
      · simp only [List.length_append, List.length_singleton]
        rw [hdropped]
        have e : pushed.length + 1 - c = pushed.length - c + 1 := by omega
        rw [e]; omega
      · intro k hk1 hk
        simp only [List.length_append, List.length_singleton] at hk hk1
        rw [hs1] at hk1
        rw [hhead]
        by_cases hkn : k = pushed.length
        · subst hkn
          rw [List.getElem?_set_self (by rw [hlen]; exact hmodlt _)]
          simp
        · have hk2 : k < pushed.length := by omega
          have hne : pushed.length % c ≠ k % c :=
            fun heq => mod_ne_of_lt_add k pushed.length c hk2 (by omega) heq.symm
          rw [List.getElem?_set_ne hne]
          rw [hslots k (by rw [hsz]; omega) hk2, List.getElem?_append_left hk2]

theorem log_buffer_pushAll_holds (c : Nat) (h1 : 1 ≤ c) (h64 : c < 2 ^ 64)
    (calls : List (Str × Int)) (buffer : log_buffer_t) (pushed : List log_entry_t)
    (h : buffer.holds c pushed) :
    ∃ b, log_buffer_pushAll buffer calls = some b ∧ b.holds c (pushed ++ calls.map c_entry) := by
  induction calls generalizing buffer pushed with
  | nil => exact ⟨buffer, rfl, by simpa using h⟩
  | cons call rest ih =>
    obtain ⟨b1, hb1, hh1⟩ := log_buffer_push_holds c h1 h64 buffer pushed call.1 call.2 h
    obtain ⟨b2, hb2, hh2⟩ := ih b1 _ hh1
    refine ⟨b2, ?_, ?_⟩
    · unfold log_buffer_pushAll
      rw [hb1]
      exact hb2
    · have e : pushed ++ (call :: rest).map c_entry =
          pushed ++ [{ message := call.1, timestamp := call.2 }] ++ rest.map c_entry := by
        simp [c_entry]
      rw [e]
      exact hh2

theorem log_buffer_t.holds_slots (c : Nat) (h1 : 1 ≤ c) (h8 : c * 8 < 2 ^ 64)
    (buffer : log_buffer_t) (pushed : List log_entry_t) (h : buffer.holds c pushed) :
    buffer.slots = (pushed.drop (pushed.length - c)).map some := by
  obtain ⟨hcap, hlen, hsize, hhead, htail, htotal, hdropped, hslots⟩ := h
  have hdl : (pushed.drop (pushed.length - c)).length = buffer.size := by
    rw [List.length_drop, hsize]; omega
  rw [← range_map_getElem?, hdl]
  unfold log_buffer_t.slots
  apply List.map_congr_left
  intro i hi
  have hi2 : i < buffer.size := List.mem_range.mp hi
  have hszle : buffer.size ≤ c := by rw [hsize]; exact Nat.min_le_right _ _
  have hszle2 : buffer.size ≤ pushed.length := by rw [hsize]; exact Nat.min_le_left _ _
  have hsub : pushed.length - buffer.size = pushed.length - c := by rw [hsize]; omega
  have htlt : buffer.tail < c := by rw [htail]; exact Nat.mod_lt _ (by omega)
  unfold log_buffer_t.slot
  rw [Nat.mod_eq_of_lt (show buffer.tail + i < 2 ^ 64 by omega), hcap, htail, Nat.mod_add_mod,
    hslots (pushed.length - buffer.size + i) (by omega) (by omega), List.getElem?_drop, hsub]
  rfl


/-- C39. For every capacity `c >= 1` for which `log_buffer_create` can allocate the array
(`c * 8 < 2^64`) and every sequence of pushes of the same messages on the C ring and on the
C++ `LogBuffer`: every push on the ring returns, the slots that `log_buffer_search_enhanced`
reads, `entries[(tail + i) % capacity]` for `i < size`, all hold an entry, their messages
are the messages of the deque in the same order, and the size and the total and dropped
counters of the two buffers are equal. -/
theorem log_buffer_push_refines (c : Nat) (c_calls : List (Str × Int)) (calls : List PushCall)
    (h1 : 1 ≤ c) (h8 : c * 8 < 2 ^ 64)
    (hmsgs : c_calls.map Prod.fst = calls.map PushCall.message) :
    ∃ buffer ring, log_buffer_create c = some buffer ∧
      log_buffer_pushAll buffer c_calls = some ring ∧
      ring.slots.map (Option.map log_entry_t.message) =
        ((LogBuffer.new c).pushAll calls).buffer_.map (fun entry => some entry.message) ∧
      log_buffer_size ring = ((LogBuffer.new c).pushAll calls).size ∧
      log_buffer_get_stats ring =
        (((LogBuffer.new c).pushAll calls).getStats.totalLogs,
         ((LogBuffer.new c).pushAll calls).getStats.droppedLogs) ∧
      ∀ i, i < log_buffer_size ring → (ring.slot i).isSome = true := by
  obtain ⟨buffer, hcreate, hh0⟩ := log_buffer_create_holds c h1 h8
  obtain ⟨ring, hring, hh⟩ := log_buffer_pushAll_holds c h1 (by omega) c_calls buffer [] hh0
  rw [List.nil_append] at hh
  have hslots := log_buffer_t.holds_slots c h1 h8 ring _ hh
  obtain ⟨hcap, hlen, hsize, hhead, htail, htotal, hdropped, _⟩ := hh
  obtain ⟨hbuf, _, htot, hdrop, _⟩ := LogBuffer.pushAll_new c calls
  have hmax : max c 1 = c := Nat.max_eq_left h1
  rw [hmax] at hbuf hdrop
  have hn : c_calls.length = calls.length := by
    have := congrArg List.length hmsgs
    simpa using this
  have hcl : (c_calls.map c_entry).length = calls.length := by rw [List.length_map, hn]
  rw [hcl] at hsize htotal hdropped hslots
  refine ⟨buffer, ring, hcreate, hring, ?_, ?_, ?_, ?_⟩
  · rw [hslots, hbuf]
    simp only [List.map_map, List.map_drop]
    have e1 : List.map (Option.map log_entry_t.message ∘ some ∘ c_entry) c_calls =
        (c_calls.map Prod.fst).map some := by
      rw [List.map_map]; rfl
    have e2 : List.map ((fun entry : LogEntry => some entry.message) ∘ PushCall.entry) calls =
        (calls.map PushCall.message).map some := by
      rw [List.map_map]; rfl
    rw [e1, e2, hmsgs]
  · unfold log_buffer_size LogBuffer.size
    rw [hsize, hbuf, List.length_drop, List.length_map]
    omega
  · unfold log_buffer_get_stats LogBuffer.getStats
    rw [htotal, hdropped, htot, hdrop]
  · intro i hi
    unfold log_buffer_size at hi
    have hmem : ring.slot i ∈ ring.slots := by
      unfold log_buffer_t.slots
      exact List.mem_map.mpr ⟨i, List.mem_range.mpr hi, rfl⟩
    rw [hslots] at hmem
    obtain ⟨entry, _, he⟩ := List.mem_map.mp hmem
    rw [← he]
    rfl

/-- C39 at capacity 2 and three pushes: both buffers hold `b`, `c`, with size 2, total 3
and dropped 1. -/
theorem log_buffer_push_refines_witness :
    (∃ buffer ring, log_buffer_create 2 = some buffer ∧
      log_buffer_pushAll buffer [("a".toList, 1), ("b".toList, 2), ("c".toList, 3)] = some ring ∧
      ring.slots.map (Option.map log_entry_t.message) =
        ((LogBuffer.new 2).pushAll
          [PushCall.info "a" 10, PushCall.info "b" 20, PushCall.info "c" 30]).buffer_.map
            (fun entry => some entry.message) ∧
      log_buffer_size ring = ((LogBuffer.new 2).pushAll
          [PushCall.info "a" 10, PushCall.info "b" 20, PushCall.info "c" 30]).size ∧
      log_buffer_get_stats ring =
        (((LogBuffer.new 2).pushAll
          [PushCall.info "a" 10, PushCall.info "b" 20, PushCall.info "c" 30]).getStats.totalLogs,
         ((LogBuffer.new 2).pushAll
          [PushCall.info "a" 10, PushCall.info "b" 20,
           PushCall.info "c" 30]).getStats.droppedLogs) ∧
      ∀ i, i < log_buffer_size ring → (ring.slot i).isSome = true) ∧
    ((log_buffer_create 2).bind (fun buffer => log_buffer_pushAll buffer
        [("a".toList, 1), ("b".toList, 2), ("c".toList, 3)])).map
      (fun ring => (ring.slots.map (Option.map log_entry_t.message), ring.size, ring.head,
        ring.tail, ring.total_logs, ring.dropped_logs)) =
      some ([some "b".toList, some "c".toList], 2, 1, 1, 3, 1) :=
  ⟨log_buffer_push_refines 2 [("a".toList, 1), ("b".toList, 2), ("c".toList, 3)]
    [PushCall.info "a" 10, PushCall.info "b" 20, PushCall.info "c" 30] (by decide) (by decide)
    (by decide), by decide⟩


/-! ## The loop of the session reader -/

theorem find_some_le (s pat : Str) (pos : Nat) (h : find s pat = some pos) :
    pos + pat.length ≤ s.length := by
  induction s generalizing pos with
  | nil =>
    unfold find at h
    split at h
    · rename_i he
      have hp : pat = [] := List.isEmpty_iff.mp he
      simp only [Option.some.injEq] at h
      rw [hp, ← h]
      simp
    · exact absurd h (by simp)
  | cons c cs ih =>
    unfold find at h
    split at h
    · rename_i hpre
      simp only [Option.some.injEq] at h
      have := (List.isPrefixOf_iff_prefix.mp hpre).length_le
      omega
    · cases hf : find cs pat with
      | none => rw [hf] at h; simp at h
      | some n =>
        rw [hf] at h
        simp only [Option.map_some', Option.some.injEq] at h
        have := ih n hf
        simp only [List.length_cons]
        omega

/-- The loop of `handleClient` ends: every iteration erases at least one character, so the
result does not depend on the bound once the bound exceeds the length of `data`. -/
theorem IRCServer.handleClient_lines_fuel (fuel1 fuel2 : Nat) (data : Str)
    (h1 : data.length < fuel1) (h2 : data.length < fuel2) :
    IRCServer.handleClient_lines fuel1 data = IRCServer.handleClient_lines fuel2 data := by
  induction fuel1 generalizing fuel2 data with
  | zero => omega
  | succ fuel1 ih =>
    cases fuel2 with
    | zero => omega
    | succ fuel2 =>
      unfold IRCServer.handleClient_lines
      split
      · rfl
      · rename_i pos hpos
        have hlt : pos < data.length := by
          cases hf : find data "\r\n".toList with
          | some p =>
            rw [hf] at hpos
            simp only [Option.some.injEq] at hpos
            have := find_some_le data _ p hf
            have h2 : "\r\n".toList.length = 2 := rfl
            omega
          | none =>
            rw [hf] at hpos
            simp only at hpos
            have := find_some_le data _ pos hpos
            have h2 : "\n".toList.length = 1 := rfl
            omega
        have hdrop : (data.drop (pos + (if data[pos]? = some '\r' then 2 else 1))).length <
            data.length := by
          rw [List.length_drop]
          split <;> omega
        simp only
        rw [ih fuel2 _ (by omega) (by omega)]


/-! ## The reader of a session -/

/-- C33 fails for a stream that has a bare LF before a CR-LF in one piece of `data`: the loop
of `handleClient` looks for the first CR-LF of the whole of `data` before it looks for an LF,
so the bytes `A`, LF, `B`, CR, LF are dispatched as the one line `A`, LF, `B`, not as the two
lines `A` and `B`. The same bytes received as the chunks `A`, LF and `B`, CR, LF are
dispatched as `A` and `B`, and so are streams with one kind of terminator. A connection that
sends `NICK alice`, LF, `USER a b c :A`, CR, LF in one chunk is given the nickname `alice`,
LF, `USER`, gets no user name and is not welcomed. -/
theorem IRCServer.handleClient_mixed_terminators :
    IRCServer.handleClient_dispatched ["A\nB\r\n".toList] [] = ["A\nB".toList] ∧
    IRCServer.handleClient_lines 6 "A\nB\r\n".toList = (["A\nB".toList], []) ∧
    IRCServer.handleClient_dispatched ["A\n".toList, "B\r\n".toList] [] =
      ["A".toList, "B".toList] ∧
    IRCServer.handleClient_dispatched ["A\r\nB\r\n".toList] [] = ["A".toList, "B".toList] ∧
    IRCServer.handleClient_dispatched ["A\nB\n".toList] [] = ["A".toList, "B".toList] ∧
    IRCServer.handleClient_dispatched ["NICK al".toList, "ice\r\n\r\nUS".toList] [] =
      ["NICK alice".toList] ∧
    (IRCServer.handleClient_chunks 5 ["NICK al".toList, "ice\r\n\r\nUS".toList]
      (irc_start.run [IRCEvent.connect 5 "10.0.0.1:4000".toList], [])).2 = "US".toList ∧
    (IRCServer.handleClient_chunk (irc_start.run [IRCEvent.connect 5 "10.0.0.1:4000".toList]) 5
      [] "NICK alice\nUSER a b c :A\r\n".toList).1.clients.map
        (fun c => (c.nickname_, c.username_, c.state_)) =
      [("alice\nUSER".toList, [], IRCClient.State.CONNECTED)] ∧
    (IRCServer.handleClient_chunk (irc_start.run [IRCEvent.connect 5 "10.0.0.1:4000".toList]) 5
      [] "NICK alice\nUSER a b c :A\r\n".toList).1.sent = [] ∧
    (IRCServer.handleClient_chunk (irc_start.run [IRCEvent.connect 5 "10.0.0.1:4000".toList]) 5
      [] "NICK alice\r\nUSER a b c :A\r\n".toList).1.clients.map
        (fun c => (c.nickname_, c.username_, c.state_)) =
      [("alice".toList, "a".toList, IRCClient.State.AUTHENTICATED)] := by
  decide


/-! ## The parser on the lines of the grammar -/

theorem find_char_not_mem (a : Str) (ch : Char) (h : ch ∉ a) : find_char a ch = none := by
  induction a with
  | nil => rfl
  | cons c cs ih =>
    unfold find_char
    have hc : ¬ c = ch := fun e => h (e ▸ List.mem_cons_self _ _)
    rw [if_neg hc, ih (fun hm => h (List.mem_cons_of_mem _ hm))]
    rfl

theorem find_char_append (a b : Str) (ch : Char) (h : ch ∉ a) :
    find_char (a ++ ch :: b) ch = some a.length := by
  induction a with
  | nil => simp [find_char]
  | cons c cs ih =>
    have hc : ¬ c = ch := fun e => h (e ▸ List.mem_cons_self _ _)
    have hstep : find_char (c :: cs ++ ch :: b) ch =
        (find_char (cs ++ ch :: b) ch).map (· + 1) := by
      show find_char (c :: (cs ++ ch :: b)) ch = _
      rw [find_char, if_neg hc]
    rw [hstep, ih (fun hm => h (List.mem_cons_of_mem _ hm))]
    rfl

theorem irc_params_shape (params : List Str) (trailing : Option Str) :
    irc_params params trailing = [] ∨
      irc_params params trailing = ' ' :: (irc_params params trailing).tail := by
  cases params with
  | nil =>
    cases trailing with
    | none => exact Or.inl rfl
    | some t => exact Or.inr rfl
  | cons p ps => exact Or.inr rfl

theorem irc_params_eq_nil (params : List Str) (trailing : Option Str)
    (h : irc_params params trailing = []) : params = [] ∧ trailing = none := by
  cases params with
  | nil =>
    cases trailing with
    | none => exact ⟨rfl, rfl⟩
    | some t => simp [irc_params] at h
  | cons p ps => simp [irc_params] at h

theorem IRCCommandParser.extractPrefix_some (p rest : Str) (h : ' ' ∉ p) :
    IRCCommandParser.extractPrefix (":".toList ++ p ++ " ".toList ++ rest) = (p, rest) := by
  have hline : ":".toList ++ p ++ " ".toList ++ rest = ':' :: (p ++ ' ' :: rest) := by
    simp
  rw [hline]
  unfold IRCCommandParser.extractPrefix
  have hc : ¬ ((':' :: (p ++ ' ' :: rest)).isEmpty ∨
      (':' :: (p ++ ' ' :: rest)).head? ≠ some ':') := by simp
  rw [if_neg hc]
  have hf : find_char (':' :: (p ++ ' ' :: rest)) ' ' = some (p.length + 1) := by
    unfold find_char
    rw [if_neg (by decide), find_char_append p rest ' ' h]
    rfl
  rw [hf]
  simp only [substr, substr_from, Nat.add_sub_cancel, List.drop_succ_cons, List.drop_zero,
    List.take_left, List.drop_left]
  have hd : List.drop (p.length + 1) (p ++ ' ' :: rest) = rest := by
    rw [List.drop_append_eq_append_drop]
    simp
  rw [hd]

theorem IRCCommandParser.extractPrefix_none (line : Str) (h : line.head? ≠ some ':') :
    IRCCommandParser.extractPrefix line = ([], line) := by
  unfold IRCCommandParser.extractPrefix
  rw [if_pos (Or.inr h)]

theorem IRCCommandParser.extractCommand_rest (command rest : Str) (h : ' ' ∉ command)
    (hrest : rest = [] ∨ rest = ' ' :: rest.tail) :
    IRCCommandParser.extractCommand (command ++ rest) =
      (IRCCommandParser.toUpper command, rest.tail) := by
  unfold IRCCommandParser.extractCommand
  rcases hrest with hr | hr
  · rw [hr, List.append_nil]
    by_cases he : command.isEmpty = true
    · rw [if_pos he]
      have : command = [] := List.isEmpty_iff.mp he
      subst this
      rfl
    · rw [if_neg he, find_char_not_mem command ' ' h]
      rfl
  · rw [hr]
    have he : ¬ (command ++ ' ' :: rest.tail).isEmpty = true := by simp
    rw [if_neg he, find_char_append command rest.tail ' ' h]
    simp only [substr, substr_from, List.drop_zero, List.take_left, List.tail_cons]
    have hd : List.drop (command.length + 1) (command ++ ' ' :: rest.tail) = rest.tail := by
      rw [List.drop_append_eq_append_drop]
      simp
    rw [hd]

theorem IRCCommandParser.extractParams_loop_params (params : List Str) (trailing : Option Str)
    (hparams : ∀ p ∈ params, p ≠ [] ∧ ' ' ∉ p ∧ p.head? ≠ some ':') (fuel : Nat)
    (hfuel : (irc_params params trailing).tail.length ≤ fuel) :
    IRCCommandParser.extractParams_loop fuel (irc_params params trailing).tail =
      params ++ trailing.toList.map (fun t => ':' :: t) := by
  induction params generalizing fuel with
  | nil =>
    cases trailing with
    | none =>
      cases fuel with
      | zero => rfl
      | succ fuel => rfl
    | some t =>
      have ht : (irc_params [] (some t)).tail = ':' :: t := rfl
      rw [ht] at hfuel ⊢
      cases fuel with
      | zero => simp at hfuel
      | succ fuel =>
        unfold IRCCommandParser.extractParams_loop
        simp
  | cons p ps ih =>
    obtain ⟨hne, hsp, hcol⟩ := hparams p (List.mem_cons_self _ _)
    have hps : ∀ q ∈ ps, q ≠ [] ∧ ' ' ∉ q ∧ q.head? ≠ some ':' :=
      fun q hq => hparams q (List.mem_cons_of_mem _ hq)
    have ht : (irc_params (p :: ps) trailing).tail = p ++ irc_params ps trailing := by
      simp [irc_params]
    rw [ht] at hfuel ⊢
    have hplen : 1 ≤ p.length := by
      cases p with
      | nil => exact absurd rfl hne
      | cons c cs => simp
    cases fuel with
    | zero => simp only [List.length_append] at hfuel; omega
    | succ fuel =>
      unfold IRCCommandParser.extractParams_loop
      have he : ¬ (p ++ irc_params ps trailing).isEmpty = true := by
        cases p with
        | nil => exact absurd rfl hne
        | cons c cs => simp
      have hh : ¬ (p ++ irc_params ps trailing).head? = some ':' := by
        cases p with
        | nil => exact absurd rfl hne
        | cons c cs => simpa using hcol
      rw [if_neg he, if_neg hh]
      rcases irc_params_shape ps trailing with hs | hs
      · obtain ⟨h1, h2⟩ := irc_params_eq_nil ps trailing hs
        rw [hs, List.append_nil, find_char_not_mem p ' ' hsp, h1, h2]
        rfl
      · have hih := ih hps fuel (by
          rw [hs] at hfuel
          simp only [List.length_append, List.length_cons] at hfuel
          omega)
        rw [hs, find_char_append p _ ' ' hsp]
        simp only [substr, substr_from, List.drop_zero, List.take_left]
        have hd : List.drop (p.length + 1) (p ++ ' ' :: (irc_params ps trailing).tail) =
            (irc_params ps trailing).tail := by
          rw [List.drop_append_eq_append_drop]
          simp
        rw [hd, hih]
        rfl

theorem IRCCommandParser.parse_eq (line : Str) :
    IRCCommandParser.parse line =
      (if (!(IRCCommandParser.extractParams (IRCCommandParser.extractCommand
            (IRCCommandParser.extractPrefix
              (if line.getLast? = some '\r' ∨ line.getLast? = some '\n' then line.dropLast
               else line)).2).2).isEmpty ∧
          (IRCCommandParser.extractParams (IRCCommandParser.extractCommand
            (IRCCommandParser.extractPrefix
              (if line.getLast? = some '\r' ∨ line.getLast? = some '\n' then line.dropLast
               else line)).2).2).getLast?.bind List.head? = some ':') then
        { prefix_ := (IRCCommandParser.extractPrefix
            (if line.getLast? = some '\r' ∨ line.getLast? = some '\n' then line.dropLast
             else line)).1,
          command := (IRCCommandParser.extractCommand (IRCCommandParser.extractPrefix
            (if line.getLast? = some '\r' ∨ line.getLast? = some '\n' then line.dropLast
             else line)).2).1,
          params := (IRCCommandParser.extractParams (IRCCommandParser.extractCommand
            (IRCCommandParser.extractPrefix
              (if line.getLast? = some '\r' ∨ line.getLast? = some '\n' then line.dropLast
               else line)).2).2).dropLast,
          trailing := substr_from ((IRCCommandParser.extractParams
            (IRCCommandParser.extractCommand (IRCCommandParser.extractPrefix
              (if line.getLast? = some '\r' ∨ line.getLast? = some '\n' then line.dropLast
               else line)).2).2).getLast?.getD []) 1 }
      else
        { prefix_ := (IRCCommandParser.extractPrefix
            (if line.getLast? = some '\r' ∨ line.getLast? = some '\n' then line.dropLast
             else line)).1,
          command := (IRCCommandParser.extractCommand (IRCCommandParser.extractPrefix
            (if line.getLast? = some '\r' ∨ line.getLast? = some '\n' then line.dropLast
             else line)).2).1,
          params := IRCCommandParser.extractParams (IRCCommandParser.extractCommand
            (IRCCommandParser.extractPrefix
              (if line.getLast? = some '\r' ∨ line.getLast? = some '\n' then line.dropLast
               else line)).2).2,
          trailing := [] }) := by
  cases line with
  | nil => rfl
  | cons c cs => rfl

/-- The parser on a line of the grammar that does not end in CR or LF. -/
theorem IRCCommandParser.parse_line (pre : Option Str) (command : Str) (params : List Str)
    (trailing : Option Str) (hpre : ∀ p, pre = some p → ' ' ∉ p) (hcmd : ' ' ∉ command)
    (hcolon : pre = none → command.head? ≠ some ':')
    (hparams : ∀ p ∈ params, p ≠ [] ∧ ' ' ∉ p ∧ p.head? ≠ some ':')
    (hend : (irc_line pre command params trailing).getLast? ≠ some '\r' ∧
      (irc_line pre command params trailing).getLast? ≠ some '\n') :
    IRCCommandParser.parse (irc_line pre command params trailing) =
      { prefix_ := pre.getD [], command := IRCCommandParser.toUpper command, params := params,
        trailing := trailing.getD [] } := by
  rw [IRCCommandParser.parse_eq]
  have hw : (if (irc_line pre command params trailing).getLast? = some '\r' ∨
      (irc_line pre command params trailing).getLast? = some '\n' then
      (irc_line pre command params trailing).dropLast
      else irc_line pre command params trailing) = irc_line pre command params trailing := by
    rw [if_neg]
    intro h
    rcases h with h | h
    · exact hend.1 h
    · exact hend.2 h
  rw [hw]
  have hp : IRCCommandParser.extractPrefix (irc_line pre command params trailing) =
      (pre.getD [], command ++ irc_params params trailing) := by
    cases pre with
    | some p =>
      have hl : irc_line (some p) command params trailing =
          ":".toList ++ p ++ " ".toList ++ (command ++ irc_params params trailing) := by
        simp [irc_line]
      rw [hl, IRCCommandParser.extractPrefix_some p _ (hpre p rfl)]
      rfl
    | none =>
      have hl : irc_line none command params trailing = command ++ irc_params params trailing := by
        simp [irc_line]
      rw [hl]
      apply IRCCommandParser.extractPrefix_none
      cases command with
      | nil =>
        rcases irc_params_shape params trailing with hs | hs
        · rw [hs]; simp
        · rw [hs]; simp
      | cons c cs => simpa using hcolon rfl
  rw [hp]
  simp only
  rw [IRCCommandParser.extractCommand_rest command _ hcmd (irc_params_shape params trailing)]
  simp only
  have hq : IRCCommandParser.extractParams (irc_params params trailing).tail =
      params ++ trailing.toList.map (fun t => ':' :: t) :=
    IRCCommandParser.extractParams_loop_params params trailing hparams _ (Nat.le_refl _)
  rw [hq]
  cases trailing with
  | some t =>
    have hc : (!(params ++ (some t).toList.map (fun t => ':' :: t)).isEmpty) = true ∧
        (params ++ (some t).toList.map (fun t => ':' :: t)).getLast?.bind List.head? =
          some ':' := by
      simp
    rw [if_pos hc]
    simp [substr_from]
  | none =>
    have hc : ¬ ((!(params ++ (none : Option Str).toList.map (fun t => ':' :: t)).isEmpty) = true ∧
        (params ++ (none : Option Str).toList.map (fun t => ':' :: t)).getLast?.bind List.head? =
          some ':') := by
      simp only [Option.toList_none, List.map_nil, List.append_nil]
      intro h
      cases hl : params.getLast? with
      | none => rw [hl] at h; simp at h
      | some last =>
        rw [hl] at h
        have hmem : last ∈ params := List.mem_of_getLast?_eq_some hl
        exact (hparams last hmem).2.2 h.2
    rw [if_neg hc]
    simp


/-- C32, amended. For every line `[":" prefix SP] command {SP param} [SP ":" trailing]` in
which the prefix and the command have no space, the command does not start with `:` when
there is no prefix, the params are not empty, have no space and do not start with `:`, and
the line does not end in CR or LF, `parse` returns the prefix without its colon, the command
in upper case, the params in order and the trailing text without its colon. -/
theorem IRCCommandParser.parse_grammar (pre : Option Str) (command : Str) (params : List Str)
    (trailing : Option Str) (hpre : ∀ p, pre = some p → ' ' ∉ p) (hcmd : ' ' ∉ command)
    (hcolon : pre = none → command.head? ≠ some ':')
    (hparams : ∀ p ∈ params, p ≠ [] ∧ ' ' ∉ p ∧ p.head? ≠ some ':')
    (hend : (irc_line pre command params trailing).getLast? ≠ some '\r' ∧
      (irc_line pre command params trailing).getLast? ≠ some '\n') :
    (IRCCommandParser.parse (irc_line pre command params trailing)).prefix_ = pre.getD [] ∧
    (IRCCommandParser.parse (irc_line pre command params trailing)).command =
      IRCCommandParser.toUpper command ∧
    (IRCCommandParser.parse (irc_line pre command params trailing)).params = params ∧
    (IRCCommandParser.parse (irc_line pre command params trailing)).trailing =
      trailing.getD [] := by
  rw [IRCCommandParser.parse_line pre command params trailing hpre hcmd hcolon hparams hend]
  exact ⟨rfl, rfl, rfl, rfl⟩

/-- C32, amended, at the lines `USER a b c :A` and `:al!a@b privmsg #x :hi there`. -/
theorem IRCCommandParser.parse_grammar_witness :
    irc_line none "USER".toList ["a".toList, "b".toList, "c".toList] (some "A".toList) =
      "USER a b c :A".toList ∧
    ((IRCCommandParser.parse "USER a b c :A".toList).prefix_ = [] ∧
     (IRCCommandParser.parse "USER a b c :A".toList).command = "USER".toList ∧
     (IRCCommandParser.parse "USER a b c :A".toList).params =
       ["a".toList, "b".toList, "c".toList] ∧
     (IRCCommandParser.parse "USER a b c :A".toList).trailing = "A".toList) ∧
    ((IRCCommandParser.parse
        (irc_line (some "al!a@b".toList) "privmsg".toList ["#x".toList]
          (some "hi there".toList))).prefix_ = "al!a@b".toList ∧
     (IRCCommandParser.parse
        (irc_line (some "al!a@b".toList) "privmsg".toList ["#x".toList]
          (some "hi there".toList))).command = "PRIVMSG".toList ∧
     (IRCCommandParser.parse
        (irc_line (some "al!a@b".toList) "privmsg".toList ["#x".toList]
          (some "hi there".toList))).params = ["#x".toList] ∧
     (IRCCommandParser.parse
        (irc_line (some "al!a@b".toList) "privmsg".toList ["#x".toList]
          (some "hi there".toList))).trailing = "hi there".toList) :=
  ⟨by decide,
   IRCCommandParser.parse_grammar none "USER".toList ["a".toList, "b".toList, "c".toList]
     (some "A".toList) (by decide) (by decide) (by decide) (by decide) (by decide),
   IRCCommandParser.parse_grammar (some "al!a@b".toList) "privmsg".toList ["#x".toList]
     (some "hi there".toList) (by decide) (by decide) (by decide) (by decide) (by decide)⟩

/-- C32, as stated, fails for a line that ends in LF or CR: `parse` removes that character
first. The line `USER a b c :A` followed by LF has the trailing text `A`, LF, and the one
returned is `A`; the line `JOIN #x` followed by CR has the param `#x`, CR, and the one
returned is `#x`. -/
theorem IRCCommandParser.parse_trailing_newline :
    irc_line none "USER".toList ["a".toList, "b".toList, "c".toList] (some "A\n".toList) =
      "USER a b c :A\n".toList ∧
    (IRCCommandParser.parse "USER a b c :A\n".toList).trailing = "A".toList ∧
    "A".toList ≠ "A\n".toList ∧
    irc_line none "JOIN".toList ["#x\r".toList] none = "JOIN #x\r".toList ∧
    (IRCCommandParser.parse "JOIN #x\r".toList).params = ["#x".toList] ∧
    ["#x".toList] ≠ ["#x\r".toList] := by
  decide

theorem getLast?_append_cons {α : Type} (l₁ l₂ : List α) (a : α) :
    (l₁ ++ a :: l₂).getLast? = (a :: l₂).getLast? := by
  rw [List.getLast?_append]
  cases h : (a :: l₂).getLast? with
  | none => simp at h
  | some x => rfl

/-- C38, amended. For all nick, user, host, command and target that have no space, with the
target not empty, not starting with `:` and, when the message is empty, not ending in CR or
LF, and every message that does not end in CR or LF,
`parse(formatUserMessage(nick, user, host, command, target, message))` has the prefix
`nick!user@host`, the command in upper case, the one param `target` and the trailing text
`message`. -/
theorem IRCCommandParser.parse_formatUserMessage (nick user host command target message : Str)
    (hnick : ' ' ∉ nick) (huser : ' ' ∉ user) (hhost : ' ' ∉ host) (hcommand : ' ' ∉ command)
    (htarget : ' ' ∉ target) (hne : target ≠ []) (hcolon : target.head? ≠ some ':')
    (hmessage : message.getLast? ≠ some '\r' ∧ message.getLast? ≠ some '\n')
    (hempty : message = [] → target.getLast? ≠ some '\r' ∧ target.getLast? ≠ some '\n') :
    IRCCommandParser.parse
        (IRCCommandParser.formatUserMessage nick user host command target message) =
      { prefix_ := nick ++ "!".toList ++ user ++ "@".toList ++ host,
        command := IRCCommandParser.toUpper command, params := [target],
        trailing := message } := by
  have hline : IRCCommandParser.formatUserMessage nick user host command target message =
      irc_line (some (nick ++ "!".toList ++ user ++ "@".toList ++ host)) command [target]
        (if message.isEmpty then none else some message) := by
    unfold IRCCommandParser.formatUserMessage irc_line
    cases message with
    | nil => simp [irc_params]
    | cons c cs => simp [irc_params]
  have hpre : ∀ p, some (nick ++ "!".toList ++ user ++ "@".toList ++ host) = some p → ' ' ∉ p := by
    intro p hp
    simp only [Option.some.injEq] at hp
    rw [← hp]
    simp only [List.mem_append, not_or]
    exact ⟨⟨⟨⟨hnick, by decide⟩, huser⟩, by decide⟩, hhost⟩
  have hparams : ∀ p ∈ [target], p ≠ [] ∧ ' ' ∉ p ∧ p.head? ≠ some ':' := by
    intro p hp
    rw [List.mem_singleton.mp hp]
    exact ⟨hne, htarget, hcolon⟩
  have hend : (irc_line (some (nick ++ "!".toList ++ user ++ "@".toList ++ host)) command
        [target] (if message.isEmpty then none else some message)).getLast? ≠ some '\r' ∧
      (irc_line (some (nick ++ "!".toList ++ user ++ "@".toList ++ host)) command
        [target] (if message.isEmpty then none else some message)).getLast? ≠ some '\n' := by
    cases message with
    | nil =>
      obtain ⟨t, ts, hts⟩ : ∃ t ts, target = t :: ts := by
        cases target with
        | nil => exact absurd rfl hne
        | cons t ts => exact ⟨t, ts, rfl⟩
      have hl : irc_line (some (nick ++ "!".toList ++ user ++ "@".toList ++ host)) command
          [target] (if ([] : Str).isEmpty then none else some []) =
          (":".toList ++ (nick ++ "!".toList ++ user ++ "@".toList ++ host) ++ " ".toList ++
            command ++ " ".toList) ++ t :: ts := by
        simp [irc_line, irc_params, hts]
      rw [hl, getLast?_append_cons, ← hts]
      exact hempty rfl
    | cons c cs =>
      have hl : irc_line (some (nick ++ "!".toList ++ user ++ "@".toList ++ host)) command
          [target] (if (c :: cs).isEmpty then none else some (c :: cs)) =
          (":".toList ++ (nick ++ "!".toList ++ user ++ "@".toList ++ host) ++ " ".toList ++
            command ++ " ".toList ++ target ++ " :".toList) ++ c :: cs := by
        simp [irc_line, irc_params]
      rw [hl, getLast?_append_cons]
      exact hmessage
  rw [hline, IRCCommandParser.parse_line _ command [target] _ hpre hcommand (by simp) hparams
    hend]
  cases message with
  | nil => rfl
  | cons c cs => rfl

/-- C38, amended, at a message to a channel and at an empty message. -/
theorem IRCCommandParser.parse_formatUserMessage_witness :
    IRCCommandParser.parse
        (IRCCommandParser.formatUserMessage "al".toList "a".toList "b".toList "privmsg".toList
          "#x".toList "hi there: all".toList) =
      { prefix_ := "al!a@b".toList, command := "PRIVMSG".toList, params := ["#x".toList],
        trailing := "hi there: all".toList } ∧
    IRCCommandParser.parse
        (IRCCommandParser.formatUserMessage "al".toList "a".toList "b".toList "PART".toList
          "#x".toList []) =
      { prefix_ := "al!a@b".toList, command := "PART".toList, params := ["#x".toList],
        trailing := [] } :=
  ⟨IRCCommandParser.parse_formatUserMessage "al".toList "a".toList "b".toList "privmsg".toList
      "#x".toList "hi there: all".toList (by decide) (by decide) (by decide) (by decide)
      (by decide) (by decide) (by decide) (by decide) (by decide),
   IRCCommandParser.parse_formatUserMessage "al".toList "a".toList "b".toList "PART".toList
      "#x".toList [] (by decide) (by decide) (by decide) (by decide)
      (by decide) (by decide) (by decide) (by decide) (by decide)⟩

/-- C38, as stated, fails for an empty message and a target that ends in LF: the target
`#x`, LF has no space, is not empty and does not start with `:`, the empty message does not
end in CR or LF, and the param that `parse` returns is `#x`. -/
theorem IRCCommandParser.parse_formatUserMessage_newline :
    ' ' ∉ "#x\n".toList ∧ "#x\n".toList ≠ [] ∧ "#x\n".toList.head? ≠ some ':' ∧
    ([] : Str).getLast? ≠ some '\r' ∧ ([] : Str).getLast? ≠ some '\n' ∧
    IRCCommandParser.formatUserMessage "al".toList "a".toList "b".toList "PRIVMSG".toList
        "#x\n".toList [] = ":al!a@b PRIVMSG #x\n".toList ∧
    (IRCCommandParser.parse
      (IRCCommandParser.formatUserMessage "al".toList "a".toList "b".toList "PRIVMSG".toList
        "#x\n".toList [])).params = ["#x".toList] ∧
    ["#x".toList] ≠ ["#x\n".toList] := by
  decide


/-! ## Bounds on the loops -/

theorem find_char_lt (s : Str) (ch : Char) (pos : Nat) (h : find_char s ch = some pos) :
    pos < s.length := by
  induction s generalizing pos with
  | nil => simp [find_char] at h
  | cons c cs ih =>
    rw [find_char] at h
    split at h
    · simp only [Option.some.injEq] at h
      rw [← h]
      simp
    · cases hf : find_char cs ch with
      | none => rw [hf] at h; simp at h
      | some n =>
        rw [hf] at h
        simp only [Option.map_some', Option.some.injEq] at h
        have := ih n hf
        simp only [List.length_cons]
        omega

/-- The loop of `extractParams` ends: every iteration removes at least one character, so
the result does not depend on the bound once the bound is at least the length of the line. -/
theorem IRCCommandParser.extractParams_loop_fuel (fuel1 fuel2 : Nat) (line : Str)
    (h1 : line.length ≤ fuel1) (h2 : line.length ≤ fuel2) :
    IRCCommandParser.extractParams_loop fuel1 line =
      IRCCommandParser.extractParams_loop fuel2 line := by
  induction fuel1 generalizing fuel2 line with
  | zero =>
    have hl : line = [] := List.length_eq_zero.mp (Nat.le_zero.mp h1)
    subst hl
    cases fuel2 <;> rfl
  | succ fuel1 ih =>
    cases fuel2 with
    | zero =>
      have hl : line = [] := List.length_eq_zero.mp (Nat.le_zero.mp h2)
      subst hl
      rfl
    | succ fuel2 =>
      unfold IRCCommandParser.extractParams_loop
      split
      · rfl
      · split
        · rfl
        · split
          · rfl
          · rename_i spacePos hpos
            have hlt := find_char_lt line ' ' spacePos hpos
            have hd : (substr_from line (spacePos + 1)).length < line.length := by
              unfold substr_from
              rw [List.length_drop]
              omega
            rw [ih fuel2 _ (by omega) (by omega)]

theorem strtok_r_length (s : Str) (delim : Char) (token rest : Str)
    (h : strtok_r s delim = some (token, rest)) : rest.length < s.length := by
  unfold strtok_r at h
  simp only at h
  split at h
  · exact absurd h (by simp)
  · rename_i hne
    simp only [Option.some.injEq, Prod.mk.injEq] at h
    rw [← h.2, List.length_drop]
    have h1 : (s.dropWhile (fun c => decide (c = delim))).length ≤ s.length :=
      (List.dropWhile_suffix _).length_le
    have h2 : ((s.dropWhile (fun c => decide (c = delim))).dropWhile (fun c => c != delim)).length
        ≤ (s.dropWhile (fun c => decide (c = delim))).length :=
      (List.dropWhile_suffix _).length_le
    have h3 : 0 < (s.dropWhile (fun c => decide (c = delim))).length := by
      cases hs : s.dropWhile (fun c => decide (c = delim)) with
      | nil => rw [hs] at hne; simp at hne
      | cons c cs => simp
    have h5 : ((s.dropWhile (fun c => decide (c = delim))).dropWhile
        (fun c => c != delim)).length < (s.dropWhile (fun c => decide (c = delim))).length := by
      cases hs : s.dropWhile (fun c => decide (c = delim)) with
      | nil => rw [hs] at hne; simp at hne
      | cons c cs =>
        have hc : ¬ (decide (c = delim) = true) := by
          intro hcd
          have h6 := List.head_dropWhile_not (fun c => decide (c = delim)) s (by rw [hs]; simp)
          simp only [hs, List.head_cons] at h6
          rw [hcd] at h6
          simp at h6
        have hcne : (c != delim) = true := by simpa using hc
        rw [List.dropWhile_cons, if_pos hcne]
        have := (List.dropWhile_suffix (fun c => c != delim) (l := cs)).length_le
        simp only [List.length_cons]
        omega
    omega

/-- The keyword loop of the C parser ends: `strtok_r` leaves less text at every call, so
the result does not depend on the bound once the bound is at least the length of the
value. -/
theorem query_parser_keywords_fuel (fuel1 fuel2 : Nat) (keywords : List Str) (value : Str)
    (h1 : value.length ≤ fuel1) (h2 : value.length ≤ fuel2) :
    query_parser_keywords fuel1 keywords value = query_parser_keywords fuel2 keywords value := by
  induction fuel1 generalizing fuel2 keywords value with
  | zero =>
    have hl : value = [] := List.length_eq_zero.mp (Nat.le_zero.mp h1)
    subst hl
    cases fuel2 <;> rfl
  | succ fuel1 ih =>
    cases fuel2 with
    | zero =>
      have hl : value = [] := List.length_eq_zero.mp (Nat.le_zero.mp h2)
      subst hl
      rfl
    | succ fuel2 =>
      unfold query_parser_keywords
      cases ht : strtok_r value ','  with
      | none => rfl
      | some r =>
        obtain ⟨token, rest⟩ := r
        have hlen := strtok_r_length value ','  token rest ht
        simp only
        split
        · exact ih fuel2 _ rest (by omega) (by omega)
        · rfl

end LogCaster
